import Mathlib

/-!
Carla VST plugin adapter (`source/backend/plugin/VstPlugin.cpp`)

A shallow embedding of the `VstPlugin` adapter class and machine-checked statements
about it.

Conventions of the embedding

* `uint32_t` values are `Nat` below `2 ^ 32`, `int32_t` values are `Int`; the C++ conversions
  between the two are `wrapU32` and `toInt32`, and unsigned additions are reduced `% 2 ^ 32`.
* In the model of the adapter state `float` and `double` values (samples, parameter values,
  ranges) are exact rationals (`Sample`). Where a statement depends on the arithmetic itself
  (the post-processing formulas, the correction of reported parameter ranges) the code is
  embedded a second time over `CFloat`: the values of the binary32 format with NaN and the
  infinities, every operation rounding its exact result to the nearest `float`, ties to even
  (`round32`).
* Bit masks (`fHints`, `fOptions`, `AEffect::flags`) are records of booleans, one field per
  flag constant that the source tests or sets.
* Audio buffers (`float**`) are functions `channel → frame → Sample`.
* The foreign module is an oracle (`AEffect`): the value it returns for a call is a function
  of the history of calls made into it so far (`Plugin.log`).
* State that the source mutates through `this` / `pData` is threaded explicitly as a `Plugin`.
-/

namespace Carla

/-! ## Machine integers -/

/-- Conversion to `uint32_t` (`static_cast<uint32_t>`). -/
def wrapU32 (n : Int) : Nat := (n % 4294967296).toNat

/-- Conversion of a `uint32_t` to `int32_t` (`static_cast<int32_t>`). -/
def toInt32 (n : Nat) : Int :=
  if n % 4294967296 < 2147483648 then ((n % 4294967296 : Nat) : Int)
  else ((n % 4294967296 : Nat) : Int) - 4294967296

/-- Sample and parameter values (`float` / `double` in the source). -/
abbrev Sample := ℚ

/-- Audio buffers `float**`: channel, then frame. -/
abbrev Buffers := Nat → Nat → Sample

/-! ## Foreign (VST) protocol data -/

/-- `VstMidiEvent`; `type = 0` marks a zeroed (free) slot, `kVstMidiType = 1`. -/
structure VstMidiEvent where
  type : Nat
  byteSize : Nat
  deltaFrames : Nat
  midiData0 : Nat
  midiData1 : Nat
  midiData2 : Nat
  deriving DecidableEq, Repr, Inhabited

/-- Result of `carla_zeroStruct<VstMidiEvent>`. -/
def VstMidiEvent.zero : VstMidiEvent := ⟨0, 0, 0, 0, 0, 0⟩

/-- The constant `kVstMidiType` of the VST ABI. -/
def kVstMidiType : Nat := 1

/-- The value of `sizeof(VstMidiEvent)` in the VST ABI. -/
def sizeofVstMidiEvent : Nat := 32

/-- Dispatcher opcodes of the VST ABI that the adapter issues. -/
inductive EffOpcode where
  | effOpen | effClose | effSetProgram | effGetProgram | effGetProgramName
  | effGetProgramNameIndexed | effBeginSetProgram | effEndSetProgram
  | effMainsChanged | effStartProcess | effStopProcess | effProcessEvents
  | effSetBlockSize | effSetSampleRate | effSetBlockSizeAndSampleRate
  | effSetProcessPrecision | effEditIdle | effEditOpen | effEditClose | effEditGetRect
  | effIdle | effGetChunk | effSetChunk | effVendorSpecific | effGetParameterProperties
  | effCanBeAutomated | effGetPlugCategory | effGetVstVersion | effCanDo
  | effGetProductString | effGetVendorString | effGetEffectName
  | effGetParamName | effGetParamDisplay | effGetParamLabel
  deriving DecidableEq, Repr, Inhabited

/-- What the `void* ptr` argument of a dispatcher call carries, where the adapter supplies it. -/
inductive Payload where
  | null
  | events (evs : List VstMidiEvent)
  | bytes (data : List Nat)
  | text (s : String)
  | buffer
  deriving DecidableEq, Repr, Inhabited

/-- One call from the adapter into the foreign module. -/
inductive Call where
  | dispatch (opcode : EffOpcode) (index : Int) (value : Int) (ptr : Payload) (opt : Sample)
  | setParameter (index : Nat) (value : Sample)
  | getParameter (index : Nat)
  | processReplacing (frames : Nat) (timeOffset : Nat)
  | process (frames : Nat) (timeOffset : Nat)
  deriving DecidableEq, Repr, Inhabited

/-- Master-callback opcodes of the VST ABI, and `other` for any value outside the table. -/
inductive MasterOpcode where
  | audioMasterAutomate | audioMasterVersion | audioMasterCurrentId | audioMasterIdle
  | audioMasterPinConnected | audioMasterWantMidi | audioMasterGetTime
  | audioMasterProcessEvents | audioMasterSetTime | audioMasterTempoAt
  | audioMasterGetNumAutomatableParameters | audioMasterGetParameterQuantization
  | audioMasterIOChanged | audioMasterNeedIdle | audioMasterSizeWindow
  | audioMasterGetSampleRate | audioMasterGetBlockSize | audioMasterGetInputLatency
  | audioMasterGetOutputLatency | audioMasterGetPreviousPlug | audioMasterGetNextPlug
  | audioMasterWillReplaceOrAccumulate | audioMasterGetCurrentProcessLevel
  | audioMasterGetAutomationState | audioMasterOfflineStart | audioMasterOfflineRead
  | audioMasterOfflineWrite | audioMasterOfflineGetCurrentPass
  | audioMasterOfflineGetCurrentMetaPass | audioMasterSetOutputSampleRate
  | audioMasterGetOutputSpeakerArrangement | audioMasterGetVendorString
  | audioMasterGetProductString | audioMasterGetVendorVersion | audioMasterVendorSpecific
  | audioMasterSetIcon | audioMasterCanDo | audioMasterGetLanguage | audioMasterOpenWindow
  | audioMasterCloseWindow | audioMasterGetDirectory | audioMasterUpdateDisplay
  | audioMasterBeginEdit | audioMasterEndEdit | audioMasterOpenFileSelector
  | audioMasterCloseFileSelector | audioMasterEditFile | audioMasterGetChunkFile
  | audioMasterGetInputSpeakerArrangement
  | other (opcode : Int)
  deriving DecidableEq, Repr, Inhabited

/-- What the `void* ptr` argument of a master callback points to: nothing, a `VstEvents` list
(each entry a possibly null pointer to an event), or a string. -/
inductive MasterPayload where
  | null
  | events (evs : List (Option VstMidiEvent))
  | text (s : String)
  deriving DecidableEq, Repr, Inhabited

/-- One master callback issued by the foreign module. -/
structure MasterCall where
  opcode : MasterOpcode
  index : Int := 0
  value : Int := 0
  ptr : MasterPayload := .null
  opt : Sample := 0
  deriving DecidableEq, Repr, Inhabited

/-- The flag bits of `AEffect::flags` that the adapter tests. -/
structure EffFlags where
  hasEditor : Bool := false
  canReplacing : Bool := false
  programChunks : Bool := false
  isSynth : Bool := false
  deriving DecidableEq, Repr, Inhabited

/-- `VstParameterProperties`, the fields and flag bits read by `reload`. -/
structure VstParameterProperties where
  usesIntegerMinMax : Bool := false
  isSwitch : Bool := false
  usesIntStep : Bool := false
  usesFloatStep : Bool := false
  canRamp : Bool := false
  minInteger : Int := 0
  maxInteger : Int := 0
  stepInteger : Int := 0
  largeStepInteger : Int := 0
  stepFloat : Sample := 0
  smallStepFloat : Sample := 0
  largeStepFloat : Sample := 0
  deriving DecidableEq, Repr, Inhabited

/-- The foreign module: its descriptor fields and, as oracles over the history of calls
made into it, everything it returns or writes back. -/
structure AEffect where
  numPrograms : Int := 0
  numParams : Int := 0
  numInputs : Int := 0
  numOutputs : Int := 0
  flags : EffFlags := {}
  /-- whether `processReplacing` and `process` are the same function pointer -/
  sameProcessEntry : Bool := false
  uniqueID : Int := 0
  initialDelay : Int := 0
  /-- return value of a dispatcher call -/
  dispatchRet : List Call → Call → Int := fun _ _ => 0
  /-- return value of `getParameter` -/
  getParameter : List Call → Nat → Sample := fun _ _ => 0
  /-- the `double range[2]` left by the vendor range query (called with `{0, 1}`) -/
  vendorRange : List Call → Nat → Sample × Sample := fun _ _ => (0, 1)
  /-- the properties written by `effGetParameterProperties` -/
  paramProps : List Call → Nat → VstParameterProperties := fun _ _ => {}
  /-- the result of `vstPluginCanDo(effect, feature)` -/
  canDo : String → Bool := fun _ => false
  /-- the string left in the buffer of a name query -/
  nameRet : List Call → Call → String := fun _ _ => ""
  /-- the samples left in the output window by a process call, given the history, the input
  window, the output window on entry and the frame count -/
  processOut : List Call → Buffers → Buffers → Nat → Buffers := fun _ _ out _ => out
  /-- the master callbacks the module issues while inside a process call, given the history -/
  processCallbacks : List Call → List MasterCall := fun _ => []
  /-- the bytes at the pointer the module stores through `dataPtr` of `effGetChunk` -/
  chunk : List Call → List Nat := fun _ => []

/-! ## Host-side (adapter) data -/

/-- The bits of `fHints`. -/
structure Hints where
  isSynth : Bool := false
  hasGui : Bool := false
  hasSingleThread : Bool := false
  canDryWet : Bool := false
  canVolume : Bool := false
  canBalance : Bool := false
  canProcessReplacing : Bool := false
  hasCockosExtensions : Bool := false
  usesOldVstSdk : Bool := false
  wantsMidiInput : Bool := false
  deriving DecidableEq, Repr, Inhabited

/-- The bits of `fOptions`. -/
structure Options where
  fixedBuffer : Bool := false
  mapProgramChanges : Bool := false
  useChunks : Bool := false
  sendControlChanges : Bool := false
  sendChannelPressure : Bool := false
  sendNoteAftertouch : Bool := false
  sendPitchbend : Bool := false
  sendAllSoundOff : Bool := false
  deriving DecidableEq, Repr, Inhabited

/-- The bits of `pData->extraHints`. -/
structure ExtraHints where
  hasMidiIn : Bool := false
  hasMidiOut : Bool := false
  canRunRack : Bool := false
  deriving DecidableEq, Repr, Inhabited

/-- `ParameterRanges`. -/
structure ParameterRanges where
  min : Sample := 0
  max : Sample := 1
  «def» : Sample := 0
  step : Sample := 0
  stepSmall : Sample := 0
  stepLarge : Sample := 0
  deriving DecidableEq, Repr, Inhabited

/-- The bits of `ParameterData::hints`. -/
structure ParamHints where
  isBoolean : Bool := false
  isInteger : Bool := false
  isLogarithmic : Bool := false
  isEnabled : Bool := false
  isAutomable : Bool := false
  usesCustomText : Bool := false
  deriving DecidableEq, Repr, Inhabited

/-- `ParameterData`; `isInput` stands for `type == PARAMETER_INPUT`. -/
structure ParameterData where
  isInput : Bool := true
  index : Int := 0
  rindex : Int := 0
  hints : ParamHints := {}
  midiChannel : Nat := 0
  midiCC : Int := -1
  deriving DecidableEq, Repr, Inhabited

/-- `pData->param`: `count` entries of data and ranges, and the host-side store of the values
handed to `CarlaPlugin::setParameterValue`. -/
structure PluginParameterData where
  count : Nat := 0
  data : List ParameterData := []
  ranges : List ParameterRanges := []
  values : Nat → Sample := fun _ => 0

/-- `pData->prog`. -/
structure PluginProgramData where
  count : Nat := 0
  current : Int := -1
  names : List String := []
  deriving DecidableEq, Repr, Inhabited

/-- `pData->postProc`. -/
structure PostProc where
  dryWet : Sample := 1
  volume : Sample := 1
  balanceLeft : Sample := -1
  balanceRight : Sample := 1
  deriving DecidableEq, Repr, Inhabited

/-- The fields of `fTimeInfo` that the adapter writes. -/
structure VstTimeInfo where
  samplePos : Sample := 0
  sampleRate : Sample := 0
  nanoSeconds : Sample := 0
  ppqPos : Sample := 0
  tempo : Sample := 0
  barStartPos : Sample := 0
  timeSigNumerator : Int := 0
  timeSigDenominator : Int := 0
  transportChanged : Bool := false
  transportPlaying : Bool := false
  nanosValid : Bool := false
  ppqPosValid : Bool := false
  tempoValid : Bool := false
  barsValid : Bool := false
  timeSigValid : Bool := false
  deriving DecidableEq, Repr, Inhabited

/-- Kinds of `postponeRtEvent` records. -/
inductive PostRtKind where
  | parameterChange | programChange | noteOn | noteOff
  deriving DecidableEq, Repr, Inhabited

/-- One `postponeRtEvent(kind, value1, value2, value3)` record. -/
structure PostRtEvent where
  kind : PostRtKind
  value1 : Int
  value2 : Int
  value3 : Sample
  deriving DecidableEq, Repr, Inhabited

/-- Engine callbacks that the modelled functions raise. -/
inductive EngineCallback where
  | reloadPrograms | programChanged (index : Int) | update | showGui | allNotesOff
  | debugPrematureExit
  deriving DecidableEq, Repr, Inhabited

/-- One `writeMidiEvent` on the output event port. -/
structure MidiOutWrite where
  time : Nat
  channel : Nat
  data0 : Nat
  data1 : Nat
  data2 : Nat
  deriving DecidableEq, Repr, Inhabited

/-- `EngineTimeInfo`, the host transport as the engine reports it. -/
structure EngineTimeInfo where
  playing : Bool := false
  frame : Nat := 0
  usecs : Nat := 0
  validBBT : Bool := false
  bar : Int := 1
  beat : Int := 1
  tick : Int := 0
  beatsPerBar : Sample := 4
  beatType : Sample := 4
  ticksPerBeat : Sample := 960
  beatsPerMinute : Sample := 120
  deriving DecidableEq, Repr, Inhabited

/-- What the adapter reads from `pData->engine`, and the constants and helpers of the backend
headers that are not among the sources. -/
structure Engine where
  bufferSize : Nat := 512
  sampleRate : Sample := 44100
  isOffline : Bool := false
  timeInfo : EngineTimeInfo := {}
  /-- the backend constant `MAX_MIDI_EVENTS`; the event array has `MAX_MIDI_EVENTS*2` slots -/
  MAX_MIDI_EVENTS : Nat := 512
  /-- `getOptions().maxParameters` -/
  maxParameters : Int := 200
  /-- the helper `carla_min<intptr_t>(v1, v2, min)` -/
  carla_min : Int → Int → Int → Int := fun _ _ m => m

/-- An `ExternalMidiNote` of `pData->extNotes`. -/
structure ExternalMidiNote where
  channel : Int
  note : Nat
  velo : Nat
  deriving DecidableEq, Repr, Inhabited

/-- `EngineControlEventType`. -/
inductive EngineControlEventType where
  | null | parameter | midiBank | midiProgram | allSoundOff | allNotesOff
  deriving DecidableEq, Repr, Inhabited

/-- `EngineControlEvent`. -/
structure EngineControlEvent where
  type : EngineControlEventType := .null
  param : Nat := 0
  value : Sample := 0
  deriving DecidableEq, Repr, Inhabited

/-- `EngineMidiEvent`: the three data bytes the adapter reads. -/
structure EngineMidiEvent where
  data0 : Nat := 0
  data1 : Nat := 0
  data2 : Nat := 0
  deriving DecidableEq, Repr, Inhabited

/-- The `type` of an `EngineEvent` together with the member of its union that the type
selects. -/
inductive EngineEventBody where
  | null
  | control (ctrl : EngineControlEvent)
  | midi (midi : EngineMidiEvent)
  deriving DecidableEq, Repr, Inhabited

/-- `EngineEvent`. -/
structure EngineEvent where
  time : Nat := 0
  channel : Nat := 0
  body : EngineEventBody := .null
  deriving DecidableEq, Repr, Inhabited

/-- The adapter: the members of `VstPlugin` and the parts of `pData` it uses. -/
structure Plugin where
  fUnique1 : Int := 1
  fUnique2 : Int := 2
  /-- `fEffect != nullptr` -/
  hasEffect : Bool := true
  fEnabled : Bool := true
  active : Bool := false
  fHints : Hints := {}
  fOptions : Options := {}
  extraHints : ExtraHints := {}
  ctrlChannel : Int := 0
  needsReset : Bool := false
  latency : Nat := 0
  latencyBuffers : List (List Sample) := []
  audioInCount : Nat := 0
  audioOutCount : Nat := 0
  /-- `pData->event.portIn != nullptr` -/
  hasEventIn : Bool := false
  /-- `pData->event.portOut != nullptr` -/
  hasEventOut : Bool := false
  param : PluginParameterData := {}
  prog : PluginProgramData := {}
  postProc : PostProc := {}
  fMidiEventCount : Nat := 0
  fMidiEvents : Nat → VstMidiEvent := fun _ => VstMidiEvent.zero
  fTimeInfo : VstTimeInfo := {}
  fIsProcessing : Bool := false
  fNeedIdle : Bool := false
  guiIsOsc : Bool := false
  guiIsVisible : Bool := false
  /-- `pData->gui != nullptr` -/
  hasGuiWindow : Bool := false
  guiSize : Int × Int := (0, 0)
  /-- `fGui.lastWidth`, `fGui.lastHeight` -/
  guiLastSize : Int × Int := (0, 0)
  /-- the bytes `fLastChunk` points to, `none` for nullptr -/
  fLastChunk : Option (List Nat) := none
  /-- `pData->extNotes.data`, oldest first -/
  extNotes : List ExternalMidiNote := []
  /-- set when a scan of `fMidiEvents` leaves `[0, MAX_MIDI_EVENTS*2)`, which is undefined
  behaviour in the source -/
  outOfBounds : Bool := false
  /-- whether `pData->singleMutex` is held -/
  singleMutexLocked : Bool := false
  /-- calls made into the foreign module, oldest first -/
  log : List Call := []
  postRtEvents : List PostRtEvent := []
  engineCallbacks : List EngineCallback := []
  midiOut : List MidiOutWrite := []

/-! ## Dispatch and programs -/

/-- `VstPlugin::dispatcher`: forwards to the foreign dispatcher when an effect is loaded,
else returns 0. -/
def dispatcher (fx : AEffect) (st : Plugin) (opcode : EffOpcode) (index value : Int)
    (ptr : Payload) (opt : Sample) : Plugin × Int :=
  if st.hasEffect then
    ({ st with log := st.log ++ [Call.dispatch opcode index value ptr opt] },
      fx.dispatchRet st.log (Call.dispatch opcode index value ptr opt))
  else (st, 0)

/-- Modelled from the spec: `PluginProgramData::clear` of the base-class bookkeeping
(`CarlaPluginInternal.hpp`, not among the sources). It empties the program list; with no
program left the only index of `[-1, count)` is -1, "no program selected". -/
def PluginProgramData.clear (_p : PluginProgramData) : PluginProgramData :=
  { count := 0, current := -1, names := [] }

/-- Modelled from the spec: `PluginProgramData::createNew` of the base-class bookkeeping
(not among the sources). It allocates `count` empty names. -/
def PluginProgramData.createNew (p : PluginProgramData) (count : Nat) : PluginProgramData :=
  { p with count := count, names := List.replicate count "" }

/-- Modelled from the spec: `CarlaPlugin::setProgram` of the base class (not among the
sources), the program "set" of the uniform plugin contract. It records the index it is handed
as the current program and raises the notifications asked for. -/
def baseSetProgram (st : Plugin) (index : Int) (_sendGui _sendOsc sendCallback : Bool) :
    Plugin :=
  { st with
    prog := { st.prog with current := index }
    engineCallbacks :=
      if sendCallback then st.engineCallbacks ++ [EngineCallback.programChanged index]
      else st.engineCallbacks }

/-- `VstPlugin::setProgram`. The scoped process lock taken around the three dispatches is
released at the end of its scope and leaves no trace in the state. -/
def setProgram (fx : AEffect) (st : Plugin) (index : Int) (sendGui sendOsc sendCallback : Bool) :
    Plugin :=
  let go (index : Int) : Plugin :=
    let st :=
      if index ≥ 0 then
        let st := (dispatcher fx st .effBeginSetProgram 0 0 .null 0).1
        let st := (dispatcher fx st .effSetProgram 0 index .null 0).1
        (dispatcher fx st .effEndSetProgram 0 0 .null 0).1
      else st
    baseSetProgram st index sendGui sendOsc sendCallback
  if index < -1 then go (-1)
  else if index > toInt32 st.prog.count then st
  else go index

/-- Modelled from the spec: `ParameterRanges::fixValue` of the base-class bookkeeping (not among
the sources), the correction that clamps a value into `[min, max]`. -/
def ParameterRanges.fixValue (r : ParameterRanges) (value : Sample) : Sample :=
  if value < r.min then r.min
  else if value > r.max then r.max
  else value

/-- Modelled from the spec: `PluginParameterData::fixValue(parameterId, value)` (not among the
sources): the range correction of parameter `parameterId`. -/
def PluginParameterData.fixValue (p : PluginParameterData) (parameterId : Nat) (value : Sample) :
    Sample :=
  (p.ranges.getD parameterId {}).fixValue value

/-- Modelled from the spec: `CarlaPlugin::setParameterValue` of the base class (not among the
sources), the host-side half of a parameter "set": it records the value it is handed for the
parameter. -/
def baseSetParameterValue (st : Plugin) (parameterId : Nat) (value : Sample)
    (_sendGui _sendOsc _sendCallback : Bool) : Plugin :=
  { st with param := { st.param with values := Function.update st.param.values parameterId value } }

/-- `VstPlugin::setParameterValue`. -/
def setParameterValue (st : Plugin) (parameterId : Nat) (value : Sample)
    (sendGui sendOsc sendCallback : Bool) : Plugin :=
  let fixedValue := st.param.fixValue parameterId value
  let st := { st with log := st.log ++ [Call.setParameter parameterId fixedValue] }
  baseSetParameterValue st parameterId fixedValue sendGui sendOsc sendCallback

/-- `VstPlugin::activate`. -/
def activate (fx : AEffect) (st : Plugin) : Plugin :=
  let st := (dispatcher fx st .effMainsChanged 0 1 .null 0).1
  (dispatcher fx st .effStartProcess 0 0 .null 0).1

/-- `VstPlugin::deactivate`. -/
def deactivate (fx : AEffect) (st : Plugin) : Plugin :=
  let st := (dispatcher fx st .effStopProcess 0 0 .null 0).1
  (dispatcher fx st .effMainsChanged 0 0 .null 0).1

/-- `VstPlugin::bufferSizeChanged`. -/
def bufferSizeChanged (fx : AEffect) (eng : Engine) (st : Plugin) (newBufferSize : Nat) : Plugin :=
  let st := if st.active then deactivate fx st else st
  let st := (dispatcher fx st .effSetBlockSizeAndSampleRate 0 newBufferSize .null eng.sampleRate).1
  let st := (dispatcher fx st .effSetBlockSize 0 newBufferSize .null 0).1
  if st.active then activate fx st else st

/-- `VstPlugin::sampleRateChanged`. -/
def sampleRateChanged (fx : AEffect) (eng : Engine) (st : Plugin) (newSampleRate : Sample) :
    Plugin :=
  let st := if st.active then deactivate fx st else st
  let st :=
    (dispatcher fx st .effSetBlockSizeAndSampleRate 0 eng.bufferSize .null newSampleRate).1
  let st := (dispatcher fx st .effSetSampleRate 0 0 .null newSampleRate).1
  if st.active then activate fx st else st

/-- The name-update loop of `reloadPrograms`, for the program indices in `is`. -/
def updateProgramNames (fx : AEffect) : List Nat → Plugin → Plugin
  | [], st => st
  | i :: is, st =>
    let c := Call.dispatch .effGetProgramNameIndexed i 0 .buffer 0
    let r := dispatcher fx st .effGetProgramNameIndexed i 0 .buffer 0
    let (st, name) :=
      if r.2 ≠ 1 then
        -- program will be [re-]changed later
        let st := (dispatcher fx r.1 .effSetProgram 0 i .null 0).1
        let c2 := Call.dispatch .effGetProgramName 0 0 .buffer 0
        let h := st.log
        ((dispatcher fx st .effGetProgramName 0 0 .buffer 0).1, fx.nameRet h c2)
      else (r.1, fx.nameRet st.log c)
    updateProgramNames fx is
      { st with prog := { st.prog with names := st.prog.names.set i name } }

/-- The first part of `reloadPrograms`: delete the old programs, query the new ones. -/
def queryPrograms (fx : AEffect) (st : Plugin) : Plugin :=
  -- Delete old programs
  let st := { st with prog := st.prog.clear }
  -- Query new programs
  let count := wrapU32 fx.numPrograms
  if count > 0 then
    updateProgramNames fx (List.range count) { st with prog := st.prog.createNew count }
  else st

/-- The "check if current program is invalid" chain of `reloadPrograms`: the new current index
and the `programChanged` flag. -/
def checkCurrentProgram (oldCount : Nat) (current : Int) (count : Nat) : Int × Bool :=
  if count = (oldCount + 1) % 4294967296 then
    -- one program added, probably created by user
    (toInt32 oldCount, true)
  else if current < 0 ∧ count > 0 then
    -- programs exist now, but not before
    (0, true)
  else if current ≥ 0 ∧ count = 0 then
    -- programs existed before, but not anymore
    (-1, true)
  else if current ≥ toInt32 count then
    -- current program > count
    (0, true)
  else
    -- no change
    (current, false)

/-- `VstPlugin::reloadPrograms`. -/
def reloadPrograms (fx : AEffect) (st : Plugin) (init : Bool) : Plugin :=
  let oldCount := st.prog.count
  let current := st.prog.current
  let st := queryPrograms fx st
  let count := wrapU32 fx.numPrograms
  if init then
    if count > 0 then setProgram fx st 0 false false false else st
  else
    let sel := checkCurrentProgram oldCount current count
    let st := { st with prog := { st.prog with current := sel.1 } }
    let st :=
      if sel.2 then setProgram fx st st.prog.current true true true
      else if st.prog.current ≥ 0 then
        -- Program was changed during update, re-set it
        (dispatcher fx st .effSetProgram 0 st.prog.current .null 0).1
      else st
    { st with engineCallbacks := st.engineCallbacks ++ [EngineCallback.reloadPrograms] }

/-! ## Reload -/

/-- The constant `kVstVersion` of the VST ABI. -/
def kVstVersion : Int := 2400

/-- The constants `kPlugCategSynth` and `kPlugCategGenerator` of the VST ABI. -/
def kPlugCategSynth : Int := 2
def kPlugCategGenerator : Int := 11

/-- The flag `kVstParameterUsesIntStep` of the VST ABI (`1 << 2`), used by `reload` as the
index of a vendor query. -/
def kVstParameterUsesIntStep : Int := 4

/-- Conversion of an `intptr_t` to `uintptr_t` (64-bit pointers). -/
def wrapUPtr (n : Int) : Nat := (n % 18446744073709551616).toNat

/-- Modelled from the spec: `CarlaPlugin::clearBuffers` of the base class (not among the
sources), which `reload` calls to clear the buffers: it drops the ports, the parameter
table and the latency buffers of the previous topology. -/
def clearBuffers (st : Plugin) : Plugin :=
  { st with
    audioInCount := 0, audioOutCount := 0, hasEventIn := false, hasEventOut := false
    latencyBuffers := []
    param := { st.param with count := 0, data := [], ranges := [] } }

/-- Modelled from the spec: `PluginParameterData::createNew` of the base-class bookkeeping (not
among the sources): allocates `count` descriptor and range entries. -/
def PluginParameterData.createNew (p : PluginParameterData) (count : Nat) :
    PluginParameterData :=
  { p with count := count, data := List.replicate count {}, ranges := List.replicate count {} }

/-- Modelled from the spec: `recreateLatencyBuffers` of the base-class bookkeeping (not among the
sources): one zeroed buffer of `latency` samples per audio input. -/
def recreateLatencyBuffers (st : Plugin) : Plugin :=
  { st with latencyBuffers := List.replicate st.audioInCount (List.replicate st.latency 0) }

/-- The correction applied by `reload` to a reported parameter range (the Cockos branch and the
integer min/max branch carry the same statements). -/
def fixReportedRange (min max : Sample) : Sample × Sample :=
  let mm : Sample × Sample :=
    if min > max then (min, min)
    else if max < min then (max, max)
    else (min, max)
  if mm.2 - mm.1 = 0 then
    -- WARNING - Broken plugin parameter: max - min == 0.0f
    (mm.1, mm.1 + 1 / 10)
  else mm

/-- What the range queries of `reload` determine for one parameter. -/
structure ParamScan where
  min : Sample
  max : Sample
  step : Sample
  stepSmall : Sample
  stepLarge : Sample
  hints : ParamHints

/-- The range and step queries of the parameter loop of `reload` for parameter `j`. -/
def scanParameter (fx : AEffect) (st : Plugin) (j : Nat) : Plugin × ParamScan :=
  if st.fHints.hasCockosExtensions then
    let r := dispatcher fx st .effVendorSpecific (toInt32 0xdeadbef0) j .buffer 0
    let range := fx.vendorRange st.log j
    let mm : Sample × Sample :=
      if r.2 ≥ 0xbeef then fixReportedRange range.1 range.2 else (0, 1)
    let r2 := dispatcher fx r.1 .effVendorSpecific kVstParameterUsesIntStep j .null 0
    if r2.2 ≥ 0xbeef then
      (r2.1, { min := mm.1, max := mm.2, step := 1, stepSmall := 1, stepLarge := 10, hints := {} })
    else
      let range := mm.2 - mm.1
      (r2.1, { min := mm.1, max := mm.2, step := range / 100, stepSmall := range / 1000,
               stepLarge := range / 10, hints := {} })
  else
    let r := dispatcher fx st .effGetParameterProperties j 0 .buffer 0
    if r.2 = 1 then
      let prop := fx.paramProps st.log j
      let mm : Sample × Sample :=
        if prop.usesIntegerMinMax then fixReportedRange prop.minInteger prop.maxInteger
        else (0, 1)
      let sc : ParamScan :=
        if prop.isSwitch then
          { min := mm.1, max := mm.2, step := mm.2 - mm.1, stepSmall := mm.2 - mm.1,
            stepLarge := mm.2 - mm.1, hints := { isBoolean := true } }
        else if prop.usesIntStep then
          { min := mm.1, max := mm.2, step := prop.stepInteger,
            stepSmall := (prop.stepInteger : Sample) / 10, stepLarge := prop.largeStepInteger,
            hints := { isInteger := true } }
        else if prop.usesFloatStep then
          { min := mm.1, max := mm.2, step := prop.stepFloat, stepSmall := prop.smallStepFloat,
            stepLarge := prop.largeStepFloat, hints := {} }
        else
          { min := mm.1, max := mm.2, step := (mm.2 - mm.1) / 100,
            stepSmall := (mm.2 - mm.1) / 1000, stepLarge := (mm.2 - mm.1) / 10, hints := {} }
      (r.1, if prop.canRamp then { sc with hints := { sc.hints with isLogarithmic := true } }
            else sc)
    else
      (r.1, { min := 0, max := 1, step := 1 / 1000, stepSmall := 1 / 10000, stepLarge := 1 / 10,
              hints := {} })

/-- One iteration of the parameter loop of `reload`. -/
def reloadParameter (fx : AEffect) (st : Plugin) (j : Nat) : Plugin :=
  let r := scanParameter fx st j
  let st := r.1
  let sc := r.2
  let hints : ParamHints := { sc.hints with isEnabled := true, usesCustomText := true }
  let ra : Plugin × Bool :=
    if st.fHints.usesOldVstSdk then (st, true)
    else
      let d := dispatcher fx st .effCanBeAutomated j 0 .null 0
      (d.1, decide (d.2 = 1))
  let st := ra.1
  let hints : ParamHints := if ra.2 then { hints with isAutomable := true } else hints
  -- no such thing as VST default parameters
  let def0 := fx.getParameter st.log j
  let st := { st with log := st.log ++ [Call.getParameter j] }
  let dflt := if def0 < sc.min then sc.min else if def0 > sc.max then sc.max else def0
  { st with
    param := { st.param with
      data := st.param.data.set j
        { isInput := true, index := j, rindex := j, hints := hints, midiChannel := 0, midiCC := -1 }
      ranges := st.param.ranges.set j
        { min := sc.min, max := sc.max, «def» := dflt, step := sc.step,
          stepSmall := sc.stepSmall, stepLarge := sc.stepLarge } } }

/-- The parameter loop of `reload`, over the indices in `js`. -/
def reloadParameters (fx : AEffect) : List Nat → Plugin → Plugin
  | [], st => st
  | j :: js, st => reloadParameters fx js (reloadParameter fx st j)

/-- The "plugin hints" block of `reload`. -/
def reloadHints (fx : AEffect) (st : Plugin) (aIns aOuts : Nat) : Plugin :=
  let r := dispatcher fx st .effGetPlugCategory 0 0 .null 0
  let vstCategory := r.2
  let st := r.1
  let h : Hints := {}
  let h := if vstCategory = kPlugCategSynth ∨ vstCategory = kPlugCategGenerator then
    { h with isSynth := true } else h
  let h := if fx.flags.hasEditor then
    (if ¬ st.guiIsOsc then { h with hasGui := true, hasSingleThread := true }
     else { h with hasGui := true })
    else h
  let r := dispatcher fx st .effGetVstVersion 0 0 .null 0
  let st := r.1
  let h := if r.2 < kVstVersion then { h with usesOldVstSdk := true } else h
  let h := if fx.flags.canReplacing ∧ ¬ fx.sameProcessEntry then
    { h with canProcessReplacing := true } else h
  let h := if fx.flags.hasEditor then { h with hasGui := true } else h
  let r := dispatcher fx st .effCanDo 0 0 (.text "hasCockosExtensions") 0
  let st := r.1
  let h := if wrapUPtr r.2 = 0xbeef0000 then { h with hasCockosExtensions := true } else h
  let h := if aOuts > 0 ∧ (aIns = aOuts ∨ aIns = 1) then { h with canDryWet := true } else h
  let h := if aOuts > 0 then { h with canVolume := true } else h
  let h := if aOuts ≥ 2 ∧ aOuts % 2 = 0 then { h with canBalance := true } else h
  { st with fHints := h }

/-- The entry of `reload`: the scoped disabler clears `fEnabled` for the duration of the
reload, the module is deactivated if the adapter is active, the buffers are cleared. -/
def reloadBegin (fx : AEffect) (st : Plugin) : Plugin :=
  -- Safely disable plugin for reload
  let st := { st with fEnabled := false }
  clearBuffers (if st.active then deactivate fx st else st)

/-- The statement `if (aIns > 0) pData->audioIn.createNew(aIns)` of `reload`. -/
def createAudioIn (aIns : Nat) (st : Plugin) : Plugin :=
  if aIns > 0 then { st with audioInCount := aIns } else st

/-- The statement `if (aOuts > 0) pData->audioOut.createNew(aOuts)` of `reload`. -/
def createAudioOut (aOuts : Nat) (st : Plugin) : Plugin :=
  if aOuts > 0 then { st with audioOutCount := aOuts } else st

/-- The statement `if (params > 0) pData->param.createNew(params)` of `reload`. -/
def createParams (params : Nat) (st : Plugin) : Plugin :=
  if params > 0 then { st with param := st.param.createNew params } else st

/-- The creation of the event ports in `reload`. -/
def createEventPorts (needsCtrlIn needsCtrlOut : Bool) (st : Plugin) : Plugin :=
  let st := if needsCtrlIn then { st with hasEventIn := true } else st
  if needsCtrlOut then { st with hasEventOut := true } else st

/-- The "extra plugin hints" block of `reload`. -/
def reloadExtraHints (mIns mOuts aIns aOuts : Nat) (st : Plugin) : Plugin :=
  { st with extraHints :=
    { hasMidiIn := decide (mIns > 0), hasMidiOut := decide (mOuts > 0),
      canRunRack := decide (aIns ≤ 2 ∧ aOuts ≤ 2 ∧ (aIns = aOuts ∨ aIns = 0 ∨ aOuts = 0)) } }

/-- The "check latency" block of `reload`. -/
def reloadLatency (fx : AEffect) (st : Plugin) : Plugin :=
  if st.fHints.canDryWet then
    recreateLatencyBuffers { st with latency := wrapU32 fx.initialDelay }
  else st

/-- The "special plugin fixes" block of `reload`: for the one unique id the label is fetched
and nothing is done with it. -/
def reloadSpecialFixes (fx : AEffect) (st : Plugin) : Plugin :=
  if fx.uniqueID = 1229484653 then (dispatcher fx st .effGetProductString 0 0 .buffer 0).1
  else st

/-- The end of `reload`, where the scoped disabler sets `fEnabled` again. -/
def reloadEnd (fx : AEffect) (st : Plugin) : Plugin :=
  let st := if st.active then activate fx st else st
  { st with fEnabled := true }

/-- `VstPlugin::reload`. Port objects are represented by their counts (audio) and presence
(event ports); the engine pointer is non-null. -/
def reload (fx : AEffect) (eng : Engine) (st : Plugin) : Plugin :=
  if ¬ st.hasEffect then st
  else
    let st := reloadBegin fx st
    let aIns := wrapU32 fx.numInputs
    let aOuts := wrapU32 fx.numOutputs
    let params := wrapU32 fx.numParams
    let wantsIn : Bool := fx.canDo "receiveVstEvents" || fx.canDo "receiveVstMidiEvent" ||
      fx.flags.isSynth || st.fHints.wantsMidiInput
    let mIns : Nat := if wantsIn then 1 else 0
    let needsCtrlIn : Bool := wantsIn
    let wantsOut : Bool := fx.canDo "sendVstEvents" || fx.canDo "sendVstMidiEvent"
    let mOuts : Nat := if wantsOut then 1 else 0
    let needsCtrlOut : Bool := wantsOut
    let st := createAudioIn aIns st
    let needsCtrlIn : Bool := if aOuts > 0 then true else needsCtrlIn
    let st := createAudioOut aOuts st
    let needsCtrlIn : Bool := if params > 0 then true else needsCtrlIn
    let st := createParams params st
    let st := reloadParameters fx (List.range params) st
    let st := createEventPorts needsCtrlIn needsCtrlOut st
    -- plugin hints
    let st := reloadHints fx st aIns aOuts
    -- extra plugin hints
    let st := reloadExtraHints mIns mOuts aIns aOuts st
    -- dummy pre-start to get latency and wantEvents() on old plugins
    let st := deactivate fx (activate fx st)
    -- check latency
    let st := reloadLatency fx st
    let st := reloadSpecialFixes fx st
    let st := bufferSizeChanged fx eng st eng.bufferSize
    let st := reloadPrograms fx st true
    reloadEnd fx st

/-! ## MIDI constants and macros

The constants and macros of `CarlaMIDI.h` (not among the sources), with the values of the MIDI
standard. -/

def MAX_MIDI_CHANNELS : Nat := 16
def MAX_MIDI_NOTE : Nat := 128
def MIDI_STATUS_NOTE_OFF : Nat := 0x80
def MIDI_STATUS_NOTE_ON : Nat := 0x90
def MIDI_STATUS_POLYPHONIC_AFTERTOUCH : Nat := 0xA0
def MIDI_STATUS_CONTROL_CHANGE : Nat := 0xB0
def MIDI_STATUS_AFTERTOUCH : Nat := 0xD0
def MIDI_STATUS_PITCH_WHEEL_CONTROL : Nat := 0xE0
def MIDI_CONTROL_ALL_SOUND_OFF : Nat := 0x78
def MIDI_CONTROL_ALL_NOTES_OFF : Nat := 0x7B

/-- `MIDI_IS_CHANNEL_MESSAGE(status)`. -/
def MIDI_IS_CHANNEL_MESSAGE (status : Nat) : Bool := decide (0x80 ≤ status ∧ status < 0xF0)

/-- `MIDI_GET_STATUS_FROM_DATA(data)`, on the first data byte. -/
def MIDI_GET_STATUS_FROM_DATA (data0 : Nat) : Nat :=
  if MIDI_IS_CHANNEL_MESSAGE data0 then data0 &&& 0xF0 else data0

/-- `MIDI_GET_CHANNEL_FROM_DATA(data)`, on the first data byte. -/
def MIDI_GET_CHANNEL_FROM_DATA (data0 : Nat) : Nat :=
  if MIDI_IS_CHANNEL_MESSAGE data0 then data0 &&& 0x0F else 0

def MIDI_IS_STATUS_AFTERTOUCH (status : Nat) : Bool :=
  MIDI_IS_CHANNEL_MESSAGE status && decide (status &&& 0xF0 = MIDI_STATUS_AFTERTOUCH)
def MIDI_IS_STATUS_CONTROL_CHANGE (status : Nat) : Bool :=
  MIDI_IS_CHANNEL_MESSAGE status && decide (status &&& 0xF0 = MIDI_STATUS_CONTROL_CHANGE)
def MIDI_IS_STATUS_POLYPHONIC_AFTERTOUCH (status : Nat) : Bool :=
  MIDI_IS_CHANNEL_MESSAGE status &&
    decide (status &&& 0xF0 = MIDI_STATUS_POLYPHONIC_AFTERTOUCH)
def MIDI_IS_STATUS_PITCH_WHEEL_CONTROL (status : Nat) : Bool :=
  MIDI_IS_CHANNEL_MESSAGE status && decide (status &&& 0xF0 = MIDI_STATUS_PITCH_WHEEL_CONTROL)

def MIDI_IS_CONTROL_BREATH_CONTROLLER (control : Nat) : Bool :=
  decide (control = 0x02 ∨ control = 0x22)
def MIDI_IS_CONTROL_CHANNEL_VOLUME (control : Nat) : Bool :=
  decide (control = 0x07 ∨ control = 0x27)
def MIDI_IS_CONTROL_BALANCE (control : Nat) : Bool :=
  decide (control = 0x08 ∨ control = 0x28)

/-- Conversion of a `float` to the `char` of `midiData` (truncation, one byte). -/
def floatToByte (x : Sample) : Nat := (Rat.floor x).toNat % 256

/-- Conversion of a `double` to `intptr_t` (truncation toward zero). -/
def floatToIntPtr (x : Sample) : Int := if 0 ≤ x then Rat.floor x else -Rat.floor (-x)

/-! ## Master callback -/

/-- `postponeRtEvent` of the base class: the record is queued for the non-realtime side. -/
def postponeRtEvent (st : Plugin) (kind : PostRtKind) (v1 v2 : Int) (v3 : Sample) : Plugin :=
  { st with postRtEvents := st.postRtEvents ++ [⟨kind, v1, v2, v3⟩] }

/-- Raising an engine callback (`pData->engine->callback`). -/
def engineCallback (st : Plugin) (cb : EngineCallback) : Plugin :=
  { st with engineCallbacks := st.engineCallbacks ++ [cb] }

/-- The start index `MAX_MIDI_EVENTS*2 - 1` of the reverse scans, in `uint32_t` arithmetic. -/
def lastSlot (cap : Nat) : Nat := if cap = 0 then 4294967295 else cap - 1

/-- Outcome of a reverse scan for a free slot. -/
inductive SlotScan where
  | found (j : Nat)
  | notFound
  | outOfBounds
  deriving DecidableEq, Repr, Inhabited

/-- The loop `for (j = MAX_MIDI_EVENTS*2-1; j >= fMidiEventCount; --j)` of
`audioMasterProcessEvents` from index `j` on, over an array of `cap` slots: the highest slot
`≥ count` whose `type` is 0. When `count = 0` and slot 0 is occupied the unsigned `--j` wraps
and the next read is outside the array. -/
def reverseFindFree (arr : Nat → VstMidiEvent) (count cap : Nat) : Nat → SlotScan
  | 0 =>
    if 0 < count then .notFound
    else if 0 ≥ cap then .outOfBounds
    else if (arr 0).type = 0 then .found 0
    else .outOfBounds
  | j + 1 =>
    if j + 1 < count then .notFound
    else if j + 1 ≥ cap then .outOfBounds
    else if (arr (j + 1)).type = 0 then .found (j + 1)
    else reverseFindFree arr count cap j

/-- The event loop of `audioMasterProcessEvents`: a null entry ends it, entries that are not
MIDI-typed are skipped, each MIDI-typed entry is copied into the highest free slot. -/
def storeOutEvents (cap : Nat) : List (Option VstMidiEvent) → Plugin → Plugin
  | [], st => st
  | none :: _, st => st
  | some ev :: rest, st =>
    if ev.type ≠ kVstMidiType then storeOutEvents cap rest st
    else
      -- reverse-find first free event, and put it there
      match reverseFindFree st.fMidiEvents st.fMidiEventCount cap (lastSlot cap) with
      | .found j =>
        storeOutEvents cap rest { st with fMidiEvents := Function.update st.fMidiEvents j ev }
      | .notFound => storeOutEvents cap rest st
      | .outOfBounds => { st with outOfBounds := true }

/-- The constants `kVstProcessLevel*`, `kVstAutomation*` of the VST ABI. -/
def kVstProcessLevelUser : Int := 1
def kVstProcessLevelRealtime : Int := 2
def kVstProcessLevelOffline : Int := 4
def kVstAutomationOff : Int := 1
def kVstAutomationReadWrite : Int := 4

/-- The address of `fTimeInfo`, returned by `audioMasterGetTime`. -/
def timeInfoAddress : Int := 1

/-- The `audioMasterAutomate` case of `handleAudioMasterCallback`. -/
def masterAutomate (eng : Engine) (st : Plugin) (index : Int) (opt : Sample) : Plugin :=
  if ¬ st.fEnabled then st
  else if index < 0 ∨ index ≥ toInt32 st.param.count then st
  else if st.guiIsVisible ∧ ¬ st.fIsProcessing then
    -- Called from GUI
    setParameterValue st index.toNat opt false true true
  else if st.fIsProcessing then
    -- Called from engine
    let fixedValue := st.param.fixValue index.toNat opt
    if eng.isOffline then baseSetParameterValue st index.toNat fixedValue true true true
    else
      postponeRtEvent (baseSetParameterValue st index.toNat fixedValue false false false)
        .parameterChange index 0 fixedValue
  else st

/-- The `audioMasterProcessEvents` case of `handleAudioMasterCallback`. -/
def masterProcessEvents (eng : Engine) (st : Plugin) (ptr : MasterPayload) : Plugin × Int :=
  if ¬ st.fEnabled then (st, 0)
  else if ¬ st.fIsProcessing then (st, 0)
  else if ¬ st.hasEventOut then (st, 0)
  else if ptr = .null then (st, 0)
  else if st.fMidiEventCount ≥ eng.MAX_MIDI_EVENTS * 2 then (st, 0)
  else
    let evs := match ptr with
      | .events evs => evs
      | _ => []
    (storeOutEvents (eng.MAX_MIDI_EVENTS * 2) (evs.take (eng.MAX_MIDI_EVENTS * 2)) st, 1)

/-- The `audioMasterUpdateDisplay` case of `handleAudioMasterCallback`. -/
def masterUpdateDisplay (fx : AEffect) (st : Plugin) : Plugin :=
  -- Idle UI if visible
  let st := if st.guiIsVisible then (dispatcher fx st .effEditIdle 0 0 .null 0).1 else st
  -- Update current program
  let st :=
    if st.prog.count > 0 then
      let r := dispatcher fx st .effGetProgram 0 0 .null 0
      let current := toInt32 (wrapU32 r.2)
      if current ≥ 0 ∧ current < toInt32 r.1.prog.count then
        let name := fx.nameRet r.1.log (Call.dispatch .effGetProgramName 0 0 .buffer 0)
        let st := (dispatcher fx r.1 .effGetProgramName 0 0 .buffer 0).1
        let st := { st with prog := { st.prog with names := st.prog.names.set current.toNat name } }
        if st.prog.current ≠ current then
          engineCallback { st with prog := { st.prog with current := current } }
            (.programChanged current)
        else st
      else r.1
    else st
  engineCallback st .update

/-- `VstPlugin::handleAudioMasterCallback`. -/
def handleAudioMasterCallback (fx : AEffect) (eng : Engine) (st : Plugin) (c : MasterCall) :
    Plugin × Int :=
  match c.opcode with
  | .audioMasterAutomate => (masterAutomate eng st c.index c.opt, 0)
  | .audioMasterIdle =>
    (if st.guiIsVisible then (dispatcher fx st .effEditIdle 0 0 .null 0).1 else st, 0)
  | .audioMasterWantMidi =>
    -- Deprecated in VST SDK 2.4
    ({ st with fHints := { st.fHints with wantsMidiInput := true } }, 0)
  | .audioMasterGetTime => (st, timeInfoAddress)
  | .audioMasterProcessEvents => masterProcessEvents eng st c.ptr
  | .audioMasterTempoAt => (st, floatToIntPtr (st.fTimeInfo.tempo * 10000))
  | .audioMasterGetNumAutomatableParameters =>
    (st, eng.carla_min 0 fx.numParams eng.maxParameters)
  | .audioMasterGetParameterQuantization => (st, 1)
  | .audioMasterNeedIdle => ({ st with fNeedIdle := true }, 1)
  | .audioMasterSizeWindow =>
    if st.hasGuiWindow then
      (if st.guiIsVisible then { st with guiSize := (c.index, c.value) } else st, 1)
    else (st, 0)
  | .audioMasterGetSampleRate => (st, floatToIntPtr eng.sampleRate)
  | .audioMasterGetBlockSize => (st, eng.bufferSize)
  | .audioMasterGetInputLatency => (st, 0)
  | .audioMasterGetOutputLatency => (st, 0)
  | .audioMasterWillReplaceOrAccumulate => (st, 1)
  | .audioMasterGetCurrentProcessLevel =>
    (st, if eng.isOffline then kVstProcessLevelOffline
         else if st.fIsProcessing then kVstProcessLevelRealtime
         else kVstProcessLevelUser)
  | .audioMasterGetAutomationState =>
    (st, if st.active then kVstAutomationReadWrite else kVstAutomationOff)
  | .audioMasterUpdateDisplay => (masterUpdateDisplay fx st, 1)
  | _ => (st, 0)

/-! ## Block processing: one sub-call -/

/-- A counted `for` loop: `body 0`, then `body 1`, ... up to `body (n-1)`, on the state `s`. -/
def forRange {σ : Type} (n : Nat) (body : Nat → σ → σ) (s : σ) : σ :=
  (List.range n).foldl (fun s i => body i s) s

/-- The assignment `buf[i][k] = v`. -/
def setSample (buf : Buffers) (i k : Nat) (v : Sample) : Buffers :=
  Function.update buf i (Function.update (buf i) k v)

/-- The events `fEvents` presents to the foreign module: the first `fMidiEventCount` slots. -/
def queuedEvents (st : Plugin) : List VstMidiEvent :=
  (List.range st.fMidiEventCount).map st.fMidiEvents

/-- The silencing loop of `processSingle` when the lock is not acquired. -/
def silenceRange (audioOutCount frames timeOffset : Nat) (outBuffer : Buffers) : Buffers :=
  forRange audioOutCount (fun i out =>
    forRange frames (fun k out => setSample out i (k + timeOffset) 0) out) outBuffer

/-- What a foreign process call leaves in the output buffers: the module writes the window of
`frames` samples starting at `timeOffset` of each of the `audioOutCount` channels it is given. -/
def writeWindow (audioOutCount frames timeOffset : Nat) (outBuffer window : Buffers) : Buffers :=
  fun i k =>
    if i < audioOutCount ∧ timeOffset ≤ k ∧ k < timeOffset + frames then window i (k - timeOffset)
    else outBuffer i k

/-- The buffers as the foreign module sees them through `buf[i] + timeOffset`. -/
def windowOf (timeOffset : Nat) (buf : Buffers) : Buffers := fun i k => buf i (k + timeOffset)

/-- The master callbacks issued by the module during a process call, handled in order. -/
def runCallbacks (fx : AEffect) (eng : Engine) : List MasterCall → Plugin → Plugin
  | [], st => st
  | c :: cs, st => runCallbacks fx eng cs (handleAudioMasterCallback fx eng st c).1

/-- The log entry of the foreign process call made in state `st`: the replacing entry when the
hint allows it, else the legacy accumulating entry. -/
def processCall (st : Plugin) (frames timeOffset : Nat) : Call :=
  if st.fHints.canProcessReplacing then Call.processReplacing frames timeOffset
  else Call.process frames timeOffset

/-- Entering the foreign process call: `fIsProcessing = true`, then the call. -/
def enterProcess (st : Plugin) (frames timeOffset : Nat) : Plugin :=
  { st with fIsProcessing := true, log := st.log ++ [processCall st frames timeOffset] }

/-- Leaving the foreign process call: `fIsProcessing = false; fTimeInfo.samplePos += frames`. -/
def leaveProcess (st : Plugin) (frames : Nat) : Plugin :=
  { st with
    fIsProcessing := false
    fTimeInfo := { st.fTimeInfo with samplePos := st.fTimeInfo.samplePos + frames } }

/-- The output buffers after the foreign process call: the replacing entry writes its window,
the legacy entry accumulates into the window zeroed for it. -/
def pluginOutput (fx : AEffect) (st : Plugin) (inBuffer outBuffer : Buffers)
    (frames timeOffset : Nat) : Buffers :=
  if st.fHints.canProcessReplacing then
    writeWindow st.audioOutCount frames timeOffset outBuffer
      (fx.processOut st.log (windowOf timeOffset inBuffer) (windowOf timeOffset outBuffer) frames)
  else
    let zeroed := silenceRange st.audioOutCount frames timeOffset outBuffer
    writeWindow st.audioOutCount frames timeOffset zeroed
      (fx.processOut st.log (windowOf timeOffset inBuffer) (windowOf timeOffset zeroed) frames)

/-- The "run plugin" section of `processSingle`: between `fIsProcessing = true` and
`fIsProcessing = false` the foreign process entry runs, with the master callbacks the module
issues from inside it; then the sample position advances. -/
def runPlugin (fx : AEffect) (eng : Engine) (st : Plugin) (inBuffer outBuffer : Buffers)
    (frames timeOffset : Nat) : Plugin × Buffers :=
  let st1 := enterProcess st frames timeOffset
  let st2 := runCallbacks fx eng (fx.processCallbacks st1.log) st1
  (leaveProcess st2 frames, pluginOutput fx st inBuffer outBuffer frames timeOffset)

/-- Loop state of the post-processing: the output buffers and the local `oldBufLeft`. -/
structure PostState where
  out : Buffers
  oldBufLeft : Nat → Sample

/-- The dry/wet loop of the post-processing for output channel `i`. -/
def postDryWet (st : Plugin) (inBuffer : Buffers) (frames timeOffset i : Nat) (out : Buffers) :
    Buffers :=
  forRange frames (fun k out =>
    let bufValue := inBuffer (if st.audioInCount = 1 then 0 else i) (k + timeOffset)
    setSample out i (k + timeOffset)
      (out i (k + timeOffset) * st.postProc.dryWet + bufValue * (1 - st.postProc.dryWet))) out

/-- The balance block of the post-processing for output channel `i`. -/
def postBalance (st : Plugin) (frames timeOffset i : Nat) (s : PostState) : PostState :=
  let isPair := i % 2 = 0
  let oldBufLeft : Nat → Sample :=
    if isPair then fun k => if k < frames then s.out i (k + timeOffset) else s.oldBufLeft k
    else s.oldBufLeft
  let balRangeL := (st.postProc.balanceLeft + 1) / 2
  let balRangeR := (st.postProc.balanceRight + 1) / 2
  { out := forRange frames (fun k out =>
      if isPair then
        -- left
        let out := setSample out i (k + timeOffset) (oldBufLeft k * (1 - balRangeL))
        setSample out i (k + timeOffset)
          (out i (k + timeOffset) + out (i + 1) (k + timeOffset) * (1 - balRangeR))
      else
        -- right
        let out := setSample out i (k + timeOffset) (out i (k + timeOffset) * balRangeR)
        setSample out i (k + timeOffset) (out i (k + timeOffset) + oldBufLeft k * balRangeL))
      s.out
    oldBufLeft := oldBufLeft }

/-- The volume loop of the post-processing for output channel `i`. -/
def postVolume (st : Plugin) (frames timeOffset i : Nat) (out : Buffers) : Buffers :=
  forRange frames (fun k out =>
    setSample out i (k + timeOffset) (out i (k + timeOffset) * st.postProc.volume)) out

/-- The body of the channel loop of the post-processing. -/
def postProcChannel (st : Plugin) (inBuffer : Buffers) (frames timeOffset : Nat)
    (doVolume doDryWet doBalance : Bool) (i : Nat) (s : PostState) : PostState :=
  -- Dry/Wet
  let s : PostState :=
    if doDryWet then { s with out := postDryWet st inBuffer frames timeOffset i s.out } else s
  -- Balance
  let s : PostState := if doBalance then postBalance st frames timeOffset i s else s
  -- Volume
  if doVolume then { s with out := postVolume st frames timeOffset i s.out } else s

/-- The post-processing block of `processSingle` (dry/wet, volume and balance). -/
def postProcess (st : Plugin) (inBuffer outBuffer : Buffers) (frames timeOffset : Nat) : Buffers :=
  let doVolume : Bool := st.fHints.canVolume && decide (st.postProc.volume ≠ 1)
  let doDryWet : Bool := st.fHints.canDryWet && decide (st.postProc.dryWet ≠ 1)
  let doBalance : Bool := st.fHints.canBalance &&
    decide (st.postProc.balanceLeft ≠ -1 ∨ st.postProc.balanceRight ≠ 1)
  (forRange st.audioOutCount
    (postProcChannel st inBuffer frames timeOffset doVolume doDryWet doBalance)
    { out := outBuffer, oldBufLeft := fun _ => 0 }).out

/-- Taking `pData->singleMutex`. -/
def lockSingle (st : Plugin) : Plugin := { st with singleMutexLocked := true }

/-- Releasing `pData->singleMutex`. -/
def unlockSingle (st : Plugin) : Plugin := { st with singleMutexLocked := false }

/-- The "set MIDI events" section of `processSingle`. -/
def sendQueuedEvents (fx : AEffect) (st : Plugin) : Plugin :=
  if st.fMidiEventCount > 0 then
    (dispatcher fx st .effProcessEvents 0 0 (.events (queuedEvents st)) 0).1
  else st

/-- `VstPlugin::processSingle`. A null `float**` is `none`; on entry `singleMutexLocked` tells
whether the processing lock is held by someone else. In offline mode the call waits for the
lock and then owns it. The result is the new state, the output buffers and the returned
flag. -/
def processSingle (fx : AEffect) (eng : Engine) (st : Plugin)
    (inBuffer outBuffer : Option Buffers) (frames timeOffset : Nat) :
    Plugin × Option Buffers × Bool :=
  if frames = 0 then (st, outBuffer, false)
  else if st.audioInCount > 0 ∧ inBuffer.isNone then (st, outBuffer, false)
  else if st.audioOutCount > 0 ∧ outBuffer.isNone then (st, outBuffer, false)
  else
    -- Try lock, silence otherwise
    if ¬ eng.isOffline ∧ st.singleMutexLocked then
      (st, outBuffer.map (silenceRange st.audioOutCount frames timeOffset), false)
    else
      let st := lockSingle st
      let inB : Buffers := inBuffer.getD (fun _ _ => 0)
      let outB : Buffers := outBuffer.getD (fun _ _ => 0)
      -- Set MIDI events
      let st := sendQueuedEvents fx st
      -- Run plugin
      let r := runPlugin fx eng st inB outB frames timeOffset
      -- Post-processing (dry/wet, volume and balance)
      let outB := postProcess r.1 inB r.2 frames timeOffset
      (unlockSingle r.1, outBuffer.map (fun _ => outB), true)

/-! ## Block processing: `process` -/

/-- What the environment supplies to one call of `process` besides the audio buffers. -/
structure Block where
  /-- the events of the input event port, in port order -/
  events : List EngineEvent := []
  /-- the result of `pData->extNotes.mutex.tryLock()` -/
  extNotesTryLock : Bool := true
  /-- whether another thread holds the processing lock when the `n`-th `processSingle` of the
  block (counting from 0) reaches it -/
  singleMutexHeld : Nat → Bool := fun _ => false

/-- Storing `ev` in slot `fMidiEventCount` and incrementing the count. -/
def appendMidiEvent (st : Plugin) (ev : VstMidiEvent) : Plugin :=
  { st with
    fMidiEvents := Function.update st.fMidiEvents st.fMidiEventCount ev
    fMidiEventCount := st.fMidiEventCount + 1 }

/-- The statements `fMidiEventCount = 0; carla_zeroStruct(fMidiEvents, MAX_MIDI_EVENTS*2)` at
the start of an active block. -/
def clearEventArray (eng : Engine) (st : Plugin) : Plugin :=
  { st with
    fMidiEventCount := 0
    fMidiEvents := fun j => if j < eng.MAX_MIDI_EVENTS * 2 then VstMidiEvent.zero
      else st.fMidiEvents j }

/-- The "all notes off + all sound off" burst of the reset. -/
def resetAllSoundOff (st : Plugin) : Plugin :=
  { st with
    fMidiEvents := forRange MAX_MIDI_CHANNELS (fun k arr =>
      let arr := Function.update arr k
        { arr k with type := kVstMidiType, byteSize := sizeofVstMidiEvent,
                     midiData0 := MIDI_STATUS_CONTROL_CHANGE + k,
                     midiData1 := MIDI_CONTROL_ALL_NOTES_OFF }
      Function.update arr (k + MAX_MIDI_CHANNELS)
        { arr (k + MAX_MIDI_CHANNELS) with
            type := kVstMidiType, byteSize := sizeofVstMidiEvent,
            midiData0 := MIDI_STATUS_CONTROL_CHANGE + k,
            midiData1 := MIDI_CONTROL_ALL_SOUND_OFF }) st.fMidiEvents
    fMidiEventCount := MAX_MIDI_CHANNELS * 2 }

/-- The per-note "note off" burst of the reset on the control channel. -/
def resetNotesOff (st : Plugin) : Plugin :=
  { st with
    fMidiEvents := forRange MAX_MIDI_NOTE (fun k arr =>
      Function.update arr k
        { arr k with type := kVstMidiType, byteSize := sizeofVstMidiEvent,
                     midiData0 := MIDI_STATUS_NOTE_OFF + st.ctrlChannel.toNat,
                     midiData1 := k }) st.fMidiEvents
    fMidiEventCount := MAX_MIDI_NOTE }

/-- Zeroing the latency buffers of the audio inputs in the reset. -/
def resetLatencyBuffers (st : Plugin) : Plugin :=
  { st with latencyBuffers := st.latencyBuffers.enum.map (fun ib =>
      if ib.1 < st.audioInCount then
        List.replicate (min st.latency ib.2.length) 0 ++ ib.2.drop st.latency
      else ib.2) }

/-- The "check if needs reset" section of `process`. -/
def processReset (st : Plugin) : Plugin :=
  if st.needsReset then
    let st :=
      if st.fOptions.sendAllSoundOff then resetAllSoundOff st
      else if st.ctrlChannel ≥ 0 ∧ st.ctrlChannel < MAX_MIDI_CHANNELS then resetNotesOff st
      else st
    let st := if st.latency > 0 then resetLatencyBuffers st else st
    { st with needsReset := false }
  else st

/-- The "set TimeInfo" section of `process`. -/
def setTimeInfo (eng : Engine) (st : Plugin) : Plugin :=
  let ti := eng.timeInfo
  let t : VstTimeInfo :=
    { st.fTimeInfo with
      transportChanged := true, transportPlaying := ti.playing, nanosValid := false,
      ppqPosValid := false, tempoValid := false, barsValid := false, timeSigValid := false,
      samplePos := ti.frame, sampleRate := eng.sampleRate }
  let t : VstTimeInfo :=
    if ti.usecs ≠ 0 then { t with nanoSeconds := ((ti.usecs / 1000 : Nat) : Sample),
                                  nanosValid := true }
    else t
  let t : VstTimeInfo :=
    if ti.validBBT then
      let ppqBar : Sample := ((ti.bar - 1 : Int) : Sample) * ti.beatsPerBar
      let ppqBeat : Sample := ((ti.beat - 1 : Int) : Sample)
      let ppqTick : Sample := (ti.tick : Sample) / ti.ticksPerBeat
      { t with
        ppqPos := ppqBar + ppqBeat + ppqTick, ppqPosValid := true
        tempo := ti.beatsPerMinute, tempoValid := true
        barStartPos := ppqBar, barsValid := true
        timeSigNumerator := floatToIntPtr ti.beatsPerBar
        timeSigDenominator := floatToIntPtr ti.beatType, timeSigValid := true }
    else
      { t with
        tempo := 120, tempoValid := true
        timeSigNumerator := 4, timeSigDenominator := 4, timeSigValid := true
        ppqPos := 0, barStartPos := 0 }
  { st with fTimeInfo := t }

/-- The "MIDI input (external)" section of `process`, once the try-lock has succeeded: notes
are taken from the front of the list while the array has room. -/
def drainExtNotes (cap : Nat) : List ExternalMidiNote → Plugin → Plugin
  | [], st => { st with extNotes := [] }
  | note :: rest, st =>
    if st.fMidiEventCount < cap then
      drainExtNotes cap rest
        (appendMidiEvent st
          { st.fMidiEvents st.fMidiEventCount with
            type := kVstMidiType, byteSize := sizeofVstMidiEvent
            midiData0 := ((if note.velo > 0 then MIDI_STATUS_NOTE_ON else MIDI_STATUS_NOTE_OFF)
              + note.channel.toNat) % 256
            midiData1 := note.note, midiData2 := note.velo })
    else { st with extNotes := note :: rest }

/-- The "MIDI input (external)" section of `process`. -/
def processExtNotes (eng : Engine) (blk : Block) (st : Plugin) : Plugin :=
  if blk.extNotesTryLock then drainExtNotes (eng.MAX_MIDI_EVENTS * 2) st.extNotes st else st

/-- Modelled from the spec: the base-class setters `setDryWet`, `setVolume`, `setBalanceLeft` and
`setBalanceRight` (not among the sources): each records the post-processing value it is
handed. -/
def setDryWet (st : Plugin) (value : Sample) : Plugin :=
  { st with postProc := { st.postProc with dryWet := value } }
def setVolume (st : Plugin) (value : Sample) : Plugin :=
  { st with postProc := { st.postProc with volume := value } }
def setBalanceLeft (st : Plugin) (value : Sample) : Plugin :=
  { st with postProc := { st.postProc with balanceLeft := value } }
def setBalanceRight (st : Plugin) (value : Sample) : Plugin :=
  { st with postProc := { st.postProc with balanceRight := value } }

/-- Modelled from the spec: `ParameterRanges::unnormalizeValue` of the base-class bookkeeping
(not among the sources): the value at the normalized position within `[min, max]`. -/
def ParameterRanges.unnormalizeValue (r : ParameterRanges) (value : Sample) : Sample :=
  value * (r.max - r.min) + r.min

/-- The function `std::rint` (round to nearest, ties to even). -/
def rint (x : Sample) : Sample :=
  let f := Rat.floor x
  let d := x - f
  if d < 1 / 2 then f else if d > 1 / 2 then f + 1 else if f % 2 = 0 then f else f + 1

/-- The derivation of the balance pair from a balance control change. -/
def balancePair (ctrlValue : Sample) : Sample × Sample :=
  let value := ctrlValue / (1 / 2) - 1
  if value < 0 then (-1, value * 2 + 1)
  else if value > 0 then (value * 2 - 1, 1)
  else (-1, 1)

/-- The internal parameter ids `PARAMETER_DRYWET`, `PARAMETER_VOLUME`, `PARAMETER_BALANCE_LEFT`
and `PARAMETER_BALANCE_RIGHT` of the backend header (not among the sources). -/
def PARAMETER_DRYWET : Int := -3
def PARAMETER_VOLUME : Int := -4
def PARAMETER_BALANCE_LEFT : Int := -5
def PARAMETER_BALANCE_RIGHT : Int := -6

/-- The breath-controller (dry/wet) statement of the "control backend stuff". -/
def backendDryWet (st : Plugin) (ctrlEvent : EngineControlEvent) : Plugin :=
  if MIDI_IS_CONTROL_BREATH_CONTROLLER ctrlEvent.param ∧ st.fHints.canDryWet then
    postponeRtEvent (setDryWet st ctrlEvent.value) .parameterChange PARAMETER_DRYWET 0
      ctrlEvent.value
  else st

/-- The channel-volume statement of the "control backend stuff". -/
def backendVolume (st : Plugin) (ctrlEvent : EngineControlEvent) : Plugin :=
  if MIDI_IS_CONTROL_CHANNEL_VOLUME ctrlEvent.param ∧ st.fHints.canVolume then
    postponeRtEvent (setVolume st (ctrlEvent.value * 127 / 100)) .parameterChange
      PARAMETER_VOLUME 0 (ctrlEvent.value * 127 / 100)
  else st

/-- The balance statement of the "control backend stuff". -/
def backendBalance (st : Plugin) (ctrlEvent : EngineControlEvent) : Plugin :=
  if MIDI_IS_CONTROL_BALANCE ctrlEvent.param ∧ st.fHints.canBalance then
    let lr := balancePair ctrlEvent.value
    let st := setBalanceRight (setBalanceLeft st lr.1) lr.2
    postponeRtEvent (postponeRtEvent st .parameterChange PARAMETER_BALANCE_LEFT 0 lr.1)
      .parameterChange PARAMETER_BALANCE_RIGHT 0 lr.2
  else st

/-- The "control backend stuff" of a parameter control event. -/
def controlBackend (st : Plugin) (event : EngineEvent) (ctrlEvent : EngineControlEvent) : Plugin :=
  if (event.channel : Int) = st.ctrlChannel then
    backendBalance (backendVolume (backendDryWet st ctrlEvent) ctrlEvent) ctrlEvent
  else st

/-- One iteration of the "control plugin parameters" loop. -/
def controlParameter (event : EngineEvent) (ctrlEvent : EngineControlEvent) (k : Nat)
    (st : Plugin) : Plugin :=
  let d := st.param.data.getD k {}
  if d.midiChannel ≠ event.channel then st
  else if d.midiCC ≠ (ctrlEvent.param : Int) then st
  else if ¬ d.isInput then st
  else if ¬ d.hints.isAutomable then st
  else
    let r := st.param.ranges.getD k {}
    let value : Sample :=
      if d.hints.isBoolean then (if ctrlEvent.value < 1 / 2 then r.min else r.max)
      else
        let value := r.unnormalizeValue ctrlEvent.value
        if d.hints.isInteger then rint value else value
    postponeRtEvent (setParameterValue st k value false false false) .parameterChange k 0 value

/-- The time stamp an input event is queued with. -/
def deltaFramesOf (sampleAccurate : Bool) (startTime time : Nat) : Nat :=
  if sampleAccurate then startTime else time

/-- Appending a control-change style event (all fields zeroed first) unless the array is
full. -/
def queueControlChange (eng : Engine) (st : Plugin) (channel data1 data2 deltaFrames : Nat) :
    Plugin :=
  if st.fMidiEventCount ≥ eng.MAX_MIDI_EVENTS * 2 then st
  else
    appendMidiEvent st
      { type := kVstMidiType, byteSize := sizeofVstMidiEvent, deltaFrames := deltaFrames,
        midiData0 := (MIDI_STATUS_CONTROL_CHANGE + channel) % 256, midiData1 := data1,
        midiData2 := data2 }

/-- The `kEngineEventTypeControl` case of the event switch. -/
def handleControlEvent (fx : AEffect) (eng : Engine) (sampleAccurate : Bool)
    (startTime : Nat) (event : EngineEvent) (ctrlEvent : EngineControlEvent)
    (allNotesOffSent : Bool) (st : Plugin) : Plugin × Bool :=
  match ctrlEvent.type with
  | .null => (st, allNotesOffSent)
  | .parameter =>
    -- Control backend stuff
    let st := controlBackend st event ctrlEvent
    -- Control plugin parameters
    let st := forRange st.param.count (controlParameter event ctrlEvent) st
    if st.fOptions.sendControlChanges ∧ ctrlEvent.param ≤ 0x5F then
      (queueControlChange eng st event.channel ctrlEvent.param
        (floatToByte (ctrlEvent.value * 127))
        (deltaFramesOf sampleAccurate startTime event.time), allNotesOffSent)
    else (st, allNotesOffSent)
  | .midiBank => (st, allNotesOffSent)
  | .midiProgram =>
    if (event.channel : Int) = st.ctrlChannel ∧ st.fOptions.mapProgramChanges then
      if ctrlEvent.param < st.prog.count then
        (postponeRtEvent (setProgram fx st ctrlEvent.param false false false) .programChange
          ctrlEvent.param 0 0, allNotesOffSent)
      else (st, allNotesOffSent)
    else (st, allNotesOffSent)
  | .allSoundOff =>
    if st.fOptions.sendAllSoundOff then
      (queueControlChange eng st event.channel MIDI_CONTROL_ALL_SOUND_OFF 0
        (deltaFramesOf sampleAccurate startTime event.time), allNotesOffSent)
    else (st, allNotesOffSent)
  | .allNotesOff =>
    if st.fOptions.sendAllSoundOff then
      let r : Plugin × Bool :=
        if (event.channel : Int) = st.ctrlChannel ∧ ¬ allNotesOffSent then
          (engineCallback st .allNotesOff, true)
        else (st, allNotesOffSent)
      (queueControlChange eng r.1 event.channel MIDI_CONTROL_ALL_NOTES_OFF 0
        (deltaFramesOf sampleAccurate startTime event.time), r.2)
    else (st, allNotesOffSent)

/-- The "fix bad note-off" statement: a note-on with velocity 0 gets note-off status. -/
def fixBadNoteOff (status data2 : Nat) : Nat :=
  if status = MIDI_STATUS_NOTE_ON ∧ data2 = 0 then status - 0x10 else status

/-- The note-on / note-off notification that follows the queueing of a raw MIDI event. -/
def postponeNote (st : Plugin) (status channel data1 data2 : Nat) : Plugin :=
  if status = MIDI_STATUS_NOTE_ON then postponeRtEvent st .noteOn channel data1 data2
  else if status = MIDI_STATUS_NOTE_OFF then postponeRtEvent st .noteOff channel data1 0
  else st

/-- The `kEngineEventTypeMidi` case of the event switch. -/
def handleMidiEvent (eng : Engine) (sampleAccurate : Bool) (startTime : Nat)
    (event : EngineEvent) (midiEvent : EngineMidiEvent) (st : Plugin) : Plugin :=
  if st.fMidiEventCount ≥ eng.MAX_MIDI_EVENTS * 2 then st
  else
    let status := MIDI_GET_STATUS_FROM_DATA midiEvent.data0
    let channel := event.channel
    if MIDI_IS_STATUS_AFTERTOUCH status ∧ ¬ st.fOptions.sendChannelPressure then st
    else if MIDI_IS_STATUS_CONTROL_CHANGE status ∧ ¬ st.fOptions.sendControlChanges then st
    else if MIDI_IS_STATUS_POLYPHONIC_AFTERTOUCH status ∧ ¬ st.fOptions.sendNoteAftertouch then st
    else if MIDI_IS_STATUS_PITCH_WHEEL_CONTROL status ∧ ¬ st.fOptions.sendPitchbend then st
    else
      -- Fix bad note-off
      let status := fixBadNoteOff status midiEvent.data2
      let st := appendMidiEvent st
        { type := kVstMidiType, byteSize := sizeofVstMidiEvent,
          deltaFrames := deltaFramesOf sampleAccurate startTime event.time,
          midiData0 := (status + channel) % 256, midiData1 := midiEvent.data1,
          midiData2 := midiEvent.data2 }
      postponeNote st status channel midiEvent.data1 midiEvent.data2

/-- The locals of the event loop of `process`, with the adapter state and the output buffers;
`attempts` counts the `processSingle` calls of the block made so far. -/
structure EventLoop where
  st : Plugin
  out : Option Buffers
  allNotesOffSent : Bool := false
  startTime : Nat := 0
  timeOffset : Nat := 0
  attempts : Nat := 0

/-- The lock state that a `processSingle` call of the block finds. -/
def withLockState (held : Bool) (st : Plugin) : Plugin := { st with singleMutexLocked := held }

/-- The queue reset after a successful sub-call inside the event loop. -/
def clearQueued (st : Plugin) : Plugin :=
  if st.fMidiEventCount > 0 then
    { st with
      fMidiEvents := fun j => if j < st.fMidiEventCount then VstMidiEvent.zero
        else st.fMidiEvents j
      fMidiEventCount := 0 }
  else st

/-- The sample-accurate split of the event loop, taken when `time > timeOffset`. -/
def splitBlock (fx : AEffect) (eng : Engine) (blk : Block) (inBuffer : Option Buffers)
    (time : Nat) (s : EventLoop) : EventLoop :=
  let r := processSingle fx eng (withLockState (blk.singleMutexHeld s.attempts) s.st)
    inBuffer s.out (time - s.timeOffset) s.timeOffset
  if r.2.2 then
    { s with st := clearQueued r.1, out := r.2.1, startTime := 0, timeOffset := time,
             attempts := s.attempts + 1 }
  else
    { s with st := r.1, out := r.2.1,
             startTime := (s.startTime + s.timeOffset) % 4294967296,
             attempts := s.attempts + 1 }

/-- The event switch of the event loop. -/
def handleEvent (fx : AEffect) (eng : Engine) (sampleAccurate : Bool) (event : EngineEvent)
    (s : EventLoop) : EventLoop :=
  match event.body with
  | .null => s
  | .control ctrlEvent =>
    let r := handleControlEvent fx eng sampleAccurate s.startTime event ctrlEvent
      s.allNotesOffSent s.st
    { s with st := r.1, allNotesOffSent := r.2 }
  | .midi midiEvent =>
    { s with st := handleMidiEvent eng sampleAccurate s.startTime event midiEvent s.st }

/-- One iteration of the event loop of `process`. -/
def eventStep (fx : AEffect) (eng : Engine) (blk : Block) (inBuffer : Option Buffers)
    (frames : Nat) (sampleAccurate : Bool) (s : EventLoop) (event : EngineEvent) : EventLoop :=
  if event.time ≥ frames then s
  else
    let s :=
      if event.time > s.timeOffset ∧ sampleAccurate then
        splitBlock fx eng blk inBuffer event.time s
      else s
    handleEvent fx eng sampleAccurate event s

/-- The event loop of `process` over the events of the input port. -/
def eventLoop (fx : AEffect) (eng : Engine) (blk : Block) (inBuffer : Option Buffers)
    (frames : Nat) (sampleAccurate : Bool) (events : List EngineEvent) (s : EventLoop) :
    EventLoop :=
  events.foldl (eventStep fx eng blk inBuffer frames sampleAccurate) s

/-- The "event input and processing" section of `process`. -/
def processWithEvents (fx : AEffect) (eng : Engine) (blk : Block) (st : Plugin)
    (inBuffer outBuffer : Option Buffers) (frames : Nat) : Plugin × Option Buffers :=
  -- MIDI Input (External)
  let st := processExtNotes eng blk st
  -- Event Input (System)
  let sampleAccurate : Bool := !st.fOptions.fixedBuffer
  let s := eventLoop fx eng blk inBuffer frames sampleAccurate blk.events
    { st := st, out := outBuffer }
  if frames > s.timeOffset then
    let r := processSingle fx eng (withLockState (blk.singleMutexHeld s.attempts) s.st)
      inBuffer s.out (frames - s.timeOffset) s.timeOffset
    (r.1, r.2.1)
  else (s.st, s.out)

/-- The loop `for (k = MAX_MIDI_EVENTS*2-1; k >= fMidiEventCount; --k)` of the MIDI output
section from index `k` on, over an array of `cap` slots: the writes to the output port, and
whether the scan left the array (when `count = 0` and slot 0 is occupied the unsigned `--k`
wraps). -/
def midiOutScan (arr : Nat → VstMidiEvent) (count cap : Nat) : Nat → List MidiOutWrite × Bool
  | 0 =>
    if 0 < count then ([], false)
    else if 0 ≥ cap then ([], true)
    else if (arr 0).type = 0 then ([], false)
    else
      ([⟨(arr 0).deltaFrames, MIDI_GET_CHANNEL_FROM_DATA (arr 0).midiData0, (arr 0).midiData0,
          (arr 0).midiData1, (arr 0).midiData2⟩], true)
  | k + 1 =>
    if k + 1 < count then ([], false)
    else if k + 1 ≥ cap then ([], true)
    else if (arr (k + 1)).type = 0 then ([], false)
    else
      let r := midiOutScan arr count cap k
      (⟨(arr (k + 1)).deltaFrames, MIDI_GET_CHANNEL_FROM_DATA (arr (k + 1)).midiData0,
        (arr (k + 1)).midiData0, (arr (k + 1)).midiData1, (arr (k + 1)).midiData2⟩ :: r.1, r.2)

/-- The "MIDI output" section of `process`. -/
def processMidiOutput (eng : Engine) (st : Plugin) : Plugin :=
  if st.hasEventOut then
    -- reverse lookup MIDI events
    let r := midiOutScan st.fMidiEvents st.fMidiEventCount (eng.MAX_MIDI_EVENTS * 2)
      (lastSlot (eng.MAX_MIDI_EVENTS * 2))
    { st with midiOut := st.midiOut ++ r.1, outOfBounds := st.outOfBounds || r.2 }
  else st

/-- The macro `CARLA_PROCESS_CONTINUE_CHECK` (not among the sources): when the adapter is not
enabled a debug callback is raised and `process` returns. -/
def prematureExit (st : Plugin) : Plugin := engineCallback st .debugPrematureExit

/-- `VstPlugin::process`. -/
def process (fx : AEffect) (eng : Engine) (blk : Block) (st : Plugin)
    (inBuffer outBuffer : Option Buffers) (frames : Nat) : Plugin × Option Buffers :=
  -- Check if active
  if ¬ st.active then
    -- disable any output sound
    (st, outBuffer.map (silenceRange st.audioOutCount frames 0))
  else
    -- Check if needs reset
    let st := processReset (clearEventArray eng st)
    if ¬ st.fEnabled then (prematureExit st, outBuffer)
    else
      let st := setTimeInfo eng st
      if ¬ st.fEnabled then (prematureExit st, outBuffer)
      else
        let r : Plugin × Option Buffers :=
          if st.hasEventIn then
            -- Event Input and Processing
            processWithEvents fx eng blk st inBuffer outBuffer frames
          else
            -- Plugin processing (no events)
            let r := processSingle fx eng (withLockState (blk.singleMutexHeld 0) st)
              inBuffer outBuffer frames 0
            (r.1, r.2.1)
        if ¬ r.1.fEnabled then (prematureExit r.1, r.2)
        else (processMidiOutput eng r.1, r.2)

/-! ## Chunks -/

/-- `VstPlugin::chunkData`: the value returned by the `effGetChunk` dispatch (the size of the
blob) and the bytes at the pointer the module stored through `dataPtr`. -/
def chunkData (fx : AEffect) (st : Plugin) : Plugin × Int × List Nat :=
  let r := dispatcher fx st .effGetChunk 0 0 .buffer 0
  (r.1, r.2, fx.chunk st.log)

/-- `VstPlugin::setChunkData`. `fromBase64` is `QByteArray::fromBase64` of the Qt library. The
scoped process lock taken around the dispatch is released at the end of its scope and leaves
no trace in the state. -/
def setChunkData (fromBase64 : String → List Nat) (fx : AEffect) (eng : Engine) (st : Plugin)
    (stringData : String) : Plugin :=
  let st := { st with fLastChunk := none }
  let chunk := fromBase64 stringData
  if chunk.length > 0 then
    let st := { st with fLastChunk := some chunk }
    let st := (dispatcher fx st .effSetChunk 0 chunk.length (.bytes chunk) 0).1
    -- simulate an updateDisplay callback
    (handleAudioMasterCallback fx eng st { opcode := .audioMasterUpdateDisplay }).1
  else st

/-- The Base64 alphabet of RFC 4648. -/
def base64Alphabet : List Char :=
  "ABCDEFGHIJKLMNOPQRSTUVWXYZabcdefghijklmnopqrstuvwxyz0123456789+/".toList

/-- A reference Base64 encoder (RFC 4648, with padding) over bytes, for the examples. -/
def refToBase64Chars : List Nat → List Char
  | [] => []
  | [a] => [base64Alphabet.getD (a / 4) 'A', base64Alphabet.getD (a % 4 * 16) 'A', '=', '=']
  | [a, b] =>
    [base64Alphabet.getD (a / 4) 'A', base64Alphabet.getD (a % 4 * 16 + b / 16) 'A',
     base64Alphabet.getD (b % 16 * 4) 'A', '=']
  | a :: b :: c :: rest =>
    base64Alphabet.getD (a / 4) 'A' :: base64Alphabet.getD (a % 4 * 16 + b / 16) 'A' ::
      base64Alphabet.getD (b % 16 * 4 + c / 64) 'A' :: base64Alphabet.getD (c % 64) 'A' ::
      refToBase64Chars rest

/-- A reference Base64 encoder, for the examples. -/
def refToBase64 (data : List Nat) : String := String.mk (refToBase64Chars data)

/-- A reference Base64 decoder in the manner of `QByteArray::fromBase64`: characters outside
the alphabet are skipped, each character of the alphabet adds 6 bits, and a byte is emitted
whenever 8 bits are available. -/
def refFromBase64Chars : Nat → Nat → List Char → List Nat
  | _, _, [] => []
  | buf, nbits, ch :: rest =>
    let d := base64Alphabet.indexOf ch
    if d < 64 then
      if nbits + 6 ≥ 8 then
        (buf * 64 + d) / 2 ^ (nbits + 6 - 8) ::
          refFromBase64Chars ((buf * 64 + d) % 2 ^ (nbits + 6 - 8)) (nbits + 6 - 8) rest
      else refFromBase64Chars (buf * 64 + d) (nbits + 6) rest
    else refFromBase64Chars buf nbits rest

/-- A reference Base64 decoder, for the examples. -/
def refFromBase64 (s : String) : List Nat := refFromBase64Chars 0 0 s.toList

/-! ## Construction and teardown -/

/-- The call `showGui(false)` of `VstPlugin::showGui`, the one the destructor makes. Hiding an
OSC interface sends messages and stops a thread, which leaves no trace in the state. -/
def showGuiOff (fx : AEffect) (st : Plugin) : Plugin :=
  if st.guiIsVisible = false then st
  else if st.guiIsOsc then { st with guiIsVisible := false }
  else
    let st := (dispatcher fx st .effEditClose 0 0 .null 0).1
    let st :=
      if st.hasGuiWindow then { st with guiLastSize := st.guiSize, hasGuiWindow := false }
      else st
    { st with guiIsVisible := false }

/-- The constructor `VstPlugin::VstPlugin(engine, id)`. `rand` is the value `rand()` returns
after `srand(id)`. The members of the base class are as its constructor leaves them (not
among the sources): not enabled, not active, no ports. -/
def construct (rand : Int) : Plugin :=
  { fUnique1 := rand, fUnique2 := rand, hasEffect := false, fEnabled := false, active := false,
    fLastChunk := none, fMidiEventCount := 0, fIsProcessing := false, fNeedIdle := false,
    fMidiEvents := fun _ => VstMidiEvent.zero, fTimeInfo := {} }

/-- The destructor `VstPlugin::~VstPlugin()`. The processing lock is taken and never released.
`fUnique2 += 1` is taken in two's complement (the overflow at `INT_MAX` is undefined in the
source). -/
def destruct (fx : AEffect) (st : Plugin) : Plugin :=
  -- close UI
  let st := if st.fHints.hasGui then showGuiOff fx st else st
  let st := { st with singleMutexLocked := true }
  let st := if st.active then { deactivate fx st with active := false } else st
  let st :=
    if st.hasEffect then { (dispatcher fx st .effClose 0 0 .null 0).1 with hasEffect := false }
    else st
  -- make plugin invalid
  let st := { st with fUnique2 := toInt32 (wrapU32 (st.fUnique2 + 1)) }
  let st := { st with fLastChunk := none }
  clearBuffers st

/-! ## The callback trampoline -/

/-- The constant `kVstLangEnglish` of the VST ABI. -/
def kVstLangEnglish : Int := 1

/-- `VstPlugin::carla_vst_hostCanDo`. -/
def carla_vst_hostCanDo (feature : String) : Int :=
  if feature = "supplyIdle" then 1
  else if feature = "sendVstEvents" then 1
  else if feature = "sendVstMidiEvent" then 1
  else if feature = "sendVstMidiEventFlagIsRealtime" then 1
  else if feature = "sendVstTimeInfo" then 1
  else if feature = "receiveVstEvents" then 1
  else if feature = "receiveVstMidiEvent" then 1
  else if feature = "receiveVstTimeInfo" then -1
  else if feature = "reportConnectionChanges" then -1
  else if feature = "acceptIOChanges" then 1
  else if feature = "sizeWindow" then 1
  else if feature = "offline" then -1
  else if feature = "openFileSelector" then -1
  else if feature = "closeFileSelector" then -1
  else if feature = "startStopProcess" then 1
  else if feature = "supportShell" then -1
  else if feature = "shellCategory" then -1
  else 0

/-- The objects the trampoline can reach: adapters and effects by address (address 0 is the
null pointer), and the static `sLastVstPlugin`. A torn-down adapter stays at its address as
the destructor left it: reuse of its memory is not modelled. -/
structure World where
  /-- the adapter object at an address -/
  adapters : Nat → Plugin
  /-- `fEffect` of the adapter at an address, as an effect address (0 for nullptr) -/
  effectOf : Nat → Nat
  /-- `resvd1` of the effect at an address: the address of an adapter, 0 when unset -/
  resvd1 : Nat → Nat
  /-- the module behind the effect at an address -/
  module : Nat → AEffect
  /-- `VstPlugin::sLastVstPlugin`, the adapter being initialised (0 for nullptr) -/
  sLastVstPlugin : Nat := 0

/-- The statement `self->fEffect = effect`. -/
def World.setEffect (w : World) (self effect : Nat) : World :=
  { w with
    effectOf := Function.update w.effectOf self effect
    adapters := Function.update w.adapters self
      { w.adapters self with hasEffect := decide (effect ≠ 0) } }

/-- The call `self->handleAudioMasterCallback(opcode, index, value, ptr, opt)`. -/
def World.runHandler (eng : Engine) (w : World) (self : Nat) (c : MasterCall) : World × Int :=
  let r := handleAudioMasterCallback (w.module (w.effectOf self)) eng (w.adapters self) c
  ({ w with adapters := Function.update w.adapters self r.1 }, r.2)

/-- The adapter the trampoline reads out of `resvd1`: 0 when there is none, or when its two
identity tokens differ. -/
def World.selfOf (w : World) (effect : Nat) : Nat :=
  if w.resvd1 effect ≠ 0 then
    if (w.adapters (w.resvd1 effect)).fUnique1 ≠ (w.adapters (w.resvd1 effect)).fUnique2 then 0
    else w.resvd1 effect
  else 0

/-- `VstPlugin::carla_vst_audioMasterCallback`, the static entry the foreign module calls. The
strings written through `ptr` by the vendor and product queries go to the caller. -/
def carla_vst_audioMasterCallback (eng : Engine) (w : World) (effect : Nat) (c : MasterCall) :
    World × Int :=
  match c.opcode with
  | .audioMasterVersion => (w, kVstVersion)
  | .audioMasterGetVendorString => (w, if c.ptr ≠ .null then 1 else 0)
  | .audioMasterGetProductString => (w, if c.ptr ≠ .null then 1 else 0)
  | .audioMasterGetVendorVersion => (w, 0x104)
  | .audioMasterCanDo =>
    match c.ptr with
    | .null => (w, 0)
    | .text feature => (w, carla_vst_hostCanDo feature)
    | .events _ => (w, carla_vst_hostCanDo "")
  | .audioMasterGetLanguage => (w, kVstLangEnglish)
  | _ =>
    -- Check if 'resvd1' points to us, otherwise register ourselfs if possible
    if effect = 0 then (w, 0)
    else
      let self := w.selfOf effect
      if self ≠ 0 then
        let w := if w.effectOf self = 0 then w.setEffect self effect else w
        if w.effectOf self ≠ effect then (w, 0)
        else w.runHandler eng self c
      else if w.sLastVstPlugin ≠ 0 then
        let w := { w with resvd1 := Function.update w.resvd1 effect w.sLastVstPlugin }
        w.runHandler eng w.sLastVstPlugin c
      else (w, 0)

/-! ## Reading the call log -/

/-- One foreign process call as the log shows it: the frame offset and length of its window
and the event list handed over just before it. -/
structure SubCall where
  timeOffset : Nat
  frames : Nat
  events : List VstMidiEvent
  deriving DecidableEq, Repr, Inhabited

/-- The foreign process calls recorded in a log, oldest first, each with the event list of the
`effProcessEvents` dispatch that precedes it (`pending`, empty when there was none). -/
def subCallsFrom : List VstMidiEvent → List Call → List SubCall
  | _, [] => []
  | _, Call.dispatch .effProcessEvents _ _ (.events evs) _ :: rest => subCallsFrom evs rest
  | pending, Call.processReplacing frames timeOffset :: rest =>
    ⟨timeOffset, frames, pending⟩ :: subCallsFrom [] rest
  | pending, Call.process frames timeOffset :: rest =>
    ⟨timeOffset, frames, pending⟩ :: subCallsFrom [] rest
  | pending, _ :: rest => subCallsFrom pending rest

/-- The foreign process calls recorded in a log. -/
def subCalls (log : List Call) : List SubCall := subCallsFrom [] log

/-! ## Frames

The parts of the adapter state that the steps of `process` leave alone, gathered so that each
step needs one preservation statement. -/

/-- The configuration that no step of a block changes. -/
structure Fixed where
  hasEffect : Bool
  fEnabled : Bool
  active : Bool
  fOptions : Options
  canDryWet : Bool
  canVolume : Bool
  canBalance : Bool
  canProcessReplacing : Bool
  ctrlChannel : Int
  audioInCount : Nat
  audioOutCount : Nat
  hasEventIn : Bool
  hasEventOut : Bool
  deriving DecidableEq, Repr

/-- The fixed configuration of an adapter state. -/
def Plugin.fixed (st : Plugin) : Fixed :=
  { hasEffect := st.hasEffect, fEnabled := st.fEnabled, active := st.active,
    fOptions := st.fOptions, canDryWet := st.fHints.canDryWet, canVolume := st.fHints.canVolume,
    canBalance := st.fHints.canBalance, canProcessReplacing := st.fHints.canProcessReplacing,
    ctrlChannel := st.ctrlChannel, audioInCount := st.audioInCount,
    audioOutCount := st.audioOutCount, hasEventIn := st.hasEventIn,
    hasEventOut := st.hasEventOut }

/-- Log entries other than a foreign process call and the hand-over of an event list. -/
def Call.quiet : Call → Bool
  | .dispatch .effProcessEvents _ _ (.events _) _ => false
  | .processReplacing _ _ => false
  | .process _ _ => false
  | _ => true

/-- `st'` has the log of `st` followed by quiet entries only. -/
def LogQuiet (st st' : Plugin) : Prop :=
  ∃ added : List Call, st'.log = st.log ++ added ∧ ∀ c ∈ added, c.quiet = true

/-- The event list a log leaves pending for the next foreign process call. -/
def pendingAfter : List VstMidiEvent → List Call → List VstMidiEvent
  | pending, [] => pending
  | _, Call.dispatch .effProcessEvents _ _ (.events evs) _ :: rest => pendingAfter evs rest
  | _, Call.processReplacing _ _ :: rest => pendingAfter [] rest
  | _, Call.process _ _ :: rest => pendingAfter [] rest
  | pending, _ :: rest => pendingAfter pending rest

/-- What a master callback leaves alone: the fixed configuration, the post-processing values,
the queued input events, the time info, the lock and the processing flag; the log grows by
quiet entries only. -/
def CallbackFrame (st st' : Plugin) : Prop :=
  st'.fixed = st.fixed ∧ LogQuiet st st' ∧ st'.postProc = st.postProc ∧
  st'.fMidiEventCount = st.fMidiEventCount ∧
  (∀ j, j < st.fMidiEventCount → st'.fMidiEvents j = st.fMidiEvents j) ∧
  st'.fTimeInfo = st.fTimeInfo ∧ st'.singleMutexLocked = st.singleMutexLocked ∧
  st'.fIsProcessing = st.fIsProcessing

/-- The log entries `processSingle` adds in state `st` before any callback of the module: the
hand-over of the queued events, when there are any, and the process call. -/
def subCallEntries (st : Plugin) (frames timeOffset : Nat) : List Call :=
  (if st.fMidiEventCount > 0 then
      [Call.dispatch .effProcessEvents 0 0 (.events (queuedEvents st)) 0]
    else []) ++ [processCall st frames timeOffset]

/-- The preconditions under which `processSingle` gets past its guards and takes the lock. -/
def CanProcess (eng : Engine) (st : Plugin) (inBuffer outBuffer : Option Buffers) : Prop :=
  (st.audioInCount > 0 → inBuffer.isSome = true) ∧
  (st.audioOutCount > 0 → outBuffer.isSome = true) ∧
  (eng.isOffline = true ∨ st.singleMutexLocked = false)

/-- What the event handlers leave alone besides the fixed configuration: the whole event array
and its count; the log grows by quiet entries only. -/
def QueueFrame (st st' : Plugin) : Prop :=
  st'.fixed = st.fixed ∧ LogQuiet st st' ∧ st'.fMidiEventCount = st.fMidiEventCount ∧
  st'.fMidiEvents = st.fMidiEvents

/-- The slot contents an input event of the port is queued as when the array has room, or
`none` when the event is not queueable under the options `opts`; `deltaFrames` is the time
stamp it gets. -/
def queuedForm (opts : Options) (deltaFrames : Nat) (event : EngineEvent) :
    Option VstMidiEvent :=
  match event.body with
  | .null => none
  | .control ctrlEvent =>
    match ctrlEvent.type with
    | .parameter =>
      if opts.sendControlChanges ∧ ctrlEvent.param ≤ 0x5F then
        some { type := kVstMidiType, byteSize := sizeofVstMidiEvent, deltaFrames := deltaFrames,
               midiData0 := (MIDI_STATUS_CONTROL_CHANGE + event.channel) % 256,
               midiData1 := ctrlEvent.param,
               midiData2 := floatToByte (ctrlEvent.value * 127) }
      else none
    | .allSoundOff =>
      if opts.sendAllSoundOff then
        some { type := kVstMidiType, byteSize := sizeofVstMidiEvent, deltaFrames := deltaFrames,
               midiData0 := (MIDI_STATUS_CONTROL_CHANGE + event.channel) % 256,
               midiData1 := MIDI_CONTROL_ALL_SOUND_OFF, midiData2 := 0 }
      else none
    | .allNotesOff =>
      if opts.sendAllSoundOff then
        some { type := kVstMidiType, byteSize := sizeofVstMidiEvent, deltaFrames := deltaFrames,
               midiData0 := (MIDI_STATUS_CONTROL_CHANGE + event.channel) % 256,
               midiData1 := MIDI_CONTROL_ALL_NOTES_OFF, midiData2 := 0 }
      else none
    | _ => none
  | .midi midiEvent =>
    let status := MIDI_GET_STATUS_FROM_DATA midiEvent.data0
    if MIDI_IS_STATUS_AFTERTOUCH status ∧ ¬ opts.sendChannelPressure then none
    else if MIDI_IS_STATUS_CONTROL_CHANGE status ∧ ¬ opts.sendControlChanges then none
    else if MIDI_IS_STATUS_POLYPHONIC_AFTERTOUCH status ∧ ¬ opts.sendNoteAftertouch then none
    else if MIDI_IS_STATUS_PITCH_WHEEL_CONTROL status ∧ ¬ opts.sendPitchbend then none
    else
      some { type := kVstMidiType, byteSize := sizeofVstMidiEvent, deltaFrames := deltaFrames,
             midiData0 := (fixBadNoteOff status midiEvent.data2 + event.channel) % 256,
             midiData1 := midiEvent.data1, midiData2 := midiEvent.data2 }

/-- Queueing `v` when there is one and the array of `cap` slots has room. -/
def enqueue (cap : Nat) (st : Plugin) (v : Option VstMidiEvent) : Plugin :=
  match v with
  | some ev => if st.fMidiEventCount ≥ cap then st else appendMidiEvent st ev
  | none => st

/-- `st'` differs from `st` by queueing `v` (when there is one and the array has room), up to
changes that keep the fixed configuration and the event array and add quiet log entries. -/
def EnqueueFrame (cap : Nat) (v : Option VstMidiEvent) (st st' : Plugin) : Prop :=
  st'.fixed = st.fixed ∧ LogQuiet st st' ∧
  st'.fMidiEventCount = (enqueue cap st v).fMidiEventCount ∧
  st'.fMidiEvents = (enqueue cap st v).fMidiEvents

/-! ## The sub-calls of a block, as a function of its events

A description of the event loop of `process` by plain list functions, for the blocks in which
every `processSingle` takes the lock: which sub-calls are made, and with which events. -/

/-- Appending a queueable event to a queue of capacity `cap`: dropped when the queue is full. -/
def pushCap (cap : Nat) (q : List VstMidiEvent) (v : Option VstMidiEvent) : List VstMidiEvent :=
  if q.length ≥ cap then q else q ++ v.toList

/-- The slot contents a port event is queued as in a block whose sub-calls all succeed (the
running `startTime` is then 0), or `none` when it is not queueable. -/
def convEvent (opts : Options) (sampleAccurate : Bool) (e : EngineEvent) : Option VstMidiEvent :=
  queuedForm opts (deltaFramesOf sampleAccurate 0 e.time) e

/-- The sub-calls made by the event loop from split offset `t` and queue `q` over the port
events `events`, and the split offset and queue it ends with. -/
def segCalls (cap : Nat) (opts : Options) (frames : Nat) (sampleAccurate : Bool) :
    Nat → List VstMidiEvent → List EngineEvent → List SubCall × Nat × List VstMidiEvent
  | t, q, [] => ([], t, q)
  | t, q, e :: es =>
    if e.time ≥ frames then segCalls cap opts frames sampleAccurate t q es
    else if e.time > t ∧ sampleAccurate then
      let r := segCalls cap opts frames sampleAccurate e.time
        (pushCap cap [] (convEvent opts sampleAccurate e)) es
      (⟨t, e.time - t, q⟩ :: r.1, r.2)
    else segCalls cap opts frames sampleAccurate t
      (pushCap cap q (convEvent opts sampleAccurate e)) es

/-- The sub-calls of a whole block with an event input port: those of the event loop, then the
final one over the rest of the block. -/
def blockCalls (cap : Nat) (opts : Options) (frames : Nat) (sampleAccurate : Bool)
    (q0 : List VstMidiEvent) (events : List EngineEvent) : List SubCall :=
  let r := segCalls cap opts frames sampleAccurate 0 q0 events
  r.1 ++ (if frames > r.2.1 then [⟨r.2.1, frames - r.2.1, r.2.2⟩] else [])

/-- Every `processSingle` of the block finds the processing lock free, or the engine is
offline (and waits for it). -/
def LockFree (eng : Engine) (blk : Block) : Prop :=
  eng.isOffline = true ∨ ∀ n, blk.singleMutexHeld n = false

/-- The state of an active block when its event section starts: the event array cleared, the
reset handled, the time info set. -/
def blockStart (eng : Engine) (st : Plugin) : Plugin :=
  setTimeInfo eng (processReset (clearEventArray eng st))

/-- What the description of the event loop tracks of a loop state `s`: the fixed
configuration `F`, a zero `startTime`, whether there are output buffers, the split offset `t`,
the queued events `q`, and the sub-calls `calls` that the log shows since the log `L0`. -/
def Tracks (L0 : List Call) (F : Fixed) (hasOut : Bool) (s : EventLoop) (t : Nat)
    (q : List VstMidiEvent) (calls : List SubCall) : Prop :=
  s.st.fixed = F ∧ s.startTime = 0 ∧ s.out.isSome = hasOut ∧ s.timeOffset = t ∧
  queuedEvents s.st = q ∧
  ∃ added : List Call, s.st.log = L0 ++ added ∧ pendingAfter [] added = [] ∧
    subCallsFrom [] added = calls

/-- The frame ranges `(offset, length)` in `l` are consecutive from `a` to `b`: the first
starts at `a`, each has positive length, each next one starts where the previous one ends,
and the last ends at `b`. -/
def Tiles : Nat → Nat → List (Nat × Nat) → Prop
  | a, b, [] => a = b
  | a, b, (o, l) :: rest => o = a ∧ 0 < l ∧ Tiles (a + l) b rest

/-- The frame range `(offset, length)` of a sub-call. -/
def SubCall.range (c : SubCall) : Nat × Nat := (c.timeOffset, c.frames)

/-- Whether frame `k` lies in the range `[offset, offset + length)`. -/
def inRange (k : Nat) (r : Nat × Nat) : Bool := decide (r.1 ≤ k ∧ k < r.1 + r.2)

/-- Pushing a list of candidate events into a queue of capacity `cap`, in order. -/
def pushAll (cap : Nat) (q : List VstMidiEvent) (vs : List (Option VstMidiEvent)) :
    List VstMidiEvent :=
  vs.foldl (pushCap cap) q

/-- The `(offset, events)` records of a segmentation: those of the finished sub-calls followed
by that of the pending one. -/
def segRecords (r : List SubCall × Nat × List VstMidiEvent) : List (Nat × List VstMidiEvent) :=
  r.1.map (fun c => (c.timeOffset, c.events)) ++ [(r.2.1, r.2.2)]

/-- The port events with time exactly `o`, in their queued form, in port order. -/
def eventsAt (opts : Options) (sampleAccurate : Bool) (o : Nat) (es : List EngineEvent) :
    List (Option VstMidiEvent) :=
  (es.filter (fun e => decide (e.time = o))).map (convEvent opts sampleAccurate)

/-- A note-on event of the input port at frame `t` (channel 0, note 60, velocity 100). -/
def noteOnAt (t : Nat) : EngineEvent :=
  { time := t, channel := 0, body := .midi { data0 := 0x90, data1 := 60, data2 := 100 } }

/-- State of the splitting example: an active adapter with an event input port and no audio
ports. -/
def splitExampleState : Plugin := { active := true, hasEventIn := true }

/-- Block of the splitting example: note-on events at frames 0, 10 and 37. -/
def splitExampleBlock : Block := { events := [noteOnAt 0, noteOnAt 10, noteOnAt 37] }

/-- A block with one note-on at frame 0 and 1024 note-ons at frame 1. -/
def capExampleBlock : Block :=
  { events := noteOnAt 0 :: List.replicate 1024 (noteOnAt 1) }

/-- State of the capacity example: an active adapter with an event input port and the
FIXED_BUFFER option set. -/
def fixedExampleState : Plugin :=
  { active := true, hasEventIn := true, fOptions := { fixedBuffer := true } }

/-- Closed form of the dry/wet stage: the value of sample `k` of output channel `i` after it,
from the plugin output `out`. -/
def dryWetMix (st : Plugin) (inBuffer out : Buffers) (doDryWet : Bool) (i k : Nat) : Sample :=
  if doDryWet then
    out i k * st.postProc.dryWet
      + inBuffer (if st.audioInCount = 1 then 0 else i) k * (1 - st.postProc.dryWet)
  else out i k

/-- Closed form of the balance stage for channel `i`, from the plugin output `out`: an even
(left) channel mixes its own dry/wet value with the plugin output of channel `i + 1`, an odd
(right) channel mixes its own dry/wet value with the dry/wet value of channel `i - 1`. -/
def balanceMix (st : Plugin) (inBuffer out : Buffers) (doDryWet doBalance : Bool) (i k : Nat) :
    Sample :=
  if doBalance then
    if i % 2 = 0 then
      dryWetMix st inBuffer out doDryWet i k * (1 - (st.postProc.balanceLeft + 1) / 2)
        + out (i + 1) k * (1 - (st.postProc.balanceRight + 1) / 2)
    else
      dryWetMix st inBuffer out doDryWet i k * ((st.postProc.balanceRight + 1) / 2)
        + dryWetMix st inBuffer out doDryWet (i - 1) k * ((st.postProc.balanceLeft + 1) / 2)
  else dryWetMix st inBuffer out doDryWet i k

/-- Closed form of the post-processing: the value of sample `k` of channel `i` after it. -/
def postValue (st : Plugin) (inBuffer out : Buffers) (frames timeOffset : Nat)
    (doVolume doDryWet doBalance : Bool) (i k : Nat) : Sample :=
  if i < st.audioOutCount ∧ timeOffset ≤ k ∧ k < timeOffset + frames then
    if doVolume then balanceMix st inBuffer out doDryWet doBalance i k * st.postProc.volume
    else balanceMix st inBuffer out doDryWet doBalance i k
  else out i k

/-- The plugin output of a successful `processSingle`: the buffers as the foreign process call
leaves them, before the post-processing. -/
def rawOutput (fx : AEffect) (eng : Engine) (st : Plugin) (inBuffer outBuffer : Buffers)
    (frames timeOffset : Nat) : Buffers :=
  (runPlugin fx eng (sendQueuedEvents fx (lockSingle st)) inBuffer outBuffer frames timeOffset).2

/-- The state in which the post-processing of a successful `processSingle` runs. -/
def postState (fx : AEffect) (eng : Engine) (st : Plugin) (inBuffer outBuffer : Buffers)
    (frames timeOffset : Nat) : Plugin :=
  (runPlugin fx eng (sendQueuedEvents fx (lockSingle st)) inBuffer outBuffer frames timeOffset).1

/-- State of the balance example: two output channels, balance capability, full left. -/
def balanceExampleState : Plugin :=
  { audioOutCount := 2, fHints := { canBalance := true, canProcessReplacing := true },
    postProc := { balanceLeft := -1, balanceRight := -1 } }

/-- Module of the balance example: writes 3 to channel 0 and 5 to channel 1. -/
def balanceExampleFx : AEffect :=
  { processOut := fun _ _ _ _ => fun i _ => if i = 0 then 3 else 5 }

/-- State of the program-index example: three programs, the first one current. -/
def progBugState : Plugin := { prog := { count := 3, current := 0, names := ["a", "b", "c"] } }

/-- The precedence table for the current program as the specification words it, with
"had none" and "had some" read off the old program count. -/
def specProgramPrecedence (old : Nat) (cur : Int) (new : Nat) : Int :=
  if new = old + 1 then old
  else if old = 0 ∧ new > 0 then 0
  else if old > 0 ∧ new = 0 then -1
  else if cur ≥ new then 0
  else cur

/-- The precedence table as `reloadPrograms` implements it: "had none" and "had some" are read
off the old current index. -/
def codeProgramPrecedence (old : Nat) (cur : Int) (new : Nat) : Int :=
  if new = old + 1 then old
  else if cur < 0 ∧ new > 0 then 0
  else if cur ≥ 0 ∧ new = 0 then -1
  else if cur ≥ new then 0
  else cur

/-- Start state of the C1 examples: three programs, none selected. -/
def progExampleState : Plugin :=
  { prog := { count := 3, current := -1, names := ["a", "b", "c"] } }

/-- A module of the C1 examples that reports three programs. -/
def progExampleFx : AEffect := { numPrograms := 3 }

/-- State of the C2 example: one parameter with range `[0, 1]`. -/
def paramExampleState : Plugin :=
  { param := { count := 1, data := [{}], ranges := [{ min := 0, max := 1 }] } }

/-- A module of the C10 example: one input, two outputs. -/
def hintsExampleFx : AEffect := { numInputs := 1, numOutputs := 2 }

/-- The descriptor invariant of a stored range: `min < max` and `min ≤ def ≤ max`. -/
def ParameterRanges.WellFormed (r : ParameterRanges) : Prop :=
  r.min < r.max ∧ r.min ≤ r.«def» ∧ r.«def» ≤ r.max

/-- State of the C5 example: two output channels, the processing lock held. -/
def lockExampleState : Plugin := { audioOutCount := 2, singleMutexLocked := true }

/-- State of the inactive example: an inactive adapter with two output channels, a queued
event and a pending reset. -/
def inactiveExampleState : Plugin :=
  { active := false, audioOutCount := 2, fMidiEventCount := 1, needsReset := true }

/-- State of the dry/wet example: one input, one output, dry/wet capability, dry/wet 0. -/
def dryWetExampleState : Plugin :=
  { audioInCount := 1, audioOutCount := 1,
    fHints := { canDryWet := true, canProcessReplacing := true },
    postProc := { dryWet := 0 } }

/-- State of the post-processing order example: a stereo adapter with all three capabilities,
dry/wet 1/2, balance pair `(-1, -1)` and volume 2. -/
def orderExampleState : Plugin :=
  { audioInCount := 2, audioOutCount := 2,
    fHints := { canDryWet := true, canBalance := true, canVolume := true,
                canProcessReplacing := true },
    postProc := { dryWet := 1 / 2, balanceLeft := -1, balanceRight := -1, volume := 2 } }

/-- The dry/wet mix as the specification words it: `out * d + in * (1 - d)`. -/
def specDryWet (d out inp : Sample) : Sample := out * d + inp * (1 - d)

/-- The left output of a stereo pair as the specification words the order of the
post-processing: volume applied to the balance of the dry/wet-mixed pair, where the balance
reads the dry/wet-mixed signal of both channels. -/
def specPostLeft (d bl br vol L R inL inR : Sample) : Sample :=
  vol * (specDryWet d L inL * (1 - (bl + 1) / 2) + specDryWet d R inR * (1 - (br + 1) / 2))

/-- The right output of a stereo pair as the specification words the order of the
post-processing. -/
def specPostRight (d bl br vol L R inL inR : Sample) : Sample :=
  vol * (specDryWet d R inR * ((br + 1) / 2) + specDryWet d L inL * ((bl + 1) / 2))

/-- A MIDI-typed event a module hands to `audioMasterProcessEvents`. -/
def outExampleEvent : VstMidiEvent :=
  { type := kVstMidiType, byteSize := sizeofVstMidiEvent, deltaFrames := 0, midiData0 := 0x90,
    midiData1 := 60,
    midiData2 := 100 }

/-- State of the full-array example: enabled, inside a process call, with an output event port,
and the event array full (1024 queued events). -/
def fullArrayState : Plugin :=
  { fEnabled := true, fIsProcessing := true, hasEventOut := true, fMidiEventCount := 1024 }

/-- State of the accepted-submission example: as `fullArrayState` with an empty event array. -/
def emptyArrayState : Plugin :=
  { fEnabled := true, fIsProcessing := true, hasEventOut := true, fMidiEventCount := 0 }

/-- The dispatches of `deactivate`: stop-process, then mains-off. -/
def deactivateCalls : List Call :=
  [Call.dispatch .effStopProcess 0 0 .null 0, Call.dispatch .effMainsChanged 0 0 .null 0]

/-- The dispatches of `activate`: mains-on, then start-process. -/
def activateCalls : List Call :=
  [Call.dispatch .effMainsChanged 0 1 .null 0, Call.dispatch .effStartProcess 0 0 .null 0]

/-- The notifications of `bufferSizeChanged(n)`. -/
def bufferSizeCalls (eng : Engine) (n : Nat) : List Call :=
  [Call.dispatch .effSetBlockSizeAndSampleRate 0 n .null eng.sampleRate,
   Call.dispatch .effSetBlockSize 0 n .null 0]

/-- The notifications of `sampleRateChanged(r)`. -/
def sampleRateCalls (eng : Engine) (r : Sample) : List Call :=
  [Call.dispatch .effSetBlockSizeAndSampleRate 0 eng.bufferSize .null r,
   Call.dispatch .effSetSampleRate 0 0 .null r]

/-- State of the activation examples: an active adapter with a loaded module. -/
def activeExampleState : Plugin := { active := true }

/-- The value of a mains-changed dispatch (`effMainsChanged`: 1 switches the module on, 0
off); `none` for every other log entry. -/
def mainsValue : Call → Option Int
  | .dispatch op _ v _ _ => if op = .effMainsChanged then some v else none
  | _ => none

/-- The values of the mains-changed dispatches of a log, oldest first. -/
def mainsTrace (log : List Call) : List Int := log.filterMap mainsValue

/-- `st'` has the active flag and the module of `st`, and its log is the log of `st` followed
by entries whose mains-changed dispatches have the values `tr`. -/
def MainsFrame (tr : List Int) (st st' : Plugin) : Prop :=
  st'.active = st.active ∧ st'.hasEffect = st.hasEffect ∧
  ∃ added : List Call, st'.log = st.log ++ added ∧ mainsTrace added = tr

/-- State of the reload example: an inactive adapter with a loaded module. -/
def inactiveLoadedState : Plugin := { active := false }

/-- Whether a log entry is a set-chunk dispatch. -/
def Call.isSetChunk : Call → Bool
  | .dispatch op _ _ _ _ => decide (op = .effSetChunk)
  | _ => false

/-- A module of the chunk example: its state blob is the three bytes of "Man". -/
def chunkExampleFx : AEffect :=
  { chunk := fun _ => [77, 97, 110], dispatchRet := fun _ _ => 3 }

/-- The operations of an adapter between construction and teardown. -/
inductive AdapterOp where
  | setParameterValue (parameterId : Nat) (value : Sample) (sendGui sendOsc sendCallback : Bool)
  | setChunkData (stringData : String)
  | setProgram (index : Int) (sendGui sendOsc sendCallback : Bool)
  | showGuiOff
  | reload
  | reloadPrograms (init : Bool)
  | activate
  | deactivate
  | process (blk : Block) (inBuffer outBuffer : Option Buffers) (frames : Nat)
  | bufferSizeChanged (newBufferSize : Nat)
  | sampleRateChanged (newSampleRate : Sample)
  | chunkData
  | masterCallback (c : MasterCall)

/-- The adapter state after an operation. -/
def AdapterOp.run (fromBase64 : String → List Nat) (fx : AEffect) (eng : Engine) :
    AdapterOp → Plugin → Plugin
  | .setParameterValue id v a b c, st => Carla.setParameterValue st id v a b c
  | .setChunkData s, st => Carla.setChunkData fromBase64 fx eng st s
  | .setProgram i a b c, st => Carla.setProgram fx st i a b c
  | .showGuiOff, st => Carla.showGuiOff fx st
  | .reload, st => Carla.reload fx eng st
  | .reloadPrograms init, st => Carla.reloadPrograms fx st init
  | .activate, st => Carla.activate fx st
  | .deactivate, st => Carla.deactivate fx st
  | .process blk i o n, st => (Carla.process fx eng blk st i o n).1
  | .bufferSizeChanged n, st => Carla.bufferSizeChanged fx eng st n
  | .sampleRateChanged r, st => Carla.sampleRateChanged fx eng st r
  | .chunkData, st => (Carla.chunkData fx st).1
  | .masterCallback c, st => (handleAudioMasterCallback fx eng st c).1

/-- The master-callback opcodes the trampoline answers itself, without looking for an
adapter. Every other opcode is instance-level. -/
def MasterOpcode.isGlobal : MasterOpcode → Bool
  | .audioMasterVersion | .audioMasterGetVendorString | .audioMasterGetProductString
  | .audioMasterGetVendorVersion | .audioMasterCanDo | .audioMasterGetLanguage => true
  | _ => false

/-- World of the trampoline examples: the adapter at address 1 is torn down, the effect at
address 10 still points back to it, and no adapter is being initialised. -/
def staleWorld : World :=
  { adapters := fun a => if a = 1 then destruct {} (construct 7) else construct 9
    effectOf := fun _ => 0
    resvd1 := fun e => if e = 10 then 1 else 0
    module := fun _ => {} }

/-- World of the trampoline counterexample: as `staleWorld`, while the adapter at address 2 is
being initialised (`sLastVstPlugin` points to it). -/
def staleWorldDuringInit : World := { staleWorld with sLastVstPlugin := 2 }

/-- The adapter state after a sequence of operations, first to last. -/
def runOps (fromBase64 : String → List Nat) (fx : AEffect) (eng : Engine)
    (ops : List AdapterOp) (st : Plugin) : Plugin :=
  ops.foldl (fun s op => op.run fromBase64 fx eng s) st

/-- State of the balance control example: control channel 0, balance capability. -/
def balanceCtrlState : Plugin := { ctrlChannel := 0, fHints := { canBalance := true } }

/-- State of the identity example: two outputs, two inputs, every capability, the
post-processing values at their defaults. -/
def identityExampleState : Plugin :=
  { audioInCount := 2, audioOutCount := 2,
    fHints := { canDryWet := true, canVolume := true, canBalance := true,
                canProcessReplacing := true } }

/-- Whether a raw MIDI message with status `status` is dropped under the options `opts`: a
channel-aftertouch, control-change, polyphonic-aftertouch or pitch-bend message whose send
option is disabled. -/
def rawMidiFiltered (opts : Options) (status : Nat) : Prop :=
  (MIDI_IS_STATUS_AFTERTOUCH status = true ∧ opts.sendChannelPressure = false) ∨
  (MIDI_IS_STATUS_CONTROL_CHANGE status = true ∧ opts.sendControlChanges = false) ∨
  (MIDI_IS_STATUS_POLYPHONIC_AFTERTOUCH status = true ∧ opts.sendNoteAftertouch = false) ∨
  (MIDI_IS_STATUS_PITCH_WHEEL_CONTROL status = true ∧ opts.sendPitchbend = false)

/-- A note-on with velocity 0 on channel 3 at frame 5. -/
def zeroVelocityNoteOn : EngineEvent :=
  { time := 5, channel := 3, body := .midi { data0 := 0x90, data1 := 60, data2 := 0 } }

/-- State of the reset example: active, reset pending, all-sound-off option set. -/
def resetExampleState : Plugin :=
  { active := true, needsReset := true, fOptions := { sendAllSoundOff := true } }

/-- The input channel that the dry/wet stage of `processSingle` reads for output channel `i`:
`(pData->audioIn.count == 1) ? 0 : i`. -/
def dryWetInputChannel (st : Plugin) (i : Nat) : Nat := if st.audioInCount = 1 then 0 else i

/-- The processing section of an active, enabled block, run from the state `blockStart`: the
event section when there is an event input port, else the single `processSingle`. -/
def blockBody (fx : AEffect) (eng : Engine) (blk : Block) (st : Plugin)
    (inBuffer outBuffer : Option Buffers) (frames : Nat) : Plugin × Option Buffers :=
  if (blockStart eng st).hasEventIn then
    processWithEvents fx eng blk (blockStart eng st) inBuffer outBuffer frames
  else
    ((processSingle fx eng (withLockState (blk.singleMutexHeld 0) (blockStart eng st))
        inBuffer outBuffer frames 0).1,
      (processSingle fx eng (withLockState (blk.singleMutexHeld 0) (blockStart eng st))
        inBuffer outBuffer frames 0).2.1)

/-- The loop state in which the event loop of a block starts. -/
def loopStart (eng : Engine) (blk : Block) (st : Plugin) (outBuffer : Option Buffers) :
    EventLoop :=
  { st := processExtNotes eng blk (blockStart eng st), out := outBuffer }

/-- The loop state of a block after the first `n` events of the input port. -/
def loopAfter (fx : AEffect) (eng : Engine) (blk : Block) (st : Plugin)
    (inBuffer outBuffer : Option Buffers) (frames n : Nat) : EventLoop :=
  eventLoop fx eng blk inBuffer frames
    (!(processExtNotes eng blk (blockStart eng st)).fOptions.fixedBuffer)
    (blk.events.take n) (loopStart eng blk st outBuffer)

/-- What a sub-call leaves of the event array of `cap` slots: the count, the queued input
events below it, and everything from slot `cap` on. -/
def StoreFrame (cap : Nat) (a b : Plugin) : Prop :=
  b.fMidiEventCount = a.fMidiEventCount ∧
  ∀ j, (j < a.fMidiEventCount ∨ cap ≤ j) → b.fMidiEvents j = a.fMidiEvents j

/-- The invariant of the event array of `cap` slots during a block: the count is at most
`cap` and the slots from `cap` on are as in `arr`. -/
def QueueBound (cap : Nat) (arr : Nat → VstMidiEvent) (st : Plugin) : Prop :=
  st.fMidiEventCount ≤ cap ∧ ∀ j, cap ≤ j → st.fMidiEvents j = arr j

/-- What the event loop keeps of the sample position in a block whose sub-calls all succeed:
it is the position `base` of the block start plus the split offset. -/
def TimeTracks (base : Sample) (F : Fixed) (o : Bool) (frames : Nat) (s : EventLoop) : Prop :=
  s.st.fTimeInfo.samplePos = base + s.timeOffset ∧ s.st.fixed = F ∧ s.out.isSome = o ∧
  (s.timeOffset = 0 ∨ s.timeOffset < frames)

/-- The entries of a submitted event list that the loop of `audioMasterProcessEvents` stores:
the MIDI-typed ones, up to the first null entry. -/
def midiTyped : List (Option VstMidiEvent) → List VstMidiEvent
  | [] => []
  | none :: _ => []
  | some ev :: rest => if ev.type ≠ kVstMidiType then midiTyped rest else ev :: midiTyped rest

/-- The events that one master callback submits as far as `audioMasterProcessEvents` looks at
them: for an event submission, the MIDI-typed ones among the first `cap` entries of the list,
up to the first null entry. -/
def submittedBy (cap : Nat) (c : MasterCall) : List VstMidiEvent :=
  if c.opcode = .audioMasterProcessEvents then
    match c.ptr with
    | .events evs => midiTyped (evs.take cap)
    | _ => []
  else []

/-- The write to the output event port that forwards the stored event `ev`. -/
def forwardedAs (ev : VstMidiEvent) : MidiOutWrite :=
  ⟨ev.deltaFrames, MIDI_GET_CHANNEL_FROM_DATA ev.midiData0, ev.midiData0, ev.midiData1,
    ev.midiData2⟩

/-- The output events `outs` sit at the top of the event array of `cap` slots, the first one
in slot `cap - 1`, and the slots between the queued input events and them are free. -/
def OutTop (cap : Nat) (outs : List VstMidiEvent) (st : Plugin) : Prop :=
  (∀ e ∈ outs, e.type = kVstMidiType) ∧
  (∀ i, i < outs.length → outs[i]? = some (st.fMidiEvents (cap - 1 - i))) ∧
  (∀ j, st.fMidiEventCount ≤ j → j + outs.length < cap → (st.fMidiEvents j).type = 0)

/-- Whether a log entry is a foreign process call. -/
def Call.isProcessCall : Call → Bool
  | .processReplacing _ _ => true
  | .process _ _ => true
  | _ => false

/-- The master callbacks that the module issued from inside the foreign process calls among
the log entries `added`, which follow the log `pre`: a process call made at history `h` is
answered by `fx.processCallbacks h`. -/
def callbacksOf (fx : AEffect) : List Call → List Call → List MasterCall
  | _, [] => []
  | pre, c :: rest =>
    (if c.isProcessCall then fx.processCallbacks (pre ++ [c]) else [])
      ++ callbacksOf fx (pre ++ [c]) rest

/-- The events submitted by a list of master callbacks, in order. -/
def submittedAll (cap : Nat) : List MasterCall → List VstMidiEvent
  | [] => []
  | c :: cs => submittedBy cap c ++ submittedAll cap cs

/-- The events that the module submitted during the log entries `added` after the log
`pre`. -/
def submittedIn (fx : AEffect) (cap : Nat) (pre added : List Call) : List VstMidiEvent :=
  submittedAll cap (callbacksOf fx pre added)

/-- Every hand-over of queued input events recorded in `added` has at most `n` events. -/
def QueueWithin (n : Nat) (added : List Call) : Prop :=
  ∀ evs, Call.dispatch .effProcessEvents 0 0 (.events evs) 0 ∈ added → evs.length ≤ n

/-- The invariant of the output events of a block that started with the log `L0`: as long as
the queue has held at most `n` input events and the module has submitted at most `m` output
events, the submitted events sit at the top of the event array. -/
def OutInv (fx : AEffect) (cap n m : Nat) (L0 : List Call) (st : Plugin) : Prop :=
  ∃ added, st.log = L0 ++ added ∧
    (QueueWithin n added → st.fMidiEventCount ≤ n → (submittedIn fx cap L0 added).length ≤ m →
      OutTop cap (submittedIn fx cap L0 added) st)

/-- A system-exclusive typed event (`kVstSysExType = 6`), which is not MIDI-typed. -/
def sysexExampleEvent : VstMidiEvent :=
  { type := 6, byteSize := 32, deltaFrames := 0, midiData0 := 0, midiData1 := 0,
    midiData2 := 0 }

/-- A module that submits, in every process call, one list of 1025 events: 1024 events that
are not MIDI-typed, then one MIDI-typed event. -/
def overlongExampleFx : AEffect :=
  { processCallbacks := fun _ =>
      [{ opcode := .audioMasterProcessEvents,
         ptr := .events (List.replicate 1024 (some sysexExampleEvent) ++ [some outExampleEvent]) }] }

/-- A module that submits, in every process call, a note-on, an event that is not MIDI-typed
and a note-off. -/
def submitExampleFx : AEffect :=
  { processCallbacks := fun _ =>
      [{ opcode := .audioMasterProcessEvents,
         ptr := .events [some outExampleEvent, some sysexExampleEvent,
           some { outExampleEvent with midiData0 := 0x81 }] }] }

/-- State of the MIDI output examples: active, with an output event port. -/
def outPortExampleState : Plugin := { active := true, hasEventOut := true }

/-- The loop invariant for the output events of a block. -/
def OutLoop (fx : AEffect) (cap n m : Nat) (L0 : List Call) (F : Fixed) (s : EventLoop) :
    Prop :=
  s.st.fixed = F ∧ OutInv fx cap n m L0 s.st

/-- The submission of one list of 1024 MIDI-typed events. -/
def floodSubmission : MasterCall :=
  { opcode := .audioMasterProcessEvents,
    ptr := .events (List.replicate 1024 (some outExampleEvent)) }

/-- The submission of one MIDI-typed event. -/
def extraSubmission : MasterCall :=
  { opcode := .audioMasterProcessEvents, ptr := .events [some outExampleEvent] }

/-- A module that submits, in every process call, one list of 1024 MIDI-typed events. -/
def floodExampleFx : AEffect :=
  { processCallbacks := fun _ =>
      [floodSubmission] }

/-- A module that submits, in every process call, one list of 1024 MIDI-typed events and then
one more MIDI-typed event. -/
def floodTwiceExampleFx : AEffect :=
  { processCallbacks := fun _ =>
      [floodSubmission,
       extraSubmission] }

/-- One `processSingle` call of a block: its number within the block, the frame offset and
frame count it is called with, whether it returned true, and the output buffers when it
returns. -/
structure Attempt where
  index : Nat
  timeOffset : Nat
  frames : Nat
  ok : Bool
  out : Option Buffers

/-- The `processSingle` call that the block makes in loop state `s` for the frames up to
`time`. -/
def attemptAt (fx : AEffect) (eng : Engine) (blk : Block) (inBuffer : Option Buffers)
    (time : Nat) (s : EventLoop) : Attempt :=
  { index := s.attempts, timeOffset := s.timeOffset, frames := time - s.timeOffset
    ok := (processSingle fx eng (withLockState (blk.singleMutexHeld s.attempts) s.st)
      inBuffer s.out (time - s.timeOffset) s.timeOffset).2.2
    out := (processSingle fx eng (withLockState (blk.singleMutexHeld s.attempts) s.st)
      inBuffer s.out (time - s.timeOffset) s.timeOffset).2.1 }

/-- The `processSingle` calls made by the event loop from loop state `s` over the port
events, in order: one before each event with `time < frames` that lies beyond the split
offset, when the block is split sample-accurately. -/
def loopAttempts (fx : AEffect) (eng : Engine) (blk : Block) (inBuffer : Option Buffers)
    (frames : Nat) (sampleAccurate : Bool) : List EngineEvent → EventLoop → List Attempt
  | [], _ => []
  | e :: es, s =>
    (if e.time < frames ∧ e.time > s.timeOffset ∧ sampleAccurate = true then
        [attemptAt fx eng blk inBuffer e.time s]
      else [])
      ++ loopAttempts fx eng blk inBuffer frames sampleAccurate es
        (eventStep fx eng blk inBuffer frames sampleAccurate s e)

/-- The `processSingle` calls of a block with an event input port, in order: those of the
event loop, then the final one over the rest of the block. -/
def blockAttempts (fx : AEffect) (eng : Engine) (blk : Block) (st : Plugin)
    (inBuffer outBuffer : Option Buffers) (frames : Nat) : List Attempt :=
  loopAttempts fx eng blk inBuffer frames
      (!(loopStart eng blk st outBuffer).st.fOptions.fixedBuffer) blk.events
      (loopStart eng blk st outBuffer)
    ++ (if frames > (loopAfter fx eng blk st inBuffer outBuffer frames blk.events.length).timeOffset
        then [attemptAt fx eng blk inBuffer frames
          (loopAfter fx eng blk st inBuffer outBuffer frames blk.events.length)]
        else [])

/-- The attempts `l` start at offset `t` and lead to the offset `t'`: each starts at the
running offset, is non-empty and ends before `frames`; a successful one moves the running
offset to its end, a failed one leaves it. -/
def Splits (frames : Nat) : Nat → List Attempt → Nat → Prop
  | t, [], t' => t = t'
  | t, a :: rest, t' =>
    a.timeOffset = t ∧ 0 < a.frames ∧ t + a.frames < frames ∧
      Splits frames (if a.ok then t + a.frames else t) rest t'

/-- Whether frame `k` lies in the frame range of the attempt `a`. -/
def Attempt.covers (a : Attempt) (k : Nat) : Prop :=
  a.timeOffset ≤ k ∧ k < a.timeOffset + a.frames

/-- What the event loop keeps for the attempts `l` made so far, in a block of `frames`
frames with non-null buffers: the fixed configuration `F`, the count of attempts, the chain
of split offsets, and for every frame before the split offset a successful attempt covering
it whose output is still in the buffers; an attempt succeeds exactly when it finds the lock
free or the engine is offline. -/
def CoverInv (eng : Engine) (blk : Block) (F : Fixed) (frames : Nat) (l : List Attempt)
    (s : EventLoop) : Prop :=
  s.st.fixed = F ∧ s.attempts = l.length ∧ Splits frames 0 l s.timeOffset ∧
  (s.timeOffset = 0 ∨ s.timeOffset < frames) ∧
  l.map Attempt.index = List.range l.length ∧
  (∀ a ∈ l, a.ok = true ↔ (eng.isOffline = true ∨ blk.singleMutexHeld a.index = false)) ∧
  ∃ o : Buffers, s.out = some o ∧
    ∀ i k, i < F.audioOutCount → k < s.timeOffset →
      ∃ a ∈ l, a.ok = true ∧ a.covers k ∧ ∃ oa : Buffers, a.out = some oa ∧ o i k = oa i k

/-- Block of the lock example: note-ons at frames 10 and 37; the lock is held at the first
and the third `processSingle` of the block and free at the second. -/
def lockPatternBlock : Block :=
  { events := [noteOnAt 10, noteOnAt 37], singleMutexHeld := fun n => decide (n ≠ 1) }

/-- Block of the all-held example: note-ons at frames 10 and 37, the lock held at every
`processSingle` of the block. -/
def lockHeldBlock : Block :=
  { events := [noteOnAt 10, noteOnAt 37], singleMutexHeld := fun _ => true }

/-- State of the lock examples: active, with an event input port and two audio outputs. -/
def lockPatternState : Plugin := { active := true, hasEventIn := true, audioOutCount := 2 }

/-! ## Floating-point arithmetic

The `float` arithmetic of the source and, over it, `processSingle` with its post-processing
block and the correction of the parameter ranges in `reload`. -/

/-- A value of the floating-point types of the source (`float`, `double`): NaN, one of the two
infinities, or a finite number, given by the rational it denotes. The two zeros, which compare
equal, are the one value `fin 0`, and NaN payloads are not told apart. Which finite numbers
belong to the `float` format is said by `CFloat.isBinary32`. The operations below are those of
IEEE 754 binary32 in the default rounding mode: each rounds its exact result to `float`
(no excess precision, no fused multiply-add). -/
inductive CFloat where
  | nan
  | inf (negative : Bool)
  | fin (q : ℚ)
deriving DecidableEq

/-- The power `2 ^ e` of two for an integer exponent. -/
def pow2 (e : Int) : ℚ :=
  if 0 ≤ e then ((2 ^ e.toNat : Nat) : ℚ) else 1 / ((2 ^ (-e).toNat : Nat) : ℚ)

/-- The binary logarithm of `n`, rounded down, by repeated halving (at most `fuel` times). -/
def log2Fuel : Nat → Nat → Nat
  | 0, _ => 0
  | fuel + 1, n => if n < 2 then 0 else log2Fuel fuel (n / 2) + 1

/-- The binary logarithm of a positive natural number, rounded down. -/
def floorLog2 (n : Nat) : Nat := log2Fuel n n

/-- The binary exponent of a positive rational `a`: the `e` with `2 ^ e ≤ a < 2 ^ (e + 1)`. -/
def binade (a : ℚ) : Int :=
  let e0 : Int := (floorLog2 a.num.natAbs : Int) - (floorLog2 a.den : Int)
  if pow2 e0 ≤ a then e0 else e0 - 1

/-- Rounding to the nearest integer, a tie going to the even one. -/
def nearestEven (x : ℚ) : Int :=
  let f := Rat.floor x
  let d := x - f
  if d < 1 / 2 then f else if d > 1 / 2 then f + 1 else if f % 2 = 0 then f else f + 1

/-- The binary32 rounding of a non-negative rational, before the overflow test: the nearest
multiple of the unit in the last place of its binade (24 significant bits, least exponent
-126, so subnormal numbers are multiples of `2 ^ (-149)`), ties to even. -/
def roundMag (a : ℚ) : ℚ :=
  let u := pow2 (max (binade a) (-126) - 23)
  (nearestEven (a / u) : ℚ) * u

/-- Negation of a floating-point value. -/
def CFloat.neg : CFloat → CFloat
  | .nan => .nan
  | .inf s => .inf (!s)
  | .fin q => .fin (-q)

/-- The binary32 rounding of a non-negative rational (round to nearest, ties to even): a
result of `2 ^ 128` or more is the infinity. -/
def roundPos (a : ℚ) : CFloat :=
  if pow2 128 ≤ roundMag a then .inf false else .fin (roundMag a)

/-- The `float` nearest to the rational `q`: the rounding every `float` operation and every
conversion to `float` applies to its exact result. -/
def round32 (q : ℚ) : CFloat :=
  if q < 0 then (roundPos (-q)).neg else roundPos q

/-- Whether the value belongs to the `float` format: NaN, the infinities and the finite
numbers the rounding leaves as they are. -/
def CFloat.isBinary32 : CFloat → Prop
  | .fin q => round32 q = .fin q
  | _ => True

/-- Whether the value is a finite number (neither NaN nor an infinity). -/
def CFloat.isFinite : CFloat → Bool
  | .fin _ => true
  | _ => false

/-- The `float` sum. -/
def CFloat.add : CFloat → CFloat → CFloat
  | .nan, _ => .nan
  | _, .nan => .nan
  | .inf a, .inf b => if a = b then .inf a else .nan
  | .inf a, .fin _ => .inf a
  | .fin _, .inf b => .inf b
  | .fin a, .fin b => round32 (a + b)

/-- The `float` difference. -/
def CFloat.sub (x y : CFloat) : CFloat := x.add y.neg

/-- The `float` product: an infinity times zero is NaN. -/
def CFloat.mul : CFloat → CFloat → CFloat
  | .nan, _ => .nan
  | _, .nan => .nan
  | .inf a, .inf b => .inf (a != b)
  | .inf a, .fin q => if q = 0 then .nan else .inf (a != decide (q < 0))
  | .fin q, .inf b => if q = 0 then .nan else .inf (decide (q < 0) != b)
  | .fin a, .fin b => round32 (a * b)

/-- The `float` quotient. A zero divisor is taken as the positive zero. -/
def CFloat.div : CFloat → CFloat → CFloat
  | .nan, _ => .nan
  | _, .nan => .nan
  | .inf _, .inf _ => .nan
  | .inf a, .fin q => .inf (a != decide (q < 0))
  | .fin _, .inf _ => .fin 0
  | .fin a, .fin b =>
    if b = 0 then (if a = 0 then .nan else .inf (decide (a < 0))) else round32 (a / b)

instance : Add CFloat := ⟨CFloat.add⟩
instance : Sub CFloat := ⟨CFloat.sub⟩
instance : Mul CFloat := ⟨CFloat.mul⟩
instance : Div CFloat := ⟨CFloat.div⟩
instance : Neg CFloat := ⟨CFloat.neg⟩
instance (n : Nat) : OfNat CFloat n := ⟨.fin n⟩

/-- The comparison `x <= y` of two `float`s: false when one of them is NaN. -/
def CFloat.le : CFloat → CFloat → Bool
  | .fin a, .fin b => decide (a ≤ b)
  | .inf true, .fin _ => true
  | .inf true, .inf _ => true
  | .fin _, .inf false => true
  | .inf false, .inf false => true
  | _, _ => false

/-- The comparison `x == y` of two `float`s: false when one of them is NaN. -/
def CFloat.eq : CFloat → CFloat → Bool
  | .fin a, .fin b => decide (a = b)
  | .inf a, .inf b => a == b
  | _, _ => false

/-- The comparison `x != y` of two `float`s: true when one of them is NaN. -/
def CFloat.ne (x y : CFloat) : Bool := !(x.eq y)

/-- Audio buffers (`float**`) holding `float` values: channel, then frame. -/
abbrev BuffersF := Nat → Nat → CFloat

/-- The post-processing values `pData->postProc` as the `float`s they are. -/
structure PostProcF where
  dryWet : CFloat := 1
  volume : CFloat := 1
  balanceLeft : CFloat := -1
  balanceRight : CFloat := 1

/-- The assignment `buf[i][k] = v` on `float` buffers. -/
def setSampleF (buf : BuffersF) (i k : Nat) (v : CFloat) : BuffersF :=
  Function.update buf i (Function.update (buf i) k v)

/-- Loop state of the post-processing in `float` arithmetic: the output buffers and the local
`oldBufLeft`. -/
structure PostStateF where
  out : BuffersF
  oldBufLeft : Nat → CFloat

/-- The dry/wet loop of the post-processing for output channel `i`, in `float` arithmetic. -/
def postDryWetF (st : Plugin) (pp : PostProcF) (inBuffer : BuffersF)
    (frames timeOffset i : Nat)
    (out : BuffersF) : BuffersF :=
  forRange frames (fun k out =>
    let bufValue := inBuffer (if st.audioInCount = 1 then 0 else i) (k + timeOffset)
    setSampleF out i (k + timeOffset)
      (out i (k + timeOffset) * pp.dryWet + bufValue * (1 - pp.dryWet))) out

/-- The balance block of the post-processing for output channel `i`, in `float`
arithmetic. -/
def postBalanceF (pp : PostProcF) (frames timeOffset i : Nat) (s : PostStateF) : PostStateF :=
  let isPair := i % 2 = 0
  let oldBufLeft : Nat → CFloat :=
    if isPair then fun k => if k < frames then s.out i (k + timeOffset) else s.oldBufLeft k
    else s.oldBufLeft
  let balRangeL := (pp.balanceLeft + 1) / 2
  let balRangeR := (pp.balanceRight + 1) / 2
  { out := forRange frames (fun k out =>
      if isPair then
        -- left
        let out := setSampleF out i (k + timeOffset) (oldBufLeft k * (1 - balRangeL))
        setSampleF out i (k + timeOffset)
          (out i (k + timeOffset) + out (i + 1) (k + timeOffset) * (1 - balRangeR))
      else
        -- right
        let out := setSampleF out i (k + timeOffset) (out i (k + timeOffset) * balRangeR)
        setSampleF out i (k + timeOffset) (out i (k + timeOffset) + oldBufLeft k * balRangeL))
      s.out
    oldBufLeft := oldBufLeft }

/-- The volume loop of the post-processing for output channel `i`, in `float` arithmetic. -/
def postVolumeF (pp : PostProcF) (frames timeOffset i : Nat) (out : BuffersF) : BuffersF :=
  forRange frames (fun k out =>
    setSampleF out i (k + timeOffset) (out i (k + timeOffset) * pp.volume)) out

/-- The body of the channel loop of the post-processing, in `float` arithmetic. -/
def postProcChannelF (st : Plugin) (pp : PostProcF) (inBuffer : BuffersF)
    (frames timeOffset : Nat) (doVolume doDryWet doBalance : Bool) (i : Nat) (s : PostStateF) :
    PostStateF :=
  -- Dry/Wet
  let s : PostStateF :=
    if doDryWet then { s with out := postDryWetF st pp inBuffer frames timeOffset i s.out }
    else s
  -- Balance
  let s : PostStateF := if doBalance then postBalanceF pp frames timeOffset i s else s
  -- Volume
  if doVolume then { s with out := postVolumeF pp frames timeOffset i s.out } else s

/-- The post-processing block of `processSingle` (dry/wet, volume and balance; the block
between `#ifndef BUILD_BRIDGE` and `End of Post-processing`) in `float` arithmetic: the port
counts and capability hints are those of the adapter state, the post-processing values and
the samples are `float`s. It runs on the buffers as the foreign process call has left
them. -/
def postProcessF (st : Plugin) (pp : PostProcF) (inBuffer outBuffer : BuffersF)
    (frames timeOffset : Nat) : BuffersF :=
  let doVolume : Bool := st.fHints.canVolume && pp.volume.ne 1
  let doDryWet : Bool := st.fHints.canDryWet && pp.dryWet.ne 1
  let doBalance : Bool := st.fHints.canBalance &&
    (pp.balanceLeft.ne (-1) || pp.balanceRight.ne 1)
  (forRange st.audioOutCount
    (postProcChannelF st pp inBuffer frames timeOffset doVolume doDryWet doBalance)
    { out := outBuffer, oldBufLeft := fun _ => 0 }).out

/-- The post-processing block in `float` arithmetic with the stages chosen by the flags
`doVolume`, `doDryWet` and `doBalance` instead of by the hints and values of the adapter. -/
def postProcessWithF (st : Plugin) (pp : PostProcF) (inBuffer outBuffer : BuffersF)
    (frames timeOffset : Nat) (doVolume doDryWet doBalance : Bool) : BuffersF :=
  (forRange st.audioOutCount
    (postProcChannelF st pp inBuffer frames timeOffset doVolume doDryWet doBalance)
    { out := outBuffer, oldBufLeft := fun _ => 0 }).out

/-- Closed form of the dry/wet stage: the value of sample `k` of output channel `i` after it,
from the plugin output `out`. -/
def dryWetMixF (st : Plugin) (pp : PostProcF) (inBuffer out : BuffersF) (doDryWet : Bool)
    (i k : Nat) : CFloat :=
  if doDryWet then
    out i k * pp.dryWet
      + inBuffer (if st.audioInCount = 1 then 0 else i) k * (1 - pp.dryWet)
  else out i k

/-- Closed form of the balance stage for channel `i`, from the plugin output `out`: an even
(left) channel mixes its own dry/wet value with the plugin output of channel `i + 1`, an odd
(right) channel mixes its own dry/wet value with the dry/wet value of channel `i - 1`. -/
def balanceMixF (st : Plugin) (pp : PostProcF) (inBuffer out : BuffersF)
    (doDryWet doBalance : Bool) (i k : Nat) : CFloat :=
  if doBalance then
    if i % 2 = 0 then
      dryWetMixF st pp inBuffer out doDryWet i k * (1 - (pp.balanceLeft + 1) / 2)
        + out (i + 1) k * (1 - (pp.balanceRight + 1) / 2)
    else
      dryWetMixF st pp inBuffer out doDryWet i k * ((pp.balanceRight + 1) / 2)
        + dryWetMixF st pp inBuffer out doDryWet (i - 1) k * ((pp.balanceLeft + 1) / 2)
  else dryWetMixF st pp inBuffer out doDryWet i k

/-- Closed form of the post-processing: the value of sample `k` of channel `i` after it. -/
def postValueF (st : Plugin) (pp : PostProcF) (inBuffer out : BuffersF)
    (frames timeOffset : Nat)
    (doVolume doDryWet doBalance : Bool) (i k : Nat) : CFloat :=
  if i < st.audioOutCount ∧ timeOffset ≤ k ∧ k < timeOffset + frames then
    if doVolume then balanceMixF st pp inBuffer out doDryWet doBalance i k * pp.volume
    else balanceMixF st pp inBuffer out doDryWet doBalance i k
  else out i k

/-- What a foreign process call leaves in `float` output buffers: the module writes the window
of `frames` samples starting at `timeOffset` of each of the `audioOutCount` channels it is
given. -/
def writeWindowF (audioOutCount frames timeOffset : Nat) (outBuffer window : BuffersF) :
    BuffersF :=
  fun i k =>
    if i < audioOutCount ∧ timeOffset ≤ k ∧ k < timeOffset + frames then window i (k - timeOffset)
    else outBuffer i k

/-- The silencing loop of `processSingle` when the lock is not acquired, on `float`
buffers. -/
def silenceRangeF (audioOutCount frames timeOffset : Nat) (outBuffer : BuffersF) : BuffersF :=
  forRange audioOutCount (fun i out =>
    forRange frames (fun k out => setSampleF out i (k + timeOffset) 0) out) outBuffer

/-- The plugin output of a successful `processSingleF`: the `float` buffers as the foreign
process call leaves them, before the post-processing. -/
def rawOutputF (st : Plugin) (outBuffer window : BuffersF) (frames timeOffset : Nat) :
    BuffersF :=
  writeWindowF st.audioOutCount frames timeOffset outBuffer window

/-- `VstPlugin::processSingle` on `float` buffers. The adapter state goes through the steps of
`processSingle`; `pp` holds the post-processing values `pData->postProc` as `float`s, and
`window` is what the foreign process call (the replacing entry, or the legacy entry
accumulating into the zeroed window) leaves in the window of the output channels: the module
is foreign code and may leave any `float`s there. -/
def processSingleF (fx : AEffect) (eng : Engine) (st : Plugin) (pp : PostProcF)
    (inBuffer outBuffer : Option BuffersF) (window : BuffersF) (frames timeOffset : Nat) :
    Plugin × Option BuffersF × Bool :=
  if frames = 0 then (st, outBuffer, false)
  else if st.audioInCount > 0 ∧ inBuffer.isNone then (st, outBuffer, false)
  else if st.audioOutCount > 0 ∧ outBuffer.isNone then (st, outBuffer, false)
  else
    -- Try lock, silence otherwise
    if ¬ eng.isOffline ∧ st.singleMutexLocked then
      (st, outBuffer.map (silenceRangeF st.audioOutCount frames timeOffset), false)
    else
      let st := lockSingle st
      let inB : BuffersF := inBuffer.getD (fun _ _ => 0)
      let outB : BuffersF := outBuffer.getD (fun _ _ => 0)
      -- Set MIDI events
      let st := sendQueuedEvents fx st
      -- Run plugin
      let st1 := enterProcess st frames timeOffset
      let st2 := runCallbacks fx eng (fx.processCallbacks st1.log) st1
      let st3 := leaveProcess st2 frames
      let raw := rawOutputF st outB window frames timeOffset
      -- Post-processing (dry/wet, volume and balance)
      let outB := postProcessF st3 pp inB raw frames timeOffset
      (unlockSingle st3, outBuffer.map (fun _ => outB), true)

/-- The state in which the post-processing of a successful `processSingleF` runs. -/
def postStateF (fx : AEffect) (eng : Engine) (st : Plugin) (frames timeOffset : Nat) : Plugin :=
  leaveProcess
    (runCallbacks fx eng
      (fx.processCallbacks (enterProcess (sendQueuedEvents fx (lockSingle st)) frames
        timeOffset).log)
      (enterProcess (sendQueuedEvents fx (lockSingle st)) frames timeOffset)) frames

@[simp] theorem dispatcher_prog (fx : AEffect) (st : Plugin) (op : EffOpcode) (i v : Int)
    (p : Payload) (o : Sample) : (dispatcher fx st op i v p o).1.prog = st.prog := by
  unfold dispatcher; split <;> rfl

theorem updateProgramNames_prog (fx : AEffect) (is : List Nat) (st : Plugin) :
    (updateProgramNames fx is st).prog.count = st.prog.count ∧
    (updateProgramNames fx is st).prog.current = st.prog.current := by
  induction is generalizing st with
  | nil => simp [updateProgramNames]
  | cons i is ih =>
    simp only [updateProgramNames]
    split <;> (refine ⟨(ih _).1.trans ?_, (ih _).2.trans ?_⟩ <;> simp)

theorem wrapU32_of_range (n : Int) (h0 : 0 ≤ n) (h1 : n < 4294967296) :
    ((wrapU32 n : Nat) : Int) = n := by
  unfold wrapU32
  rw [Int.emod_eq_of_lt h0 h1, Int.toNat_of_nonneg h0]

theorem toInt32_of_lt (n : Nat) (h : n < 2147483648) : toInt32 n = n := by
  unfold toInt32
  have : n % 4294967296 = n := Nat.mod_eq_of_lt (by omega)
  rw [this, if_pos h]

@[simp] theorem setProgram_prog_count (fx : AEffect) (st : Plugin) (index : Int)
    (a b c : Bool) : (setProgram fx st index a b c).prog.count = st.prog.count := by
  unfold setProgram baseSetProgram
  simp only
  split
  · split <;> simp
  · split
    · rfl
    · split <;> simp

theorem setProgram_prog_current (fx : AEffect) (st : Plugin) (index : Int) (a b c : Bool)
    (h1 : -1 ≤ index) (h2 : index ≤ toInt32 st.prog.count) :
    (setProgram fx st index a b c).prog.current = index := by
  unfold setProgram baseSetProgram
  simp only
  rw [if_neg (by omega), if_neg (by omega)]

theorem queryPrograms_prog (fx : AEffect) (st : Plugin) :
    (queryPrograms fx st).prog.count = wrapU32 fx.numPrograms ∧
    (queryPrograms fx st).prog.current = -1 := by
  unfold queryPrograms
  simp only
  split
  · exact ⟨(updateProgramNames_prog _ _ _).1, (updateProgramNames_prog _ _ _).2⟩
  · refine ⟨?_, rfl⟩
    simp only [PluginProgramData.clear]
    omega

theorem checkCurrentProgram_fst (old : Nat) (cur : Int) (new : Nat)
    (hold : old < 2147483648) (hnew : new < 2147483648) :
    (checkCurrentProgram old cur new).1 = codeProgramPrecedence old cur new := by
  unfold checkCurrentProgram codeProgramPrecedence
  rw [toInt32_of_lt old hold, toInt32_of_lt new hnew, Nat.mod_eq_of_lt (by omega)]
  split
  · rfl
  · split
    · rfl
    · split
      · rfl
      · split <;> rfl

theorem checkCurrentProgram_bounds (old : Nat) (cur : Int) (new : Nat)
    (hold : old < 2147483648) (hnew : new < 2147483648) :
    (checkCurrentProgram old cur new).2 = true →
      -1 ≤ (checkCurrentProgram old cur new).1 ∧ (checkCurrentProgram old cur new).1 ≤ new := by
  unfold checkCurrentProgram
  rw [toInt32_of_lt old hold, toInt32_of_lt new hnew, Nat.mod_eq_of_lt (by omega)]
  split
  · intro _; simp only; omega
  · split
    · intro _; simp only; omega
    · split
      · intro _; simp only; omega
      · split
        · intro _; simp only; omega
        · intro h; simp at h

/-- C1 (as amended). `reloadPrograms(false)` with old count `old`, old current index `cur` and
new count `new` (counts in the non-negative `int32_t` range) leaves the current program given
by the first matching rule of: `new = old + 1` gives `old`; `cur < 0` and `new > 0` gives 0;
`cur ≥ 0` and `new = 0` gives -1; `cur ≥ new` gives 0; otherwise `cur`. -/
theorem reloadPrograms_current (fx : AEffect) (st : Plugin)
    (hold : st.prog.count < 2147483648)
    (hnew : 0 ≤ fx.numPrograms ∧ fx.numPrograms < 2147483648) :
    ((reloadPrograms fx st false).prog.current : Int) =
      codeProgramPrecedence st.prog.count st.prog.current (wrapU32 fx.numPrograms) ∧
    (reloadPrograms fx st false).prog.count = wrapU32 fx.numPrograms := by
  obtain ⟨h0, h1⟩ := hnew
  have hw : ((wrapU32 fx.numPrograms : Nat) : Int) = fx.numPrograms :=
    wrapU32_of_range _ h0 (by omega)
  have hnlt : wrapU32 fx.numPrograms < 2147483648 := by omega
  have hsel := checkCurrentProgram_fst st.prog.count st.prog.current _ hold hnlt
  have hbd := checkCurrentProgram_bounds st.prog.count st.prog.current _ hold hnlt
  have hq := queryPrograms_prog fx st
  unfold reloadPrograms
  simp only [Bool.false_eq_true, if_false]
  rw [← hsel]
  generalize checkCurrentProgram st.prog.count st.prog.current (wrapU32 fx.numPrograms) = sel
    at hbd ⊢
  by_cases hch : sel.2 = true
  · simp only [hch, if_true]
    refine ⟨?_, by simp [hq.1]⟩
    rw [setProgram_prog_current]
    · exact (hbd hch).1
    · simp only [hq.1, toInt32_of_lt _ hnlt]
      exact (hbd hch).2
  · have hf : sel.2 = false := by simpa using hch
    simp only [hf, Bool.false_eq_true, if_false]
    refine ⟨?_, ?_⟩
    · split
      · rw [dispatcher_prog]
      · rfl
    · split
      · rw [dispatcher_prog]; exact hq.1
      · exact hq.1

/-- C1, witness of `reloadPrograms_current`. -/
theorem reloadPrograms_current_witness :
    progExampleState.prog.count < 2147483648 ∧
    (0 ≤ progExampleFx.numPrograms ∧ progExampleFx.numPrograms < 2147483648) ∧
    ((reloadPrograms progExampleFx progExampleState false).prog.current =
      codeProgramPrecedence progExampleState.prog.count progExampleState.prog.current
        (wrapU32 progExampleFx.numPrograms) ∧
     (reloadPrograms progExampleFx progExampleState false).prog.count =
      wrapU32 progExampleFx.numPrograms) :=
  ⟨by decide, by decide,
    reloadPrograms_current progExampleFx progExampleState (by decide) (by decide)⟩

/-- C1, counterexample to the table as the claim words it: with three programs before and
after and no program selected (`cur = -1`, inside `[-1, old)`), `reloadPrograms(false)` selects
program 0, where the claimed table (its second rule asking for `old = 0`) leaves -1. -/
theorem reloadPrograms_spec_table_counterexample :
    (-1 ≤ progExampleState.prog.current ∧
      progExampleState.prog.current < progExampleState.prog.count) ∧
    (reloadPrograms progExampleFx progExampleState false).prog.current = 0 ∧
    specProgramPrecedence progExampleState.prog.count progExampleState.prog.current
      (wrapU32 progExampleFx.numPrograms) = -1 ∧
    (reloadPrograms progExampleFx progExampleState false).prog.current ≠
      specProgramPrecedence progExampleState.prog.count progExampleState.prog.current
        (wrapU32 progExampleFx.numPrograms) := by
  decide

/-- C2. For a parameter `i` below the parameter count whose stored range is well formed
(`min ≤ max`, the descriptor invariant) and every value `v`, `setParameterValue(i, v, ..)` hands
the same corrected value to the foreign `setParameter` (the call appended to the log) and to the
host-side store, and that value lies in `[min, max]`. -/
theorem setParameterValue_corrected (st : Plugin) (i : Nat) (v : Sample) (a b c : Bool)
    (_hi : i < st.param.count)
    (hr : (st.param.ranges.getD i {}).min ≤ (st.param.ranges.getD i {}).max) :
    ∃ w : Sample,
      (setParameterValue st i v a b c).log = st.log ++ [Call.setParameter i w] ∧
      (setParameterValue st i v a b c).param.values i = w ∧
      (setParameterValue st i v a b c).param.ranges = st.param.ranges ∧
      (st.param.ranges.getD i {}).min ≤ w ∧ w ≤ (st.param.ranges.getD i {}).max ∧
      ((st.param.ranges.getD i {}).min ≤ v → v ≤ (st.param.ranges.getD i {}).max → w = v) := by
  refine ⟨st.param.fixValue i v, rfl, ?_, rfl, ?_, ?_, ?_⟩
  · simp [setParameterValue, baseSetParameterValue]
  · unfold PluginParameterData.fixValue ParameterRanges.fixValue
    split
    · exact le_refl _
    · split
      · exact hr
      · exact not_lt.mp ‹_›
  · unfold PluginParameterData.fixValue ParameterRanges.fixValue
    split
    · exact hr
    · split
      · exact le_refl _
      · exact not_lt.mp ‹_›
  · intro h1 h2
    unfold PluginParameterData.fixValue ParameterRanges.fixValue
    rw [if_neg (not_lt.mpr h1), if_neg (not_lt.mpr h2)]

/-- C2, witness of `setParameterValue_corrected`: the out-of-range value 5 on parameter 0. -/
theorem setParameterValue_corrected_witness :
    0 < paramExampleState.param.count ∧
    (paramExampleState.param.ranges.getD 0 {}).min ≤
      (paramExampleState.param.ranges.getD 0 {}).max ∧
    ∃ w : Sample,
      (setParameterValue paramExampleState 0 5 false false false).log =
        paramExampleState.log ++ [Call.setParameter 0 w] ∧
      (setParameterValue paramExampleState 0 5 false false false).param.values 0 = w ∧
      (setParameterValue paramExampleState 0 5 false false false).param.ranges =
        paramExampleState.param.ranges ∧
      (paramExampleState.param.ranges.getD 0 {}).min ≤ w ∧
      w ≤ (paramExampleState.param.ranges.getD 0 {}).max ∧
      ((paramExampleState.param.ranges.getD 0 {}).min ≤ 5 →
        (5 : Sample) ≤ (paramExampleState.param.ranges.getD 0 {}).max → w = 5) :=
  ⟨by decide, by decide,
    setParameterValue_corrected paramExampleState 0 5 false false false (by decide) (by decide)⟩

/-! ### Frame lemmas for `reload` -/

@[simp] theorem dispatcher_frame (fx : AEffect) (st : Plugin) (op : EffOpcode) (i v : Int)
    (p : Payload) (o : Sample) :
    (dispatcher fx st op i v p o).1.param = st.param ∧
    (dispatcher fx st op i v p o).1.fHints = st.fHints ∧
    (dispatcher fx st op i v p o).1.active = st.active ∧
    (dispatcher fx st op i v p o).1.hasEffect = st.hasEffect ∧
    (dispatcher fx st op i v p o).1.guiIsOsc = st.guiIsOsc ∧
    (dispatcher fx st op i v p o).1.audioInCount = st.audioInCount ∧
    (dispatcher fx st op i v p o).1.audioOutCount = st.audioOutCount := by
  unfold dispatcher; split <;> simp

@[simp] theorem activate_frame (fx : AEffect) (st : Plugin) :
    (activate fx st).param = st.param ∧ (activate fx st).fHints = st.fHints ∧
    (activate fx st).active = st.active ∧ (activate fx st).prog = st.prog := by
  simp [activate]

@[simp] theorem deactivate_frame (fx : AEffect) (st : Plugin) :
    (deactivate fx st).param = st.param ∧ (deactivate fx st).fHints = st.fHints ∧
    (deactivate fx st).active = st.active ∧ (deactivate fx st).prog = st.prog := by
  simp [deactivate]

@[simp] theorem bufferSizeChanged_frame (fx : AEffect) (eng : Engine) (st : Plugin) (n : Nat) :
    (bufferSizeChanged fx eng st n).param = st.param ∧
    (bufferSizeChanged fx eng st n).fHints = st.fHints ∧
    (bufferSizeChanged fx eng st n).active = st.active ∧
    (bufferSizeChanged fx eng st n).prog = st.prog := by
  unfold bufferSizeChanged
  by_cases h : st.active <;> simp [h]

@[simp] theorem setProgram_frame (fx : AEffect) (st : Plugin) (index : Int) (a b c : Bool) :
    (setProgram fx st index a b c).param = st.param ∧
    (setProgram fx st index a b c).fHints = st.fHints ∧
    (setProgram fx st index a b c).active = st.active := by
  unfold setProgram baseSetProgram
  simp only
  split
  · split <;> simp
  · split
    · simp
    · split <;> simp

@[simp] theorem updateProgramNames_frame (fx : AEffect) (is : List Nat) (st : Plugin) :
    (updateProgramNames fx is st).param = st.param ∧
    (updateProgramNames fx is st).fHints = st.fHints ∧
    (updateProgramNames fx is st).active = st.active := by
  induction is generalizing st with
  | nil => simp [updateProgramNames]
  | cons i is ih =>
    simp only [updateProgramNames]
    split <;> simp [ih]

@[simp] theorem queryPrograms_frame (fx : AEffect) (st : Plugin) :
    (queryPrograms fx st).param = st.param ∧
    (queryPrograms fx st).fHints = st.fHints ∧
    (queryPrograms fx st).active = st.active := by
  unfold queryPrograms
  simp only
  split <;> simp

@[simp] theorem reloadPrograms_frame (fx : AEffect) (st : Plugin) (init : Bool) :
    (reloadPrograms fx st init).param = st.param ∧
    (reloadPrograms fx st init).fHints = st.fHints ∧
    (reloadPrograms fx st init).active = st.active := by
  unfold reloadPrograms
  simp only
  cases init
  · simp only [Bool.false_eq_true, if_false]
    split
    · simp
    · split <;> simp
  · simp only [if_true]
    split <;> simp

theorem reloadHints_caps (fx : AEffect) (st : Plugin) (aIns aOuts : Nat) :
    ((reloadHints fx st aIns aOuts).fHints.canDryWet = true ↔
      aOuts > 0 ∧ (aIns = aOuts ∨ aIns = 1)) ∧
    ((reloadHints fx st aIns aOuts).fHints.canVolume = true ↔ aOuts > 0) ∧
    ((reloadHints fx st aIns aOuts).fHints.canBalance = true ↔ aOuts ≥ 2 ∧ aOuts % 2 = 0) := by
  unfold reloadHints
  simp only [apply_ite Hints.canDryWet, apply_ite Hints.canVolume, apply_ite Hints.canBalance,
    ite_self]
  refine ⟨?_, ?_, ?_⟩
  · by_cases h : aOuts > 0 ∧ (aIns = aOuts ∨ aIns = 1) <;> simp [h]
  · by_cases h : aOuts > 0 <;> simp [h]
  · by_cases h : aOuts ≥ 2 ∧ aOuts % 2 = 0 <;> simp [h]

@[simp] theorem reloadExtraHints_frame (mIns mOuts aIns aOuts : Nat) (st : Plugin) :
    (reloadExtraHints mIns mOuts aIns aOuts st).param = st.param ∧
    (reloadExtraHints mIns mOuts aIns aOuts st).fHints = st.fHints ∧
    (reloadExtraHints mIns mOuts aIns aOuts st).active = st.active := by
  simp [reloadExtraHints]

@[simp] theorem reloadLatency_frame (fx : AEffect) (st : Plugin) :
    (reloadLatency fx st).param = st.param ∧ (reloadLatency fx st).fHints = st.fHints ∧
    (reloadLatency fx st).active = st.active := by
  unfold reloadLatency recreateLatencyBuffers
  split <;> simp

@[simp] theorem reloadSpecialFixes_frame (fx : AEffect) (st : Plugin) :
    (reloadSpecialFixes fx st).param = st.param ∧
    (reloadSpecialFixes fx st).fHints = st.fHints ∧
    (reloadSpecialFixes fx st).active = st.active := by
  unfold reloadSpecialFixes
  split <;> simp

@[simp] theorem reloadEnd_frame (fx : AEffect) (st : Plugin) :
    (reloadEnd fx st).param = st.param ∧ (reloadEnd fx st).fHints = st.fHints ∧
    (reloadEnd fx st).active = st.active := by
  unfold reloadEnd
  by_cases h : st.active <;> simp [h]

@[simp] theorem reloadHints_frame (fx : AEffect) (st : Plugin) (aIns aOuts : Nat) :
    (reloadHints fx st aIns aOuts).param = st.param ∧
    (reloadHints fx st aIns aOuts).active = st.active := by
  simp [reloadHints]

/-- The hints at the end of `reload` are the ones computed by its "plugin hints" block. -/
theorem reload_fHints (fx : AEffect) (eng : Engine) (st : Plugin) (h : st.hasEffect = true) :
    ∃ s : Plugin, (reload fx eng st).fHints =
      (reloadHints fx s (wrapU32 fx.numInputs) (wrapU32 fx.numOutputs)).fHints := by
  unfold reload
  simp only [h, not_true_eq_false, if_false, reloadEnd_frame, reloadPrograms_frame,
    bufferSizeChanged_frame, reloadSpecialFixes_frame, reloadLatency_frame, deactivate_frame,
    activate_frame, reloadExtraHints_frame]
  exact ⟨_, rfl⟩

/-- C10. After `reload()` with the foreign module reporting `aIns` audio inputs and `aOuts`
audio outputs, the can-do-dry/wet hint is set iff `aOuts > 0` and (`aIns = aOuts` or
`aIns = 1`), the can-do-volume hint iff `aOuts > 0`, and the can-do-balance hint iff
`aOuts ≥ 2` and `aOuts` is even. -/
theorem reload_capability_hints (fx : AEffect) (eng : Engine) (st : Plugin) (aIns aOuts : Nat)
    (h : st.hasEffect = true)
    (hIns : fx.numInputs = aIns) (hOuts : fx.numOutputs = aOuts)
    (hi : aIns < 2147483648) (ho : aOuts < 2147483648) :
    ((reload fx eng st).fHints.canDryWet = true ↔ aOuts > 0 ∧ (aIns = aOuts ∨ aIns = 1)) ∧
    ((reload fx eng st).fHints.canVolume = true ↔ aOuts > 0) ∧
    ((reload fx eng st).fHints.canBalance = true ↔ aOuts ≥ 2 ∧ aOuts % 2 = 0) := by
  obtain ⟨s, hs⟩ := reload_fHints fx eng st h
  have e1 : wrapU32 fx.numInputs = aIns := by
    have := wrapU32_of_range fx.numInputs (by omega) (by omega)
    omega
  have e2 : wrapU32 fx.numOutputs = aOuts := by
    have := wrapU32_of_range fx.numOutputs (by omega) (by omega)
    omega
  rw [hs, e1, e2]
  exact reloadHints_caps fx s _ _

/-- C10, witness of `reload_capability_hints`: a mono-in, stereo-out module. -/
theorem reload_capability_hints_witness :
    ({} : Plugin).hasEffect = true ∧ hintsExampleFx.numInputs = (1 : Nat) ∧
    hintsExampleFx.numOutputs = (2 : Nat) ∧
    (((reload hintsExampleFx {} {}).fHints.canDryWet = true ↔
        2 > 0 ∧ (1 = 2 ∨ 1 = 1)) ∧
     ((reload hintsExampleFx {} {}).fHints.canVolume = true ↔ 2 > 0) ∧
     ((reload hintsExampleFx {} {}).fHints.canBalance = true ↔ 2 ≥ 2 ∧ 2 % 2 = 0)) :=
  ⟨rfl, rfl, rfl,
    reload_capability_hints hintsExampleFx {} {} 1 2 rfl rfl rfl (by decide) (by decide)⟩

/-! ### The parameter table built by `reload` -/

@[simp] theorem createEventPorts_frame (a b : Bool) (st : Plugin) :
    (createEventPorts a b st).param = st.param ∧
    (createEventPorts a b st).fHints = st.fHints ∧
    (createEventPorts a b st).active = st.active := by
  unfold createEventPorts
  cases a <;> cases b <;> simp

theorem reloadBegin_param (fx : AEffect) (st : Plugin) :
    (reloadBegin fx st).param.count = 0 ∧ (reloadBegin fx st).param.ranges = [] := by
  simp [reloadBegin, clearBuffers]

@[simp] theorem createAudioIn_param (n : Nat) (st : Plugin) :
    (createAudioIn n st).param = st.param := by
  unfold createAudioIn; split <;> rfl

@[simp] theorem createAudioOut_param (n : Nat) (st : Plugin) :
    (createAudioOut n st).param = st.param := by
  unfold createAudioOut; split <;> rfl

theorem createParams_param (n : Nat) (st : Plugin) (h0 : st.param.count = 0)
    (h1 : st.param.ranges = []) :
    (createParams n st).param.count = n ∧
    (createParams n st).param.ranges = List.replicate n {} := by
  unfold createParams
  by_cases h : n > 0
  · simp [h, PluginParameterData.createNew]
  · have : n = 0 := by omega
    subst this
    simp [h0, h1]

/-- The parameter table at the end of `reload` is the one left by its parameter loop. -/
theorem reload_param (fx : AEffect) (eng : Engine) (st : Plugin) (h : st.hasEffect = true) :
    ∃ s : Plugin, s.param.count = 0 ∧ s.param.ranges = [] ∧
      (reload fx eng st).param =
        (reloadParameters fx (List.range (wrapU32 fx.numParams))
          (createParams (wrapU32 fx.numParams) s)).param := by
  unfold reload
  simp only [h, not_true_eq_false, if_false, reloadEnd_frame, reloadPrograms_frame,
    bufferSizeChanged_frame, reloadSpecialFixes_frame, reloadLatency_frame, deactivate_frame,
    activate_frame, reloadExtraHints_frame, reloadHints_frame, createEventPorts_frame]
  refine ⟨createAudioOut (wrapU32 fx.numOutputs)
    (createAudioIn (wrapU32 fx.numInputs) (reloadBegin fx st)), ?_, ?_, rfl⟩
  · simp [reloadBegin_param]
  · simp [reloadBegin_param]

/-! ### Loops over sample buffers -/

theorem forRange_zero {σ : Type} (body : Nat → σ → σ) (s : σ) : forRange 0 body s = s := rfl

theorem forRange_succ {σ : Type} (n : Nat) (body : Nat → σ → σ) (s : σ) :
    forRange (n + 1) body s = body n (forRange n body s) := by
  simp [forRange, List.range_succ, List.foldl_append]

theorem setSample_apply (buf : Buffers) (i k : Nat) (v : Sample) (i' k' : Nat) :
    setSample buf i k v i' k' = if i' = i ∧ k' = k then v else buf i' k' := by
  unfold setSample
  by_cases hi : i' = i
  · subst hi
    by_cases hk : k' = k
    · subst hk; simp
    · simp [Function.update_noteq hk, hk]
  · simp [Function.update_noteq hi, hi]

/-- A loop that writes sample `k + off` of channel `i` at step `k`, with a value that does not
depend on the samples the loop has already written, is a pointwise map on the window. -/
theorem forRange_setSample (i off : Nat) (val : Nat → Buffers → Sample) (b0 : Buffers) (n : Nat)
    (hval : ∀ k b, k < n →
      (∀ i' k', ¬ (i' = i ∧ off ≤ k' ∧ k' < off + k) → b i' k' = b0 i' k') →
      val k b = val k b0) :
    forRange n (fun k b => setSample b i (k + off) (val k b)) b0 =
      fun i' k' => if i' = i ∧ off ≤ k' ∧ k' < off + n then val (k' - off) b0 else b0 i' k' := by
  induction n with
  | zero =>
    funext i' k'
    have : ¬ (i' = i ∧ off ≤ k' ∧ k' < off + 0) := by omega
    simp only [forRange_zero, this, if_false]
  | succ n ih =>
    have ih' := ih (fun k b hk hb => hval k b (by omega) hb)
    rw [forRange_succ, ih']
    have hv := hval n (fun i' k' =>
        if i' = i ∧ off ≤ k' ∧ k' < off + n then val (k' - off) b0 else b0 i' k')
      (by omega) (by intro i' k' h; simp [h])
    funext i' k'
    rw [setSample_apply]
    simp only [hv]
    by_cases hi : i' = i
    · by_cases hk : k' = n + off
      · subst hk
        have h1 : n + off < off + (n + 1) := by omega
        simp [hi, h1]
      · by_cases hlt : off ≤ k' ∧ k' < off + n
        · have : off ≤ k' ∧ k' < off + (n + 1) := ⟨hlt.1, by omega⟩
          simp [hi, hk, hlt, this]
        · have : ¬ (off ≤ k' ∧ k' < off + (n + 1)) := by
            intro h
            apply hlt
            exact ⟨h.1, by omega⟩
          simp [hi, hk, hlt, this]
    · simp [hi]

/-- The silencing loop zeroes the window `[timeOffset, timeOffset + frames)` of every channel
below `audioOutCount` and leaves every other sample as it was. -/
theorem silenceRange_apply (count frames off : Nat) (out : Buffers) (i k : Nat) :
    silenceRange count frames off out i k =
      if i < count ∧ off ≤ k ∧ k < off + frames then 0 else out i k := by
  unfold silenceRange
  induction count generalizing i k with
  | zero => simp [forRange_zero]
  | succ n ih =>
    rw [forRange_succ]
    rw [forRange_setSample n off (fun _ _ => 0) _ frames (fun _ _ _ _ => rfl)]
    simp only [ih]
    by_cases hi : i = n
    · subst hi
      by_cases hk : off ≤ k ∧ k < off + frames
      · simp [hk]
      · simp [hk]
    · by_cases hlt : i < n
      · have : i < n + 1 := by omega
        simp [hi, hlt, this]
      · have : ¬ i < n + 1 := by omega
        simp [hi, hlt, this]

/-- C5. `processSingle(in, out, frames, timeOffset)` with `frames > 0`, non-null buffers, the
engine not offline and the processing lock held returns false, sets `out[i][timeOffset + k]`
to 0 for every output channel `i` and `k < frames`, changes no other sample, and returns the
adapter state it was given: nothing is added to the log of calls into the foreign module
(no dispatcher call, no process call), the sample position is not advanced and the lock is
as it was found. -/
theorem processSingle_lock_held (fx : AEffect) (eng : Engine) (st : Plugin)
    (inBuffer outBuffer : Buffers) (frames timeOffset : Nat)
    (hframes : frames > 0) (hoffline : eng.isOffline = false)
    (hlock : st.singleMutexLocked = true) :
    (processSingle fx eng st (some inBuffer) (some outBuffer) frames timeOffset).2.2 = false ∧
    (processSingle fx eng st (some inBuffer) (some outBuffer) frames timeOffset).1 = st ∧
    (processSingle fx eng st (some inBuffer) (some outBuffer) frames timeOffset).1.log = st.log ∧
    (processSingle fx eng st (some inBuffer) (some outBuffer) frames timeOffset).1.fTimeInfo.samplePos
      = st.fTimeInfo.samplePos ∧
    (processSingle fx eng st (some inBuffer) (some outBuffer) frames timeOffset).1.singleMutexLocked
      = true ∧
    ∃ out' : Buffers,
      (processSingle fx eng st (some inBuffer) (some outBuffer) frames timeOffset).2.1 = some out' ∧
      (∀ i k, i < st.audioOutCount → k < frames → out' i (timeOffset + k) = 0) ∧
      (∀ i k, ¬ (i < st.audioOutCount ∧ timeOffset ≤ k ∧ k < timeOffset + frames) →
        out' i k = outBuffer i k) := by
  have hne : frames ≠ 0 := by omega
  have h : processSingle fx eng st (some inBuffer) (some outBuffer) frames timeOffset =
      (st, some (silenceRange st.audioOutCount frames timeOffset outBuffer), false) := by
    simp [processSingle, hne, hoffline, hlock]
  rw [h]
  refine ⟨rfl, rfl, rfl, rfl, hlock, _, rfl, ?_, ?_⟩
  · intro i k hi hk
    rw [silenceRange_apply, if_pos ⟨hi, by omega, by omega⟩]
  · intro i k hn
    rw [silenceRange_apply, if_neg hn]

/-- C5, witness of `processSingle_lock_held`: frames 4 to 6 of buffers holding 1 everywhere. -/
theorem processSingle_lock_held_witness :
    (3 : Nat) > 0 ∧ ({} : Engine).isOffline = false ∧
    lockExampleState.singleMutexLocked = true ∧
    ((processSingle {} {} lockExampleState (some fun _ _ => 1) (some fun _ _ => 1) 3 4).2.2
      = false ∧
    (processSingle {} {} lockExampleState (some fun _ _ => 1) (some fun _ _ => 1) 3 4).1
      = lockExampleState ∧
    (processSingle {} {} lockExampleState (some fun _ _ => 1) (some fun _ _ => 1) 3 4).1.log
      = lockExampleState.log ∧
    (processSingle {} {} lockExampleState (some fun _ _ => 1)
      (some fun _ _ => 1) 3 4).1.fTimeInfo.samplePos = lockExampleState.fTimeInfo.samplePos ∧
    (processSingle {} {} lockExampleState (some fun _ _ => 1)
      (some fun _ _ => 1) 3 4).1.singleMutexLocked = true ∧
    ∃ out' : Buffers,
      (processSingle {} {} lockExampleState (some fun _ _ => 1) (some fun _ _ => 1) 3 4).2.1
        = some out' ∧
      (∀ i k, i < lockExampleState.audioOutCount → k < 3 → out' i (4 + k) = 0) ∧
      (∀ i k, ¬ (i < lockExampleState.audioOutCount ∧ 4 ≤ k ∧ k < 4 + 3) →
        out' i k = (fun _ _ => (1 : Sample)) i k)) :=
  ⟨by decide, rfl, rfl,
    processSingle_lock_held {} {} lockExampleState (fun _ _ => 1) (fun _ _ => 1) 3 4
      (by decide) rfl rfl⟩

/-! ### Preservation of the fixed configuration and quiet log extensions -/

theorem LogQuiet.lrefl (st : Plugin) : LogQuiet st st := ⟨[], by simp, by simp⟩

theorem LogQuiet.ltrans {a b c : Plugin} (h1 : LogQuiet a b) (h2 : LogQuiet b c) :
    LogQuiet a c := by
  obtain ⟨d1, e1, q1⟩ := h1
  obtain ⟨d2, e2, q2⟩ := h2
  refine ⟨d1 ++ d2, by rw [e2, e1, List.append_assoc], ?_⟩
  intro x hx
  rcases List.mem_append.mp hx with h | h
  · exact q1 x h
  · exact q2 x h

theorem LogQuiet.of_log_eq {a b : Plugin} (h : b.log = a.log) : LogQuiet a b :=
  ⟨[], by simp [h], by simp⟩

theorem dispatcher_fixed (fx : AEffect) (st : Plugin) (op : EffOpcode) (i v : Int)
    (p : Payload) (o : Sample) : (dispatcher fx st op i v p o).1.fixed = st.fixed := by
  unfold dispatcher; split <;> rfl

theorem dispatcher_logQuiet (fx : AEffect) (st : Plugin) (op : EffOpcode) (i v : Int)
    (p : Payload) (o : Sample) (h : (Call.dispatch op i v p o).quiet = true) :
    LogQuiet st (dispatcher fx st op i v p o).1 := by
  unfold dispatcher
  split
  · exact ⟨[_], rfl, by simpa using h⟩
  · exact LogQuiet.lrefl st

theorem CallbackFrame.crefl (st : Plugin) : CallbackFrame st st :=
  ⟨rfl, LogQuiet.lrefl st, rfl, rfl, fun _ _ => rfl, rfl, rfl, rfl⟩

theorem CallbackFrame.ctrans {a b c : Plugin} (h1 : CallbackFrame a b) (h2 : CallbackFrame b c) :
    CallbackFrame a c := by
  obtain ⟨f1, l1, p1, c1, q1, t1, m1, i1⟩ := h1
  obtain ⟨f2, l2, p2, c2, q2, t2, m2, i2⟩ := h2
  refine ⟨f2.trans f1, l1.ltrans l2, p2.trans p1, c2.trans c1, ?_, t2.trans t1, m2.trans m1,
    i2.trans i1⟩
  intro j hj
  rw [q2 j (by rw [c1]; exact hj), q1 j hj]

theorem dispatcher_callbackFrame (fx : AEffect) (st : Plugin) (op : EffOpcode) (i v : Int)
    (p : Payload) (o : Sample) (h : (Call.dispatch op i v p o).quiet = true) :
    CallbackFrame st (dispatcher fx st op i v p o).1 := by
  refine ⟨dispatcher_fixed .., dispatcher_logQuiet _ _ _ _ _ _ _ h, ?_, ?_, ?_, ?_, ?_, ?_⟩ <;>
    (unfold dispatcher; split <;> simp)

theorem baseSetParameterValue_callbackFrame (st : Plugin) (i : Nat) (v : Sample)
    (a b c : Bool) : CallbackFrame st (baseSetParameterValue st i v a b c) :=
  ⟨rfl, LogQuiet.of_log_eq rfl, rfl, rfl, fun _ _ => rfl, rfl, rfl, rfl⟩

theorem setParameterValue_callbackFrame (st : Plugin) (i : Nat) (v : Sample) (a b c : Bool) :
    CallbackFrame st (setParameterValue st i v a b c) :=
  ⟨rfl, ⟨[_], rfl, by simp [Call.quiet]⟩, rfl, rfl, fun _ _ => rfl, rfl, rfl, rfl⟩

theorem postponeRtEvent_callbackFrame (st : Plugin) (k : PostRtKind) (v1 v2 : Int)
    (v3 : Sample) : CallbackFrame st (postponeRtEvent st k v1 v2 v3) :=
  ⟨rfl, LogQuiet.of_log_eq rfl, rfl, rfl, fun _ _ => rfl, rfl, rfl, rfl⟩

theorem engineCallback_callbackFrame (st : Plugin) (cb : EngineCallback) :
    CallbackFrame st (engineCallback st cb) :=
  ⟨rfl, LogQuiet.of_log_eq rfl, rfl, rfl, fun _ _ => rfl, rfl, rfl, rfl⟩

theorem masterAutomate_callbackFrame (eng : Engine) (st : Plugin) (index : Int) (opt : Sample) :
    CallbackFrame st (masterAutomate eng st index opt) := by
  unfold masterAutomate
  split
  · exact CallbackFrame.crefl st
  · split
    · exact CallbackFrame.crefl st
    · split
      · exact setParameterValue_callbackFrame ..
      · split
        · split
          · exact baseSetParameterValue_callbackFrame ..
          · exact (baseSetParameterValue_callbackFrame ..).ctrans
              (postponeRtEvent_callbackFrame ..)
        · exact CallbackFrame.crefl st

theorem reverseFindFree_found (arr : Nat → VstMidiEvent) (count cap : Nat) (start j : Nat)
    (h : reverseFindFree arr count cap start = .found j) :
    count ≤ j ∧ j < cap ∧ j ≤ start ∧ (arr j).type = 0 := by
  induction start with
  | zero =>
    unfold reverseFindFree at h
    split at h
    · simp at h
    · split at h
      · simp at h
      · split at h
        · simp only [SlotScan.found.injEq] at h
          subst h
          exact ⟨by omega, by omega, le_refl _, ‹_›⟩
        · simp at h
  | succ n ih =>
    unfold reverseFindFree at h
    split at h
    · simp at h
    · split at h
      · simp at h
      · split at h
        · simp only [SlotScan.found.injEq] at h
          subst h
          exact ⟨by omega, by omega, le_refl _, ‹_›⟩
        · obtain ⟨a, b, c, d⟩ := ih h
          exact ⟨a, b, by omega, d⟩

theorem storeOutEvents_callbackFrame (cap : Nat) (evs : List (Option VstMidiEvent))
    (st : Plugin) : CallbackFrame st (storeOutEvents cap evs st) := by
  induction evs generalizing st with
  | nil => exact CallbackFrame.crefl st
  | cons e rest ih =>
    cases e with
    | none => exact CallbackFrame.crefl st
    | some ev =>
      rw [storeOutEvents]
      by_cases ht : ev.type ≠ kVstMidiType
      · rw [if_pos ht]; exact ih st
      · rw [if_neg ht]
        cases hscan : reverseFindFree st.fMidiEvents st.fMidiEventCount cap (lastSlot cap) with
        | found j =>
          simp only
          have hge := (reverseFindFree_found _ _ _ _ _ hscan).1
          refine CallbackFrame.ctrans ?_ (ih _)
          refine ⟨rfl, LogQuiet.of_log_eq rfl, rfl, rfl, ?_, rfl, rfl, rfl⟩
          intro k hk
          simp only
          rw [Function.update_noteq (by omega)]
        | notFound => exact ih st
        | outOfBounds =>
          exact ⟨rfl, LogQuiet.of_log_eq rfl, rfl, rfl, fun _ _ => rfl, rfl, rfl, rfl⟩

theorem masterProcessEvents_callbackFrame (eng : Engine) (st : Plugin) (ptr : MasterPayload) :
    CallbackFrame st (masterProcessEvents eng st ptr).1 := by
  unfold masterProcessEvents
  split
  · exact CallbackFrame.crefl st
  · split
    · exact CallbackFrame.crefl st
    · split
      · exact CallbackFrame.crefl st
      · split
        · exact CallbackFrame.crefl st
        · split
          · exact CallbackFrame.crefl st
          · exact storeOutEvents_callbackFrame ..

theorem masterUpdateDisplay_callbackFrame (fx : AEffect) (st : Plugin) :
    CallbackFrame st (masterUpdateDisplay fx st) := by
  unfold masterUpdateDisplay
  simp only
  refine CallbackFrame.ctrans (b := if st.guiIsVisible = true then
    (dispatcher fx st .effEditIdle 0 0 .null 0).1 else st) ?_ ?_
  · split
    · exact dispatcher_callbackFrame _ _ _ _ _ _ _ rfl
    · exact CallbackFrame.crefl st
  · generalize (if st.guiIsVisible = true then
      (dispatcher fx st .effEditIdle 0 0 .null 0).1 else st) = s1
    refine CallbackFrame.ctrans ?_ (engineCallback_callbackFrame _ _)
    split
    · have hd := dispatcher_callbackFrame fx s1 .effGetProgram 0 0 .null 0 rfl
      split
      · refine hd.ctrans ?_
        generalize (dispatcher fx s1 .effGetProgram 0 0 .null 0).1 = s2
        have hd2 := dispatcher_callbackFrame fx s2 .effGetProgramName 0 0 .buffer 0 rfl
        refine hd2.ctrans ?_
        generalize (dispatcher fx s2 .effGetProgramName 0 0 .buffer 0).1 = s3
        split
        · refine CallbackFrame.ctrans ?_ (engineCallback_callbackFrame _ _)
          exact ⟨rfl, LogQuiet.of_log_eq rfl, rfl, rfl, fun _ _ => rfl, rfl, rfl, rfl⟩
        · exact ⟨rfl, LogQuiet.of_log_eq rfl, rfl, rfl, fun _ _ => rfl, rfl, rfl, rfl⟩
      · exact hd
    · exact CallbackFrame.crefl s1

theorem handleAudioMasterCallback_callbackFrame (fx : AEffect) (eng : Engine) (st : Plugin)
    (c : MasterCall) : CallbackFrame st (handleAudioMasterCallback fx eng st c).1 := by
  unfold handleAudioMasterCallback
  split
  case h_1 => exact masterAutomate_callbackFrame ..
  case h_2 =>
    simp only
    split
    · exact dispatcher_callbackFrame _ _ _ _ _ _ _ rfl
    · exact CallbackFrame.crefl st
  case h_3 => exact ⟨rfl, LogQuiet.of_log_eq rfl, rfl, rfl, fun _ _ => rfl, rfl, rfl, rfl⟩
  case h_5 => exact masterProcessEvents_callbackFrame ..
  case h_9 => exact ⟨rfl, LogQuiet.of_log_eq rfl, rfl, rfl, fun _ _ => rfl, rfl, rfl, rfl⟩
  case h_10 =>
    split
    · simp only
      split
      · exact ⟨rfl, LogQuiet.of_log_eq rfl, rfl, rfl, fun _ _ => rfl, rfl, rfl, rfl⟩
      · exact CallbackFrame.crefl st
    · exact CallbackFrame.crefl st
  case h_18 => exact masterUpdateDisplay_callbackFrame ..
  all_goals exact CallbackFrame.crefl st

theorem runCallbacks_callbackFrame (fx : AEffect) (eng : Engine) (cs : List MasterCall)
    (st : Plugin) : CallbackFrame st (runCallbacks fx eng cs st) := by
  induction cs generalizing st with
  | nil => exact CallbackFrame.crefl st
  | cons c cs ih =>
    exact (handleAudioMasterCallback_callbackFrame fx eng st c).ctrans (ih _)

/-! ### Reading sub-calls off a log -/

theorem subCallsFrom_quiet (p : List VstMidiEvent) (l l2 : List Call)
    (h : ∀ c ∈ l, c.quiet = true) :
    subCallsFrom p (l ++ l2) = subCallsFrom p l2 ∧ pendingAfter p (l ++ l2) = pendingAfter p l2 := by
  induction l with
  | nil => exact ⟨rfl, rfl⟩
  | cons c l ih =>
    have hc := h c (List.mem_cons_self _ _)
    have ih' := ih (fun x hx => h x (List.mem_cons_of_mem _ hx))
    cases c with
    | dispatch op i v ptr o =>
      cases op <;> first
        | (simp only [List.cons_append, subCallsFrom, pendingAfter]; exact ih')
        | (cases ptr <;> first
            | (simp only [List.cons_append, subCallsFrom, pendingAfter]; exact ih')
            | (simp [Call.quiet] at hc))
    | setParameter i v => simp only [List.cons_append, subCallsFrom, pendingAfter]; exact ih'
    | getParameter i => simp only [List.cons_append, subCallsFrom, pendingAfter]; exact ih'
    | processReplacing f o => simp [Call.quiet] at hc
    | process f o => simp [Call.quiet] at hc

theorem subCallsFrom_append (p : List VstMidiEvent) (l l2 : List Call) :
    subCallsFrom p (l ++ l2) = subCallsFrom p l ++ subCallsFrom (pendingAfter p l) l2 ∧
    pendingAfter p (l ++ l2) = pendingAfter (pendingAfter p l) l2 := by
  induction l generalizing p with
  | nil => exact ⟨rfl, rfl⟩
  | cons c l ih =>
    cases c with
    | dispatch op i v ptr o =>
      cases op <;> first
        | (simp only [List.cons_append, subCallsFrom, pendingAfter]; exact ih _)
        | (cases ptr <;> simp only [List.cons_append, subCallsFrom, pendingAfter] <;> exact ih _)
    | setParameter i v => simp only [List.cons_append, subCallsFrom, pendingAfter]; exact ih _
    | getParameter i => simp only [List.cons_append, subCallsFrom, pendingAfter]; exact ih _
    | processReplacing f o =>
      simp only [List.cons_append, subCallsFrom, pendingAfter]
      exact ⟨congrArg _ (ih _).1, (ih _).2⟩
    | process f o =>
      simp only [List.cons_append, subCallsFrom, pendingAfter]
      exact ⟨congrArg _ (ih _).1, (ih _).2⟩

theorem subCallsFrom_subCallEntries (st : Plugin) (frames off : Nat) :
    subCallsFrom [] (subCallEntries st frames off) = [⟨off, frames, queuedEvents st⟩] ∧
    pendingAfter [] (subCallEntries st frames off) = [] := by
  unfold subCallEntries processCall
  by_cases hc : st.fMidiEventCount > 0
  · by_cases hr : st.fHints.canProcessReplacing = true <;>
      simp [hc, hr, subCallsFrom, pendingAfter]
  · have h0 : st.fMidiEventCount = 0 := by omega
    have hq : queuedEvents st = [] := by simp [queuedEvents, h0]
    by_cases hr : st.fHints.canProcessReplacing = true <;>
      simp [hc, hr, hq, subCallsFrom, pendingAfter]

/-! ### A successful sub-call -/

theorem runPlugin_spec (fx : AEffect) (eng : Engine) (st : Plugin) (inB outB : Buffers)
    (frames off : Nat) :
    (runPlugin fx eng st inB outB frames off).1.fixed = st.fixed ∧
    (runPlugin fx eng st inB outB frames off).1.postProc = st.postProc ∧
    (runPlugin fx eng st inB outB frames off).1.fMidiEventCount = st.fMidiEventCount ∧
    (∀ j, j < st.fMidiEventCount →
      (runPlugin fx eng st inB outB frames off).1.fMidiEvents j = st.fMidiEvents j) ∧
    (runPlugin fx eng st inB outB frames off).1.singleMutexLocked = st.singleMutexLocked ∧
    (runPlugin fx eng st inB outB frames off).1.fTimeInfo.samplePos =
      st.fTimeInfo.samplePos + frames ∧
    (runPlugin fx eng st inB outB frames off).1.fIsProcessing = false ∧
    ∃ added : List Call,
      (runPlugin fx eng st inB outB frames off).1.log =
        st.log ++ [processCall st frames off] ++ added ∧
      ∀ c ∈ added, c.quiet = true := by
  obtain ⟨f, ⟨d, hd, hq⟩, pp, c, q, t, m, _⟩ := runCallbacks_callbackFrame fx eng
    (fx.processCallbacks (enterProcess st frames off).log) (enterProcess st frames off)
  refine ⟨f, pp, c, q, m, ?_, rfl, d, hd, hq⟩
  show (runCallbacks _ _ _ _).fTimeInfo.samplePos + _ = _
  rw [t]
  rfl

theorem sendQueuedEvents_spec (fx : AEffect) (st : Plugin) (hE : st.hasEffect = true) :
    (sendQueuedEvents fx st).fixed = st.fixed ∧
    (sendQueuedEvents fx st).postProc = st.postProc ∧
    (sendQueuedEvents fx st).fMidiEventCount = st.fMidiEventCount ∧
    (sendQueuedEvents fx st).fMidiEvents = st.fMidiEvents ∧
    (sendQueuedEvents fx st).singleMutexLocked = st.singleMutexLocked ∧
    (sendQueuedEvents fx st).fTimeInfo = st.fTimeInfo ∧
    (sendQueuedEvents fx st).fHints = st.fHints ∧
    (sendQueuedEvents fx st).log = st.log ++
      (if st.fMidiEventCount > 0 then
        [Call.dispatch .effProcessEvents 0 0 (.events (queuedEvents st)) 0]
      else []) := by
  unfold sendQueuedEvents dispatcher
  by_cases hc : st.fMidiEventCount > 0
  · rw [if_pos hc, if_pos hc, if_pos hE]
    exact ⟨rfl, rfl, rfl, rfl, rfl, rfl, rfl, rfl⟩
  · rw [if_neg hc, if_neg hc, List.append_nil]
    exact ⟨rfl, rfl, rfl, rfl, rfl, rfl, rfl, rfl⟩

/-- What a `processSingle` that gets past its guards and takes the lock does. -/
theorem processSingle_success (fx : AEffect) (eng : Engine) (st : Plugin)
    (inBuffer outBuffer : Option Buffers) (frames off : Nat)
    (hf : frames ≠ 0) (hE : st.hasEffect = true) (hcan : CanProcess eng st inBuffer outBuffer) :
    (processSingle fx eng st inBuffer outBuffer frames off).2.2 = true ∧
    (processSingle fx eng st inBuffer outBuffer frames off).1.fixed = st.fixed ∧
    (processSingle fx eng st inBuffer outBuffer frames off).1.postProc = st.postProc ∧
    (processSingle fx eng st inBuffer outBuffer frames off).1.fMidiEventCount =
      st.fMidiEventCount ∧
    (∀ j, j < st.fMidiEventCount →
      (processSingle fx eng st inBuffer outBuffer frames off).1.fMidiEvents j =
        st.fMidiEvents j) ∧
    (processSingle fx eng st inBuffer outBuffer frames off).1.singleMutexLocked = false ∧
    (processSingle fx eng st inBuffer outBuffer frames off).1.fTimeInfo.samplePos =
      st.fTimeInfo.samplePos + frames ∧
    (processSingle fx eng st inBuffer outBuffer frames off).2.1.isSome = outBuffer.isSome ∧
    ∃ added : List Call,
      (processSingle fx eng st inBuffer outBuffer frames off).1.log =
        st.log ++ subCallEntries st frames off ++ added ∧
      ∀ c ∈ added, c.quiet = true := by
  obtain ⟨hin, hout, hlock⟩ := hcan
  have g1 : ¬ (st.audioInCount > 0 ∧ inBuffer.isNone = true) := by
    rintro ⟨h1, h2⟩
    have := hin h1
    cases inBuffer <;> simp_all
  have g2 : ¬ (st.audioOutCount > 0 ∧ outBuffer.isNone = true) := by
    rintro ⟨h1, h2⟩
    have := hout h1
    cases outBuffer <;> simp_all
  have g3 : ¬ (¬ eng.isOffline = true ∧ st.singleMutexLocked = true) := by
    rintro ⟨h1, h2⟩
    rcases hlock with h | h
    · exact h1 h
    · rw [h] at h2; exact Bool.false_ne_true h2
  have hps : processSingle fx eng st inBuffer outBuffer frames off =
      (unlockSingle (runPlugin fx eng (sendQueuedEvents fx (lockSingle st))
          (inBuffer.getD fun _ _ => 0) (outBuffer.getD fun _ _ => 0) frames off).1,
        outBuffer.map (fun _ =>
          postProcess (runPlugin fx eng (sendQueuedEvents fx (lockSingle st))
            (inBuffer.getD fun _ _ => 0) (outBuffer.getD fun _ _ => 0) frames off).1
            (inBuffer.getD fun _ _ => 0)
            (runPlugin fx eng (sendQueuedEvents fx (lockSingle st))
              (inBuffer.getD fun _ _ => 0) (outBuffer.getD fun _ _ => 0) frames off).2
            frames off), true) := by
    unfold processSingle
    simp only [hf, g1, g2, g3, if_false]
  rw [hps]
  obtain ⟨sf, sp, sc, sa, sm, st', sh, sl⟩ := sendQueuedEvents_spec fx (lockSingle st) hE
  obtain ⟨rf, rp, rc, rq, rm, rt, _, d, rl, rquiet⟩ :=
    runPlugin_spec fx eng (sendQueuedEvents fx (lockSingle st))
      (inBuffer.getD fun _ _ => 0) (outBuffer.getD fun _ _ => 0) frames off
  refine ⟨rfl, rf.trans sf, rp.trans sp, rc.trans sc, ?_, rfl, rt.trans ?_, ?_, d, ?_, rquiet⟩
  · intro j hj
    exact (rq j (by rw [sc]; exact hj)).trans (congrFun sa j)
  · rw [st']; rfl
  · cases outBuffer <;> rfl
  · refine rl.trans ?_
    rw [sl]
    unfold subCallEntries processCall queuedEvents
    simp only [sh, List.append_assoc]
    rfl

/-! ### The event handlers -/

theorem QueueFrame.qrefl (st : Plugin) : QueueFrame st st :=
  ⟨rfl, LogQuiet.lrefl st, rfl, rfl⟩

theorem QueueFrame.qtrans {a b c : Plugin} (h1 : QueueFrame a b) (h2 : QueueFrame b c) :
    QueueFrame a c :=
  ⟨h2.1.trans h1.1, h1.2.1.ltrans h2.2.1, h2.2.2.1.trans h1.2.2.1, h2.2.2.2.trans h1.2.2.2⟩

theorem QueueFrame.of_eq {a b : Plugin} (h1 : b.fixed = a.fixed) (h2 : b.log = a.log)
    (h3 : b.fMidiEventCount = a.fMidiEventCount) (h4 : b.fMidiEvents = a.fMidiEvents) :
    QueueFrame a b := ⟨h1, LogQuiet.of_log_eq h2, h3, h4⟩

theorem postponeRtEvent_queueFrame (st : Plugin) (k : PostRtKind) (v1 v2 : Int) (v3 : Sample) :
    QueueFrame st (postponeRtEvent st k v1 v2 v3) := QueueFrame.of_eq rfl rfl rfl rfl

theorem engineCallback_queueFrame (st : Plugin) (cb : EngineCallback) :
    QueueFrame st (engineCallback st cb) := QueueFrame.of_eq rfl rfl rfl rfl

theorem setParameterValue_queueFrame (st : Plugin) (i : Nat) (v : Sample) (a b c : Bool) :
    QueueFrame st (setParameterValue st i v a b c) :=
  ⟨rfl, ⟨[_], rfl, by simp [Call.quiet]⟩, rfl, rfl⟩

theorem dispatcher_queueFrame (fx : AEffect) (st : Plugin) (op : EffOpcode) (i v : Int)
    (p : Payload) (o : Sample) (h : (Call.dispatch op i v p o).quiet = true) :
    QueueFrame st (dispatcher fx st op i v p o).1 := by
  refine ⟨dispatcher_fixed .., dispatcher_logQuiet _ _ _ _ _ _ _ h, ?_, ?_⟩ <;>
    (unfold dispatcher; split <;> rfl)

theorem setProgram_queueFrame (fx : AEffect) (st : Plugin) (index : Int) (a b c : Bool) :
    QueueFrame st (setProgram fx st index a b c) := by
  have hgo : ∀ idx : Int, QueueFrame st
      (baseSetProgram
        (if idx ≥ 0 then
          (dispatcher fx
            (dispatcher fx (dispatcher fx st .effBeginSetProgram 0 0 .null 0).1
              .effSetProgram 0 idx .null 0).1 .effEndSetProgram 0 0 .null 0).1
        else st) idx a b c) := by
    intro idx
    refine QueueFrame.qtrans (b := if idx ≥ 0 then
          (dispatcher fx
            (dispatcher fx (dispatcher fx st .effBeginSetProgram 0 0 .null 0).1
              .effSetProgram 0 idx .null 0).1 .effEndSetProgram 0 0 .null 0).1
        else st) ?_ ?_
    · split
      · exact ((dispatcher_queueFrame fx _ .effBeginSetProgram 0 0 .null 0 rfl).qtrans
          (dispatcher_queueFrame fx _ .effSetProgram 0 idx .null 0 rfl)).qtrans
          (dispatcher_queueFrame fx _ .effEndSetProgram 0 0 .null 0 rfl)
      · exact QueueFrame.qrefl st
    · unfold baseSetProgram
      exact QueueFrame.of_eq rfl rfl rfl rfl
  unfold setProgram
  simp only
  split
  · exact hgo (-1)
  · split
    · exact QueueFrame.qrefl st
    · exact hgo index

theorem controlBackend_queueFrame (st : Plugin) (event : EngineEvent)
    (ctrlEvent : EngineControlEvent) : QueueFrame st (controlBackend st event ctrlEvent) := by
  have h1 : ∀ s, QueueFrame s (backendDryWet s ctrlEvent) := by
    intro s; unfold backendDryWet
    split
    · have a1 : ∀ (t : Plugin) (v : Sample), QueueFrame t (setDryWet t v) :=
        fun t v => QueueFrame.of_eq rfl rfl rfl rfl
      exact (a1 _ _).qtrans (postponeRtEvent_queueFrame ..)
    · exact QueueFrame.qrefl s
  have h2 : ∀ s, QueueFrame s (backendVolume s ctrlEvent) := by
    intro s; unfold backendVolume
    split
    · have a1 : ∀ (t : Plugin) (v : Sample), QueueFrame t (setVolume t v) :=
        fun t v => QueueFrame.of_eq rfl rfl rfl rfl
      exact (a1 _ _).qtrans (postponeRtEvent_queueFrame ..)
    · exact QueueFrame.qrefl s
  have h3 : ∀ s, QueueFrame s (backendBalance s ctrlEvent) := by
    intro s; unfold backendBalance
    split
    · have a1 : ∀ (t : Plugin) (v : Sample), QueueFrame t (setBalanceLeft t v) :=
        fun t v => QueueFrame.of_eq rfl rfl rfl rfl
      have a2 : ∀ (t : Plugin) (v : Sample), QueueFrame t (setBalanceRight t v) :=
        fun t v => QueueFrame.of_eq rfl rfl rfl rfl
      exact (((a1 _ _).qtrans (a2 _ _)).qtrans (postponeRtEvent_queueFrame ..)).qtrans
        (postponeRtEvent_queueFrame ..)
    · exact QueueFrame.qrefl s
  unfold controlBackend
  split
  · exact ((h1 _).qtrans (h2 _)).qtrans (h3 _)
  · exact QueueFrame.qrefl st

theorem controlParameter_queueFrame (event : EngineEvent) (ctrlEvent : EngineControlEvent)
    (k : Nat) (st : Plugin) : QueueFrame st (controlParameter event ctrlEvent k st) := by
  unfold controlParameter
  simp only
  split
  · exact QueueFrame.qrefl st
  · split
    · exact QueueFrame.qrefl st
    · split
      · exact QueueFrame.qrefl st
      · split
        · exact QueueFrame.qrefl st
        · exact (setParameterValue_queueFrame ..).qtrans (postponeRtEvent_queueFrame ..)

theorem forRange_queueFrame (n : Nat) (body : Nat → Plugin → Plugin)
    (h : ∀ k st, QueueFrame st (body k st)) (st : Plugin) :
    QueueFrame st (forRange n body st) := by
  induction n with
  | zero => exact QueueFrame.qrefl st
  | succ n ih =>
    rw [forRange_succ]
    exact ih.qtrans (h n _)

theorem queuedEvents_appendMidiEvent (st : Plugin) (ev : VstMidiEvent) :
    queuedEvents (appendMidiEvent st ev) = queuedEvents st ++ [ev] := by
  unfold queuedEvents appendMidiEvent
  simp only [List.range_succ, List.map_append, List.map_cons, List.map_nil,
    Function.update_same]
  congr 1
  apply List.map_congr_left
  intro j hj
  rw [Function.update_noteq (Nat.ne_of_lt (List.mem_range.mp hj))]

theorem queuedEvents_congr (a b : Plugin) (h1 : b.fMidiEventCount = a.fMidiEventCount)
    (h2 : ∀ j, j < a.fMidiEventCount → b.fMidiEvents j = a.fMidiEvents j) :
    queuedEvents b = queuedEvents a := by
  unfold queuedEvents
  rw [h1]
  apply List.map_congr_left
  intro j hj
  exact h2 j (List.mem_range.mp hj)

theorem enqueue_fixed (cap : Nat) (st : Plugin) (v : Option VstMidiEvent) :
    (enqueue cap st v).fixed = st.fixed ∧ (enqueue cap st v).log = st.log := by
  cases v with
  | none => exact ⟨rfl, rfl⟩
  | some ev =>
    unfold enqueue
    simp only
    split
    · exact ⟨rfl, rfl⟩
    · exact ⟨rfl, rfl⟩

theorem EnqueueFrame.self (cap : Nat) (v : Option VstMidiEvent) (st : Plugin) :
    EnqueueFrame cap v st (enqueue cap st v) :=
  ⟨(enqueue_fixed cap st v).1, LogQuiet.of_log_eq (enqueue_fixed cap st v).2, rfl, rfl⟩

theorem enqueue_congr (cap : Nat) (v : Option VstMidiEvent) (a b : Plugin)
    (h1 : b.fMidiEventCount = a.fMidiEventCount) (h2 : b.fMidiEvents = a.fMidiEvents) :
    (enqueue cap b v).fMidiEventCount = (enqueue cap a v).fMidiEventCount ∧
    (enqueue cap b v).fMidiEvents = (enqueue cap a v).fMidiEvents := by
  cases v with
  | none => exact ⟨h1, h2⟩
  | some ev =>
    unfold enqueue appendMidiEvent
    simp only [h1, h2]
    split
    · exact ⟨h1, h2⟩
    · exact ⟨rfl, rfl⟩

theorem EnqueueFrame.after {cap : Nat} {v : Option VstMidiEvent} {a b c : Plugin}
    (h1 : QueueFrame a b) (h2 : EnqueueFrame cap v b c) : EnqueueFrame cap v a c := by
  obtain ⟨e1, e2⟩ := enqueue_congr cap v a b h1.2.2.1 h1.2.2.2
  exact ⟨h2.1.trans h1.1, h1.2.1.ltrans h2.2.1, h2.2.2.1.trans e1, h2.2.2.2.trans e2⟩

theorem EnqueueFrame.before {cap : Nat} {v : Option VstMidiEvent} {a b c : Plugin}
    (h1 : EnqueueFrame cap v a b) (h2 : QueueFrame b c) : EnqueueFrame cap v a c :=
  ⟨h2.1.trans h1.1, h1.2.1.ltrans h2.2.1, h2.2.2.1.trans h1.2.2.1, h2.2.2.2.trans h1.2.2.2⟩

theorem EnqueueFrame.of_none {cap : Nat} {a b : Plugin} (h : QueueFrame a b) :
    EnqueueFrame cap none a b := h

theorem queueControlChange_eq (eng : Engine) (st : Plugin) (ch d1 d2 df : Nat) :
    queueControlChange eng st ch d1 d2 df =
      enqueue (eng.MAX_MIDI_EVENTS * 2) st
        (some { type := kVstMidiType, byteSize := sizeofVstMidiEvent, deltaFrames := df,
                midiData0 := (MIDI_STATUS_CONTROL_CHANGE + ch) % 256, midiData1 := d1,
                midiData2 := d2 }) := rfl

theorem handleControlEvent_enqueueFrame (fx : AEffect) (eng : Engine) (sa : Bool)
    (startTime : Nat) (event : EngineEvent) (c : EngineControlEvent) (flag : Bool)
    (st : Plugin) (hb : event.body = .control c) :
    EnqueueFrame (eng.MAX_MIDI_EVENTS * 2)
      (queuedForm st.fOptions (deltaFramesOf sa startTime event.time) event) st
      (handleControlEvent fx eng sa startTime event c flag st).1 := by
  unfold handleControlEvent queuedForm
  rw [hb]
  simp only
  cases hty : c.type with
  | null => exact EnqueueFrame.of_none (QueueFrame.qrefl st)
  | midiBank => exact EnqueueFrame.of_none (QueueFrame.qrefl st)
  | parameter =>
    simp only
    have hq : QueueFrame st
        (forRange (controlBackend st event c).param.count (controlParameter event c)
          (controlBackend st event c)) :=
      (controlBackend_queueFrame st event c).qtrans
        (forRange_queueFrame _ _ (controlParameter_queueFrame event c) _)
    have hopt : (forRange (controlBackend st event c).param.count (controlParameter event c)
          (controlBackend st event c)).fOptions = st.fOptions :=
      congrArg Fixed.fOptions hq.1
    rw [hopt]
    split
    · rw [queueControlChange_eq]
      exact EnqueueFrame.after hq (EnqueueFrame.self ..)
    · exact EnqueueFrame.of_none hq
  | midiProgram =>
    simp only
    split
    · split
      · exact EnqueueFrame.of_none
          ((setProgram_queueFrame ..).qtrans (postponeRtEvent_queueFrame ..))
      · exact EnqueueFrame.of_none (QueueFrame.qrefl st)
    · exact EnqueueFrame.of_none (QueueFrame.qrefl st)
  | allSoundOff =>
    simp only
    split
    · rw [queueControlChange_eq]
      exact EnqueueFrame.self ..
    · exact EnqueueFrame.of_none (QueueFrame.qrefl st)
  | allNotesOff =>
    simp only
    split
    · rw [queueControlChange_eq]
      split
      · exact EnqueueFrame.after (engineCallback_queueFrame ..) (EnqueueFrame.self ..)
      · exact EnqueueFrame.self ..
    · exact EnqueueFrame.of_none (QueueFrame.qrefl st)

theorem EnqueueFrame.full {cap : Nat} (v : Option VstMidiEvent) (st : Plugin)
    (h : st.fMidiEventCount ≥ cap) : EnqueueFrame cap v st st := by
  cases v with
  | none => exact QueueFrame.qrefl st
  | some ev =>
    refine ⟨rfl, LogQuiet.lrefl st, ?_, ?_⟩ <;> simp [enqueue, h]

theorem handleMidiEvent_enqueueFrame (eng : Engine) (sa : Bool) (startTime : Nat)
    (event : EngineEvent) (m : EngineMidiEvent) (st : Plugin) (hb : event.body = .midi m) :
    EnqueueFrame (eng.MAX_MIDI_EVENTS * 2)
      (queuedForm st.fOptions (deltaFramesOf sa startTime event.time) event) st
      (handleMidiEvent eng sa startTime event m st) := by
  unfold handleMidiEvent
  by_cases hfull : st.fMidiEventCount ≥ eng.MAX_MIDI_EVENTS * 2
  · rw [if_pos hfull]
    exact EnqueueFrame.full _ st hfull
  · rw [if_neg hfull]
    unfold queuedForm
    rw [hb]
    simp only
    split
    · exact EnqueueFrame.of_none (QueueFrame.qrefl st)
    · split
      · exact EnqueueFrame.of_none (QueueFrame.qrefl st)
      · split
        · exact EnqueueFrame.of_none (QueueFrame.qrefl st)
        · split
          · exact EnqueueFrame.of_none (QueueFrame.qrefl st)
          · have happ : ∀ ev : VstMidiEvent,
                EnqueueFrame (eng.MAX_MIDI_EVENTS * 2) (some ev) st (appendMidiEvent st ev) := by
              intro ev
              have := EnqueueFrame.self (eng.MAX_MIDI_EVENTS * 2) (some ev) st
              simpa only [enqueue, if_neg hfull] using this
            refine (happ _).before ?_
            unfold postponeNote
            split
            · exact postponeRtEvent_queueFrame ..
            · split
              · exact postponeRtEvent_queueFrame ..
              · exact QueueFrame.qrefl _

theorem handleEvent_spec (fx : AEffect) (eng : Engine) (sa : Bool) (event : EngineEvent)
    (s : EventLoop) :
    (handleEvent fx eng sa event s).out = s.out ∧
    (handleEvent fx eng sa event s).startTime = s.startTime ∧
    (handleEvent fx eng sa event s).timeOffset = s.timeOffset ∧
    (handleEvent fx eng sa event s).attempts = s.attempts ∧
    EnqueueFrame (eng.MAX_MIDI_EVENTS * 2)
      (queuedForm s.st.fOptions (deltaFramesOf sa s.startTime event.time) event) s.st
      (handleEvent fx eng sa event s).st := by
  unfold handleEvent
  cases hb : event.body with
  | null =>
    refine ⟨rfl, rfl, rfl, rfl, ?_⟩
    have : queuedForm s.st.fOptions (deltaFramesOf sa s.startTime event.time) event = none := by
      simp [queuedForm, hb]
    rw [this]
    exact EnqueueFrame.of_none (QueueFrame.qrefl _)
  | control c =>
    exact ⟨rfl, rfl, rfl, rfl, handleControlEvent_enqueueFrame fx eng sa _ event c _ _ hb⟩
  | midi m =>
    exact ⟨rfl, rfl, rfl, rfl, handleMidiEvent_enqueueFrame eng sa _ event m _ hb⟩

/-- The queue after an `EnqueueFrame` step, as a list. -/
theorem EnqueueFrame.queued {cap : Nat} {v : Option VstMidiEvent} {a b : Plugin}
    (h : EnqueueFrame cap v a b) : queuedEvents b = pushCap cap (queuedEvents a) v := by
  obtain ⟨_, _, hc, ha⟩ := h
  have hlen : (queuedEvents a).length = a.fMidiEventCount := by simp [queuedEvents]
  have hb : queuedEvents b = queuedEvents (enqueue cap a v) :=
    queuedEvents_congr _ _ hc (fun j _ => congrFun ha j)
  rw [hb]
  unfold pushCap
  rw [hlen]
  cases v with
  | none =>
    simp only [enqueue, Option.toList, List.append_nil, ite_self]
  | some ev =>
    simp only [enqueue, Option.toList]
    by_cases hfull : a.fMidiEventCount ≥ cap
    · rw [if_pos hfull, if_pos hfull]
    · rw [if_neg hfull, if_neg hfull, queuedEvents_appendMidiEvent]

/-! ### The event loop refines `segCalls` -/

theorem Tracks.handleEvent {L0 : List Call} {F : Fixed} {o : Bool} {s : EventLoop} {t : Nat}
    {q : List VstMidiEvent} {calls : List SubCall} (fx : AEffect) (eng : Engine) (sa : Bool)
    (e : EngineEvent) (h : Tracks L0 F o s t q calls) :
    Tracks L0 F o (handleEvent fx eng sa e s) t
      (pushCap (eng.MAX_MIDI_EVENTS * 2) q (convEvent F.fOptions sa e)) calls := by
  obtain ⟨hF, hs, ho, ht, hq, d, hd, hp, hc⟩ := h
  obtain ⟨e1, e2, e3, _, hfr⟩ := handleEvent_spec fx eng sa e s
  have hopt : s.st.fOptions = F.fOptions := by rw [← hF]; rfl
  rw [hs, hopt] at hfr
  obtain ⟨d2, hd2, hq2⟩ := hfr.2.1
  refine ⟨hfr.1.trans hF, e2.trans hs, (congrArg Option.isSome e1).trans ho, e3.trans ht, ?_,
    d ++ d2, ?_, ?_, ?_⟩
  · rw [hfr.queued, hq]; rfl
  · rw [hd2, hd, List.append_assoc]
  · rw [(subCallsFrom_append [] d d2).2, hp, ← List.append_nil d2,
      (subCallsFrom_quiet [] d2 [] hq2).2]
    rfl
  · rw [(subCallsFrom_append [] d d2).1, hp, hc, ← List.append_nil d2,
      (subCallsFrom_quiet [] d2 [] hq2).1]
    simp [subCallsFrom]

theorem clearQueued_spec (st : Plugin) :
    (clearQueued st).fixed = st.fixed ∧ (clearQueued st).log = st.log ∧
    (clearQueued st).fMidiEventCount = 0 ∧ queuedEvents (clearQueued st) = [] := by
  unfold clearQueued
  split
  · refine ⟨rfl, rfl, rfl, ?_⟩
    simp [queuedEvents]
  · have h0 : st.fMidiEventCount = 0 := by omega
    refine ⟨rfl, rfl, h0, ?_⟩
    simp [queuedEvents, h0]

theorem Tracks.splitBlock {L0 : List Call} {F : Fixed} {o : Bool} {s : EventLoop} {t : Nat}
    {q : List VstMidiEvent} {calls : List SubCall} (fx : AEffect) (eng : Engine) (blk : Block)
    (inBuffer : Option Buffers) (time : Nat) (h : Tracks L0 F o s t q calls)
    (hE : F.hasEffect = true) (hin : F.audioInCount > 0 → inBuffer.isSome = true)
    (hout : F.audioOutCount > 0 → o = true) (hlock : LockFree eng blk) (htime : time > t) :
    Tracks L0 F o (splitBlock fx eng blk inBuffer time s) time []
      (calls ++ [⟨t, time - t, q⟩]) := by
  obtain ⟨hF, hs, ho, ht, hq, d, hd, hp, hc⟩ := h
  have hf : time - s.timeOffset ≠ 0 := by omega
  have hcan : CanProcess eng (withLockState (blk.singleMutexHeld s.attempts) s.st) inBuffer
      s.out := by
    refine ⟨?_, ?_, ?_⟩
    · intro h1
      apply hin
      rw [← hF]
      exact h1
    · intro h1
      rw [ho]
      apply hout
      rw [← hF]
      exact h1
    · rcases hlock with h1 | h1
      · exact Or.inl h1
      · exact Or.inr (h1 _)
  have hE' : (withLockState (blk.singleMutexHeld s.attempts) s.st).hasEffect = true := by
    rw [← hF] at hE
    exact hE
  obtain ⟨p1, p2, _, _, _, _, _, p8, d2, hd2, hq2⟩ :=
    processSingle_success fx eng (withLockState (blk.singleMutexHeld s.attempts) s.st)
      inBuffer s.out (time - s.timeOffset) s.timeOffset hf hE' hcan
  unfold Carla.splitBlock
  simp only [p1, if_true]
  obtain ⟨c1, c2, _, c4⟩ := clearQueued_spec
    (processSingle fx eng (withLockState (blk.singleMutexHeld s.attempts) s.st) inBuffer s.out
      (time - s.timeOffset) s.timeOffset).1
  refine ⟨?_, rfl, p8.trans ho, rfl, c4,
    d ++ (subCallEntries s.st (time - s.timeOffset) s.timeOffset ++ d2), ?_, ?_, ?_⟩
  · exact (c1.trans p2).trans hF
  · show (clearQueued _).log = _
    rw [c2, hd2]
    show s.st.log ++ subCallEntries s.st (time - s.timeOffset) s.timeOffset ++ d2 = _
    rw [hd, List.append_assoc, List.append_assoc]
  · rw [(subCallsFrom_append [] d _).2, hp, (subCallsFrom_append [] _ d2).2,
      (subCallsFrom_subCallEntries _ _ _).2, ← List.append_nil d2,
      (subCallsFrom_quiet [] d2 [] hq2).2]
    rfl
  · rw [(subCallsFrom_append [] d _).1, hp, hc, (subCallsFrom_append [] _ d2).1,
      (subCallsFrom_subCallEntries _ _ _).1, (subCallsFrom_subCallEntries _ _ _).2,
      ← List.append_nil d2, (subCallsFrom_quiet [] d2 [] hq2).1, hq, ht]
    simp [subCallsFrom]

theorem Tracks.eventLoop {L0 : List Call} {F : Fixed} {o : Bool} (fx : AEffect) (eng : Engine)
    (blk : Block) (inBuffer : Option Buffers) (frames : Nat) (sa : Bool)
    (hE : F.hasEffect = true) (hin : F.audioInCount > 0 → inBuffer.isSome = true)
    (hout : F.audioOutCount > 0 → o = true) (hlock : LockFree eng blk)
    (es : List EngineEvent) (s : EventLoop) (t : Nat) (q : List VstMidiEvent)
    (calls : List SubCall) (h : Tracks L0 F o s t q calls) :
    Tracks L0 F o (Carla.eventLoop fx eng blk inBuffer frames sa es s)
      (segCalls (eng.MAX_MIDI_EVENTS * 2) F.fOptions frames sa t q es).2.1
      (segCalls (eng.MAX_MIDI_EVENTS * 2) F.fOptions frames sa t q es).2.2
      (calls ++ (segCalls (eng.MAX_MIDI_EVENTS * 2) F.fOptions frames sa t q es).1) := by
  induction es generalizing s t q calls with
  | nil =>
    simp only [Carla.eventLoop, List.foldl_nil, segCalls, List.append_nil]
    exact h
  | cons e es ih =>
    have hstep : Carla.eventLoop fx eng blk inBuffer frames sa (e :: es) s =
        Carla.eventLoop fx eng blk inBuffer frames sa es
          (eventStep fx eng blk inBuffer frames sa s e) := rfl
    rw [hstep]
    have ht := h.2.2.2.1
    unfold eventStep
    rw [segCalls]
    by_cases h1 : e.time ≥ frames
    · rw [if_pos h1, if_pos h1]
      exact ih s t q calls h
    · rw [if_neg h1, if_neg h1]
      by_cases h2 : e.time > t ∧ sa = true
      · have h2' : e.time > s.timeOffset ∧ sa = true := by rw [ht]; exact h2
        rw [if_pos h2, if_pos h2']
        have hsplit := Tracks.splitBlock fx eng blk inBuffer e.time h hE hin hout hlock h2.1
        have hh := Tracks.handleEvent fx eng sa e hsplit
        have := ih _ _ _ _ hh
        rw [List.append_assoc] at this
        exact this
      · have h2' : ¬ (e.time > s.timeOffset ∧ sa = true) := by rw [ht]; exact h2
        rw [if_neg h2, if_neg h2']
        exact ih _ _ _ _ (Tracks.handleEvent fx eng sa e h)

/-! ### The sub-calls of a whole block -/

theorem processReset_spec (st : Plugin) :
    (processReset st).fixed = st.fixed ∧ (processReset st).log = st.log := by
  unfold processReset
  split
  · simp only
    have h1 : ∀ s : Plugin, (resetAllSoundOff s).fixed = s.fixed ∧ (resetAllSoundOff s).log = s.log :=
      fun s => ⟨rfl, rfl⟩
    have h2 : ∀ s : Plugin, (resetNotesOff s).fixed = s.fixed ∧ (resetNotesOff s).log = s.log :=
      fun s => ⟨rfl, rfl⟩
    have h3 : ∀ s : Plugin, (resetLatencyBuffers s).fixed = s.fixed ∧
        (resetLatencyBuffers s).log = s.log := fun s => ⟨rfl, rfl⟩
    have ha : (if st.fOptions.sendAllSoundOff = true then resetAllSoundOff st
        else if st.ctrlChannel ≥ 0 ∧ st.ctrlChannel < ↑MAX_MIDI_CHANNELS then resetNotesOff st
        else st).fixed = st.fixed ∧
        (if st.fOptions.sendAllSoundOff = true then resetAllSoundOff st
        else if st.ctrlChannel ≥ 0 ∧ st.ctrlChannel < ↑MAX_MIDI_CHANNELS then resetNotesOff st
        else st).log = st.log := by
      split
      · exact h1 st
      · split
        · exact h2 st
        · exact ⟨rfl, rfl⟩
    generalize (if st.fOptions.sendAllSoundOff = true then resetAllSoundOff st
        else if st.ctrlChannel ≥ 0 ∧ st.ctrlChannel < ↑MAX_MIDI_CHANNELS then resetNotesOff st
        else st) = s1 at ha
    have hb : (if s1.latency > 0 then resetLatencyBuffers s1 else s1).fixed = s1.fixed ∧
        (if s1.latency > 0 then resetLatencyBuffers s1 else s1).log = s1.log := by
      split
      · exact h3 s1
      · exact ⟨rfl, rfl⟩
    generalize (if s1.latency > 0 then resetLatencyBuffers s1 else s1) = s2 at hb
    exact ⟨hb.1.trans ha.1, hb.2.trans ha.2⟩
  · exact ⟨rfl, rfl⟩

theorem blockStart_spec (eng : Engine) (st : Plugin) :
    (blockStart eng st).fixed = st.fixed ∧ (blockStart eng st).log = st.log := by
  unfold blockStart
  have h1 := processReset_spec (clearEventArray eng st)
  exact ⟨h1.1, h1.2⟩

theorem drainExtNotes_spec (cap : Nat) (notes : List ExternalMidiNote) (st : Plugin) :
    (drainExtNotes cap notes st).fixed = st.fixed ∧ (drainExtNotes cap notes st).log = st.log := by
  induction notes generalizing st with
  | nil => exact ⟨rfl, rfl⟩
  | cons n ns ih =>
    rw [drainExtNotes]
    split
    · exact ⟨(ih _).1, (ih _).2⟩
    · exact ⟨rfl, rfl⟩

theorem processExtNotes_spec (eng : Engine) (blk : Block) (st : Plugin) :
    (processExtNotes eng blk st).fixed = st.fixed ∧ (processExtNotes eng blk st).log = st.log := by
  unfold processExtNotes
  split
  · exact drainExtNotes_spec ..
  · exact ⟨rfl, rfl⟩

/-- The sub-calls that the log shows for the event section of a block in which every
`processSingle` takes the lock are the ones `blockCalls` lists. -/
theorem processWithEvents_subCalls (fx : AEffect) (eng : Engine) (blk : Block) (st : Plugin)
    (inBuffer outBuffer : Option Buffers) (frames : Nat)
    (hE : st.hasEffect = true)
    (hin : st.audioInCount > 0 → inBuffer.isSome = true)
    (hout : st.audioOutCount > 0 → outBuffer.isSome = true)
    (hlock : LockFree eng blk) :
    (processWithEvents fx eng blk st inBuffer outBuffer frames).1.fixed = st.fixed ∧
    ∃ added : List Call,
      (processWithEvents fx eng blk st inBuffer outBuffer frames).1.log = st.log ++ added ∧
      subCalls added = blockCalls (eng.MAX_MIDI_EVENTS * 2) st.fOptions frames
        (!st.fOptions.fixedBuffer) (queuedEvents (processExtNotes eng blk st)) blk.events := by
  obtain ⟨xf, xl⟩ := processExtNotes_spec eng blk st
  have hE' : st.fixed.hasEffect = true := hE
  have h0 : Tracks st.log st.fixed outBuffer.isSome
      { st := processExtNotes eng blk st, out := outBuffer } 0
      (queuedEvents (processExtNotes eng blk st)) [] :=
    ⟨xf, rfl, rfl, rfl, rfl, [], by simp [xl], rfl, rfl⟩
  have hloop := Tracks.eventLoop fx eng blk inBuffer frames
    (!(processExtNotes eng blk st).fOptions.fixedBuffer) hE' hin hout hlock blk.events _ _ _ _ h0
  have hopt : (processExtNotes eng blk st).fOptions = st.fOptions := congrArg Fixed.fOptions xf
  rw [hopt] at hloop
  unfold processWithEvents blockCalls
  simp only [hopt]
  generalize Carla.eventLoop fx eng blk inBuffer frames (!st.fOptions.fixedBuffer) blk.events
    { st := processExtNotes eng blk st, out := outBuffer } = s at hloop
  have hfo : st.fixed.fOptions = st.fOptions := rfl
  rw [hfo] at hloop
  generalize segCalls (eng.MAX_MIDI_EVENTS * 2) st.fOptions frames (!st.fOptions.fixedBuffer) 0
    (queuedEvents (processExtNotes eng blk st)) blk.events = r at hloop
  obtain ⟨hF, _, ho, ht, hq, d, hd, hp, hc⟩ := hloop
  rw [List.nil_append] at hc
  by_cases hfr : frames > r.2.1
  · have hfr' : frames > s.timeOffset := by rw [ht]; exact hfr
    rw [if_pos hfr', if_pos hfr]
    have hcan : CanProcess eng (withLockState (blk.singleMutexHeld s.attempts) s.st) inBuffer
        s.out := by
      refine ⟨?_, ?_, ?_⟩
      · intro h1
        apply hin
        have : s.st.audioInCount = st.audioInCount := congrArg Fixed.audioInCount hF
        rw [← this]
        exact h1
      · intro h1
        rw [ho]
        apply hout
        have : s.st.audioOutCount = st.audioOutCount := congrArg Fixed.audioOutCount hF
        rw [← this]
        exact h1
      · rcases hlock with h1 | h1
        · exact Or.inl h1
        · exact Or.inr (h1 _)
    have hEs : (withLockState (blk.singleMutexHeld s.attempts) s.st).hasEffect = true := by
      have : s.st.hasEffect = st.hasEffect := congrArg Fixed.hasEffect hF
      exact this.trans hE
    obtain ⟨_, p2, _, _, _, _, _, _, d2, hd2, hq2⟩ :=
      processSingle_success fx eng (withLockState (blk.singleMutexHeld s.attempts) s.st)
        inBuffer s.out (frames - s.timeOffset) s.timeOffset (by omega) hEs hcan
    refine ⟨p2.trans hF, d ++ (subCallEntries s.st (frames - s.timeOffset) s.timeOffset ++ d2),
      ?_, ?_⟩
    · simp only
      rw [hd2]
      show s.st.log ++ subCallEntries s.st (frames - s.timeOffset) s.timeOffset ++ d2 = _
      rw [hd, List.append_assoc, List.append_assoc]
    · unfold subCalls
      rw [(subCallsFrom_append [] d _).1, hp, hc, (subCallsFrom_append [] _ d2).1,
        (subCallsFrom_subCallEntries _ _ _).1, (subCallsFrom_subCallEntries _ _ _).2,
        ← List.append_nil d2, (subCallsFrom_quiet [] d2 [] hq2).1, hq, ht]
      simp [subCallsFrom]
  · have hfr' : ¬ frames > s.timeOffset := by rw [ht]; exact hfr
    rw [if_neg hfr', if_neg hfr]
    refine ⟨hF, d, hd, ?_⟩
    unfold subCalls
    rw [hc, List.append_nil]

theorem processMidiOutput_log (eng : Engine) (st : Plugin) :
    (processMidiOutput eng st).log = st.log := by
  unfold processMidiOutput
  split <;> rfl

/-- `process` on an active, enabled adapter with an event input port runs its event section
on the state `blockStart` prepares. -/
theorem process_eq_events (fx : AEffect) (eng : Engine) (blk : Block) (st : Plugin)
    (inBuffer outBuffer : Option Buffers) (frames : Nat)
    (hactive : st.active = true) (henabled : st.fEnabled = true)
    (hev : st.hasEventIn = true) :
    (process fx eng blk st inBuffer outBuffer frames).1.log =
      (processWithEvents fx eng blk (blockStart eng st) inBuffer outBuffer frames).1.log ∧
    (process fx eng blk st inBuffer outBuffer frames).2 =
      (processWithEvents fx eng blk (blockStart eng st) inBuffer outBuffer frames).2 := by
  have h1 := processReset_spec (clearEventArray eng st)
  have e1 : (processReset (clearEventArray eng st)).fEnabled = true :=
    (congrArg Fixed.fEnabled h1.1).trans henabled
  have h2 := blockStart_spec eng st
  have e2 : (blockStart eng st).fEnabled = true := (congrArg Fixed.fEnabled h2.1).trans henabled
  have e3 : (blockStart eng st).hasEventIn = true :=
    (congrArg Fixed.hasEventIn h2.1).trans hev
  unfold process
  simp only [hactive, not_true_eq_false, if_false]
  rw [if_neg (by rw [e1]; simp)]
  have e2' : (setTimeInfo eng (processReset (clearEventArray eng st))).fEnabled = true := e2
  have e3' : (setTimeInfo eng (processReset (clearEventArray eng st))).hasEventIn = true := e3
  rw [if_neg (by rw [e2']; simp)]
  simp only [e3', if_true]
  split
  · exact ⟨rfl, rfl⟩
  · exact ⟨processMidiOutput_log _ _, rfl⟩

/-- The sub-calls of an active block with an event input port in which every `processSingle`
takes the lock, read off the log, are the ones `blockCalls` lists for the port events and the
queue the block starts with. -/
theorem process_subCalls (fx : AEffect) (eng : Engine) (blk : Block) (st : Plugin)
    (inBuffer outBuffer : Option Buffers) (frames : Nat)
    (hactive : st.active = true) (henabled : st.fEnabled = true)
    (hE : st.hasEffect = true) (hev : st.hasEventIn = true)
    (hin : st.audioInCount > 0 → inBuffer.isSome = true)
    (hout : st.audioOutCount > 0 → outBuffer.isSome = true)
    (hlock : LockFree eng blk) :
    ∃ added : List Call,
      (process fx eng blk st inBuffer outBuffer frames).1.log = st.log ++ added ∧
      subCalls added = blockCalls (eng.MAX_MIDI_EVENTS * 2) st.fOptions frames
        (!st.fOptions.fixedBuffer)
        (queuedEvents (processExtNotes eng blk (blockStart eng st))) blk.events := by
  obtain ⟨bf, bl⟩ := blockStart_spec eng st
  have hE' : (blockStart eng st).hasEffect = true := (congrArg Fixed.hasEffect bf).trans hE
  have hin' : (blockStart eng st).audioInCount > 0 → inBuffer.isSome = true := by
    intro h; apply hin
    have : (blockStart eng st).audioInCount = st.audioInCount := congrArg Fixed.audioInCount bf
    rw [← this]; exact h
  have hout' : (blockStart eng st).audioOutCount > 0 → outBuffer.isSome = true := by
    intro h; apply hout
    have : (blockStart eng st).audioOutCount = st.audioOutCount :=
      congrArg Fixed.audioOutCount bf
    rw [← this]; exact h
  obtain ⟨_, d, hd, hc⟩ := processWithEvents_subCalls fx eng blk (blockStart eng st) inBuffer
    outBuffer frames hE' hin' hout' hlock
  have hopt : (blockStart eng st).fOptions = st.fOptions := congrArg Fixed.fOptions bf
  rw [hopt] at hc
  refine ⟨d, ?_, hc⟩
  rw [(process_eq_events fx eng blk st inBuffer outBuffer frames hactive henabled hev).1, hd, bl]

/-! ### Properties of `segCalls` and `blockCalls` -/

theorem Tiles.append {a b c : Nat} {l1 l2 : List (Nat × Nat)} (h1 : Tiles a b l1)
    (h2 : Tiles b c l2) : Tiles a c (l1 ++ l2) := by
  induction l1 generalizing a with
  | nil =>
    simp only [Tiles] at h1
    subst h1
    exact h2
  | cons x xs ih =>
    obtain ⟨o, l⟩ := x
    simp only [Tiles, List.cons_append] at h1 ⊢
    exact ⟨h1.1, h1.2.1, ih h1.2.2⟩

/-- In a tiling from `a` to `b` every range lies in `[a, b]`, `a ≤ b`, and a frame of `[a, b)`
lies in exactly one range. -/
theorem Tiles.cover {a b : Nat} {l : List (Nat × Nat)} (h : Tiles a b l) :
    a ≤ b ∧ (∀ r ∈ l, a ≤ r.1 ∧ r.1 + r.2 ≤ b) ∧
    (∀ k, a ≤ k → k < b → (l.filter (inRange k)).length = 1) ∧
    (∀ k, k < a ∨ b ≤ k → (l.filter (inRange k)).length = 0) := by
  induction l generalizing a with
  | nil =>
    simp only [Tiles] at h
    subst h
    refine ⟨le_refl _, by simp, ?_, by simp⟩
    intro k h1 h2
    omega
  | cons x xs ih =>
    obtain ⟨o, l⟩ := x
    simp only [Tiles] at h
    obtain ⟨ho, hl, hrest⟩ := h
    subst ho
    obtain ⟨i1, i2, i3, i4⟩ := ih hrest
    refine ⟨by omega, ?_, ?_, ?_⟩
    · intro r hr
      rcases List.mem_cons.mp hr with h | h
      · subst h
        simp only
        omega
      · have := i2 r h
        omega
    · intro k h1 h2
      by_cases hk : k < o + l
      · have hin : inRange k (o, l) = true := by simp [inRange, h1, hk]
        rw [List.filter_cons_of_pos hin, List.length_cons, i4 k (Or.inl hk)]
      · have hin : ¬ inRange k (o, l) = true := by simp [inRange]; omega
        rw [List.filter_cons_of_neg hin]
        exact i3 k (by omega) h2
    · intro k hk
      have hin : ¬ inRange k (o, l) = true := by simp [inRange]; omega
      rw [List.filter_cons_of_neg hin]
      exact i4 k (by omega)

/-- The offsets of a tiling are strictly increasing. -/
theorem Tiles.offsets_lt {a b : Nat} {l : List (Nat × Nat)} (h : Tiles a b l) :
    (l.map Prod.fst).Pairwise (· < ·) := by
  induction l generalizing a with
  | nil => simp
  | cons x xs ih =>
    obtain ⟨o, len⟩ := x
    simp only [Tiles] at h
    obtain ⟨ho, hl, hrest⟩ := h
    subst ho
    simp only [List.map_cons, List.pairwise_cons]
    refine ⟨?_, ih hrest⟩
    intro y hy
    obtain ⟨r, hr, rfl⟩ := List.mem_map.mp hy
    have := (Tiles.cover hrest).2.1 r hr
    omega

theorem segCalls_tiles (cap : Nat) (opts : Options) (frames : Nat) (sa : Bool)
    (t : Nat) (q : List VstMidiEvent) (es : List EngineEvent) (ht : t < frames ∨ es = []) :
    Tiles t (segCalls cap opts frames sa t q es).2.1
      ((segCalls cap opts frames sa t q es).1.map SubCall.range) ∧
    ((segCalls cap opts frames sa t q es).2.1 < frames ∨
      (segCalls cap opts frames sa t q es).2.1 = t) := by
  induction es generalizing t q with
  | nil =>
    exact ⟨rfl, Or.inr rfl⟩
  | cons e es ih =>
    rw [segCalls]
    by_cases h1 : e.time ≥ frames
    · rw [if_pos h1]
      have ht' : t < frames ∨ es = [] := by
        rcases ht with h | h
        · exact Or.inl h
        · simp at h
      exact ih t q ht'
    · rw [if_neg h1]
      by_cases h2 : e.time > t ∧ sa = true
      · rw [if_pos h2]
        simp only [List.map_cons, Tiles, SubCall.range]
        obtain ⟨i1, i2⟩ := ih e.time (pushCap cap [] (convEvent opts sa e)) (Or.inl (by omega))
        refine ⟨⟨trivial, by omega, ?_⟩, ?_⟩
        · have : t + (e.time - t) = e.time := by omega
          rw [this]
          exact i1
        · rcases i2 with h | h
          · exact Or.inl h
          · exact Or.inl (by omega)
      · rw [if_neg h2]
        have ht' : t < frames ∨ es = [] := by
          rcases ht with h | h
          · exact Or.inl h
          · simp at h
        exact ih t _ ht'

/-- The frame ranges of the sub-calls of a block are consecutive from 0 to `frames`. -/
theorem blockCalls_tiles (cap : Nat) (opts : Options) (frames : Nat) (sa : Bool)
    (q0 : List VstMidiEvent) (events : List EngineEvent) :
    Tiles 0 frames ((blockCalls cap opts frames sa q0 events).map SubCall.range) := by
  unfold blockCalls
  simp only [List.map_append]
  have ht : 0 < frames ∨ events = [] ∨ frames = 0 := by omega
  by_cases hf : frames = 0
  · subst hf
    have hnil : ∀ (es : List EngineEvent) (t : Nat) (q : List VstMidiEvent),
        segCalls cap opts 0 sa t q es = ([], t, q) := by
      intro es
      induction es with
      | nil => intro t q; rfl
      | cons e es ih =>
        intro t q
        rw [segCalls, if_pos (Nat.zero_le _)]
        exact ih t q
    rw [hnil]
    simp [Tiles]
  · obtain ⟨h1, h2⟩ := segCalls_tiles cap opts frames sa 0 q0 events (Or.inl (by omega))
    have hlt : (segCalls cap opts frames sa 0 q0 events).2.1 < frames := by
      rcases h2 with h | h
      · exact h
      · omega
    rw [if_pos hlt]
    refine Tiles.append h1 ?_
    simp only [List.map_cons, List.map_nil, Tiles, SubCall.range]
    refine ⟨trivial, by omega, by omega⟩

theorem eventsAt_cons_eq (opts : Options) (sa : Bool) (e : EngineEvent)
    (es : List EngineEvent) :
    eventsAt opts sa e.time (e :: es) = convEvent opts sa e :: eventsAt opts sa e.time es := by
  simp [eventsAt]

theorem eventsAt_cons_ne (opts : Options) (sa : Bool) (o : Nat) (e : EngineEvent)
    (es : List EngineEvent) (h : e.time ≠ o) :
    eventsAt opts sa o (e :: es) = eventsAt opts sa o es := by
  simp [eventsAt, h]

theorem eventsAt_eq_nil (opts : Options) (sa : Bool) (o : Nat) (es : List EngineEvent)
    (h : ∀ e ∈ es, e.time ≠ o) : eventsAt opts sa o es = [] := by
  induction es with
  | nil => rfl
  | cons e es ih =>
    rw [eventsAt_cons_ne opts sa o e es (h e (List.mem_cons_self _ _))]
    exact ih (fun x hx => h x (List.mem_cons_of_mem _ hx))

theorem pushAll_cons (cap : Nat) (q : List VstMidiEvent) (v : Option VstMidiEvent)
    (vs : List (Option VstMidiEvent)) :
    pushAll cap q (v :: vs) = pushAll cap (pushCap cap q v) vs := rfl

/-- With sample-accurate splitting and port events in time order inside the block, every
record of the segmentation starts at the current offset or at an event time, and carries the
pending queue (at the current offset) followed by the queued forms of the port events with
exactly its offset, up to the capacity. -/
theorem segCalls_records (cap : Nat) (opts : Options) (frames : Nat)
    (t : Nat) (q : List VstMidiEvent) (es : List EngineEvent)
    (hb : ∀ e ∈ es, t ≤ e.time ∧ e.time < frames)
    (hs : es.Pairwise (fun a b => a.time ≤ b.time)) :
    (∀ p ∈ segRecords (segCalls cap opts frames true t q es),
      t ≤ p.1 ∧ p.2 = pushAll cap (if p.1 = t then q else []) (eventsAt opts true p.1 es)) ∧
    (∀ x, x ∈ (segRecords (segCalls cap opts frames true t q es)).map Prod.fst ↔
      (x = t ∨ ∃ e ∈ es, e.time = x)) := by
  induction es generalizing t q with
  | nil =>
    constructor
    · intro p hp
      simp only [segCalls, segRecords, List.map_nil, List.nil_append, List.mem_singleton] at hp
      subst hp
      simp [pushAll, eventsAt]
    · intro x
      simp [segCalls, segRecords]
  | cons e es ih =>
    have he := hb e (List.mem_cons_self _ _)
    have hs' := (List.pairwise_cons.mp hs)
    rw [segCalls, if_neg (by omega)]
    by_cases h2 : e.time > t
    · rw [if_pos ⟨h2, rfl⟩]
      obtain ⟨i1, i2⟩ := ih e.time (pushCap cap [] (convEvent opts true e))
        (fun x hx => ⟨hs'.1 x hx, (hb x (List.mem_cons_of_mem _ hx)).2⟩) hs'.2
      constructor
      · intro p hp
        simp only [segRecords, List.map_cons, List.cons_append, List.mem_cons] at hp
        rcases hp with hp | hp
        · subst hp
          simp only [if_true, le_refl, true_and]
          rw [eventsAt_eq_nil]
          · rfl
          · intro x hx
            rcases List.mem_cons.mp hx with h | h
            · subst h; omega
            · have := hs'.1 x h; omega
        · obtain ⟨j1, j2⟩ := i1 p hp
          refine ⟨by omega, ?_⟩
          rw [j2, if_neg (by omega : ¬ p.1 = t)]
          by_cases hpe : p.1 = e.time
          · rw [if_pos hpe, hpe, eventsAt_cons_eq, pushAll_cons]
          · rw [if_neg hpe, eventsAt_cons_ne _ _ _ _ _ (fun h => hpe h.symm)]
      · intro x
        have := i2 x
        simp only [segRecords, List.map_cons, List.cons_append, List.mem_cons] at this ⊢
        rw [this]
        constructor
        · rintro (h | h | ⟨y, hy, h⟩)
          · exact Or.inl h
          · exact Or.inr ⟨e, Or.inl rfl, h.symm⟩
          · exact Or.inr ⟨y, Or.inr hy, h⟩
        · rintro (h | ⟨y, hy | hy, h⟩)
          · exact Or.inl h
          · subst hy; exact Or.inr (Or.inl h.symm)
          · exact Or.inr (Or.inr ⟨y, hy, h⟩)
    · rw [if_neg (fun h => h2 h.1)]
      have het : e.time = t := by omega
      obtain ⟨i1, i2⟩ := ih t (pushCap cap q (convEvent opts true e))
        (fun x hx => hb x (List.mem_cons_of_mem _ hx)) hs'.2
      constructor
      · intro p hp
        obtain ⟨j1, j2⟩ := i1 p hp
        refine ⟨j1, ?_⟩
        rw [j2]
        by_cases hpt : p.1 = t
        · rw [if_pos hpt, if_pos hpt, hpt, ← het, eventsAt_cons_eq, pushAll_cons]
        · rw [if_neg hpt, if_neg hpt,
            eventsAt_cons_ne _ _ _ _ _ (fun h => hpt (h.symm.trans het))]
      · intro x
        rw [i2 x]
        constructor
        · rintro (h | ⟨y, hy, h⟩)
          · exact Or.inl h
          · exact Or.inr ⟨y, List.mem_cons_of_mem _ hy, h⟩
        · rintro (h | ⟨y, hy, h⟩)
          · exact Or.inl h
          · rcases List.mem_cons.mp hy with hy | hy
            · subst hy; exact Or.inl (h.symm.trans het)
            · exact Or.inr ⟨y, hy, h⟩

/-- When every port event lies inside a non-empty block, the sub-calls of the block are
exactly the records of the segmentation: the final sub-call is always issued. -/
theorem blockCalls_records (cap : Nat) (opts : Options) (frames : Nat) (sa : Bool)
    (q0 : List VstMidiEvent) (events : List EngineEvent) (hf : 0 < frames) :
    (blockCalls cap opts frames sa q0 events).map (fun c => (c.timeOffset, c.events)) =
      segRecords (segCalls cap opts frames sa 0 q0 events) := by
  obtain ⟨_, h2⟩ := segCalls_tiles cap opts frames sa 0 q0 events (Or.inl hf)
  have hlt : (segCalls cap opts frames sa 0 q0 events).2.1 < frames := by
    rcases h2 with h | h
    · exact h
    · omega
  unfold blockCalls segRecords
  simp only [if_pos hlt, List.map_append, List.map_cons, List.map_nil]

/-! ### Sample-accurate splitting -/

/-- C3. With the FIXED_BUFFER option clear, an event input port, every `processSingle` of the
block taking the lock, and port events in non-decreasing time order with all times below
`frames`, the foreign process calls that `process` adds to the log have frame ranges
`(offset, length)` that are consecutive from 0 to `frames` (each starts where the previous
one ends, each is non-empty), all lie inside the block, cover every frame of `[0, frames)`
exactly once, start at strictly increasing offsets, and (for a non-empty block) start exactly
at 0 and at the event times: one call per sub-range between consecutive distinct event
times. -/
theorem process_split_tiles (fx : AEffect) (eng : Engine) (blk : Block) (st : Plugin)
    (inBuffer outBuffer : Option Buffers) (frames : Nat)
    (hactive : st.active = true) (henabled : st.fEnabled = true)
    (hE : st.hasEffect = true) (hev : st.hasEventIn = true)
    (hin : st.audioInCount > 0 → inBuffer.isSome = true)
    (hout : st.audioOutCount > 0 → outBuffer.isSome = true)
    (hlock : LockFree eng blk)
    (hsa : st.fOptions.fixedBuffer = false)
    (hsorted : blk.events.Pairwise (fun a b => a.time ≤ b.time))
    (hlt : ∀ e ∈ blk.events, e.time < frames) :
    ∃ added : List Call,
      (process fx eng blk st inBuffer outBuffer frames).1.log = st.log ++ added ∧
      Tiles 0 frames ((subCalls added).map SubCall.range) ∧
      (∀ r ∈ (subCalls added).map SubCall.range, r.1 + r.2 ≤ frames) ∧
      (∀ k, k < frames → (((subCalls added).map SubCall.range).filter (inRange k)).length = 1) ∧
      ((subCalls added).map SubCall.timeOffset).Pairwise (· < ·) ∧
      (0 < frames → ∀ x, x ∈ (subCalls added).map SubCall.timeOffset ↔
        (x = 0 ∨ ∃ e ∈ blk.events, e.time = x)) := by
  obtain ⟨added, hlog, hcalls⟩ := process_subCalls fx eng blk st inBuffer outBuffer frames
    hactive henabled hE hev hin hout hlock
  refine ⟨added, hlog, ?_⟩
  rw [hcalls, hsa]
  have ht := blockCalls_tiles (eng.MAX_MIDI_EVENTS * 2) st.fOptions frames (!false)
    (queuedEvents (processExtNotes eng blk (blockStart eng st))) blk.events
  obtain ⟨_, c2, c3, _⟩ := Tiles.cover ht
  refine ⟨ht, fun r hr => (c2 r hr).2, fun k hk => c3 k (Nat.zero_le _) hk, ?_, ?_⟩
  · have := Tiles.offsets_lt ht
    rw [List.map_map] at this
    exact this
  · intro hf x
    have hrec := blockCalls_records (eng.MAX_MIDI_EVENTS * 2) st.fOptions frames (!false)
      (queuedEvents (processExtNotes eng blk (blockStart eng st))) blk.events hf
    have hoff : (blockCalls (eng.MAX_MIDI_EVENTS * 2) st.fOptions frames (!false)
        (queuedEvents (processExtNotes eng blk (blockStart eng st))) blk.events).map
          SubCall.timeOffset =
        (segRecords (segCalls (eng.MAX_MIDI_EVENTS * 2) st.fOptions frames (!false) 0
          (queuedEvents (processExtNotes eng blk (blockStart eng st))) blk.events)).map
          Prod.fst := by
      rw [← hrec, List.map_map]
      rfl
    rw [hoff]
    exact (segCalls_records (eng.MAX_MIDI_EVENTS * 2) st.fOptions frames 0 _ blk.events
      (fun e he => ⟨Nat.zero_le _, hlt e he⟩) hsorted).2 x

/-- C3, witness of `process_split_tiles`: events at frames 0, 10 and 37 of a 64-frame block
give exactly three foreign process calls, over `[0,10)`, `[10,37)` and `[37,64)`. -/
theorem process_split_tiles_witness :
    (splitExampleState.active = true ∧ splitExampleState.fEnabled = true ∧
      splitExampleState.hasEffect = true ∧ splitExampleState.hasEventIn = true ∧
      LockFree {} splitExampleBlock ∧ splitExampleState.fOptions.fixedBuffer = false ∧
      splitExampleBlock.events.Pairwise (fun a b => a.time ≤ b.time) ∧
      (∀ e ∈ splitExampleBlock.events, e.time < 64)) ∧
    (∃ added : List Call,
      (process {} {} splitExampleBlock splitExampleState none none 64).1.log
        = splitExampleState.log ++ added ∧
      Tiles 0 64 ((subCalls added).map SubCall.range) ∧
      (∀ r ∈ (subCalls added).map SubCall.range, r.1 + r.2 ≤ 64) ∧
      (∀ k, k < 64 → (((subCalls added).map SubCall.range).filter (inRange k)).length = 1) ∧
      ((subCalls added).map SubCall.timeOffset).Pairwise (· < ·) ∧
      (0 < 64 → ∀ x, x ∈ (subCalls added).map SubCall.timeOffset ↔
        (x = 0 ∨ ∃ e ∈ splitExampleBlock.events, e.time = x))) ∧
    (subCalls (process {} {} splitExampleBlock splitExampleState none none 64).1.log).map
      SubCall.range = [(0, 10), (10, 27), (37, 27)] :=
  ⟨⟨rfl, rfl, rfl, rfl, Or.inr (fun _ => rfl), rfl, by decide, by decide⟩,
    process_split_tiles {} {} splitExampleBlock splitExampleState none none 64 rfl rfl rfl rfl
      (by decide) (by decide) (Or.inr (fun _ => rfl)) rfl (by decide) (by decide),
    by decide⟩

/-! ### The events of each sub-call -/

theorem segCalls_frames_zero (cap : Nat) (opts : Options) (sa : Bool) (t : Nat)
    (q : List VstMidiEvent) (es : List EngineEvent) :
    segCalls cap opts 0 sa t q es = ([], t, q) := by
  induction es with
  | nil => rfl
  | cons e es ih =>
    rw [segCalls, if_pos (Nat.zero_le _)]
    exact ih

theorem blockCalls_frames_zero (cap : Nat) (opts : Options) (sa : Bool)
    (q0 : List VstMidiEvent) (events : List EngineEvent) :
    blockCalls cap opts 0 sa q0 events = [] := by
  simp [blockCalls, segCalls_frames_zero]

theorem segCalls_cons (cap : Nat) (opts : Options) (frames : Nat) (sa : Bool) (t : Nat)
    (q : List VstMidiEvent) (e : EngineEvent) (es : List EngineEvent) :
    segCalls cap opts frames sa t q (e :: es) =
      if e.time ≥ frames then segCalls cap opts frames sa t q es
      else if e.time > t ∧ sa = true then
        ((⟨t, e.time - t, q⟩ : SubCall) ::
          (segCalls cap opts frames sa e.time (pushCap cap [] (convEvent opts sa e)) es).1,
         (segCalls cap opts frames sa e.time (pushCap cap [] (convEvent opts sa e)) es).2)
      else segCalls cap opts frames sa t (pushCap cap q (convEvent opts sa e)) es := by
  rw [segCalls]

/-- Port events at or after the end of the block play no part in the segmentation. -/
theorem segCalls_filter (cap : Nat) (opts : Options) (frames : Nat) (sa : Bool) (t : Nat)
    (q : List VstMidiEvent) (es : List EngineEvent) :
    segCalls cap opts frames sa t q es =
      segCalls cap opts frames sa t q (es.filter (fun e => decide (e.time < frames))) := by
  induction es generalizing t q with
  | nil => rfl
  | cons e es ih =>
    by_cases h : e.time < frames
    · have hge : ¬ e.time ≥ frames := by omega
      rw [List.filter_cons_of_pos (by simpa using h), segCalls_cons, segCalls_cons,
        if_neg hge, if_neg hge]
      by_cases h2 : e.time > t ∧ sa = true
      · rw [if_pos h2, if_pos h2, ih]
      · rw [if_neg h2, if_neg h2, ih]
    · have hge : e.time ≥ frames := by omega
      rw [List.filter_cons_of_neg (by simpa using h), segCalls_cons, if_pos hge]
      exact ih t q

theorem eventsAt_filter_lt (opts : Options) (sa : Bool) (o frames : Nat)
    (es : List EngineEvent) (ho : o < frames) :
    eventsAt opts sa o (es.filter (fun e => decide (e.time < frames))) =
      eventsAt opts sa o es := by
  induction es with
  | nil => rfl
  | cons e es ih =>
    by_cases h : e.time < frames
    · rw [List.filter_cons_of_pos (by simpa using h)]
      by_cases h2 : e.time = o
      · subst h2
        rw [eventsAt_cons_eq, eventsAt_cons_eq, ih]
      · rw [eventsAt_cons_ne _ _ _ _ _ h2, eventsAt_cons_ne _ _ _ _ _ h2, ih]
    · rw [List.filter_cons_of_neg (by simpa using h),
        eventsAt_cons_ne _ _ _ _ _ (by omega : e.time ≠ o), ih]

/-- Every event of a pushed queue was in the queue or among the candidates pushed. -/
theorem pushAll_mem (cap : Nat) (q : List VstMidiEvent) (vs : List (Option VstMidiEvent))
    (v : VstMidiEvent) (h : v ∈ pushAll cap q vs) : v ∈ q ∨ some v ∈ vs := by
  induction vs generalizing q with
  | nil => exact Or.inl h
  | cons x xs ih =>
    rw [pushAll_cons] at h
    rcases ih _ h with h1 | h1
    · unfold pushCap at h1
      split at h1
      · exact Or.inl h1
      · rcases List.mem_append.mp h1 with h2 | h2
        · exact Or.inl h2
        · refine Or.inr (List.mem_cons.mpr (Or.inl ?_))
          cases x with
          | none => simp at h2
          | some y =>
            simp only [Option.toList, List.mem_singleton] at h2
            rw [h2]
    · exact Or.inr (List.mem_cons_of_mem _ h1)

theorem eventsAt_mem (opts : Options) (sa : Bool) (o : Nat) (es : List EngineEvent)
    (v : VstMidiEvent) (h : some v ∈ eventsAt opts sa o es) :
    ∃ e ∈ es, e.time = o ∧ convEvent opts sa e = some v := by
  unfold eventsAt at h
  obtain ⟨e, he, hc⟩ := List.mem_map.mp h
  obtain ⟨h1, h2⟩ := List.mem_filter.mp he
  exact ⟨e, h1, by simpa using h2, hc⟩

/-- With sample-accurate splitting and port events in time order, each sub-call of a block
carries the initial queue (when it starts at 0) followed by the queued forms of the port
events with exactly its offset, up to the capacity. -/
theorem blockCalls_events (cap : Nat) (opts : Options) (frames : Nat)
    (q0 : List VstMidiEvent) (events : List EngineEvent)
    (hs : events.Pairwise (fun a b => a.time ≤ b.time)) :
    ∀ c ∈ blockCalls cap opts frames true q0 events,
      c.events = pushAll cap (if c.timeOffset = 0 then q0 else [])
        (eventsAt opts true c.timeOffset events) := by
  intro c hc
  by_cases hf : frames = 0
  · subst hf
    rw [blockCalls_frames_zero] at hc
    simp at hc
  · have hrec := blockCalls_records cap opts frames true q0 events (by omega)
    rw [segCalls_filter] at hrec
    have hb : ∀ e ∈ events.filter (fun e => decide (e.time < frames)),
        0 ≤ e.time ∧ e.time < frames := by
      intro e he
      have := (List.mem_filter.mp he).2
      exact ⟨Nat.zero_le _, by simpa using this⟩
    obtain ⟨r1, r2⟩ := segCalls_records cap opts frames 0 q0 _ hb
      (List.Pairwise.sublist (List.filter_sublist _) hs)
    have hmem : (c.timeOffset, c.events) ∈
        segRecords (segCalls cap opts frames true 0 q0
          (events.filter (fun e => decide (e.time < frames)))) := by
      rw [← hrec]
      exact List.mem_map.mpr ⟨c, hc, rfl⟩
    have hlt : c.timeOffset < frames := by
      rcases (r2 c.timeOffset).mp (List.mem_map.mpr ⟨_, hmem, rfl⟩) with h | ⟨e, he, h⟩
      · omega
      · have := (hb e he).2
        omega
    have := (r1 _ hmem).2
    simp only at this
    rw [this, eventsAt_filter_lt _ _ _ _ _ hlt]

/-- C4. With the FIXED_BUFFER option clear, every `processSingle` of the block taking the lock
and port events in non-decreasing time order, the event list handed to the foreign module
before the process call starting at offset `s` is the initial queue of the block (the reset
burst and the external notes; only when `s = 0`) followed by the queued forms of the port
events with time exactly `s`, in port order and up to the capacity. So every event handed
over at `s` is an initial event (and `s = 0`) or comes from a port event with time `s`, never
from a later one; and as the offsets of the sub-calls are strictly increasing, hence
distinct, no port event is handed over in two sub-calls. -/
theorem process_subcall_events (fx : AEffect) (eng : Engine) (blk : Block) (st : Plugin)
    (inBuffer outBuffer : Option Buffers) (frames : Nat)
    (hactive : st.active = true) (henabled : st.fEnabled = true)
    (hE : st.hasEffect = true) (hev : st.hasEventIn = true)
    (hin : st.audioInCount > 0 → inBuffer.isSome = true)
    (hout : st.audioOutCount > 0 → outBuffer.isSome = true)
    (hlock : LockFree eng blk)
    (hsa : st.fOptions.fixedBuffer = false)
    (hsorted : blk.events.Pairwise (fun a b => a.time ≤ b.time)) :
    ∃ added : List Call,
      (process fx eng blk st inBuffer outBuffer frames).1.log = st.log ++ added ∧
      (∀ c ∈ subCalls added,
        c.events = pushAll (eng.MAX_MIDI_EVENTS * 2)
          (if c.timeOffset = 0 then queuedEvents (processExtNotes eng blk (blockStart eng st))
            else [])
          (eventsAt st.fOptions true c.timeOffset blk.events)) ∧
      (∀ c ∈ subCalls added, ∀ v ∈ c.events,
        (c.timeOffset = 0 ∧ v ∈ queuedEvents (processExtNotes eng blk (blockStart eng st))) ∨
        ∃ e ∈ blk.events, e.time = c.timeOffset ∧ convEvent st.fOptions true e = some v) ∧
      ((subCalls added).map SubCall.timeOffset).Pairwise (· < ·) := by
  obtain ⟨added, hlog, hcalls⟩ := process_subCalls fx eng blk st inBuffer outBuffer frames
    hactive henabled hE hev hin hout hlock
  refine ⟨added, hlog, ?_⟩
  rw [hcalls, hsa]
  have hev := blockCalls_events (eng.MAX_MIDI_EVENTS * 2) st.fOptions frames
    (queuedEvents (processExtNotes eng blk (blockStart eng st))) blk.events hsorted
  refine ⟨hev, ?_, ?_⟩
  · intro c hc v hv
    rw [hev c hc] at hv
    rcases pushAll_mem _ _ _ _ hv with h | h
    · by_cases h0 : c.timeOffset = 0
      · rw [if_pos h0] at h
        exact Or.inl ⟨h0, h⟩
      · rw [if_neg h0] at h
        simp at h
    · exact Or.inr (eventsAt_mem _ _ _ _ _ h)
  · have := Tiles.offsets_lt (blockCalls_tiles (eng.MAX_MIDI_EVENTS * 2) st.fOptions frames
      (!false) (queuedEvents (processExtNotes eng blk (blockStart eng st))) blk.events)
    rw [List.map_map] at this
    exact this

/-- C4, witness of `process_subcall_events`: with events at frames 0, 10 and 37 of a 64-frame
block, each of the three sub-calls is handed exactly one event. -/
theorem process_subcall_events_witness :
    (splitExampleState.active = true ∧ splitExampleState.fEnabled = true ∧
      splitExampleState.hasEffect = true ∧ splitExampleState.hasEventIn = true ∧
      LockFree {} splitExampleBlock ∧ splitExampleState.fOptions.fixedBuffer = false ∧
      splitExampleBlock.events.Pairwise (fun a b => a.time ≤ b.time)) ∧
    (∃ added : List Call,
      (process {} {} splitExampleBlock splitExampleState none none 64).1.log
        = splitExampleState.log ++ added ∧
      (∀ c ∈ subCalls added,
        c.events = pushAll (({} : Engine).MAX_MIDI_EVENTS * 2)
          (if c.timeOffset = 0 then
            queuedEvents (processExtNotes {} splitExampleBlock (blockStart {} splitExampleState))
            else [])
          (eventsAt splitExampleState.fOptions true c.timeOffset splitExampleBlock.events)) ∧
      (∀ c ∈ subCalls added, ∀ v ∈ c.events,
        (c.timeOffset = 0 ∧
          v ∈ queuedEvents (processExtNotes {} splitExampleBlock
            (blockStart {} splitExampleState))) ∨
        ∃ e ∈ splitExampleBlock.events, e.time = c.timeOffset ∧
          convEvent splitExampleState.fOptions true e = some v) ∧
      ((subCalls added).map SubCall.timeOffset).Pairwise (· < ·)) ∧
    (subCalls (process {} {} splitExampleBlock splitExampleState none none 64).1.log).map
      (fun c => (c.timeOffset, c.events.map (fun v => (v.midiData0, v.midiData1)))) =
      [(0, [(0x90, 60)]), (10, [(0x90, 60)]), (37, [(0x90, 60)])] :=
  ⟨⟨rfl, rfl, rfl, rfl, Or.inr (fun _ => rfl), rfl, by decide⟩,
    process_subcall_events {} {} splitExampleBlock splitExampleState none none 64 rfl rfl rfl
      rfl (by decide) (by decide) (Or.inr (fun _ => rfl)) rfl (by decide),
    by decide⟩

/-! ### Event capacity -/

theorem pushCap_length_le (cap : Nat) (q : List VstMidiEvent) (v : Option VstMidiEvent)
    (h : q.length ≤ cap) : (pushCap cap q v).length ≤ cap := by
  unfold pushCap
  split
  · exact h
  · cases v with
    | none => simpa using h
    | some x =>
      simp only [Option.toList, List.length_append, List.length_singleton]
      omega

/-- Pushing candidates into a queue within its capacity keeps the earliest events, in order,
up to the capacity. -/
theorem pushAll_eq_take (cap : Nat) (q : List VstMidiEvent) (vs : List (Option VstMidiEvent))
    (h : q.length ≤ cap) : pushAll cap q vs = (q ++ vs.reduceOption).take cap := by
  induction vs generalizing q with
  | nil =>
    simp only [pushAll, List.foldl_nil, List.reduceOption_nil, List.append_nil]
    exact (List.take_of_length_le h).symm
  | cons v vs ih =>
    rw [pushAll_cons, ih _ (pushCap_length_le cap q v h)]
    unfold pushCap
    split
    · have hq : q.length = cap := by omega
      rw [List.take_append_of_le_length (by omega), List.take_append_of_le_length (by omega)]
    · cases v with
      | none => simp [List.reduceOption_cons_of_none]
      | some x => simp [List.reduceOption_cons_of_some]

/-- Port events with one time `t` inside the block, each queueable, are appended to the queue
while it has room. -/
theorem segCalls_replicate (cap : Nat) (opts : Options) (frames : Nat) (sa : Bool) (t : Nat)
    (e : EngineEvent) (v : VstMidiEvent) (hv : convEvent opts sa e = some v)
    (ht : e.time = t) (hf : t < frames) (n : Nat) (q : List VstMidiEvent)
    (hq : q.length + n ≤ cap) :
    segCalls cap opts frames sa t q (List.replicate n e) = ([], t, q ++ List.replicate n v) := by
  induction n generalizing q with
  | zero => simp [segCalls]
  | succ n ih =>
    rw [List.replicate_succ, segCalls_cons, if_neg (by omega), if_neg (by omega)]
    have hp : pushCap cap q (convEvent opts sa e) = q ++ [v] := by
      rw [hv, pushCap, if_neg (by omega)]
      rfl
    rw [hp, ih _ (by simp; omega)]
    simp [List.replicate_succ]

theorem segCalls_fixed (cap : Nat) (opts : Options) (frames : Nat) (t : Nat)
    (q : List VstMidiEvent) (es : List EngineEvent) :
    segCalls cap opts frames false t q es =
      ([], t, pushAll cap q
        ((es.filter (fun e => decide (e.time < frames))).map (convEvent opts false))) := by
  induction es generalizing q with
  | nil => rfl
  | cons e es ih =>
    rw [segCalls_cons]
    by_cases h : e.time ≥ frames
    · rw [if_pos h, List.filter_cons_of_neg (by simpa using h)]
      exact ih q
    · rw [if_neg h, if_neg (by simp), List.filter_cons_of_pos (by simpa using h), ih]
      rfl

/-- Without sample-accurate splitting a non-empty block is one sub-call. -/
theorem blockCalls_fixed (cap : Nat) (opts : Options) (frames : Nat)
    (q0 : List VstMidiEvent) (events : List EngineEvent) (hf : 0 < frames) :
    blockCalls cap opts frames false q0 events =
      [⟨0, frames, pushAll cap q0
        ((events.filter (fun e => decide (e.time < frames))).map (convEvent opts false))⟩] := by
  unfold blockCalls
  rw [segCalls_fixed]
  simp [hf]

theorem segCalls_length_le (cap : Nat) (opts : Options) (frames : Nat) (sa : Bool) (t : Nat)
    (q : List VstMidiEvent) (es : List EngineEvent) (hq : q.length ≤ cap) :
    (∀ c ∈ (segCalls cap opts frames sa t q es).1, c.events.length ≤ cap) ∧
    (segCalls cap opts frames sa t q es).2.2.length ≤ cap := by
  induction es generalizing t q with
  | nil => simp [segCalls, hq]
  | cons e es ih =>
    rw [segCalls_cons]
    split
    · exact ih t q hq
    · split
      · obtain ⟨i1, i2⟩ := ih e.time (pushCap cap [] (convEvent opts sa e))
          (pushCap_length_le _ _ _ (Nat.zero_le _))
        refine ⟨?_, i2⟩
        intro c hc
        rcases List.mem_cons.mp hc with h | h
        · subst h; exact hq
        · exact i1 c h
      · exact ih t _ (pushCap_length_le _ _ _ hq)

/-- No sub-call of a block carries more events than the capacity. -/
theorem blockCalls_length_le (cap : Nat) (opts : Options) (frames : Nat) (sa : Bool)
    (q0 : List VstMidiEvent) (events : List EngineEvent) (hq : q0.length ≤ cap) :
    ∀ c ∈ blockCalls cap opts frames sa q0 events, c.events.length ≤ cap := by
  obtain ⟨h1, h2⟩ := segCalls_length_le cap opts frames sa 0 q0 events hq
  intro c hc
  unfold blockCalls at hc
  rcases List.mem_append.mp hc with h | h
  · exact h1 c h
  · split at h
    · simp only [List.mem_singleton] at h
      subst h
      exact h2
    · simp at h

/-- One queueable event at frame 0 followed by `n + 1` queueable events at frame 1, with
`n + 1` within the capacity: two sub-calls, the first with one event, the second with all
`n + 1`. -/
theorem blockCalls_burst (cap : Nat) (opts : Options) (e0 e1 : EngineEvent)
    (v0 v1 : VstMidiEvent) (h0 : convEvent opts true e0 = some v0)
    (h1 : convEvent opts true e1 = some v1) (t0 : e0.time = 0) (t1 : e1.time = 1)
    (n : Nat) (hn : n + 1 ≤ cap) :
    blockCalls cap opts 2 true [] (e0 :: e1 :: List.replicate n e1) =
      [⟨0, 1, [v0]⟩, ⟨1, 1, v1 :: List.replicate n v1⟩] := by
  have p0 : pushCap cap [] (convEvent opts true e0) = [v0] := by
    rw [h0, pushCap, if_neg (by simp; omega)]
    rfl
  have p1 : pushCap cap [] (convEvent opts true e1) = [v1] := by
    rw [h1, pushCap, if_neg (by simp; omega)]
    rfl
  have s2 := segCalls_replicate cap opts 2 true 1 e1 v1 h1 t1 (by omega) n [v1]
    (by simp; omega)
  unfold blockCalls
  rw [segCalls_cons, if_neg (by omega), if_neg (by omega), p0, segCalls_cons,
    if_neg (by omega), if_pos ⟨by omega, rfl⟩, p1, t1, s2]
  simp

theorem processReset_count (st : Plugin) :
    (processReset st).fMidiEventCount ≤ max st.fMidiEventCount MAX_MIDI_NOTE := by
  unfold processReset
  by_cases h1 : st.needsReset = true
  · by_cases h2 : st.fOptions.sendAllSoundOff = true
    · by_cases h4 : st.latency > 0 <;>
        simp [h1, h2, h4, resetAllSoundOff, resetLatencyBuffers, MAX_MIDI_CHANNELS,
          MAX_MIDI_NOTE]
    · by_cases h3 : st.ctrlChannel ≥ 0 ∧ st.ctrlChannel < MAX_MIDI_CHANNELS
      · by_cases h4 : st.latency > 0 <;>
          simp [h1, h2, h3, h4, resetNotesOff, resetLatencyBuffers, MAX_MIDI_NOTE]
      · by_cases h4 : st.latency > 0 <;>
          simp [h1, h2, h3, h4, resetLatencyBuffers]
  · simp [h1]

theorem drainExtNotes_count (cap : Nat) (notes : List ExternalMidiNote) (st : Plugin) :
    (drainExtNotes cap notes st).fMidiEventCount ≤ max st.fMidiEventCount cap := by
  induction notes generalizing st with
  | nil => exact le_max_left _ _
  | cons n ns ih =>
    rw [drainExtNotes]
    split
    · refine le_trans (ih _) ?_
      simp only [appendMidiEvent]
      omega
    · exact le_max_left _ _

/-- The events queued when the event section of a block starts (the reset burst and the
external notes taken) fit the capacity, when the capacity is at least `MAX_MIDI_NOTE`. -/
theorem startQueue_length_le (eng : Engine) (blk : Block) (st : Plugin)
    (hcap : MAX_MIDI_NOTE ≤ eng.MAX_MIDI_EVENTS * 2) :
    (queuedEvents (processExtNotes eng blk (blockStart eng st))).length
      ≤ eng.MAX_MIDI_EVENTS * 2 := by
  have h1 : (blockStart eng st).fMidiEventCount ≤ MAX_MIDI_NOTE := by
    have := processReset_count (clearEventArray eng st)
    simpa [blockStart, setTimeInfo, clearEventArray] using this
  have h2 : (processExtNotes eng blk (blockStart eng st)).fMidiEventCount
      ≤ eng.MAX_MIDI_EVENTS * 2 := by
    unfold processExtNotes
    split
    · have := drainExtNotes_count (eng.MAX_MIDI_EVENTS * 2) (blockStart eng st).extNotes
        (blockStart eng st)
      omega
    · omega
  simpa [queuedEvents] using h2

theorem capExample_calls :
    (subCalls (process {} {} capExampleBlock splitExampleState none none 2).1.log).map
      (fun c => (c.timeOffset, c.frames, c.events.length)) = [(0, 1, 1), (1, 1, 1024)] := by
  obtain ⟨added, hlog, hcalls⟩ := process_subCalls {} {} capExampleBlock splitExampleState
    none none 2 rfl rfl rfl rfl (by decide) (by decide) (Or.inr (fun _ => rfl))
  have hl : (process {} {} capExampleBlock splitExampleState none none 2).1.log = added := by
    rw [hlog]; rfl
  have hq0 : queuedEvents (processExtNotes {} capExampleBlock (blockStart {} splitExampleState))
      = [] := by decide
  obtain ⟨v0, h0⟩ : ∃ v, convEvent splitExampleState.fOptions true (noteOnAt 0) = some v :=
    ⟨_, rfl⟩
  obtain ⟨v1, h1⟩ : ∃ v, convEvent splitExampleState.fOptions true (noteOnAt 1) = some v :=
    ⟨_, rfl⟩
  have hb := blockCalls_burst (({} : Engine).MAX_MIDI_EVENTS * 2) splitExampleState.fOptions
    (noteOnAt 0) (noteOnAt 1) v0 v1 h0 h1 rfl rfl 1023 (by decide)
  have hc : subCalls added = [⟨0, 1, [v0]⟩, ⟨1, 1, v1 :: List.replicate 1023 v1⟩] := by
    rw [hcalls, hq0]
    exact hb
  rw [hl, hc]
  simp only [List.map_cons, List.map_nil, List.length_cons, List.length_replicate,
    List.length_nil]


/-- C6, as stated: a block of 1025 queueable note-on events (one at frame 0, 1024 at frame 1)
against the capacity of 1024. The block is split at frame 1 and the queue is emptied after
the first sub-call, so all 1025 events are forwarded (1 and 1024) and none is dropped. -/
theorem process_capacity_counterexample :
    capExampleBlock.events.length = 1025 ∧
    (convEvent splitExampleState.fOptions true (noteOnAt 0)).isSome = true ∧
    (convEvent splitExampleState.fOptions true (noteOnAt 1)).isSome = true ∧
    ({} : Engine).MAX_MIDI_EVENTS * 2 = 1024 ∧
    (subCalls (process {} {} capExampleBlock splitExampleState none none 2).1.log).map
      (fun c => (c.timeOffset, c.frames, c.events.length)) = [(0, 1, 1), (1, 1, 1024)] ∧
    ((subCalls (process {} {} capExampleBlock splitExampleState none none 2).1.log).map
      (fun c => c.events.length)).sum = 1025 := by
  have h := capExample_calls
  have hs : (subCalls (process {} {} capExampleBlock splitExampleState none none 2).1.log).map
      (fun c => c.events.length) =
      ((subCalls (process {} {} capExampleBlock splitExampleState none none 2).1.log).map
        (fun c => (c.timeOffset, c.frames, c.events.length))).map (fun p => p.2.2) := by
    rw [List.map_map]
    rfl
  refine ⟨?_, rfl, rfl, rfl, h, ?_⟩
  · show (noteOnAt 0 :: List.replicate 1024 (noteOnAt 1)).length = 1025
    rw [List.length_cons, List.length_replicate]
  · rw [hs, h]
    rfl

/-- C6, amended. In an active block whose `processSingle` calls all take the lock, with a
capacity of at least `MAX_MIDI_NOTE`, no sub-call is handed more events than the capacity
`MAX_MIDI_EVENTS*2`. When the block is not split (FIXED_BUFFER set, `frames > 0`) there is one
sub-call over the whole block, and the events it is handed are the first `capacity` ones, in
arrival order, of the events queued at the start (reset burst and external notes taken)
followed by the queueable port events inside the block; so when more than the capacity are
submitted exactly the capacity is forwarded and the remainder is dropped. -/
theorem process_capacity (fx : AEffect) (eng : Engine) (blk : Block) (st : Plugin)
    (inBuffer outBuffer : Option Buffers) (frames : Nat)
    (hactive : st.active = true) (henabled : st.fEnabled = true)
    (hE : st.hasEffect = true) (hev : st.hasEventIn = true)
    (hin : st.audioInCount > 0 → inBuffer.isSome = true)
    (hout : st.audioOutCount > 0 → outBuffer.isSome = true)
    (hlock : LockFree eng blk)
    (hcap : MAX_MIDI_NOTE ≤ eng.MAX_MIDI_EVENTS * 2) :
    ∃ added : List Call,
      (process fx eng blk st inBuffer outBuffer frames).1.log = st.log ++ added ∧
      (∀ c ∈ subCalls added, c.events.length ≤ eng.MAX_MIDI_EVENTS * 2) ∧
      (st.fOptions.fixedBuffer = true → 0 < frames →
        ∃ c : SubCall, subCalls added = [c] ∧ c.timeOffset = 0 ∧ c.frames = frames ∧
          c.events =
            (queuedEvents (processExtNotes eng blk (blockStart eng st)) ++
              ((blk.events.filter (fun e => decide (e.time < frames))).map
                (convEvent st.fOptions false)).reduceOption).take (eng.MAX_MIDI_EVENTS * 2) ∧
          (eng.MAX_MIDI_EVENTS * 2 <
              (queuedEvents (processExtNotes eng blk (blockStart eng st)) ++
                ((blk.events.filter (fun e => decide (e.time < frames))).map
                  (convEvent st.fOptions false)).reduceOption).length →
            c.events.length = eng.MAX_MIDI_EVENTS * 2)) := by
  obtain ⟨added, hlog, hcalls⟩ := process_subCalls fx eng blk st inBuffer outBuffer frames
    hactive henabled hE hev hin hout hlock
  have hq := startQueue_length_le eng blk st hcap
  refine ⟨added, hlog, ?_, ?_⟩
  · rw [hcalls]
    exact blockCalls_length_le _ _ _ _ _ _ hq
  · intro hfb hf
    rw [hcalls, hfb, Bool.not_true, blockCalls_fixed _ _ _ _ _ hf, pushAll_eq_take _ _ _ hq]
    refine ⟨_, rfl, rfl, rfl, rfl, ?_⟩
    intro hmore
    simp only [List.length_take]
    omega

set_option maxRecDepth 100000 in
/-- C6, witness of `process_capacity`: the 1025 note-on events of the capacity example in a
block that is not split, more than the capacity of 1024. -/
theorem process_capacity_witness :
    (fixedExampleState.active = true ∧ fixedExampleState.fEnabled = true ∧
      fixedExampleState.hasEffect = true ∧ fixedExampleState.hasEventIn = true ∧
      LockFree {} capExampleBlock ∧ MAX_MIDI_NOTE ≤ ({} : Engine).MAX_MIDI_EVENTS * 2) ∧
    (({} : Engine).MAX_MIDI_EVENTS * 2 <
      (queuedEvents (processExtNotes {} capExampleBlock (blockStart {} fixedExampleState)) ++
        ((capExampleBlock.events.filter (fun e => decide (e.time < 2))).map
          (convEvent fixedExampleState.fOptions false)).reduceOption).length) ∧
    ∃ added : List Call,
      (process {} {} capExampleBlock fixedExampleState none none 2).1.log
        = fixedExampleState.log ++ added ∧
      (∀ c ∈ subCalls added, c.events.length ≤ ({} : Engine).MAX_MIDI_EVENTS * 2) ∧
      (fixedExampleState.fOptions.fixedBuffer = true → 0 < 2 →
        ∃ c : SubCall, subCalls added = [c] ∧ c.timeOffset = 0 ∧ c.frames = 2 ∧
          c.events =
            (queuedEvents (processExtNotes {} capExampleBlock (blockStart {} fixedExampleState))
              ++ ((capExampleBlock.events.filter (fun e => decide (e.time < 2))).map
                (convEvent fixedExampleState.fOptions false)).reduceOption).take
              (({} : Engine).MAX_MIDI_EVENTS * 2) ∧
          (({} : Engine).MAX_MIDI_EVENTS * 2 <
              (queuedEvents (processExtNotes {} capExampleBlock
                (blockStart {} fixedExampleState)) ++
                ((capExampleBlock.events.filter (fun e => decide (e.time < 2))).map
                  (convEvent fixedExampleState.fOptions false)).reduceOption).length →
            c.events.length = ({} : Engine).MAX_MIDI_EVENTS * 2)) :=
  ⟨⟨rfl, rfl, rfl, rfl, Or.inr (fun _ => rfl), by decide⟩, by decide,
    process_capacity {} {} capExampleBlock fixedExampleState none none 2 rfl rfl rfl rfl
      (by decide) (by decide) (Or.inr (fun _ => rfl)) (by decide)⟩

/-! ### Post-processing in closed form -/

theorem setSample_setSample (b : Buffers) (i k : Nat) (a c : Sample) :
    setSample (setSample b i k a) i k c = setSample b i k c := by
  funext i' k'
  simp only [setSample_apply]
  split <;> rfl

theorem postDryWet_apply (st : Plugin) (inB : Buffers) (frames off i : Nat) (out : Buffers) :
    postDryWet st inB frames off i out = fun i' k' =>
      if i' = i ∧ off ≤ k' ∧ k' < off + frames then
        out i k' * st.postProc.dryWet
          + inB (if st.audioInCount = 1 then 0 else i) k' * (1 - st.postProc.dryWet)
      else out i' k' := by
  have h := forRange_setSample i off (fun k b =>
      b i (k + off) * st.postProc.dryWet
        + inB (if st.audioInCount = 1 then 0 else i) (k + off) * (1 - st.postProc.dryWet))
    out frames (by
      intro k b _ hb
      simp only
      rw [hb i (k + off) (by omega)])
  unfold postDryWet
  refine h.trans ?_
  funext i' k'
  by_cases hw : i' = i ∧ off ≤ k' ∧ k' < off + frames
  · have : k' - off + off = k' := by omega
    simp only [if_pos hw, this]
  · simp only [if_neg hw]

theorem postVolume_apply (st : Plugin) (frames off i : Nat) (out : Buffers) :
    postVolume st frames off i out = fun i' k' =>
      if i' = i ∧ off ≤ k' ∧ k' < off + frames then out i k' * st.postProc.volume
      else out i' k' := by
  have h := forRange_setSample i off (fun k b => b i (k + off) * st.postProc.volume)
    out frames (by
      intro k b _ hb
      simp only
      rw [hb i (k + off) (by omega)])
  unfold postVolume
  refine h.trans ?_
  funext i' k'
  by_cases hw : i' = i ∧ off ≤ k' ∧ k' < off + frames
  · have : k' - off + off = k' := by omega
    simp only [if_pos hw, this]
  · simp only [if_neg hw]

theorem postBalance_oldBufLeft (st : Plugin) (frames off i : Nat) (s : PostState) :
    (postBalance st frames off i s).oldBufLeft =
      if i % 2 = 0 then fun k => if k < frames then s.out i (k + off) else s.oldBufLeft k
      else s.oldBufLeft := rfl

theorem postBalance_out (st : Plugin) (frames off i : Nat) (s : PostState) :
    (postBalance st frames off i s).out = fun i' k' =>
      if i' = i ∧ off ≤ k' ∧ k' < off + frames then
        if i % 2 = 0 then
          s.out i k' * (1 - (st.postProc.balanceLeft + 1) / 2)
            + s.out (i + 1) k' * (1 - (st.postProc.balanceRight + 1) / 2)
        else
          s.out i k' * ((st.postProc.balanceRight + 1) / 2)
            + s.oldBufLeft (k' - off) * ((st.postProc.balanceLeft + 1) / 2)
      else s.out i' k' := by
  by_cases hp : i % 2 = 0
  · have h := forRange_setSample i off (fun k b =>
        (if k < frames then s.out i (k + off) else s.oldBufLeft k)
            * (1 - (st.postProc.balanceLeft + 1) / 2)
          + b (i + 1) (k + off) * (1 - (st.postProc.balanceRight + 1) / 2))
      s.out frames (by
        intro k b _ hb
        simp only
        rw [hb (i + 1) (k + off) (by omega)])
    have hb : (postBalance st frames off i s).out =
        forRange frames (fun k b => setSample b i (k + off)
          ((if k < frames then s.out i (k + off) else s.oldBufLeft k)
              * (1 - (st.postProc.balanceLeft + 1) / 2)
            + b (i + 1) (k + off) * (1 - (st.postProc.balanceRight + 1) / 2))) s.out := by
      unfold postBalance
      simp only [hp, if_true]
      congr 1
      funext k b
      rw [setSample_setSample]
      simp [setSample_apply]
    rw [hb, h]
    funext i' k'
    by_cases hw : i' = i ∧ off ≤ k' ∧ k' < off + frames
    · have h1 : k' - off + off = k' := by omega
      have h2 : k' - off < frames := by omega
      simp only [if_pos hw, if_pos hp, h1, if_pos h2]
    · simp only [if_neg hw]
  · have h := forRange_setSample i off (fun k b =>
        b i (k + off) * ((st.postProc.balanceRight + 1) / 2)
          + s.oldBufLeft k * ((st.postProc.balanceLeft + 1) / 2))
      s.out frames (by
        intro k b _ hb
        simp only
        rw [hb i (k + off) (by omega)])
    have hb : (postBalance st frames off i s).out =
        forRange frames (fun k b => setSample b i (k + off)
          (b i (k + off) * ((st.postProc.balanceRight + 1) / 2)
            + s.oldBufLeft k * ((st.postProc.balanceLeft + 1) / 2))) s.out := by
      unfold postBalance
      simp only [hp, if_false]
      congr 1
      funext k b
      rw [setSample_setSample]
      simp [setSample_apply]
    rw [hb, h]
    funext i' k'
    by_cases hw : i' = i ∧ off ≤ k' ∧ k' < off + frames
    · have h1 : k' - off + off = k' := by omega
      simp only [if_pos hw, if_neg hp, h1]
    · simp only [if_neg hw]

/-- One round of the channel loop of the post-processing keeps the closed form: channels
already handled hold their final value, the others the plugin output, and after an even
channel `oldBufLeft` holds its dry/wet value. -/
theorem postProcChannel_step (st : Plugin) (inB P : Buffers) (frames off : Nat)
    (dV dD dB : Bool) (n : Nat) (s : PostState) (hn : n < st.audioOutCount)
    (hout : ∀ i k, s.out i k =
      if i < n then postValue st inB P frames off dV dD dB i k else P i k)
    (hold : dB = true → n % 2 = 1 → ∀ k, k < frames →
      s.oldBufLeft k = dryWetMix st inB P dD (n - 1) (k + off)) :
    (∀ i k, (postProcChannel st inB frames off dV dD dB n s).out i k =
      if i < n + 1 then postValue st inB P frames off dV dD dB i k else P i k) ∧
    (dB = true → (n + 1) % 2 = 1 → ∀ k, k < frames →
      (postProcChannel st inB frames off dV dD dB n s).oldBufLeft k =
        dryWetMix st inB P dD n (k + off)) := by
  have hPn : ∀ k, s.out n k = P n k := fun k => by rw [hout, if_neg (Nat.lt_irrefl n)]
  have hPn1 : ∀ k, s.out (n + 1) k = P (n + 1) k := fun k => by
    rw [hout, if_neg (by omega)]
  -- dry/wet
  obtain ⟨s1, hs1⟩ : ∃ s1 : PostState, s1 =
      if dD then { s with out := postDryWet st inB frames off n s.out } else s := ⟨_, rfl⟩
  have h1out : ∀ i k, s1.out i k =
      if i = n ∧ off ≤ k ∧ k < off + frames then dryWetMix st inB P dD n k else s.out i k := by
    intro i k
    rw [hs1]
    cases dD with
    | false =>
      simp only [Bool.false_eq_true, if_false, dryWetMix]
      split
      · rename_i h; rw [h.1, hPn]
      · rfl
    | true =>
      simp only [if_true, dryWetMix, postDryWet_apply, hPn]
  have h1old : s1.oldBufLeft = s.oldBufLeft := by
    rw [hs1]; cases dD <;> rfl
  -- balance
  obtain ⟨s2, hs2⟩ : ∃ s2 : PostState, s2 =
      if dB then postBalance st frames off n s1 else s1 := ⟨_, rfl⟩
  have h2out : ∀ i k, s2.out i k =
      if i = n ∧ off ≤ k ∧ k < off + frames then balanceMix st inB P dD dB n k
      else s.out i k := by
    intro i k
    rw [hs2]
    cases dB with
    | false =>
      simp only [Bool.false_eq_true, if_false, balanceMix]
      exact h1out i k
    | true =>
      simp only [if_true, balanceMix, postBalance_out]
      by_cases hw : i = n ∧ off ≤ k ∧ k < off + frames
      · have hw' : n = n ∧ off ≤ k ∧ k < off + frames := ⟨rfl, hw.2⟩
        have hw1 : ¬ (n + 1 = n ∧ off ≤ k ∧ k < off + frames) := by omega
        rw [if_pos hw, if_pos hw, h1out n k, if_pos hw', h1out (n + 1) k, if_neg hw1, hPn1]
        by_cases hp : n % 2 = 0
        · rw [if_pos hp, if_pos hp]
        · rw [if_neg hp, if_neg hp, h1old, hold rfl (by omega) (k - off) (by omega)]
          have : k - off + off = k := by omega
          rw [this]
      · rw [if_neg hw, if_neg hw, h1out i k, if_neg hw]
  have h2old : dB = true → n % 2 = 0 → ∀ k, k < frames →
      s2.oldBufLeft k = dryWetMix st inB P dD n (k + off) := by
    intro hb hp k hk
    rw [hs2, hb, if_pos rfl, postBalance_oldBufLeft, if_pos hp]
    simp only [if_pos hk]
    rw [h1out n (k + off), if_pos ⟨rfl, by omega, by omega⟩]
  -- volume
  have e : postProcChannel st inB frames off dV dD dB n s =
      if dV then { s2 with out := postVolume st frames off n s2.out } else s2 := by
    rw [hs2, hs1]
    rfl
  rw [e]
  constructor
  · intro i k
    have h3 : (if dV then { s2 with out := postVolume st frames off n s2.out } else s2).out i k =
        if i = n ∧ off ≤ k ∧ k < off + frames then
          (if dV then balanceMix st inB P dD dB n k * st.postProc.volume
            else balanceMix st inB P dD dB n k)
        else s.out i k := by
      cases dV with
      | false =>
        simp only [Bool.false_eq_true, if_false]
        exact h2out i k
      | true =>
        simp only [if_true, postVolume_apply]
        by_cases hw : i = n ∧ off ≤ k ∧ k < off + frames
        · have hw' : n = n ∧ off ≤ k ∧ k < off + frames := ⟨rfl, hw.2⟩
          rw [if_pos hw, if_pos hw, h2out n k, if_pos hw']
        · rw [if_neg hw, if_neg hw, h2out i k, if_neg hw]
    rw [h3]
    by_cases hi : i = n
    · subst hi
      rw [if_pos (Nat.lt_succ_self i)]
      unfold postValue
      by_cases hw : off ≤ k ∧ k < off + frames
      · have a1 : i = i ∧ off ≤ k ∧ k < off + frames := ⟨rfl, hw⟩
        have a2 : i < st.audioOutCount ∧ off ≤ k ∧ k < off + frames := ⟨hn, hw⟩
        rw [if_pos a1, if_pos a2]
      · have a1 : ¬ (i = i ∧ off ≤ k ∧ k < off + frames) := fun h => hw h.2
        have a2 : ¬ (i < st.audioOutCount ∧ off ≤ k ∧ k < off + frames) := fun h => hw h.2
        rw [if_neg a1, if_neg a2, hPn]
    · rw [if_neg (fun h => hi h.1), hout]
      by_cases hlt : i < n
      · rw [if_pos hlt, if_pos (by omega)]
      · rw [if_neg hlt, if_neg (by omega)]
  · intro hb hp k hk
    have : (if dV then { s2 with out := postVolume st frames off n s2.out } else s2).oldBufLeft
        = s2.oldBufLeft := by cases dV <;> rfl
    rw [this]
    exact h2old hb (by omega) k hk

/-- The post-processing block in closed form. -/
theorem forRange_postProcChannel (st : Plugin) (inB P : Buffers) (frames off : Nat)
    (dV dD dB : Bool) (n : Nat) (hn : n ≤ st.audioOutCount) :
    (∀ i k, (forRange n (postProcChannel st inB frames off dV dD dB)
        { out := P, oldBufLeft := fun _ => 0 }).out i k =
      if i < n then postValue st inB P frames off dV dD dB i k else P i k) ∧
    (dB = true → n % 2 = 1 → ∀ k, k < frames →
      (forRange n (postProcChannel st inB frames off dV dD dB)
        { out := P, oldBufLeft := fun _ => 0 }).oldBufLeft k =
        dryWetMix st inB P dD (n - 1) (k + off)) := by
  induction n with
  | zero =>
    refine ⟨fun i k => ?_, fun _ h => by omega⟩
    rw [forRange_zero, if_neg (Nat.not_lt_zero i)]
  | succ n ih =>
    obtain ⟨i1, i2⟩ := ih (by omega)
    rw [forRange_succ]
    exact postProcChannel_step st inB P frames off dV dD dB n _ (by omega) i1 i2

/-- The post-processing block of `processSingle` in closed form: every sample of the window of
an output channel gets `postValue`, every other sample is left as it was. -/
theorem postProcess_apply (st : Plugin) (inB P : Buffers) (frames off : Nat) (i k : Nat) :
    postProcess st inB P frames off i k =
      postValue st inB P frames off
        (st.fHints.canVolume && decide (st.postProc.volume ≠ 1))
        (st.fHints.canDryWet && decide (st.postProc.dryWet ≠ 1))
        (st.fHints.canBalance &&
          decide (st.postProc.balanceLeft ≠ -1 ∨ st.postProc.balanceRight ≠ 1)) i k := by
  unfold postProcess
  rw [(forRange_postProcChannel st inB P frames off _ _ _ st.audioOutCount (le_refl _)).1 i k]
  split
  · rfl
  · rename_i h
    unfold postValue
    rw [if_neg (fun hh => h hh.1)]

/-- A successful `processSingle` on non-null buffers returns the post-processed plugin
output. -/
theorem processSingle_output (fx : AEffect) (eng : Engine) (st : Plugin)
    (inBuffer outBuffer : Buffers) (frames off : Nat) (hf : frames ≠ 0)
    (hlock : eng.isOffline = true ∨ st.singleMutexLocked = false) :
    processSingle fx eng st (some inBuffer) (some outBuffer) frames off =
      (unlockSingle (postState fx eng st inBuffer outBuffer frames off),
        some (postProcess (postState fx eng st inBuffer outBuffer frames off) inBuffer
          (rawOutput fx eng st inBuffer outBuffer frames off) frames off), true) := by
  have g1 : ¬ (st.audioInCount > 0 ∧ (some inBuffer).isNone = true) := by simp
  have g2 : ¬ (st.audioOutCount > 0 ∧ (some outBuffer).isNone = true) := by simp
  have g3 : ¬ (¬ eng.isOffline = true ∧ st.singleMutexLocked = true) := by
    rintro ⟨h1, h2⟩
    rcases hlock with h | h
    · exact h1 h
    · rw [h] at h2; exact Bool.false_ne_true h2
  unfold processSingle
  simp only [hf, g1, g2, g3, if_false]
  rfl

theorem postState_spec (fx : AEffect) (eng : Engine) (st : Plugin)
    (inBuffer outBuffer : Buffers) (frames off : Nat) (hE : st.hasEffect = true) :
    (postState fx eng st inBuffer outBuffer frames off).fixed = st.fixed ∧
    (postState fx eng st inBuffer outBuffer frames off).postProc = st.postProc := by
  obtain ⟨sf, sp, _⟩ := sendQueuedEvents_spec fx (lockSingle st) hE
  obtain ⟨rf, rp, _⟩ := runPlugin_spec fx eng (sendQueuedEvents fx (lockSingle st))
    inBuffer outBuffer frames off
  exact ⟨rf.trans sf, rp.trans sp⟩

/-! ### The current-program index -/

/-- For every index other than the program count, `setProgram` leaves the current-program
index in `[-1, count)`: an index below -1 selects -1, an index above the count is ignored, an
index in `[-1, count)` is selected. -/
theorem setProgram_current_range (fx : AEffect) (st : Plugin) (index : Int) (a b c : Bool)
    (hc : st.prog.count < 2147483648)
    (hinv : -1 ≤ st.prog.current ∧ st.prog.current < st.prog.count)
    (hne : index ≠ st.prog.count) :
    -1 ≤ (setProgram fx st index a b c).prog.current ∧
    (setProgram fx st index a b c).prog.current < (setProgram fx st index a b c).prog.count := by
  rw [setProgram_prog_count]
  have ht := toInt32_of_lt st.prog.count hc
  by_cases h1 : index < -1
  · have : (setProgram fx st index a b c).prog.current = -1 := by
      unfold setProgram baseSetProgram
      simp only
      rw [if_pos h1]
    rw [this]
    omega
  · by_cases h2 : index > toInt32 st.prog.count
    · have : (setProgram fx st index a b c).prog.current = st.prog.current := by
        unfold setProgram
        simp only
        rw [if_neg h1, if_pos h2]
      rw [this]
      exact hinv
    · rw [setProgram_prog_current fx st index a b c (by omega) (by omega)]
      rw [ht] at h2
      omega

/-- C8, the failing input. With three programs and the current index 0 (inside `[-1, 3)`),
`setProgram(3, ...)` passes the range check `index > count`, although the assertion at the
top of the function asks for `index < count`: the foreign module is sent `effSetProgram` with
value 3 and the current-program index becomes 3, outside `[-1, count)`. -/
theorem setProgram_index_eq_count :
    (-1 ≤ progBugState.prog.current ∧
      progBugState.prog.current < progBugState.prog.count) ∧
    (setProgram {} progBugState 3 false false false).prog.count = 3 ∧
    (setProgram {} progBugState 3 false false false).prog.current = 3 ∧
    Call.dispatch .effSetProgram 0 3 .null 0
      ∈ (setProgram {} progBugState 3 false false false).log ∧
    ¬ ((setProgram {} progBugState 3 false false false).prog.current
        < (setProgram {} progBugState 3 false false false).prog.count) := by
  decide

/-! ### An inactive adapter -/

/-- C11. `process(in, out, frames)` on an adapter that is not active sets `out[i][k]` to 0 for
every output channel `i` and every `k < frames`, changes no other sample, and returns the
adapter state it was given: the log of calls into the foreign module, the event array and its
count, the reset flag, the time info and the parameter table are as they were. -/
theorem process_inactive (fx : AEffect) (eng : Engine) (blk : Block) (st : Plugin)
    (inBuffer : Option Buffers) (outBuffer : Buffers) (frames : Nat)
    (h : st.active = false) :
    (process fx eng blk st inBuffer (some outBuffer) frames).1 = st ∧
    (process fx eng blk st inBuffer (some outBuffer) frames).1.log = st.log ∧
    (process fx eng blk st inBuffer (some outBuffer) frames).1.fMidiEvents = st.fMidiEvents ∧
    (process fx eng blk st inBuffer (some outBuffer) frames).1.fMidiEventCount
      = st.fMidiEventCount ∧
    (process fx eng blk st inBuffer (some outBuffer) frames).1.needsReset = st.needsReset ∧
    (process fx eng blk st inBuffer (some outBuffer) frames).1.fTimeInfo = st.fTimeInfo ∧
    (process fx eng blk st inBuffer (some outBuffer) frames).1.param = st.param ∧
    ∃ out' : Buffers,
      (process fx eng blk st inBuffer (some outBuffer) frames).2 = some out' ∧
      (∀ i k, i < st.audioOutCount → k < frames → out' i k = 0) ∧
      (∀ i k, ¬ (i < st.audioOutCount ∧ k < frames) → out' i k = outBuffer i k) := by
  have hp : process fx eng blk st inBuffer (some outBuffer) frames =
      (st, some (silenceRange st.audioOutCount frames 0 outBuffer)) := by
    unfold process
    simp [h]
  rw [hp]
  refine ⟨rfl, rfl, rfl, rfl, rfl, rfl, rfl, _, rfl, ?_, ?_⟩
  · intro i k hi hk
    rw [silenceRange_apply, if_pos ⟨hi, by omega, by omega⟩]
  · intro i k hn
    rw [silenceRange_apply, if_neg (by omega)]

/-- C11, witness of `process_inactive`: 4 frames of buffers holding 1 everywhere. -/
theorem process_inactive_witness :
    inactiveExampleState.active = false ∧
    (process {} {} {} inactiveExampleState none (some fun _ _ => 1) 4).1
      = inactiveExampleState ∧
    ∃ out' : Buffers,
      (process {} {} {} inactiveExampleState none (some fun _ _ => 1) 4).2 = some out' ∧
      (∀ i k, i < inactiveExampleState.audioOutCount → k < 4 → out' i k = 0) ∧
      (∀ i k, ¬ (i < inactiveExampleState.audioOutCount ∧ k < 4) →
        out' i k = (fun _ _ => (1 : Sample)) i k) :=
  have h := process_inactive {} {} {} inactiveExampleState none (fun _ _ => 1) 4 rfl
  ⟨rfl, h.1, h.2.2.2.2.2.2.2⟩

/-! ### Dry/wet and the order of the post-processing -/

/-- The post-processing of a successful `processSingle` in closed form: the output is
`postValue` of the plugin output, with the stages in effect as the hints and values of the
adapter say. -/
theorem processSingle_postValue (fx : AEffect) (eng : Engine) (st : Plugin)
    (inBuffer outBuffer : Buffers) (frames timeOffset : Nat)
    (hframes : frames > 0) (hE : st.hasEffect = true)
    (hlock : eng.isOffline = true ∨ st.singleMutexLocked = false) :
    (processSingle fx eng st (some inBuffer) (some outBuffer) frames timeOffset).2.2 = true ∧
    (processSingle fx eng st (some inBuffer) (some outBuffer) frames timeOffset).2.1 =
      some (fun i k => postValue st inBuffer
        (rawOutput fx eng st inBuffer outBuffer frames timeOffset) frames timeOffset
        (st.fHints.canVolume && decide (st.postProc.volume ≠ 1))
        (st.fHints.canDryWet && decide (st.postProc.dryWet ≠ 1))
        (st.fHints.canBalance &&
          decide (st.postProc.balanceLeft ≠ -1 ∨ st.postProc.balanceRight ≠ 1)) i k) := by
  rw [processSingle_output fx eng st inBuffer outBuffer frames timeOffset (by omega) hlock]
  obtain ⟨pf, pp⟩ := postState_spec fx eng st inBuffer outBuffer frames timeOffset hE
  refine ⟨rfl, ?_⟩
  simp only [Option.some.injEq]
  funext i k
  rw [postProcess_apply, pp]
  have h1 := congrArg Fixed.canVolume pf
  have h2 := congrArg Fixed.canDryWet pf
  have h3 := congrArg Fixed.canBalance pf
  have h4 := congrArg Fixed.audioOutCount pf
  have h5 := congrArg Fixed.audioInCount pf
  simp only [Plugin.fixed] at h1 h2 h3 h4 h5
  rw [h1, h2, h3]
  unfold postValue balanceMix dryWetMix
  rw [pp, h4, h5]

/-- What the code does for a stereo pair when all three stages are in effect: the right output
is volume applied to the balance of the dry/wet-mixed pair, as the specification words it;
the left output is volume applied to the balance of the dry/wet-mixed left value and the
plugin output (not dry/wet-mixed) of the right channel. -/
theorem processSingle_order_closed (fx : AEffect) (eng : Engine) (st : Plugin)
    (inBuffer outBuffer : Buffers) (frames timeOffset : Nat)
    (hframes : frames > 0) (hE : st.hasEffect = true)
    (hlock : eng.isOffline = true ∨ st.singleMutexLocked = false)
    (hcd : st.fHints.canDryWet = true) (hcb : st.fHints.canBalance = true)
    (hcv : st.fHints.canVolume = true) (hd : st.postProc.dryWet ≠ 1)
    (hb : st.postProc.balanceLeft ≠ -1 ∨ st.postProc.balanceRight ≠ 1)
    (hv : st.postProc.volume ≠ 1) (i k : Nat) (hi : i % 2 = 0)
    (hi1 : i + 1 < st.audioOutCount) (hk : timeOffset ≤ k ∧ k < timeOffset + frames) :
    ∃ out' : Buffers,
      (processSingle fx eng st (some inBuffer) (some outBuffer) frames timeOffset).2.1
        = some out' ∧
      out' i k = st.postProc.volume *
        (specDryWet st.postProc.dryWet
            (rawOutput fx eng st inBuffer outBuffer frames timeOffset i k)
            (inBuffer (if st.audioInCount = 1 then 0 else i) k)
          * (1 - (st.postProc.balanceLeft + 1) / 2)
        + rawOutput fx eng st inBuffer outBuffer frames timeOffset (i + 1) k
          * (1 - (st.postProc.balanceRight + 1) / 2)) ∧
      out' (i + 1) k = specPostRight st.postProc.dryWet st.postProc.balanceLeft
        st.postProc.balanceRight st.postProc.volume
        (rawOutput fx eng st inBuffer outBuffer frames timeOffset i k)
        (rawOutput fx eng st inBuffer outBuffer frames timeOffset (i + 1) k)
        (inBuffer (if st.audioInCount = 1 then 0 else i) k)
        (inBuffer (if st.audioInCount = 1 then 0 else i + 1) k) := by
  obtain ⟨_, h2⟩ := processSingle_postValue fx eng st inBuffer outBuffer frames timeOffset
    hframes hE hlock
  have w0 : i < st.audioOutCount ∧ timeOffset ≤ k ∧ k < timeOffset + frames := ⟨by omega, hk⟩
  have w1 : i + 1 < st.audioOutCount ∧ timeOffset ≤ k ∧ k < timeOffset + frames := ⟨hi1, hk⟩
  have hodd : ¬ (i + 1) % 2 = 0 := by omega
  refine ⟨_, h2, ?_, ?_⟩
  · simp only [postValue, balanceMix, dryWetMix, if_pos w0, hcd, hcb, hcv, hd, hb, hv, ne_eq,
      not_false_eq_true, decide_True, Bool.and_self, if_true, if_pos hi, specDryWet]
    ring
  · simp only [postValue, balanceMix, dryWetMix, if_pos w1, hcd, hcb, hcv, hd, hb, hv, ne_eq,
      not_false_eq_true, decide_True, Bool.and_self, if_true, if_neg hodd, specDryWet,
      specPostRight, Nat.add_sub_cancel]
    ring

/-- C12, the failing input. A stereo adapter with dry/wet 1/2, balance pair `(-1, -1)` and
volume 2, a module writing `L = 3` and `R = 5`, inputs of 1: the dry/wet-mixed pair is
`(2, 3)`, so volume applied to the balance of the dry/wet-mixed pair is `(10, 0)`. The code
gives the left output 14: the left channel is balanced before the dry/wet stage of the right
channel has run, so it reads the plugin output `R = 5` of the right channel, not its
dry/wet-mixed value 3 (the right channel, handled one round later, does read the
dry/wet-mixed left value). -/
theorem processSingle_order_left_reads_raw :
    rawOutput balanceExampleFx {} orderExampleState (fun _ _ => 1) (fun _ _ => 0) 4 0 0 1 = 3 ∧
    rawOutput balanceExampleFx {} orderExampleState (fun _ _ => 1) (fun _ _ => 0) 4 0 1 1 = 5 ∧
    specPostLeft (1 / 2) (-1) (-1) 2 3 5 1 1 = 10 ∧
    specPostRight (1 / 2) (-1) (-1) 2 3 5 1 1 = 0 ∧
    ∃ out' : Buffers,
      (processSingle balanceExampleFx {} orderExampleState (some fun _ _ => 1)
        (some fun _ _ => 0) 4 0).2.1 = some out' ∧
      out' 0 1 = 14 ∧ out' 1 1 = 0 := by
  obtain ⟨_, h2⟩ := processSingle_postValue balanceExampleFx {} orderExampleState
    (fun _ _ => 1) (fun _ _ => 0) 4 0 (by decide) rfl (Or.inr rfl)
  have hL : rawOutput balanceExampleFx {} orderExampleState (fun _ _ => 1) (fun _ _ => 0)
      4 0 0 1 = 3 := by decide
  have hR : rawOutput balanceExampleFx {} orderExampleState (fun _ _ => 1) (fun _ _ => 0)
      4 0 1 1 = 5 := by decide
  refine ⟨hL, hR, by norm_num [specPostLeft, specDryWet],
    by norm_num [specPostRight, specDryWet], _, h2, ?_, ?_⟩
  · simp only [postValue, balanceMix, dryWetMix, hL, hR]
    norm_num [orderExampleState]
  · simp only [postValue, balanceMix, dryWetMix, hL, hR]
    norm_num [orderExampleState]

/-! ### Master callbacks: event submission and unknown opcodes -/

/-- C15, as stated: an enabled adapter inside a process call, with an output event port and a
non-null event list, whose event array is full (`fMidiEventCount = MAX_MIDI_EVENTS*2`): the
submission is rejected with 0, not accepted with 1. -/
theorem masterProcessEvents_full_counterexample :
    fullArrayState.fEnabled = true ∧ fullArrayState.fIsProcessing = true ∧
    fullArrayState.hasEventOut = true ∧
    (MasterPayload.events [some outExampleEvent]) ≠ .null ∧
    (handleAudioMasterCallback {} {} fullArrayState
      { opcode := .audioMasterProcessEvents, ptr := .events [some outExampleEvent] }).2 = 0 := by
  decide

/-- C15, amended. The `audioMasterProcessEvents` callback returns 0 and leaves the adapter
state (so the event array and its count) unchanged whenever the adapter is not enabled, is
not inside a foreign process call, has no output event port, is given a null event list, or
its event array is already full (`fMidiEventCount ≥ MAX_MIDI_EVENTS*2`); otherwise it
returns 1. -/
theorem masterProcessEvents_rejects (fx : AEffect) (eng : Engine) (st : Plugin)
    (c : MasterCall) (hop : c.opcode = .audioMasterProcessEvents) :
    ((st.fEnabled = false ∨ st.fIsProcessing = false ∨ st.hasEventOut = false ∨
        c.ptr = .null ∨ st.fMidiEventCount ≥ eng.MAX_MIDI_EVENTS * 2) →
      handleAudioMasterCallback fx eng st c = (st, 0)) ∧
    (¬ (st.fEnabled = false ∨ st.fIsProcessing = false ∨ st.hasEventOut = false ∨
        c.ptr = .null ∨ st.fMidiEventCount ≥ eng.MAX_MIDI_EVENTS * 2) →
      (handleAudioMasterCallback fx eng st c).2 = 1) := by
  have hh : handleAudioMasterCallback fx eng st c = masterProcessEvents eng st c.ptr := by
    unfold handleAudioMasterCallback
    rw [hop]
  rw [hh]
  unfold masterProcessEvents
  constructor
  · intro h
    by_cases h1 : st.fEnabled = true
    · by_cases h2 : st.fIsProcessing = true
      · by_cases h3 : st.hasEventOut = true
        · by_cases h4 : c.ptr = .null
          · simp [h1, h2, h3, h4]
          · by_cases h5 : st.fMidiEventCount ≥ eng.MAX_MIDI_EVENTS * 2
            · simp [h1, h2, h3, h4, h5]
            · simp [h1, h2, h3, h4] at h
              omega
        · simp [h1, h2, h3]
      · simp [h1, h2]
    · simp [h1]
  · intro h
    simp only [not_or, Bool.not_eq_false] at h
    obtain ⟨h1, h2, h3, h4, h5⟩ := h
    simp [h1, h2, h3, h4, h5]

/-- C15, witness of `masterProcessEvents_rejects`: with an empty event array the submission
is accepted, with a full one it is rejected. -/
theorem masterProcessEvents_rejects_witness :
    (handleAudioMasterCallback {} {} fullArrayState
      { opcode := .audioMasterProcessEvents, ptr := .events [some outExampleEvent] }
        = (fullArrayState, 0)) ∧
    (handleAudioMasterCallback {} {} emptyArrayState
      { opcode := .audioMasterProcessEvents, ptr := .events [some outExampleEvent] }).2 = 1 :=
  ⟨(masterProcessEvents_rejects {} {} fullArrayState
      { opcode := .audioMasterProcessEvents, ptr := .events [some outExampleEvent] } rfl).1
      (Or.inr (Or.inr (Or.inr (Or.inr (by decide))))),
   (masterProcessEvents_rejects {} {} emptyArrayState
      { opcode := .audioMasterProcessEvents, ptr := .events [some outExampleEvent] } rfl).2
      (by decide)⟩

theorem dispatcher_log (fx : AEffect) (st : Plugin) (op : EffOpcode) (i v : Int)
    (p : Payload) (o : Sample) (hE : st.hasEffect = true) :
    (dispatcher fx st op i v p o).1 = { st with log := st.log ++ [Call.dispatch op i v p o] } := by
  unfold dispatcher
  rw [if_pos hE]

theorem deactivate_eq (fx : AEffect) (st : Plugin) (hE : st.hasEffect = true) :
    deactivate fx st = { st with log := st.log ++ deactivateCalls } := by
  unfold deactivate dispatcher
  simp [hE, deactivateCalls]

theorem activate_eq (fx : AEffect) (st : Plugin) (hE : st.hasEffect = true) :
    activate fx st = { st with log := st.log ++ activateCalls } := by
  unfold activate dispatcher
  simp [hE, activateCalls]

theorem bufferSizeChanged_eq (fx : AEffect) (eng : Engine) (st : Plugin) (n : Nat)
    (hE : st.hasEffect = true) :
    bufferSizeChanged fx eng st n =
      { st with log := st.log ++
          (if st.active then deactivateCalls ++ bufferSizeCalls eng n ++ activateCalls
           else bufferSizeCalls eng n) } := by
  unfold bufferSizeChanged activate deactivate dispatcher
  by_cases ha : st.active = true
  · simp [hE, ha, deactivateCalls, activateCalls, bufferSizeCalls]
  · have ha' : st.active = false := by simpa using ha
    simp [hE, ha', bufferSizeCalls]

theorem sampleRateChanged_eq (fx : AEffect) (eng : Engine) (st : Plugin) (r : Sample)
    (hE : st.hasEffect = true) :
    sampleRateChanged fx eng st r =
      { st with log := st.log ++
          (if st.active then deactivateCalls ++ sampleRateCalls eng r ++ activateCalls
           else sampleRateCalls eng r) } := by
  unfold sampleRateChanged activate deactivate dispatcher
  by_cases ha : st.active = true
  · simp [hE, ha, deactivateCalls, activateCalls, sampleRateCalls]
  · have ha' : st.active = false := by simpa using ha
    simp [hE, ha', sampleRateCalls]

/-- C17. On an adapter with a loaded module, `bufferSizeChanged(n)` and `sampleRateChanged(r)`
change nothing but the log of calls into the module. When the adapter is active the log
grows by stop-process, mains-off, the two notifications, mains-on, start-process, in that
order; when it is inactive it grows by the two notifications only. The active flag is
unchanged in both cases. -/
theorem sizeRateChanged_sequence (fx : AEffect) (eng : Engine) (st : Plugin) (n : Nat)
    (r : Sample) (hE : st.hasEffect = true) :
    bufferSizeChanged fx eng st n =
      { st with log := st.log ++
          (if st.active then deactivateCalls ++ bufferSizeCalls eng n ++ activateCalls
           else bufferSizeCalls eng n) } ∧
    sampleRateChanged fx eng st r =
      { st with log := st.log ++
          (if st.active then deactivateCalls ++ sampleRateCalls eng r ++ activateCalls
           else sampleRateCalls eng r) } ∧
    (bufferSizeChanged fx eng st n).active = st.active ∧
    (sampleRateChanged fx eng st r).active = st.active := by
  rw [bufferSizeChanged_eq fx eng st n hE, sampleRateChanged_eq fx eng st r hE]
  exact ⟨rfl, rfl, rfl, rfl⟩

/-- C17, witness of `sizeRateChanged_sequence`: the log of `bufferSizeChanged(256)` on an
active adapter. -/
theorem sizeRateChanged_sequence_witness :
    activeExampleState.hasEffect = true ∧
    (bufferSizeChanged {} {} activeExampleState 256).log =
      [Call.dispatch .effStopProcess 0 0 .null 0, Call.dispatch .effMainsChanged 0 0 .null 0,
       Call.dispatch .effSetBlockSizeAndSampleRate 0 256 .null 44100,
       Call.dispatch .effSetBlockSize 0 256 .null 0,
       Call.dispatch .effMainsChanged 0 1 .null 0, Call.dispatch .effStartProcess 0 0 .null 0] ∧
    (sampleRateChanged {} {} activeExampleState 48000).active = true :=
  ⟨rfl, congrArg Plugin.log (sizeRateChanged_sequence {} {} activeExampleState 256 48000 rfl).1,
    (sizeRateChanged_sequence {} {} activeExampleState 256 48000 rfl).2.2.2⟩

theorem MainsFrame.start (st : Plugin) : MainsFrame [] st st :=
  ⟨rfl, rfl, [], by simp, rfl⟩

theorem MainsFrame.of_same {st st' : Plugin} (ha : st'.active = st.active)
    (he : st'.hasEffect = st.hasEffect) (hl : st'.log = st.log) : MainsFrame [] st st' :=
  ⟨ha, he, [], by simp [hl], rfl⟩

theorem MainsFrame.comp {t1 t2 : List Int} {a b c : Plugin} (h1 : MainsFrame t1 a b)
    (h2 : MainsFrame t2 b c) : MainsFrame (t1 ++ t2) a c := by
  obtain ⟨a1, e1, d1, l1, m1⟩ := h1
  obtain ⟨a2, e2, d2, l2, m2⟩ := h2
  refine ⟨a2.trans a1, e2.trans e1, d1 ++ d2, ?_, ?_⟩
  · rw [l2, l1, List.append_assoc]
  · simp only [mainsTrace, List.filterMap_append] at m1 m2 ⊢
    rw [m1, m2]

theorem MainsFrame.cast {t t' : List Int} {a b : Plugin} (h : MainsFrame t a b) (e : t = t') :
    MainsFrame t' a b := e ▸ h

/-- Chaining one stage `f`, whose mains-changed dispatches depend on the active flag only. -/
theorem MainsFrame.step {t1 : List Int} {st s : Plugin} (f : Plugin → Plugin)
    (t2 : Bool → List Int)
    (h2 : ∀ s : Plugin, s.hasEffect = true → MainsFrame (t2 s.active) s (f s))
    (hE : st.hasEffect = true) (h1 : MainsFrame t1 st s) :
    MainsFrame (t1 ++ t2 st.active) st (f s) := by
  have := h2 s (h1.2.1.trans hE)
  rw [h1.1] at this
  exact h1.comp this

theorem dispatcher_mainsFrame (fx : AEffect) (st : Plugin) (op : EffOpcode) (i v : Int)
    (p : Payload) (o : Sample) (hop : op ≠ .effMainsChanged) :
    MainsFrame [] st (dispatcher fx st op i v p o).1 := by
  unfold dispatcher
  split
  · exact ⟨rfl, rfl, [Call.dispatch op i v p o], rfl, by simp [mainsTrace, mainsValue, hop]⟩
  · exact MainsFrame.start st

theorem activate_mainsFrame (fx : AEffect) (st : Plugin) (hE : st.hasEffect = true) :
    MainsFrame [1] st (activate fx st) := by
  rw [activate_eq fx st hE]
  exact ⟨rfl, rfl, activateCalls, rfl, by decide⟩

theorem deactivate_mainsFrame (fx : AEffect) (st : Plugin) (hE : st.hasEffect = true) :
    MainsFrame [0] st (deactivate fx st) := by
  rw [deactivate_eq fx st hE]
  exact ⟨rfl, rfl, deactivateCalls, rfl, by decide⟩

theorem reloadBegin_mainsFrame (fx : AEffect) (st : Plugin) (hE : st.hasEffect = true) :
    MainsFrame (if st.active then [0] else []) st (reloadBegin fx st) := by
  by_cases ha : st.active = true
  · have e : reloadBegin fx st = clearBuffers (deactivate fx { st with fEnabled := false }) := by
      unfold reloadBegin
      exact congrArg clearBuffers (if_pos ha)
    have h0 : MainsFrame [] st { st with fEnabled := false } := MainsFrame.of_same rfl rfl rfl
    have h := deactivate_mainsFrame fx { st with fEnabled := false } hE
    have h2 : MainsFrame [] (deactivate fx { st with fEnabled := false })
        (clearBuffers (deactivate fx { st with fEnabled := false })) :=
      MainsFrame.of_same rfl rfl rfl
    rw [e]
    exact ((h0.comp h).comp h2).cast (by simp [ha])
  · have e : reloadBegin fx st = clearBuffers { st with fEnabled := false } := by
      unfold reloadBegin
      exact congrArg clearBuffers (if_neg ha)
    rw [e]
    exact (MainsFrame.of_same rfl rfl rfl).cast (by simp [ha])

theorem bufferSizeChanged_mainsFrame (fx : AEffect) (eng : Engine) (st : Plugin) (n : Nat)
    (hE : st.hasEffect = true) :
    MainsFrame (if st.active then [0, 1] else []) st (bufferSizeChanged fx eng st n) := by
  rw [bufferSizeChanged_eq fx eng st n hE]
  refine ⟨rfl, rfl, _, rfl, ?_⟩
  by_cases ha : st.active = true
  · simp only [ha, if_true]
    simp [mainsTrace, mainsValue, deactivateCalls, activateCalls, bufferSizeCalls]
  · have ha' : st.active = false := by simpa using ha
    simp only [ha', Bool.false_eq_true, if_false]
    simp [mainsTrace, mainsValue, bufferSizeCalls]

theorem reloadEnd_mainsFrame (fx : AEffect) (st : Plugin) (hE : st.hasEffect = true) :
    MainsFrame (if st.active then [1] else []) st (reloadEnd fx st) := by
  by_cases ha : st.active = true
  · have e : reloadEnd fx st = { activate fx st with fEnabled := true } := by
      unfold reloadEnd
      simp only [if_pos ha]
    have h := activate_mainsFrame fx st hE
    have h2 : MainsFrame [] (activate fx st) { activate fx st with fEnabled := true } :=
      MainsFrame.of_same rfl rfl rfl
    rw [e]
    exact (h.comp h2).cast (by simp [ha])
  · have e : reloadEnd fx st = { st with fEnabled := true } := by
      unfold reloadEnd
      simp only [if_neg ha]
    rw [e]
    exact (MainsFrame.of_same rfl rfl rfl).cast (by simp [ha])

theorem setProgram_mainsFrame (fx : AEffect) (st : Plugin) (index : Int) (a b c : Bool) :
    MainsFrame [] st (setProgram fx st index a b c) := by
  have hgo : ∀ idx : Int, MainsFrame [] st
      (baseSetProgram
        (if idx ≥ 0 then
          (dispatcher fx (dispatcher fx (dispatcher fx st .effBeginSetProgram 0 0 .null 0).1
            .effSetProgram 0 idx .null 0).1 .effEndSetProgram 0 0 .null 0).1
         else st) idx a b c) := by
    intro idx
    have hb : ∀ s : Plugin, MainsFrame [] s (baseSetProgram s idx a b c) :=
      fun s => MainsFrame.of_same rfl rfl rfl
    split
    · exact ((((dispatcher_mainsFrame fx st .effBeginSetProgram 0 0 .null 0 (by decide)).comp
        (dispatcher_mainsFrame fx _ .effSetProgram 0 idx .null 0 (by decide))).comp
        (dispatcher_mainsFrame fx _ .effEndSetProgram 0 0 .null 0 (by decide))).comp
        (hb _))
    · exact hb st
  unfold setProgram
  simp only
  split
  · exact hgo (-1)
  · split
    · exact MainsFrame.start st
    · exact hgo index

theorem updateProgramNames_mainsFrame (fx : AEffect) (is : List Nat) (st : Plugin) :
    MainsFrame [] st (updateProgramNames fx is st) := by
  induction is generalizing st with
  | nil => exact MainsFrame.start st
  | cons i is ih =>
    simp only [updateProgramNames]
    split
    · exact ((((dispatcher_mainsFrame fx st .effGetProgramNameIndexed i 0 .buffer 0
        (by decide)).comp
        (dispatcher_mainsFrame fx _ .effSetProgram 0 i .null 0 (by decide))).comp
        (dispatcher_mainsFrame fx _ .effGetProgramName 0 0 .buffer 0 (by decide))).comp
        (MainsFrame.of_same rfl rfl rfl)).comp (ih _)
    · exact ((dispatcher_mainsFrame fx st .effGetProgramNameIndexed i 0 .buffer 0
        (by decide)).comp (MainsFrame.of_same rfl rfl rfl)).comp (ih _)

theorem queryPrograms_mainsFrame (fx : AEffect) (st : Plugin) :
    MainsFrame [] st (queryPrograms fx st) := by
  unfold queryPrograms
  simp only
  split
  · exact (MainsFrame.of_same rfl rfl rfl).comp (updateProgramNames_mainsFrame fx _ _)
  · exact MainsFrame.of_same rfl rfl rfl

theorem reloadPrograms_mainsFrame (fx : AEffect) (st : Plugin) :
    MainsFrame [] st (reloadPrograms fx st true) := by
  unfold reloadPrograms
  simp only [if_true]
  split
  · exact (queryPrograms_mainsFrame fx st).comp (setProgram_mainsFrame fx _ _ _ _ _)
  · exact queryPrograms_mainsFrame fx st

theorem scanParameter_mainsFrame (fx : AEffect) (st : Plugin) (j : Nat) :
    MainsFrame [] st (scanParameter fx st j).1 := by
  unfold scanParameter
  split
  · simp only
    split
    · exact (dispatcher_mainsFrame fx st .effVendorSpecific _ _ .buffer 0 (by decide)).comp
        (dispatcher_mainsFrame fx _ .effVendorSpecific _ _ .null 0 (by decide))
    · exact (dispatcher_mainsFrame fx st .effVendorSpecific _ _ .buffer 0 (by decide)).comp
        (dispatcher_mainsFrame fx _ .effVendorSpecific _ _ .null 0 (by decide))
  · simp only
    split
    · exact dispatcher_mainsFrame fx st .effGetParameterProperties _ _ .buffer 0 (by decide)
    · exact dispatcher_mainsFrame fx st .effGetParameterProperties _ _ .buffer 0 (by decide)

theorem reloadParameter_mainsFrame (fx : AEffect) (st : Plugin) (j : Nat) :
    MainsFrame [] st (reloadParameter fx st j) := by
  have h1 := scanParameter_mainsFrame fx st j
  have h2 : MainsFrame [] (scanParameter fx st j).1
      (if (scanParameter fx st j).1.fHints.usesOldVstSdk then
        ((scanParameter fx st j).1, true)
       else ((dispatcher fx (scanParameter fx st j).1 .effCanBeAutomated j 0 .null 0).1,
          decide ((dispatcher fx (scanParameter fx st j).1 .effCanBeAutomated j 0 .null 0).2
            = 1))).1 := by
    split
    · exact MainsFrame.start _
    · exact dispatcher_mainsFrame fx _ .effCanBeAutomated _ _ .null 0 (by decide)
  have h3 : ∀ s : Plugin, MainsFrame [] s { s with log := s.log ++ [Call.getParameter j] } :=
    fun s => ⟨rfl, rfl, [Call.getParameter j], rfl, rfl⟩
  exact (((h1.comp h2).comp (h3 _)).comp (MainsFrame.of_same rfl rfl rfl)).cast rfl

theorem reloadParameters_mainsFrame (fx : AEffect) (js : List Nat) (st : Plugin) :
    MainsFrame [] st (reloadParameters fx js st) := by
  induction js generalizing st with
  | nil => exact MainsFrame.start st
  | cons j js ih =>
    rw [reloadParameters]
    exact (reloadParameter_mainsFrame fx st j).comp (ih _)

theorem reloadHints_mainsFrame (fx : AEffect) (st : Plugin) (aIns aOuts : Nat) :
    MainsFrame [] st (reloadHints fx st aIns aOuts) := by
  unfold reloadHints
  exact ((((dispatcher_mainsFrame fx st .effGetPlugCategory 0 0 .null 0 (by decide)).comp
    (dispatcher_mainsFrame fx _ .effGetVstVersion 0 0 .null 0 (by decide))).comp
    (dispatcher_mainsFrame fx _ .effCanDo 0 0 (.text "hasCockosExtensions") 0 (by decide))).comp
    (MainsFrame.of_same rfl rfl rfl)).cast rfl

theorem createAudioIn_mainsFrame (n : Nat) (st : Plugin) :
    MainsFrame [] st (createAudioIn n st) := by
  unfold createAudioIn
  split
  · exact MainsFrame.of_same rfl rfl rfl
  · exact MainsFrame.start st

theorem createAudioOut_mainsFrame (n : Nat) (st : Plugin) :
    MainsFrame [] st (createAudioOut n st) := by
  unfold createAudioOut
  split
  · exact MainsFrame.of_same rfl rfl rfl
  · exact MainsFrame.start st

theorem createParams_mainsFrame (n : Nat) (st : Plugin) :
    MainsFrame [] st (createParams n st) := by
  unfold createParams
  split
  · exact MainsFrame.of_same rfl rfl rfl
  · exact MainsFrame.start st

theorem createEventPorts_mainsFrame (a b : Bool) (st : Plugin) :
    MainsFrame [] st (createEventPorts a b st) := by
  unfold createEventPorts
  cases a <;> cases b <;> exact MainsFrame.of_same rfl rfl rfl

theorem reloadLatency_mainsFrame (fx : AEffect) (st : Plugin) :
    MainsFrame [] st (reloadLatency fx st) := by
  unfold reloadLatency
  split
  · exact MainsFrame.of_same rfl rfl rfl
  · exact MainsFrame.start st

theorem reloadSpecialFixes_mainsFrame (fx : AEffect) (st : Plugin) :
    MainsFrame [] st (reloadSpecialFixes fx st) := by
  unfold reloadSpecialFixes
  split
  · exact dispatcher_mainsFrame fx st .effGetProductString 0 0 .buffer 0 (by decide)
  · exact MainsFrame.start st

/-- The mains-changed dispatches of `reload`: on an active adapter off (entry), on and off
(pre-start), off and on (`bufferSizeChanged`), on (exit); on an inactive adapter on and off
(pre-start). -/
theorem reload_mainsFrame (fx : AEffect) (eng : Engine) (st : Plugin)
    (hE : st.hasEffect = true) :
    MainsFrame (if st.active then [0, 1, 0, 0, 1, 1] else [1, 0]) st (reload fx eng st) := by
  have hne : ¬ ¬ st.hasEffect = true := by simp [hE]
  unfold reload
  rw [if_neg hne]
  refine MainsFrame.cast
    (MainsFrame.step (reloadEnd fx) (fun a => if a then [1] else [])
      (fun s h => reloadEnd_mainsFrame fx s h) hE
    (MainsFrame.step (fun s => reloadPrograms fx s true) (fun _ => [])
      (fun s _ => reloadPrograms_mainsFrame fx s) hE
    (MainsFrame.step (fun s => bufferSizeChanged fx eng s eng.bufferSize)
      (fun a => if a then [0, 1] else [])
      (fun s h => bufferSizeChanged_mainsFrame fx eng s _ h) hE
    (MainsFrame.step (reloadSpecialFixes fx) (fun _ => [])
      (fun s _ => reloadSpecialFixes_mainsFrame fx s) hE
    (MainsFrame.step (reloadLatency fx) (fun _ => [])
      (fun s _ => reloadLatency_mainsFrame fx s) hE
    (MainsFrame.step (deactivate fx) (fun _ => [0])
      (fun s h => deactivate_mainsFrame fx s h) hE
    (MainsFrame.step (activate fx) (fun _ => [1])
      (fun s h => activate_mainsFrame fx s h) hE
    (MainsFrame.step (reloadExtraHints _ _ _ _) (fun _ => [])
      (fun s _ => MainsFrame.of_same rfl rfl rfl) hE
    (MainsFrame.step (fun s => reloadHints fx s _ _) (fun _ => [])
      (fun s _ => reloadHints_mainsFrame fx s _ _) hE
    (MainsFrame.step (createEventPorts _ _) (fun _ => [])
      (fun s _ => createEventPorts_mainsFrame _ _ s) hE
    (MainsFrame.step (reloadParameters fx _) (fun _ => [])
      (fun s _ => reloadParameters_mainsFrame fx _ s) hE
    (MainsFrame.step (createParams _) (fun _ => [])
      (fun s _ => createParams_mainsFrame _ s) hE
    (MainsFrame.step (createAudioOut _) (fun _ => [])
      (fun s _ => createAudioOut_mainsFrame _ s) hE
    (MainsFrame.step (createAudioIn _) (fun _ => [])
      (fun s _ => createAudioIn_mainsFrame _ s) hE
    (MainsFrame.step (reloadBegin fx) (fun a => if a then [0] else [])
      (fun s h => reloadBegin_mainsFrame fx s h) hE
    (MainsFrame.start st)))))))))))))))) ?_
  cases st.active <;> simp

/-- C18. On an adapter with a loaded module, `reload()` leaves the active flag as it was on
entry, and the mains-changed dispatches it issues end with a switch-on if the adapter was
active on entry and with a switch-off otherwise: they are off, on, off, off, on, on for an
active adapter and on, off for an inactive one. -/
theorem reload_restores_active (fx : AEffect) (eng : Engine) (st : Plugin)
    (hE : st.hasEffect = true) :
    (reload fx eng st).active = st.active ∧
    ∃ added : List Call,
      (reload fx eng st).log = st.log ++ added ∧
      mainsTrace added = (if st.active then [0, 1, 0, 0, 1, 1] else [1, 0]) ∧
      (mainsTrace added).getLast? = some (if st.active then 1 else 0) := by
  obtain ⟨ha, _, added, hl, hm⟩ := reload_mainsFrame fx eng st hE
  refine ⟨ha, added, hl, hm, ?_⟩
  rw [hm]
  cases st.active <;> rfl

/-- C18, witness of `reload_restores_active`: an active and an inactive adapter. -/
theorem reload_restores_active_witness :
    activeExampleState.hasEffect = true ∧
    (reload {} {} activeExampleState).active = true ∧
    mainsTrace (reload {} {} activeExampleState).log = [0, 1, 0, 0, 1, 1] ∧
    (reload {} {} inactiveLoadedState).active = false ∧
    mainsTrace (reload {} {} inactiveLoadedState).log = [1, 0] := by
  obtain ⟨a1, d1, l1, m1, _⟩ := reload_restores_active {} {} activeExampleState rfl
  obtain ⟨a2, d2, l2, m2, _⟩ := reload_restores_active {} {} inactiveLoadedState rfl
  refine ⟨rfl, a1, ?_, a2, ?_⟩
  · rw [l1]
    exact m1
  · rw [l2]
    exact m2

/-! ### Chunks -/

theorem dispatcher_noSetChunk (fx : AEffect) (st : Plugin) (op : EffOpcode) (i v : Int)
    (p : Payload) (o : Sample) (hop : op ≠ .effSetChunk) :
    ∃ added : List Call, (dispatcher fx st op i v p o).1.log = st.log ++ added ∧
      ∀ c ∈ added, c.isSetChunk = false := by
  unfold dispatcher
  split
  · exact ⟨[Call.dispatch op i v p o], rfl, by simp [Call.isSetChunk, hop]⟩
  · exact ⟨[], by simp, by simp⟩

/-- The simulated update-display callback makes no set-chunk dispatch. -/
theorem masterUpdateDisplay_noSetChunk (fx : AEffect) (st : Plugin) :
    ∃ added : List Call, (masterUpdateDisplay fx st).log = st.log ++ added ∧
      ∀ c ∈ added, c.isSetChunk = false := by
  have tr : ∀ {a b c : Plugin},
      (∃ d, b.log = a.log ++ d ∧ ∀ x ∈ d, x.isSetChunk = false) →
      (∃ d, c.log = b.log ++ d ∧ ∀ x ∈ d, x.isSetChunk = false) →
      ∃ d, c.log = a.log ++ d ∧ ∀ x ∈ d, x.isSetChunk = false := by
    rintro a b c ⟨d1, l1, q1⟩ ⟨d2, l2, q2⟩
    refine ⟨d1 ++ d2, by rw [l2, l1, List.append_assoc], ?_⟩
    intro x hx
    rcases List.mem_append.mp hx with h | h
    · exact q1 x h
    · exact q2 x h
  have same : ∀ {a b : Plugin}, b.log = a.log →
      ∃ d, b.log = a.log ++ d ∧ ∀ x ∈ d, x.isSetChunk = false :=
    fun h => ⟨[], by simp [h], by simp⟩
  have h1 : ∃ d, (if st.guiIsVisible then (dispatcher fx st .effEditIdle 0 0 .null 0).1
      else st).log = st.log ++ d ∧ ∀ x ∈ d, x.isSetChunk = false := by
    split
    · exact dispatcher_noSetChunk fx st _ _ _ _ _ (by decide)
    · exact same rfl
  unfold masterUpdateDisplay
  simp only
  generalize (if st.guiIsVisible then (dispatcher fx st .effEditIdle 0 0 .null 0).1
      else st) = s1 at h1
  refine tr h1 (tr ?_ (same rfl : ∃ d, (engineCallback _ EngineCallback.update).log = _ ++ d ∧ _))
  split
  · split
    · refine tr (dispatcher_noSetChunk fx s1 .effGetProgram 0 0 .null 0 (by decide)) ?_
      refine tr (dispatcher_noSetChunk fx _ .effGetProgramName 0 0 .buffer 0 (by decide)) ?_
      split
      · exact same rfl
      · exact same rfl
    · exact dispatcher_noSetChunk fx s1 .effGetProgram 0 0 .null 0 (by decide)
  · exact same rfl

theorem dispatcher_fLastChunk (fx : AEffect) (st : Plugin) (op : EffOpcode) (i v : Int)
    (p : Payload) (o : Sample) : (dispatcher fx st op i v p o).1.fLastChunk = st.fLastChunk := by
  unfold dispatcher
  split <;> rfl

theorem masterUpdateDisplay_fLastChunk (fx : AEffect) (st : Plugin) :
    (masterUpdateDisplay fx st).fLastChunk = st.fLastChunk := by
  have h1 : (if st.guiIsVisible then (dispatcher fx st .effEditIdle 0 0 .null 0).1
      else st).fLastChunk = st.fLastChunk := by
    split
    · exact dispatcher_fLastChunk ..
    · rfl
  unfold masterUpdateDisplay
  simp only
  generalize (if st.guiIsVisible then (dispatcher fx st .effEditIdle 0 0 .null 0).1
      else st) = s1 at h1
  show (engineCallback _ _).fLastChunk = _
  unfold engineCallback
  simp only
  rw [← h1]
  split
  · split
    · split
      · simp only [dispatcher_fLastChunk]
      · simp only [dispatcher_fLastChunk]
    · exact dispatcher_fLastChunk ..
  · rfl

/-- C20. For every byte blob `b` (in particular the one obtained from `chunkData()`) and every
Base64 codec that decodes the encoding of `b` to `b`: on an adapter with a loaded module,
`setChunkData` called with the encoding of a non-empty `b` keeps a copy of `b` in `fLastChunk`
and makes exactly one set-chunk dispatch, the first call it adds to the log, with bank 0, the
length of `b` as value and the bytes `b` as data; and `setChunkData` called with a string
that decodes to the empty blob adds nothing to the log. -/
theorem setChunkData_roundtrip (fromBase64 : String → List Nat) (toBase64 : List Nat → String)
    (fx : AEffect) (eng : Engine) (st : Plugin) (b : List Nat)
    (hE : st.hasEffect = true) (hcodec : fromBase64 (toBase64 b) = b) :
    (b ≠ [] →
      (setChunkData fromBase64 fx eng st (toBase64 b)).fLastChunk = some b ∧
      ∃ rest : List Call,
        (setChunkData fromBase64 fx eng st (toBase64 b)).log =
          st.log ++ Call.dispatch .effSetChunk 0 b.length (.bytes b) 0 :: rest ∧
        ∀ c ∈ rest, c.isSetChunk = false) ∧
    (∀ s : String, fromBase64 s = [] →
      (setChunkData fromBase64 fx eng st s).log = st.log ∧
      (setChunkData fromBase64 fx eng st s).fLastChunk = none) := by
  constructor
  · intro hb
    have hlen : b.length > 0 := List.length_pos.mpr hb
    have e : setChunkData fromBase64 fx eng st (toBase64 b) =
        masterUpdateDisplay fx
          { st with fLastChunk := some b,
                    log := st.log ++ [Call.dispatch .effSetChunk 0 b.length (.bytes b) 0] } := by
      unfold setChunkData
      simp only [hcodec, hlen, if_true]
      unfold dispatcher handleAudioMasterCallback
      simp [hE]
    rw [e]
    obtain ⟨d, hl, hq⟩ := masterUpdateDisplay_noSetChunk fx
      { st with fLastChunk := some b,
                log := st.log ++ [Call.dispatch .effSetChunk 0 b.length (.bytes b) 0] }
    refine ⟨?_, d, ?_, hq⟩
    · rw [masterUpdateDisplay_fLastChunk]
    · rw [hl]
      simp
  · intro s hs
    unfold setChunkData
    simp [hs]

/-- C20, witness of `setChunkData_roundtrip`: the blob of the example module, the three bytes
of "Man", whose Base64 encoding is "TWFu". -/
theorem setChunkData_roundtrip_witness :
    (chunkData chunkExampleFx activeExampleState).2.2 = [77, 97, 110] ∧
    refToBase64 [77, 97, 110] = "TWFu" ∧
    (activeExampleState.hasEffect = true ∧
      refFromBase64 (refToBase64 [77, 97, 110]) = [77, 97, 110]) ∧
    ((([77, 97, 110] : List Nat) ≠ [] →
      (setChunkData refFromBase64 chunkExampleFx {} activeExampleState
        (refToBase64 [77, 97, 110])).fLastChunk = some [77, 97, 110] ∧
      ∃ rest : List Call,
        (setChunkData refFromBase64 chunkExampleFx {} activeExampleState
          (refToBase64 [77, 97, 110])).log =
          activeExampleState.log ++
            Call.dispatch .effSetChunk 0 ([77, 97, 110] : List Nat).length
              (.bytes [77, 97, 110]) 0 :: rest ∧
        ∀ c ∈ rest, c.isSetChunk = false) ∧
    (∀ s : String, refFromBase64 s = [] →
      (setChunkData refFromBase64 chunkExampleFx {} activeExampleState s).log
        = activeExampleState.log ∧
      (setChunkData refFromBase64 chunkExampleFx {} activeExampleState s).fLastChunk = none)) :=
  ⟨rfl, by decide, ⟨rfl, by decide⟩,
    setChunkData_roundtrip refFromBase64 refToBase64 chunkExampleFx {} activeExampleState
      [77, 97, 110] rfl (by decide)⟩

/-! ### The identity tokens are written by the constructor and the destructor only -/

@[simp] theorem dispatcher_tokens (fx : AEffect) (st : Plugin) (opcode : EffOpcode)
    (index value : Int) (ptr : Payload) (opt : Sample) :
    (dispatcher fx st opcode index value ptr opt).1.fUnique1 = st.fUnique1 ∧
    (dispatcher fx st opcode index value ptr opt).1.fUnique2 = st.fUnique2 := by
  unfold dispatcher
  split <;> exact ⟨rfl, rfl⟩

@[simp] theorem baseSetProgram_tokens (st : Plugin) (index : Int)
    (sendGui sendOsc sendCallback : Bool) :
    (baseSetProgram st index sendGui sendOsc sendCallback).fUnique1 = st.fUnique1 ∧
    (baseSetProgram st index sendGui sendOsc sendCallback).fUnique2 = st.fUnique2 := by
  unfold baseSetProgram
  exact ⟨rfl, rfl⟩

@[simp] theorem setProgram_tokens (fx : AEffect) (st : Plugin) (index : Int)
    (sendGui sendOsc sendCallback : Bool) :
    (setProgram fx st index sendGui sendOsc sendCallback).fUnique1 = st.fUnique1 ∧
    (setProgram fx st index sendGui sendOsc sendCallback).fUnique2 = st.fUnique2 := by
  unfold setProgram
  simp only
  repeat' split
  all_goals simp

@[simp] theorem baseSetParameterValue_tokens (st : Plugin) (parameterId : Nat) (value : Sample)
    (sendGui sendOsc sendCallback : Bool) :
    (baseSetParameterValue st parameterId value sendGui sendOsc sendCallback).fUnique1 = st.fUnique1 ∧
    (baseSetParameterValue st parameterId value sendGui sendOsc sendCallback).fUnique2 = st.fUnique2 := by
  unfold baseSetParameterValue
  exact ⟨rfl, rfl⟩

@[simp] theorem setParameterValue_tokens (st : Plugin) (parameterId : Nat) (value : Sample)
    (sendGui sendOsc sendCallback : Bool) :
    (setParameterValue st parameterId value sendGui sendOsc sendCallback).fUnique1 = st.fUnique1 ∧
    (setParameterValue st parameterId value sendGui sendOsc sendCallback).fUnique2 = st.fUnique2 := by
  unfold setParameterValue
  exact ⟨rfl, rfl⟩

@[simp] theorem activate_tokens (fx : AEffect) (st : Plugin) :
    (activate fx st).fUnique1 = st.fUnique1 ∧ (activate fx st).fUnique2 = st.fUnique2 := by
  unfold activate
  simp

@[simp] theorem deactivate_tokens (fx : AEffect) (st : Plugin) :
    (deactivate fx st).fUnique1 = st.fUnique1 ∧ (deactivate fx st).fUnique2 = st.fUnique2 := by
  unfold deactivate
  simp

@[simp] theorem bufferSizeChanged_tokens (fx : AEffect) (eng : Engine) (st : Plugin)
    (newBufferSize : Nat) :
    (bufferSizeChanged fx eng st newBufferSize).fUnique1 = st.fUnique1 ∧
    (bufferSizeChanged fx eng st newBufferSize).fUnique2 = st.fUnique2 := by
  unfold bufferSizeChanged
  simp only
  repeat' split
  all_goals simp

@[simp] theorem sampleRateChanged_tokens (fx : AEffect) (eng : Engine) (st : Plugin)
    (newSampleRate : Sample) :
    (sampleRateChanged fx eng st newSampleRate).fUnique1 = st.fUnique1 ∧
    (sampleRateChanged fx eng st newSampleRate).fUnique2 = st.fUnique2 := by
  unfold sampleRateChanged
  simp only
  repeat' split
  all_goals simp

@[simp] theorem updateProgramNames_tokens (fx : AEffect) (is : List Nat) (st : Plugin) :
    (updateProgramNames fx is st).fUnique1 = st.fUnique1 ∧
    (updateProgramNames fx is st).fUnique2 = st.fUnique2 := by
  induction is generalizing st with
  | nil => exact ⟨rfl, rfl⟩
  | cons i is ih =>
    simp only [updateProgramNames]
    split <;> simp [ih]

@[simp] theorem queryPrograms_tokens (fx : AEffect) (st : Plugin) :
    (queryPrograms fx st).fUnique1 = st.fUnique1 ∧
    (queryPrograms fx st).fUnique2 = st.fUnique2 := by
  unfold queryPrograms
  simp only
  split <;> simp

@[simp] theorem reloadPrograms_tokens (fx : AEffect) (st : Plugin) (init : Bool) :
    (reloadPrograms fx st init).fUnique1 = st.fUnique1 ∧
    (reloadPrograms fx st init).fUnique2 = st.fUnique2 := by
  unfold reloadPrograms
  simp only
  repeat' split
  all_goals simp

@[simp] theorem clearBuffers_tokens (st : Plugin) :
    (clearBuffers st).fUnique1 = st.fUnique1 ∧ (clearBuffers st).fUnique2 = st.fUnique2 := by
  unfold clearBuffers
  exact ⟨rfl, rfl⟩

@[simp] theorem recreateLatencyBuffers_tokens (st : Plugin) :
    (recreateLatencyBuffers st).fUnique1 = st.fUnique1 ∧
    (recreateLatencyBuffers st).fUnique2 = st.fUnique2 := by
  unfold recreateLatencyBuffers
  exact ⟨rfl, rfl⟩

@[simp] theorem scanParameter_tokens (fx : AEffect) (st : Plugin) (j : Nat) :
    (scanParameter fx st j).1.fUnique1 = st.fUnique1 ∧
    (scanParameter fx st j).1.fUnique2 = st.fUnique2 := by
  unfold scanParameter
  simp only
  repeat' split
  all_goals simp

@[simp] theorem reloadParameter_tokens (fx : AEffect) (st : Plugin) (j : Nat) :
    (reloadParameter fx st j).fUnique1 = st.fUnique1 ∧
    (reloadParameter fx st j).fUnique2 = st.fUnique2 := by
  unfold reloadParameter
  simp only
  split <;> simp

@[simp] theorem reloadParameters_tokens (fx : AEffect) (js : List Nat) (st : Plugin) :
    (reloadParameters fx js st).fUnique1 = st.fUnique1 ∧
    (reloadParameters fx js st).fUnique2 = st.fUnique2 := by
  induction js generalizing st with
  | nil => exact ⟨rfl, rfl⟩
  | cons j js ih =>
    rw [reloadParameters]
    simp [ih]

@[simp] theorem reloadHints_tokens (fx : AEffect) (st : Plugin) (aIns aOuts : Nat) :
    (reloadHints fx st aIns aOuts).fUnique1 = st.fUnique1 ∧
    (reloadHints fx st aIns aOuts).fUnique2 = st.fUnique2 := by
  unfold reloadHints
  simp

@[simp] theorem reloadBegin_tokens (fx : AEffect) (st : Plugin) :
    (reloadBegin fx st).fUnique1 = st.fUnique1 ∧ (reloadBegin fx st).fUnique2 = st.fUnique2 := by
  unfold reloadBegin
  simp only
  split <;> simp

@[simp] theorem createAudioIn_tokens (aIns : Nat) (st : Plugin) :
    (createAudioIn aIns st).fUnique1 = st.fUnique1 ∧
    (createAudioIn aIns st).fUnique2 = st.fUnique2 := by
  unfold createAudioIn
  split <;> exact ⟨rfl, rfl⟩

@[simp] theorem createAudioOut_tokens (aOuts : Nat) (st : Plugin) :
    (createAudioOut aOuts st).fUnique1 = st.fUnique1 ∧
    (createAudioOut aOuts st).fUnique2 = st.fUnique2 := by
  unfold createAudioOut
  split <;> exact ⟨rfl, rfl⟩

@[simp] theorem createParams_tokens (params : Nat) (st : Plugin) :
    (createParams params st).fUnique1 = st.fUnique1 ∧
    (createParams params st).fUnique2 = st.fUnique2 := by
  unfold createParams
  split <;> exact ⟨rfl, rfl⟩

@[simp] theorem createEventPorts_tokens (needsCtrlIn needsCtrlOut : Bool) (st : Plugin) :
    (createEventPorts needsCtrlIn needsCtrlOut st).fUnique1 = st.fUnique1 ∧
    (createEventPorts needsCtrlIn needsCtrlOut st).fUnique2 = st.fUnique2 := by
  unfold createEventPorts
  repeat' split
  all_goals simp

@[simp] theorem reloadExtraHints_tokens (mIns mOuts aIns aOuts : Nat) (st : Plugin) :
    (reloadExtraHints mIns mOuts aIns aOuts st).fUnique1 = st.fUnique1 ∧
    (reloadExtraHints mIns mOuts aIns aOuts st).fUnique2 = st.fUnique2 := by
  unfold reloadExtraHints
  exact ⟨rfl, rfl⟩

@[simp] theorem reloadLatency_tokens (fx : AEffect) (st : Plugin) :
    (reloadLatency fx st).fUnique1 = st.fUnique1 ∧
    (reloadLatency fx st).fUnique2 = st.fUnique2 := by
  unfold reloadLatency
  split <;> exact ⟨rfl, rfl⟩

@[simp] theorem reloadSpecialFixes_tokens (fx : AEffect) (st : Plugin) :
    (reloadSpecialFixes fx st).fUnique1 = st.fUnique1 ∧
    (reloadSpecialFixes fx st).fUnique2 = st.fUnique2 := by
  unfold reloadSpecialFixes
  split <;> simp

@[simp] theorem reloadEnd_tokens (fx : AEffect) (st : Plugin) :
    (reloadEnd fx st).fUnique1 = st.fUnique1 ∧ (reloadEnd fx st).fUnique2 = st.fUnique2 := by
  unfold reloadEnd
  split <;> simp

@[simp] theorem reload_tokens (fx : AEffect) (eng : Engine) (st : Plugin) :
    (reload fx eng st).fUnique1 = st.fUnique1 ∧ (reload fx eng st).fUnique2 = st.fUnique2 := by
  unfold reload
  split <;> simp

@[simp] theorem postponeRtEvent_tokens (st : Plugin) (kind : PostRtKind) (v1 v2 : Int)
    (v3 : Sample) :
    (postponeRtEvent st kind v1 v2 v3).fUnique1 = st.fUnique1 ∧
    (postponeRtEvent st kind v1 v2 v3).fUnique2 = st.fUnique2 := by
  unfold postponeRtEvent
  exact ⟨rfl, rfl⟩

@[simp] theorem engineCallback_tokens (st : Plugin) (cb : EngineCallback) :
    (engineCallback st cb).fUnique1 = st.fUnique1 ∧
    (engineCallback st cb).fUnique2 = st.fUnique2 := by
  unfold engineCallback
  exact ⟨rfl, rfl⟩

@[simp] theorem storeOutEvents_tokens (cap : Nat) (evs : List (Option VstMidiEvent))
    (st : Plugin) :
    (storeOutEvents cap evs st).fUnique1 = st.fUnique1 ∧
    (storeOutEvents cap evs st).fUnique2 = st.fUnique2 := by
  induction evs generalizing st with
  | nil => exact ⟨rfl, rfl⟩
  | cons e es ih =>
    cases e with
    | none => exact ⟨rfl, rfl⟩
    | some ev =>
      rw [storeOutEvents]
      split
      · exact ih st
      · cases hscan : reverseFindFree st.fMidiEvents st.fMidiEventCount cap (lastSlot cap) with
        | found j => simp [ih]
        | notFound => simp [ih]
        | outOfBounds => exact ⟨rfl, rfl⟩

@[simp] theorem masterAutomate_tokens (eng : Engine) (st : Plugin) (index : Int) (opt : Sample) :
    (masterAutomate eng st index opt).fUnique1 = st.fUnique1 ∧
    (masterAutomate eng st index opt).fUnique2 = st.fUnique2 := by
  unfold masterAutomate
  repeat' split
  all_goals simp

@[simp] theorem masterProcessEvents_tokens (eng : Engine) (st : Plugin) (ptr : MasterPayload) :
    (masterProcessEvents eng st ptr).1.fUnique1 = st.fUnique1 ∧
    (masterProcessEvents eng st ptr).1.fUnique2 = st.fUnique2 := by
  unfold masterProcessEvents
  repeat' split
  all_goals simp

@[simp] theorem masterUpdateDisplay_tokens (fx : AEffect) (st : Plugin) :
    (masterUpdateDisplay fx st).fUnique1 = st.fUnique1 ∧
    (masterUpdateDisplay fx st).fUnique2 = st.fUnique2 := by
  unfold masterUpdateDisplay
  simp only
  repeat' split
  all_goals simp

@[simp] theorem handleAudioMasterCallback_tokens (fx : AEffect) (eng : Engine) (st : Plugin)
    (c : MasterCall) :
    (handleAudioMasterCallback fx eng st c).1.fUnique1 = st.fUnique1 ∧
    (handleAudioMasterCallback fx eng st c).1.fUnique2 = st.fUnique2 := by
  unfold handleAudioMasterCallback
  repeat' split
  all_goals simp

@[simp] theorem runCallbacks_tokens (fx : AEffect) (eng : Engine) (cs : List MasterCall)
    (st : Plugin) :
    (runCallbacks fx eng cs st).fUnique1 = st.fUnique1 ∧
    (runCallbacks fx eng cs st).fUnique2 = st.fUnique2 := by
  induction cs generalizing st with
  | nil => exact ⟨rfl, rfl⟩
  | cons c cs ih =>
    rw [runCallbacks]
    simp [ih]

@[simp] theorem enterProcess_tokens (st : Plugin) (frames timeOffset : Nat) :
    (enterProcess st frames timeOffset).fUnique1 = st.fUnique1 ∧
    (enterProcess st frames timeOffset).fUnique2 = st.fUnique2 := by
  unfold enterProcess
  exact ⟨rfl, rfl⟩

@[simp] theorem leaveProcess_tokens (st : Plugin) (frames : Nat) :
    (leaveProcess st frames).fUnique1 = st.fUnique1 ∧
    (leaveProcess st frames).fUnique2 = st.fUnique2 := by
  unfold leaveProcess
  exact ⟨rfl, rfl⟩

@[simp] theorem runPlugin_tokens (fx : AEffect) (eng : Engine) (st : Plugin)
    (inBuffer outBuffer : Buffers) (frames timeOffset : Nat) :
    (runPlugin fx eng st inBuffer outBuffer frames timeOffset).1.fUnique1 = st.fUnique1 ∧
    (runPlugin fx eng st inBuffer outBuffer frames timeOffset).1.fUnique2 = st.fUnique2 := by
  unfold runPlugin
  simp

@[simp] theorem lockSingle_tokens (st : Plugin) :
    (lockSingle st).fUnique1 = st.fUnique1 ∧ (lockSingle st).fUnique2 = st.fUnique2 := by
  unfold lockSingle
  exact ⟨rfl, rfl⟩

@[simp] theorem unlockSingle_tokens (st : Plugin) :
    (unlockSingle st).fUnique1 = st.fUnique1 ∧ (unlockSingle st).fUnique2 = st.fUnique2 := by
  unfold unlockSingle
  exact ⟨rfl, rfl⟩

@[simp] theorem sendQueuedEvents_tokens (fx : AEffect) (st : Plugin) :
    (sendQueuedEvents fx st).fUnique1 = st.fUnique1 ∧
    (sendQueuedEvents fx st).fUnique2 = st.fUnique2 := by
  unfold sendQueuedEvents
  split <;> simp

@[simp] theorem processSingle_tokens (fx : AEffect) (eng : Engine) (st : Plugin)
    (inBuffer outBuffer : Option Buffers) (frames timeOffset : Nat) :
    (processSingle fx eng st inBuffer outBuffer frames timeOffset).1.fUnique1 = st.fUnique1 ∧
    (processSingle fx eng st inBuffer outBuffer frames timeOffset).1.fUnique2 = st.fUnique2 := by
  unfold processSingle
  repeat' split
  all_goals simp

@[simp] theorem appendMidiEvent_tokens (st : Plugin) (ev : VstMidiEvent) :
    (appendMidiEvent st ev).fUnique1 = st.fUnique1 ∧
    (appendMidiEvent st ev).fUnique2 = st.fUnique2 := by
  unfold appendMidiEvent
  exact ⟨rfl, rfl⟩

@[simp] theorem clearEventArray_tokens (eng : Engine) (st : Plugin) :
    (clearEventArray eng st).fUnique1 = st.fUnique1 ∧
    (clearEventArray eng st).fUnique2 = st.fUnique2 := by
  unfold clearEventArray
  exact ⟨rfl, rfl⟩

@[simp] theorem resetAllSoundOff_tokens (st : Plugin) :
    (resetAllSoundOff st).fUnique1 = st.fUnique1 ∧
    (resetAllSoundOff st).fUnique2 = st.fUnique2 := by
  unfold resetAllSoundOff
  exact ⟨rfl, rfl⟩

@[simp] theorem resetNotesOff_tokens (st : Plugin) :
    (resetNotesOff st).fUnique1 = st.fUnique1 ∧ (resetNotesOff st).fUnique2 = st.fUnique2 := by
  unfold resetNotesOff
  exact ⟨rfl, rfl⟩

@[simp] theorem resetLatencyBuffers_tokens (st : Plugin) :
    (resetLatencyBuffers st).fUnique1 = st.fUnique1 ∧
    (resetLatencyBuffers st).fUnique2 = st.fUnique2 := by
  unfold resetLatencyBuffers
  exact ⟨rfl, rfl⟩

@[simp] theorem processReset_tokens (st : Plugin) :
    (processReset st).fUnique1 = st.fUnique1 ∧ (processReset st).fUnique2 = st.fUnique2 := by
  unfold processReset
  simp only
  repeat' split
  all_goals simp

@[simp] theorem setTimeInfo_tokens (eng : Engine) (st : Plugin) :
    (setTimeInfo eng st).fUnique1 = st.fUnique1 ∧ (setTimeInfo eng st).fUnique2 = st.fUnique2 := by
  unfold setTimeInfo
  exact ⟨rfl, rfl⟩

@[simp] theorem drainExtNotes_tokens (cap : Nat) (notes : List ExternalMidiNote)
    (st : Plugin) :
    (drainExtNotes cap notes st).fUnique1 = st.fUnique1 ∧
    (drainExtNotes cap notes st).fUnique2 = st.fUnique2 := by
  induction notes generalizing st with
  | nil => exact ⟨rfl, rfl⟩
  | cons n ns ih =>
    rw [drainExtNotes]
    split
    · simp [ih]
    · exact ⟨rfl, rfl⟩

@[simp] theorem processExtNotes_tokens (eng : Engine) (blk : Block) (st : Plugin) :
    (processExtNotes eng blk st).fUnique1 = st.fUnique1 ∧
    (processExtNotes eng blk st).fUnique2 = st.fUnique2 := by
  unfold processExtNotes
  split <;> simp

@[simp] theorem setDryWet_tokens (st : Plugin) (value : Sample) :
    (setDryWet st value).fUnique1 = st.fUnique1 ∧ (setDryWet st value).fUnique2 = st.fUnique2 := by
  unfold setDryWet
  exact ⟨rfl, rfl⟩

@[simp] theorem setVolume_tokens (st : Plugin) (value : Sample) :
    (setVolume st value).fUnique1 = st.fUnique1 ∧ (setVolume st value).fUnique2 = st.fUnique2 := by
  unfold setVolume
  exact ⟨rfl, rfl⟩

@[simp] theorem setBalanceLeft_tokens (st : Plugin) (value : Sample) :
    (setBalanceLeft st value).fUnique1 = st.fUnique1 ∧
    (setBalanceLeft st value).fUnique2 = st.fUnique2 := by
  unfold setBalanceLeft
  exact ⟨rfl, rfl⟩

@[simp] theorem setBalanceRight_tokens (st : Plugin) (value : Sample) :
    (setBalanceRight st value).fUnique1 = st.fUnique1 ∧
    (setBalanceRight st value).fUnique2 = st.fUnique2 := by
  unfold setBalanceRight
  exact ⟨rfl, rfl⟩

@[simp] theorem backendDryWet_tokens (st : Plugin) (ctrlEvent : EngineControlEvent) :
    (backendDryWet st ctrlEvent).fUnique1 = st.fUnique1 ∧
    (backendDryWet st ctrlEvent).fUnique2 = st.fUnique2 := by
  unfold backendDryWet
  split <;> exact ⟨rfl, rfl⟩

@[simp] theorem backendVolume_tokens (st : Plugin) (ctrlEvent : EngineControlEvent) :
    (backendVolume st ctrlEvent).fUnique1 = st.fUnique1 ∧
    (backendVolume st ctrlEvent).fUnique2 = st.fUnique2 := by
  unfold backendVolume
  split <;> exact ⟨rfl, rfl⟩

@[simp] theorem backendBalance_tokens (st : Plugin) (ctrlEvent : EngineControlEvent) :
    (backendBalance st ctrlEvent).fUnique1 = st.fUnique1 ∧
    (backendBalance st ctrlEvent).fUnique2 = st.fUnique2 := by
  unfold backendBalance
  split
  · simp only [postponeRtEvent_tokens, setBalanceRight_tokens, setBalanceLeft_tokens, and_self]
  · exact ⟨rfl, rfl⟩

@[simp] theorem controlBackend_tokens (st : Plugin) (event : EngineEvent)
    (ctrlEvent : EngineControlEvent) :
    (controlBackend st event ctrlEvent).fUnique1 = st.fUnique1 ∧
    (controlBackend st event ctrlEvent).fUnique2 = st.fUnique2 := by
  unfold controlBackend
  split
  · simp only [backendBalance_tokens, backendVolume_tokens, backendDryWet_tokens, and_self]
  · exact ⟨rfl, rfl⟩

@[simp] theorem controlParameter_tokens (event : EngineEvent) (ctrlEvent : EngineControlEvent)
    (k : Nat) (st : Plugin) :
    (controlParameter event ctrlEvent k st).fUnique1 = st.fUnique1 ∧
    (controlParameter event ctrlEvent k st).fUnique2 = st.fUnique2 := by
  unfold controlParameter
  simp only
  repeat' split
  all_goals simp

theorem forRange_tokens (n : Nat) (body : Nat → Plugin → Plugin) (st : Plugin)
    (h : ∀ k s, (body k s).fUnique1 = s.fUnique1 ∧ (body k s).fUnique2 = s.fUnique2) :
    (forRange n body st).fUnique1 = st.fUnique1 ∧
    (forRange n body st).fUnique2 = st.fUnique2 := by
  induction n with
  | zero => exact ⟨rfl, rfl⟩
  | succ n ih =>
    rw [forRange_succ]
    exact ⟨(h n _).1.trans ih.1, (h n _).2.trans ih.2⟩

@[simp] theorem queueControlChange_tokens (eng : Engine) (st : Plugin)
    (channel data1 data2 deltaFrames : Nat) :
    (queueControlChange eng st channel data1 data2 deltaFrames).fUnique1 = st.fUnique1 ∧
    (queueControlChange eng st channel data1 data2 deltaFrames).fUnique2 = st.fUnique2 := by
  unfold queueControlChange
  split <;> exact ⟨rfl, rfl⟩

@[simp] theorem handleControlEvent_tokens (fx : AEffect) (eng : Engine) (sampleAccurate : Bool)
    (startTime : Nat) (event : EngineEvent) (ctrlEvent : EngineControlEvent)
    (allNotesOffSent : Bool) (st : Plugin) :
    (handleControlEvent fx eng sampleAccurate startTime event ctrlEvent allNotesOffSent st).1.fUnique1 = st.fUnique1 ∧
    (handleControlEvent fx eng sampleAccurate startTime event ctrlEvent allNotesOffSent st).1.fUnique2 = st.fUnique2 := by
  have hfr : ∀ s : Plugin,
      (forRange s.param.count (controlParameter event ctrlEvent) s).fUnique1 = s.fUnique1 ∧
      (forRange s.param.count (controlParameter event ctrlEvent) s).fUnique2 = s.fUnique2 :=
    fun s => forRange_tokens _ _ s (fun k s' => controlParameter_tokens event ctrlEvent k s')
  unfold handleControlEvent
  split
  · exact ⟨rfl, rfl⟩
  · simp only []
    split
    · simp only [queueControlChange_tokens, hfr, controlBackend_tokens, and_self]
    · simp only [hfr, controlBackend_tokens, and_self]
  · exact ⟨rfl, rfl⟩
  · repeat' split
    all_goals first | exact ⟨rfl, rfl⟩ | simp
  · repeat' split
    all_goals first | exact ⟨rfl, rfl⟩ | simp
  · repeat' split
    all_goals first | exact ⟨rfl, rfl⟩ | simp

@[simp] theorem postponeNote_tokens (st : Plugin) (status channel data1 data2 : Nat) :
    (postponeNote st status channel data1 data2).fUnique1 = st.fUnique1 ∧
    (postponeNote st status channel data1 data2).fUnique2 = st.fUnique2 := by
  unfold postponeNote
  repeat' split
  all_goals simp

@[simp] theorem handleMidiEvent_tokens (eng : Engine) (sampleAccurate : Bool) (startTime : Nat)
    (event : EngineEvent) (midiEvent : EngineMidiEvent) (st : Plugin) :
    (handleMidiEvent eng sampleAccurate startTime event midiEvent st).fUnique1 = st.fUnique1 ∧
    (handleMidiEvent eng sampleAccurate startTime event midiEvent st).fUnique2 = st.fUnique2 := by
  unfold handleMidiEvent
  simp only
  repeat' split
  all_goals simp

@[simp] theorem withLockState_tokens (held : Bool) (st : Plugin) :
    (withLockState held st).fUnique1 = st.fUnique1 ∧
    (withLockState held st).fUnique2 = st.fUnique2 := by
  unfold withLockState
  exact ⟨rfl, rfl⟩

@[simp] theorem clearQueued_tokens (st : Plugin) :
    (clearQueued st).fUnique1 = st.fUnique1 ∧ (clearQueued st).fUnique2 = st.fUnique2 := by
  unfold clearQueued
  split <;> exact ⟨rfl, rfl⟩

@[simp] theorem processMidiOutput_tokens (eng : Engine) (st : Plugin) :
    (processMidiOutput eng st).fUnique1 = st.fUnique1 ∧
    (processMidiOutput eng st).fUnique2 = st.fUnique2 := by
  unfold processMidiOutput
  split <;> exact ⟨rfl, rfl⟩

@[simp] theorem prematureExit_tokens (st : Plugin) :
    (prematureExit st).fUnique1 = st.fUnique1 ∧ (prematureExit st).fUnique2 = st.fUnique2 := by
  unfold prematureExit
  exact ⟨rfl, rfl⟩

@[simp] theorem chunkData_tokens (fx : AEffect) (st : Plugin) :
    (chunkData fx st).1.fUnique1 = st.fUnique1 ∧ (chunkData fx st).1.fUnique2 = st.fUnique2 := by
  unfold chunkData
  simp

@[simp] theorem setChunkData_tokens (fromBase64 : String → List Nat) (fx : AEffect) (eng : Engine)
    (st : Plugin) (stringData : String) :
    (setChunkData fromBase64 fx eng st stringData).fUnique1 = st.fUnique1 ∧
    (setChunkData fromBase64 fx eng st stringData).fUnique2 = st.fUnique2 := by
  unfold setChunkData
  simp only
  split <;> simp

@[simp] theorem showGuiOff_tokens (fx : AEffect) (st : Plugin) :
    (showGuiOff fx st).fUnique1 = st.fUnique1 ∧ (showGuiOff fx st).fUnique2 = st.fUnique2 := by
  unfold showGuiOff
  simp only
  repeat' split
  all_goals simp

/-! ### Identity tokens and the callback trampoline -/

theorem splitBlock_tokens (fx : AEffect) (eng : Engine) (blk : Block)
    (inBuffer : Option Buffers) (time : Nat) (s : EventLoop) :
    (splitBlock fx eng blk inBuffer time s).st.fUnique1 = s.st.fUnique1 ∧
    (splitBlock fx eng blk inBuffer time s).st.fUnique2 = s.st.fUnique2 := by
  unfold splitBlock
  simp only
  split <;> simp

theorem handleEvent_tokens (fx : AEffect) (eng : Engine) (sampleAccurate : Bool)
    (event : EngineEvent) (s : EventLoop) :
    (handleEvent fx eng sampleAccurate event s).st.fUnique1 = s.st.fUnique1 ∧
    (handleEvent fx eng sampleAccurate event s).st.fUnique2 = s.st.fUnique2 := by
  unfold handleEvent
  split <;> simp

theorem eventStep_tokens (fx : AEffect) (eng : Engine) (blk : Block)
    (inBuffer : Option Buffers) (frames : Nat) (sampleAccurate : Bool) (s : EventLoop)
    (event : EngineEvent) :
    (eventStep fx eng blk inBuffer frames sampleAccurate s event).st.fUnique1
      = s.st.fUnique1 ∧
    (eventStep fx eng blk inBuffer frames sampleAccurate s event).st.fUnique2
      = s.st.fUnique2 := by
  unfold eventStep
  split
  · exact ⟨rfl, rfl⟩
  · simp only
    split
    · exact ⟨(handleEvent_tokens ..).1.trans (splitBlock_tokens ..).1,
        (handleEvent_tokens ..).2.trans (splitBlock_tokens ..).2⟩
    · exact handleEvent_tokens ..

theorem eventLoop_tokens (fx : AEffect) (eng : Engine) (blk : Block)
    (inBuffer : Option Buffers) (frames : Nat) (sampleAccurate : Bool)
    (events : List EngineEvent) (s : EventLoop) :
    (eventLoop fx eng blk inBuffer frames sampleAccurate events s).st.fUnique1
      = s.st.fUnique1 ∧
    (eventLoop fx eng blk inBuffer frames sampleAccurate events s).st.fUnique2
      = s.st.fUnique2 := by
  unfold eventLoop
  induction events generalizing s with
  | nil => exact ⟨rfl, rfl⟩
  | cons e es ih =>
    rw [List.foldl_cons]
    exact ⟨(ih _).1.trans (eventStep_tokens ..).1, (ih _).2.trans (eventStep_tokens ..).2⟩

theorem processWithEvents_tokens (fx : AEffect) (eng : Engine) (blk : Block) (st : Plugin)
    (inBuffer outBuffer : Option Buffers) (frames : Nat) :
    (processWithEvents fx eng blk st inBuffer outBuffer frames).1.fUnique1 = st.fUnique1 ∧
    (processWithEvents fx eng blk st inBuffer outBuffer frames).1.fUnique2 = st.fUnique2 := by
  unfold processWithEvents
  simp only
  have h := eventLoop_tokens fx eng blk inBuffer frames
    (!(processExtNotes eng blk st).fOptions.fixedBuffer) blk.events
    { st := processExtNotes eng blk st, out := outBuffer }
  split
  · simp [h.1, h.2]
  · simp [h.1, h.2]

theorem process_tokens (fx : AEffect) (eng : Engine) (blk : Block) (st : Plugin)
    (inBuffer outBuffer : Option Buffers) (frames : Nat) :
    (process fx eng blk st inBuffer outBuffer frames).1.fUnique1 = st.fUnique1 ∧
    (process fx eng blk st inBuffer outBuffer frames).1.fUnique2 = st.fUnique2 := by
  have tail : ∀ r : Plugin × Option Buffers,
      (if ¬ r.1.fEnabled then (prematureExit r.1, r.2)
        else (processMidiOutput eng r.1, r.2)).1.fUnique1 = r.1.fUnique1 ∧
      (if ¬ r.1.fEnabled then (prematureExit r.1, r.2)
        else (processMidiOutput eng r.1, r.2)).1.fUnique2 = r.1.fUnique2 := by
    intro r
    split <;> simp
  have hr : ∀ s : Plugin,
      (if s.hasEventIn then processWithEvents fx eng blk s inBuffer outBuffer frames
        else ((processSingle fx eng (withLockState (blk.singleMutexHeld 0) s)
          inBuffer outBuffer frames 0).1,
          (processSingle fx eng (withLockState (blk.singleMutexHeld 0) s)
            inBuffer outBuffer frames 0).2.1)).1.fUnique1 = s.fUnique1 ∧
      (if s.hasEventIn then processWithEvents fx eng blk s inBuffer outBuffer frames
        else ((processSingle fx eng (withLockState (blk.singleMutexHeld 0) s)
          inBuffer outBuffer frames 0).1,
          (processSingle fx eng (withLockState (blk.singleMutexHeld 0) s)
            inBuffer outBuffer frames 0).2.1)).1.fUnique2 = s.fUnique2 := by
    intro s
    split
    · exact processWithEvents_tokens ..
    · simp
  have h0 : (setTimeInfo eng (processReset (clearEventArray eng st))).fUnique1 = st.fUnique1 ∧
      (setTimeInfo eng (processReset (clearEventArray eng st))).fUnique2 = st.fUnique2 := by
    simp
  unfold process
  split
  · exact ⟨rfl, rfl⟩
  · simp only
    split
    · simp
    · split
      · simp
      · exact ⟨((tail _).1.trans (hr _).1).trans h0.1, ((tail _).2.trans (hr _).2).trans h0.2⟩

/-- No operation of an adapter writes an identity token. -/
theorem AdapterOp.run_tokens (fromBase64 : String → List Nat) (fx : AEffect) (eng : Engine)
    (op : AdapterOp) (st : Plugin) :
    (op.run fromBase64 fx eng st).fUnique1 = st.fUnique1 ∧
    (op.run fromBase64 fx eng st).fUnique2 = st.fUnique2 := by
  cases op <;> simp only [AdapterOp.run]
  case process blk i o n => exact process_tokens ..
  all_goals simp

theorem runOps_tokens (fromBase64 : String → List Nat) (fx : AEffect) (eng : Engine)
    (ops : List AdapterOp) (st : Plugin) :
    (runOps fromBase64 fx eng ops st).fUnique1 = st.fUnique1 ∧
    (runOps fromBase64 fx eng ops st).fUnique2 = st.fUnique2 := by
  unfold runOps
  induction ops generalizing st with
  | nil => exact ⟨rfl, rfl⟩
  | cons op ops ih =>
    rw [List.foldl_cons]
    exact ⟨(ih _).1.trans (AdapterOp.run_tokens ..).1, (ih _).2.trans (AdapterOp.run_tokens ..).2⟩

theorem toInt32_succ_ne (x : Int) : toInt32 (wrapU32 (x + 1)) ≠ x := by
  unfold toInt32 wrapU32
  split <;> omega

theorem destruct_tokens (fx : AEffect) (st : Plugin) :
    (destruct fx st).fUnique1 = st.fUnique1 ∧
    (destruct fx st).fUnique2 = toInt32 (wrapU32 (st.fUnique2 + 1)) := by
  unfold destruct
  simp only
  repeat' split
  all_goals simp

/-- When the back-pointer of the effect leads to an adapter with unequal tokens (or is unset)
and no adapter is being initialised, an instance-level callback is answered with 0 and
nothing is changed. -/
theorem trampoline_rejects (eng : Engine) (w : World) (effect : Nat) (c : MasterCall)
    (hg : c.opcode.isGlobal = false)
    (htok : (w.adapters (w.resvd1 effect)).fUnique1 ≠ (w.adapters (w.resvd1 effect)).fUnique2)
    (hlast : w.sLastVstPlugin = 0) :
    carla_vst_audioMasterCallback eng w effect c = (w, 0) := by
  have hself : w.selfOf effect = 0 := by
    unfold World.selfOf
    simp [htok]
  have hrest : (if effect = 0 then (w, (0 : Int))
      else
        if w.selfOf effect ≠ 0 then
          if (if w.effectOf (w.selfOf effect) = 0 then w.setEffect (w.selfOf effect) effect
              else w).effectOf (w.selfOf effect) ≠ effect then
            (if w.effectOf (w.selfOf effect) = 0 then w.setEffect (w.selfOf effect) effect
              else w, 0)
          else (if w.effectOf (w.selfOf effect) = 0 then w.setEffect (w.selfOf effect) effect
              else w).runHandler eng (w.selfOf effect) c
        else if w.sLastVstPlugin ≠ 0 then
          World.runHandler eng
            { w with resvd1 := Function.update w.resvd1 effect w.sLastVstPlugin }
            w.sLastVstPlugin c
        else (w, 0)) = (w, 0) := by
    split
    · rfl
    · rw [hself, hlast]
      simp
  unfold carla_vst_audioMasterCallback
  cases hop : c.opcode <;> simp only [hop, MasterOpcode.isGlobal] at hg ⊢ <;>
    first | exact hrest | exact absurd hg (by decide)

/-- C14, as stated: the effect at address 10 points back to a torn-down adapter (unequal
tokens) while the adapter at address 2 is being initialised. The instance-level callback
`audioMasterNeedIdle` is not rejected: the trampoline registers the adapter being
initialised as the owner of the effect and runs its handler, which sets its idle flag and
returns 1. -/
theorem trampoline_stale_during_init_counterexample :
    (staleWorldDuringInit.adapters (staleWorldDuringInit.resvd1 10)).fUnique1 ≠
      (staleWorldDuringInit.adapters (staleWorldDuringInit.resvd1 10)).fUnique2 ∧
    MasterOpcode.isGlobal .audioMasterNeedIdle = false ∧
    (carla_vst_audioMasterCallback {} staleWorldDuringInit 10
      { opcode := .audioMasterNeedIdle }).2 = 1 ∧
    (staleWorldDuringInit.adapters 2).fNeedIdle = false ∧
    ((carla_vst_audioMasterCallback {} staleWorldDuringInit 10
      { opcode := .audioMasterNeedIdle }).1.adapters 2).fNeedIdle = true ∧
    (carla_vst_audioMasterCallback {} staleWorldDuringInit 10
      { opcode := .audioMasterNeedIdle }).1.resvd1 10 = 2 := by
  decide

/-- C14, amended. The two identity tokens of an adapter are equal after construction and after
every sequence of operations that follows, and unequal after teardown. When no adapter is
being initialised (`sLastVstPlugin` is null), for every instance-level opcode a call to the
trampoline whose effect back-pointer refers to an adapter with unequal tokens returns 0
without running a callback handler and without changing any adapter or effect state. -/
theorem identity_tokens (fromBase64 : String → List Nat) (fx : AEffect) (eng : Engine)
    (rand : Int) (ops : List AdapterOp) (w : World) (effect : Nat) (c : MasterCall)
    (hg : c.opcode.isGlobal = false)
    (htok : (w.adapters (w.resvd1 effect)).fUnique1 ≠ (w.adapters (w.resvd1 effect)).fUnique2)
    (hlast : w.sLastVstPlugin = 0) :
    (construct rand).fUnique1 = (construct rand).fUnique2 ∧
    (runOps fromBase64 fx eng ops (construct rand)).fUnique1 =
      (runOps fromBase64 fx eng ops (construct rand)).fUnique2 ∧
    (destruct fx (runOps fromBase64 fx eng ops (construct rand))).fUnique1 ≠
      (destruct fx (runOps fromBase64 fx eng ops (construct rand))).fUnique2 ∧
    carla_vst_audioMasterCallback eng w effect c = (w, 0) := by
  have h1 : (runOps fromBase64 fx eng ops (construct rand)).fUnique1 =
      (runOps fromBase64 fx eng ops (construct rand)).fUnique2 := by
    rw [(runOps_tokens ..).1, (runOps_tokens ..).2]
    rfl
  refine ⟨rfl, h1, ?_, trampoline_rejects eng w effect c hg htok hlast⟩
  rw [(destruct_tokens ..).1, (destruct_tokens ..).2, h1]
  exact fun h => toInt32_succ_ne _ h.symm

/-- C14, witness of `identity_tokens`: an adapter that is constructed, activated, deactivated
and torn down, and the callback `audioMasterNeedIdle` arriving for the stale effect of
`staleWorld`. -/
theorem identity_tokens_witness :
    (MasterOpcode.isGlobal .audioMasterNeedIdle = false ∧
      (staleWorld.adapters (staleWorld.resvd1 10)).fUnique1 ≠
        (staleWorld.adapters (staleWorld.resvd1 10)).fUnique2 ∧
      staleWorld.sLastVstPlugin = 0) ∧
    ((construct 7).fUnique1 = (construct 7).fUnique2 ∧
    (runOps refFromBase64 {} {} [.activate, .deactivate] (construct 7)).fUnique1 =
      (runOps refFromBase64 {} {} [.activate, .deactivate] (construct 7)).fUnique2 ∧
    (destruct {} (runOps refFromBase64 {} {} [.activate, .deactivate] (construct 7))).fUnique1 ≠
      (destruct {} (runOps refFromBase64 {} {} [.activate, .deactivate]
        (construct 7))).fUnique2 ∧
    carla_vst_audioMasterCallback {} staleWorld 10 { opcode := .audioMasterNeedIdle }
      = (staleWorld, 0)) :=
  ⟨⟨rfl, by decide, rfl⟩,
    identity_tokens refFromBase64 {} {} 7 [.activate, .deactivate] staleWorld 10
      { opcode := .audioMasterNeedIdle } rfl (by decide) rfl⟩

/-! ### Frames: the event array outside the event handlers -/

@[simp] theorem dispatcher_array (fx : AEffect) (st : Plugin) (opcode : EffOpcode)
    (index value : Int) (ptr : Payload) (opt : Sample) :
    (dispatcher fx st opcode index value ptr opt).1.fMidiEvents = st.fMidiEvents ∧
    (dispatcher fx st opcode index value ptr opt).1.fMidiEventCount = st.fMidiEventCount := by
  unfold dispatcher
  split <;> exact ⟨rfl, rfl⟩

@[simp] theorem baseSetProgram_array (st : Plugin) (index : Int)
    (sendGui sendOsc sendCallback : Bool) :
    (baseSetProgram st index sendGui sendOsc sendCallback).fMidiEvents = st.fMidiEvents ∧
    (baseSetProgram st index sendGui sendOsc sendCallback).fMidiEventCount = st.fMidiEventCount := by
  unfold baseSetProgram
  exact ⟨rfl, rfl⟩

@[simp] theorem setProgram_array (fx : AEffect) (st : Plugin) (index : Int)
    (sendGui sendOsc sendCallback : Bool) :
    (setProgram fx st index sendGui sendOsc sendCallback).fMidiEvents = st.fMidiEvents ∧
    (setProgram fx st index sendGui sendOsc sendCallback).fMidiEventCount = st.fMidiEventCount := by
  unfold setProgram
  simp only
  repeat' split
  all_goals simp

@[simp] theorem baseSetParameterValue_array (st : Plugin) (parameterId : Nat) (value : Sample)
    (sendGui sendOsc sendCallback : Bool) :
    (baseSetParameterValue st parameterId value sendGui sendOsc sendCallback).fMidiEvents = st.fMidiEvents ∧
    (baseSetParameterValue st parameterId value sendGui sendOsc sendCallback).fMidiEventCount = st.fMidiEventCount := by
  unfold baseSetParameterValue
  exact ⟨rfl, rfl⟩

@[simp] theorem setParameterValue_array (st : Plugin) (parameterId : Nat) (value : Sample)
    (sendGui sendOsc sendCallback : Bool) :
    (setParameterValue st parameterId value sendGui sendOsc sendCallback).fMidiEvents = st.fMidiEvents ∧
    (setParameterValue st parameterId value sendGui sendOsc sendCallback).fMidiEventCount = st.fMidiEventCount := by
  unfold setParameterValue
  exact ⟨rfl, rfl⟩

@[simp] theorem postponeRtEvent_array (st : Plugin) (kind : PostRtKind) (v1 v2 : Int)
    (v3 : Sample) :
    (postponeRtEvent st kind v1 v2 v3).fMidiEvents = st.fMidiEvents ∧
    (postponeRtEvent st kind v1 v2 v3).fMidiEventCount = st.fMidiEventCount := by
  unfold postponeRtEvent
  exact ⟨rfl, rfl⟩

@[simp] theorem engineCallback_array (st : Plugin) (cb : EngineCallback) :
    (engineCallback st cb).fMidiEvents = st.fMidiEvents ∧
    (engineCallback st cb).fMidiEventCount = st.fMidiEventCount := by
  unfold engineCallback
  exact ⟨rfl, rfl⟩

@[simp] theorem masterAutomate_array (eng : Engine) (st : Plugin) (index : Int) (opt : Sample) :
    (masterAutomate eng st index opt).fMidiEvents = st.fMidiEvents ∧
    (masterAutomate eng st index opt).fMidiEventCount = st.fMidiEventCount := by
  unfold masterAutomate
  repeat' split
  all_goals simp

@[simp] theorem masterUpdateDisplay_array (fx : AEffect) (st : Plugin) :
    (masterUpdateDisplay fx st).fMidiEvents = st.fMidiEvents ∧
    (masterUpdateDisplay fx st).fMidiEventCount = st.fMidiEventCount := by
  unfold masterUpdateDisplay
  simp only
  repeat' split
  all_goals simp

@[simp] theorem enterProcess_array (st : Plugin) (frames timeOffset : Nat) :
    (enterProcess st frames timeOffset).fMidiEvents = st.fMidiEvents ∧
    (enterProcess st frames timeOffset).fMidiEventCount = st.fMidiEventCount := by
  unfold enterProcess
  exact ⟨rfl, rfl⟩

@[simp] theorem leaveProcess_array (st : Plugin) (frames : Nat) :
    (leaveProcess st frames).fMidiEvents = st.fMidiEvents ∧
    (leaveProcess st frames).fMidiEventCount = st.fMidiEventCount := by
  unfold leaveProcess
  exact ⟨rfl, rfl⟩

@[simp] theorem lockSingle_array (st : Plugin) :
    (lockSingle st).fMidiEvents = st.fMidiEvents ∧ (lockSingle st).fMidiEventCount = st.fMidiEventCount := by
  unfold lockSingle
  exact ⟨rfl, rfl⟩

@[simp] theorem unlockSingle_array (st : Plugin) :
    (unlockSingle st).fMidiEvents = st.fMidiEvents ∧ (unlockSingle st).fMidiEventCount = st.fMidiEventCount := by
  unfold unlockSingle
  exact ⟨rfl, rfl⟩

@[simp] theorem sendQueuedEvents_array (fx : AEffect) (st : Plugin) :
    (sendQueuedEvents fx st).fMidiEvents = st.fMidiEvents ∧
    (sendQueuedEvents fx st).fMidiEventCount = st.fMidiEventCount := by
  unfold sendQueuedEvents
  split <;> simp

@[simp] theorem setTimeInfo_array (eng : Engine) (st : Plugin) :
    (setTimeInfo eng st).fMidiEvents = st.fMidiEvents ∧ (setTimeInfo eng st).fMidiEventCount = st.fMidiEventCount := by
  unfold setTimeInfo
  exact ⟨rfl, rfl⟩

@[simp] theorem resetLatencyBuffers_array (st : Plugin) :
    (resetLatencyBuffers st).fMidiEvents = st.fMidiEvents ∧
    (resetLatencyBuffers st).fMidiEventCount = st.fMidiEventCount := by
  unfold resetLatencyBuffers
  exact ⟨rfl, rfl⟩

@[simp] theorem withLockState_array (held : Bool) (st : Plugin) :
    (withLockState held st).fMidiEvents = st.fMidiEvents ∧
    (withLockState held st).fMidiEventCount = st.fMidiEventCount := by
  unfold withLockState
  exact ⟨rfl, rfl⟩

@[simp] theorem prematureExit_array (st : Plugin) :
    (prematureExit st).fMidiEvents = st.fMidiEvents ∧ (prematureExit st).fMidiEventCount = st.fMidiEventCount := by
  unfold prematureExit
  exact ⟨rfl, rfl⟩

@[simp] theorem processMidiOutput_array (eng : Engine) (st : Plugin) :
    (processMidiOutput eng st).fMidiEvents = st.fMidiEvents ∧
    (processMidiOutput eng st).fMidiEventCount = st.fMidiEventCount := by
  unfold processMidiOutput
  split <;> exact ⟨rfl, rfl⟩

/-! ### Frames: the output port and the reset flag -/

@[simp] theorem dispatcher_outReset (fx : AEffect) (st : Plugin) (opcode : EffOpcode)
    (index value : Int) (ptr : Payload) (opt : Sample) :
    (dispatcher fx st opcode index value ptr opt).1.midiOut = st.midiOut ∧
    (dispatcher fx st opcode index value ptr opt).1.needsReset = st.needsReset := by
  unfold dispatcher
  split <;> exact ⟨rfl, rfl⟩

@[simp] theorem baseSetProgram_outReset (st : Plugin) (index : Int)
    (sendGui sendOsc sendCallback : Bool) :
    (baseSetProgram st index sendGui sendOsc sendCallback).midiOut = st.midiOut ∧
    (baseSetProgram st index sendGui sendOsc sendCallback).needsReset = st.needsReset := by
  unfold baseSetProgram
  exact ⟨rfl, rfl⟩

@[simp] theorem setProgram_outReset (fx : AEffect) (st : Plugin) (index : Int)
    (sendGui sendOsc sendCallback : Bool) :
    (setProgram fx st index sendGui sendOsc sendCallback).midiOut = st.midiOut ∧
    (setProgram fx st index sendGui sendOsc sendCallback).needsReset = st.needsReset := by
  unfold setProgram
  simp only
  repeat' split
  all_goals simp

@[simp] theorem baseSetParameterValue_outReset (st : Plugin) (parameterId : Nat) (value : Sample)
    (sendGui sendOsc sendCallback : Bool) :
    (baseSetParameterValue st parameterId value sendGui sendOsc sendCallback).midiOut = st.midiOut ∧
    (baseSetParameterValue st parameterId value sendGui sendOsc sendCallback).needsReset = st.needsReset := by
  unfold baseSetParameterValue
  exact ⟨rfl, rfl⟩

@[simp] theorem setParameterValue_outReset (st : Plugin) (parameterId : Nat) (value : Sample)
    (sendGui sendOsc sendCallback : Bool) :
    (setParameterValue st parameterId value sendGui sendOsc sendCallback).midiOut = st.midiOut ∧
    (setParameterValue st parameterId value sendGui sendOsc sendCallback).needsReset = st.needsReset := by
  unfold setParameterValue
  exact ⟨rfl, rfl⟩

@[simp] theorem postponeRtEvent_outReset (st : Plugin) (kind : PostRtKind) (v1 v2 : Int)
    (v3 : Sample) :
    (postponeRtEvent st kind v1 v2 v3).midiOut = st.midiOut ∧
    (postponeRtEvent st kind v1 v2 v3).needsReset = st.needsReset := by
  unfold postponeRtEvent
  exact ⟨rfl, rfl⟩

@[simp] theorem engineCallback_outReset (st : Plugin) (cb : EngineCallback) :
    (engineCallback st cb).midiOut = st.midiOut ∧
    (engineCallback st cb).needsReset = st.needsReset := by
  unfold engineCallback
  exact ⟨rfl, rfl⟩

@[simp] theorem storeOutEvents_outReset (cap : Nat) (evs : List (Option VstMidiEvent))
    (st : Plugin) :
    (storeOutEvents cap evs st).midiOut = st.midiOut ∧
    (storeOutEvents cap evs st).needsReset = st.needsReset := by
  induction evs generalizing st with
  | nil => exact ⟨rfl, rfl⟩
  | cons e es ih =>
    cases e with
    | none => exact ⟨rfl, rfl⟩
    | some ev =>
      rw [storeOutEvents]
      split
      · exact ih st
      · cases hscan : reverseFindFree st.fMidiEvents st.fMidiEventCount cap (lastSlot cap) with
        | found j => simp [ih]
        | notFound => simp [ih]
        | outOfBounds => exact ⟨rfl, rfl⟩

@[simp] theorem masterAutomate_outReset (eng : Engine) (st : Plugin) (index : Int) (opt : Sample) :
    (masterAutomate eng st index opt).midiOut = st.midiOut ∧
    (masterAutomate eng st index opt).needsReset = st.needsReset := by
  unfold masterAutomate
  repeat' split
  all_goals simp

@[simp] theorem masterProcessEvents_outReset (eng : Engine) (st : Plugin) (ptr : MasterPayload) :
    (masterProcessEvents eng st ptr).1.midiOut = st.midiOut ∧
    (masterProcessEvents eng st ptr).1.needsReset = st.needsReset := by
  unfold masterProcessEvents
  repeat' split
  all_goals simp

@[simp] theorem masterUpdateDisplay_outReset (fx : AEffect) (st : Plugin) :
    (masterUpdateDisplay fx st).midiOut = st.midiOut ∧
    (masterUpdateDisplay fx st).needsReset = st.needsReset := by
  unfold masterUpdateDisplay
  simp only
  repeat' split
  all_goals simp

@[simp] theorem handleAudioMasterCallback_outReset (fx : AEffect) (eng : Engine) (st : Plugin)
    (c : MasterCall) :
    (handleAudioMasterCallback fx eng st c).1.midiOut = st.midiOut ∧
    (handleAudioMasterCallback fx eng st c).1.needsReset = st.needsReset := by
  unfold handleAudioMasterCallback
  repeat' split
  all_goals simp

@[simp] theorem runCallbacks_outReset (fx : AEffect) (eng : Engine) (cs : List MasterCall)
    (st : Plugin) :
    (runCallbacks fx eng cs st).midiOut = st.midiOut ∧
    (runCallbacks fx eng cs st).needsReset = st.needsReset := by
  induction cs generalizing st with
  | nil => exact ⟨rfl, rfl⟩
  | cons c cs ih =>
    rw [runCallbacks]
    simp [ih]

@[simp] theorem enterProcess_outReset (st : Plugin) (frames timeOffset : Nat) :
    (enterProcess st frames timeOffset).midiOut = st.midiOut ∧
    (enterProcess st frames timeOffset).needsReset = st.needsReset := by
  unfold enterProcess
  exact ⟨rfl, rfl⟩

@[simp] theorem leaveProcess_outReset (st : Plugin) (frames : Nat) :
    (leaveProcess st frames).midiOut = st.midiOut ∧
    (leaveProcess st frames).needsReset = st.needsReset := by
  unfold leaveProcess
  exact ⟨rfl, rfl⟩

@[simp] theorem runPlugin_outReset (fx : AEffect) (eng : Engine) (st : Plugin)
    (inBuffer outBuffer : Buffers) (frames timeOffset : Nat) :
    (runPlugin fx eng st inBuffer outBuffer frames timeOffset).1.midiOut = st.midiOut ∧
    (runPlugin fx eng st inBuffer outBuffer frames timeOffset).1.needsReset = st.needsReset := by
  unfold runPlugin
  simp

@[simp] theorem lockSingle_outReset (st : Plugin) :
    (lockSingle st).midiOut = st.midiOut ∧ (lockSingle st).needsReset = st.needsReset := by
  unfold lockSingle
  exact ⟨rfl, rfl⟩

@[simp] theorem unlockSingle_outReset (st : Plugin) :
    (unlockSingle st).midiOut = st.midiOut ∧ (unlockSingle st).needsReset = st.needsReset := by
  unfold unlockSingle
  exact ⟨rfl, rfl⟩

@[simp] theorem sendQueuedEvents_outReset (fx : AEffect) (st : Plugin) :
    (sendQueuedEvents fx st).midiOut = st.midiOut ∧
    (sendQueuedEvents fx st).needsReset = st.needsReset := by
  unfold sendQueuedEvents
  split <;> simp

@[simp] theorem processSingle_outReset (fx : AEffect) (eng : Engine) (st : Plugin)
    (inBuffer outBuffer : Option Buffers) (frames timeOffset : Nat) :
    (processSingle fx eng st inBuffer outBuffer frames timeOffset).1.midiOut = st.midiOut ∧
    (processSingle fx eng st inBuffer outBuffer frames timeOffset).1.needsReset = st.needsReset := by
  unfold processSingle
  repeat' split
  all_goals simp

@[simp] theorem appendMidiEvent_outReset (st : Plugin) (ev : VstMidiEvent) :
    (appendMidiEvent st ev).midiOut = st.midiOut ∧
    (appendMidiEvent st ev).needsReset = st.needsReset := by
  unfold appendMidiEvent
  exact ⟨rfl, rfl⟩

@[simp] theorem clearEventArray_outReset (eng : Engine) (st : Plugin) :
    (clearEventArray eng st).midiOut = st.midiOut ∧
    (clearEventArray eng st).needsReset = st.needsReset := by
  unfold clearEventArray
  exact ⟨rfl, rfl⟩

@[simp] theorem resetAllSoundOff_outReset (st : Plugin) :
    (resetAllSoundOff st).midiOut = st.midiOut ∧
    (resetAllSoundOff st).needsReset = st.needsReset := by
  unfold resetAllSoundOff
  exact ⟨rfl, rfl⟩

@[simp] theorem resetNotesOff_outReset (st : Plugin) :
    (resetNotesOff st).midiOut = st.midiOut ∧ (resetNotesOff st).needsReset = st.needsReset := by
  unfold resetNotesOff
  exact ⟨rfl, rfl⟩

@[simp] theorem resetLatencyBuffers_outReset (st : Plugin) :
    (resetLatencyBuffers st).midiOut = st.midiOut ∧
    (resetLatencyBuffers st).needsReset = st.needsReset := by
  unfold resetLatencyBuffers
  exact ⟨rfl, rfl⟩

@[simp] theorem setTimeInfo_outReset (eng : Engine) (st : Plugin) :
    (setTimeInfo eng st).midiOut = st.midiOut ∧ (setTimeInfo eng st).needsReset = st.needsReset := by
  unfold setTimeInfo
  exact ⟨rfl, rfl⟩

@[simp] theorem drainExtNotes_outReset (cap : Nat) (notes : List ExternalMidiNote)
    (st : Plugin) :
    (drainExtNotes cap notes st).midiOut = st.midiOut ∧
    (drainExtNotes cap notes st).needsReset = st.needsReset := by
  induction notes generalizing st with
  | nil => exact ⟨rfl, rfl⟩
  | cons n ns ih =>
    rw [drainExtNotes]
    split
    · simp [ih]
    · exact ⟨rfl, rfl⟩

@[simp] theorem processExtNotes_outReset (eng : Engine) (blk : Block) (st : Plugin) :
    (processExtNotes eng blk st).midiOut = st.midiOut ∧
    (processExtNotes eng blk st).needsReset = st.needsReset := by
  unfold processExtNotes
  split <;> simp

@[simp] theorem setDryWet_outReset (st : Plugin) (value : Sample) :
    (setDryWet st value).midiOut = st.midiOut ∧ (setDryWet st value).needsReset = st.needsReset := by
  unfold setDryWet
  exact ⟨rfl, rfl⟩

@[simp] theorem setVolume_outReset (st : Plugin) (value : Sample) :
    (setVolume st value).midiOut = st.midiOut ∧ (setVolume st value).needsReset = st.needsReset := by
  unfold setVolume
  exact ⟨rfl, rfl⟩

@[simp] theorem setBalanceLeft_outReset (st : Plugin) (value : Sample) :
    (setBalanceLeft st value).midiOut = st.midiOut ∧
    (setBalanceLeft st value).needsReset = st.needsReset := by
  unfold setBalanceLeft
  exact ⟨rfl, rfl⟩

@[simp] theorem setBalanceRight_outReset (st : Plugin) (value : Sample) :
    (setBalanceRight st value).midiOut = st.midiOut ∧
    (setBalanceRight st value).needsReset = st.needsReset := by
  unfold setBalanceRight
  exact ⟨rfl, rfl⟩

@[simp] theorem backendDryWet_outReset (st : Plugin) (ctrlEvent : EngineControlEvent) :
    (backendDryWet st ctrlEvent).midiOut = st.midiOut ∧
    (backendDryWet st ctrlEvent).needsReset = st.needsReset := by
  unfold backendDryWet
  split <;> exact ⟨rfl, rfl⟩

@[simp] theorem backendVolume_outReset (st : Plugin) (ctrlEvent : EngineControlEvent) :
    (backendVolume st ctrlEvent).midiOut = st.midiOut ∧
    (backendVolume st ctrlEvent).needsReset = st.needsReset := by
  unfold backendVolume
  split <;> exact ⟨rfl, rfl⟩

@[simp] theorem backendBalance_outReset (st : Plugin) (ctrlEvent : EngineControlEvent) :
    (backendBalance st ctrlEvent).midiOut = st.midiOut ∧
    (backendBalance st ctrlEvent).needsReset = st.needsReset := by
  unfold backendBalance
  split
  · simp only [postponeRtEvent_outReset, setBalanceRight_outReset, setBalanceLeft_outReset, and_self]
  · exact ⟨rfl, rfl⟩

@[simp] theorem controlBackend_outReset (st : Plugin) (event : EngineEvent)
    (ctrlEvent : EngineControlEvent) :
    (controlBackend st event ctrlEvent).midiOut = st.midiOut ∧
    (controlBackend st event ctrlEvent).needsReset = st.needsReset := by
  unfold controlBackend
  split
  · simp only [backendBalance_outReset, backendVolume_outReset, backendDryWet_outReset, and_self]
  · exact ⟨rfl, rfl⟩

@[simp] theorem controlParameter_outReset (event : EngineEvent) (ctrlEvent : EngineControlEvent)
    (k : Nat) (st : Plugin) :
    (controlParameter event ctrlEvent k st).midiOut = st.midiOut ∧
    (controlParameter event ctrlEvent k st).needsReset = st.needsReset := by
  unfold controlParameter
  simp only
  repeat' split
  all_goals simp

theorem forRange_outReset (n : Nat) (body : Nat → Plugin → Plugin) (st : Plugin)
    (h : ∀ k s, (body k s).midiOut = s.midiOut ∧ (body k s).needsReset = s.needsReset) :
    (forRange n body st).midiOut = st.midiOut ∧
    (forRange n body st).needsReset = st.needsReset := by
  induction n with
  | zero => exact ⟨rfl, rfl⟩
  | succ n ih =>
    rw [forRange_succ]
    exact ⟨(h n _).1.trans ih.1, (h n _).2.trans ih.2⟩

@[simp] theorem queueControlChange_outReset (eng : Engine) (st : Plugin)
    (channel data1 data2 deltaFrames : Nat) :
    (queueControlChange eng st channel data1 data2 deltaFrames).midiOut = st.midiOut ∧
    (queueControlChange eng st channel data1 data2 deltaFrames).needsReset = st.needsReset := by
  unfold queueControlChange
  split <;> exact ⟨rfl, rfl⟩

@[simp] theorem handleControlEvent_outReset (fx : AEffect) (eng : Engine) (sampleAccurate : Bool)
    (startTime : Nat) (event : EngineEvent) (ctrlEvent : EngineControlEvent)
    (allNotesOffSent : Bool) (st : Plugin) :
    (handleControlEvent fx eng sampleAccurate startTime event ctrlEvent allNotesOffSent st).1.midiOut = st.midiOut ∧
    (handleControlEvent fx eng sampleAccurate startTime event ctrlEvent allNotesOffSent st).1.needsReset = st.needsReset := by
  have hfr : ∀ s : Plugin,
      (forRange s.param.count (controlParameter event ctrlEvent) s).midiOut = s.midiOut ∧
      (forRange s.param.count (controlParameter event ctrlEvent) s).needsReset = s.needsReset :=
    fun s => forRange_outReset _ _ s (fun k s' => controlParameter_outReset event ctrlEvent k s')
  unfold handleControlEvent
  split
  · exact ⟨rfl, rfl⟩
  · simp only []
    split
    · simp only [queueControlChange_outReset, hfr, controlBackend_outReset, and_self]
    · simp only [hfr, controlBackend_outReset, and_self]
  · exact ⟨rfl, rfl⟩
  · repeat' split
    all_goals first | exact ⟨rfl, rfl⟩ | simp
  · repeat' split
    all_goals first | exact ⟨rfl, rfl⟩ | simp
  · repeat' split
    all_goals first | exact ⟨rfl, rfl⟩ | simp

@[simp] theorem postponeNote_outReset (st : Plugin) (status channel data1 data2 : Nat) :
    (postponeNote st status channel data1 data2).midiOut = st.midiOut ∧
    (postponeNote st status channel data1 data2).needsReset = st.needsReset := by
  unfold postponeNote
  repeat' split
  all_goals simp

@[simp] theorem handleMidiEvent_outReset (eng : Engine) (sampleAccurate : Bool) (startTime : Nat)
    (event : EngineEvent) (midiEvent : EngineMidiEvent) (st : Plugin) :
    (handleMidiEvent eng sampleAccurate startTime event midiEvent st).midiOut = st.midiOut ∧
    (handleMidiEvent eng sampleAccurate startTime event midiEvent st).needsReset = st.needsReset := by
  unfold handleMidiEvent
  simp only
  repeat' split
  all_goals simp

@[simp] theorem withLockState_outReset (held : Bool) (st : Plugin) :
    (withLockState held st).midiOut = st.midiOut ∧
    (withLockState held st).needsReset = st.needsReset := by
  unfold withLockState
  exact ⟨rfl, rfl⟩

@[simp] theorem clearQueued_outReset (st : Plugin) :
    (clearQueued st).midiOut = st.midiOut ∧ (clearQueued st).needsReset = st.needsReset := by
  unfold clearQueued
  split <;> exact ⟨rfl, rfl⟩

@[simp] theorem prematureExit_outReset (st : Plugin) :
    (prematureExit st).midiOut = st.midiOut ∧ (prematureExit st).needsReset = st.needsReset := by
  unfold prematureExit
  exact ⟨rfl, rfl⟩

theorem splitBlock_outReset (fx : AEffect) (eng : Engine) (blk : Block)
    (inBuffer : Option Buffers) (time : Nat) (s : EventLoop) :
    (splitBlock fx eng blk inBuffer time s).st.midiOut = s.st.midiOut ∧
    (splitBlock fx eng blk inBuffer time s).st.needsReset = s.st.needsReset := by
  unfold splitBlock
  simp only
  split <;> simp

theorem handleEvent_outReset (fx : AEffect) (eng : Engine) (sampleAccurate : Bool)
    (event : EngineEvent) (s : EventLoop) :
    (handleEvent fx eng sampleAccurate event s).st.midiOut = s.st.midiOut ∧
    (handleEvent fx eng sampleAccurate event s).st.needsReset = s.st.needsReset := by
  unfold handleEvent
  split <;> simp

theorem eventStep_outReset (fx : AEffect) (eng : Engine) (blk : Block)
    (inBuffer : Option Buffers) (frames : Nat) (sampleAccurate : Bool) (s : EventLoop)
    (event : EngineEvent) :
    (eventStep fx eng blk inBuffer frames sampleAccurate s event).st.midiOut
      = s.st.midiOut ∧
    (eventStep fx eng blk inBuffer frames sampleAccurate s event).st.needsReset
      = s.st.needsReset := by
  unfold eventStep
  split
  · exact ⟨rfl, rfl⟩
  · simp only
    split
    · exact ⟨(handleEvent_outReset ..).1.trans (splitBlock_outReset ..).1,
        (handleEvent_outReset ..).2.trans (splitBlock_outReset ..).2⟩
    · exact handleEvent_outReset ..

theorem eventLoop_outReset (fx : AEffect) (eng : Engine) (blk : Block)
    (inBuffer : Option Buffers) (frames : Nat) (sampleAccurate : Bool)
    (events : List EngineEvent) (s : EventLoop) :
    (eventLoop fx eng blk inBuffer frames sampleAccurate events s).st.midiOut
      = s.st.midiOut ∧
    (eventLoop fx eng blk inBuffer frames sampleAccurate events s).st.needsReset
      = s.st.needsReset := by
  unfold eventLoop
  induction events generalizing s with
  | nil => exact ⟨rfl, rfl⟩
  | cons e es ih =>
    rw [List.foldl_cons]
    exact ⟨(ih _).1.trans (eventStep_outReset ..).1, (ih _).2.trans (eventStep_outReset ..).2⟩

theorem processWithEvents_outReset (fx : AEffect) (eng : Engine) (blk : Block) (st : Plugin)
    (inBuffer outBuffer : Option Buffers) (frames : Nat) :
    (processWithEvents fx eng blk st inBuffer outBuffer frames).1.midiOut = st.midiOut ∧
    (processWithEvents fx eng blk st inBuffer outBuffer frames).1.needsReset = st.needsReset := by
  unfold processWithEvents
  simp only
  have h := eventLoop_outReset fx eng blk inBuffer frames
    (!(processExtNotes eng blk st).fOptions.fixedBuffer) blk.events
    { st := processExtNotes eng blk st, out := outBuffer }
  split
  · simp [h.1, h.2]
  · simp [h.1, h.2]

theorem processReset_midiOut (st : Plugin) :
    (processReset st).midiOut = st.midiOut ∧ (processReset st).needsReset = false := by
  unfold processReset
  by_cases h : st.needsReset = true
  · rw [if_pos h]
    refine ⟨?_, rfl⟩
    simp only
    repeat' split
    all_goals simp
  · rw [if_neg h]
    exact ⟨rfl, by simpa using h⟩

/-- The state of an active block before its MIDI output section, or at its premature exit:
the output port has not been written and the reset flag is clear. -/
theorem process_needsReset (fx : AEffect) (eng : Engine) (blk : Block) (st : Plugin)
    (inBuffer outBuffer : Option Buffers) (frames : Nat) (hactive : st.active = true) :
    (process fx eng blk st inBuffer outBuffer frames).1.needsReset = false := by
  have h0 : (processReset (clearEventArray eng st)).needsReset = false :=
    (processReset_midiOut _).2
  have tail : ∀ r : Plugin × Option Buffers,
      (if ¬ r.1.fEnabled then (prematureExit r.1, r.2)
        else (processMidiOutput eng r.1, r.2)).1.needsReset = r.1.needsReset := by
    intro r
    split
    · simp
    · unfold processMidiOutput
      split <;> rfl
  have hr : ∀ s : Plugin,
      (if s.hasEventIn then processWithEvents fx eng blk s inBuffer outBuffer frames
        else ((processSingle fx eng (withLockState (blk.singleMutexHeld 0) s)
          inBuffer outBuffer frames 0).1,
          (processSingle fx eng (withLockState (blk.singleMutexHeld 0) s)
            inBuffer outBuffer frames 0).2.1)).1.needsReset = s.needsReset := by
    intro s
    split
    · exact (processWithEvents_outReset ..).2
    · simp
  unfold process
  rw [if_neg (by simp [hactive])]
  simp only
  split
  · simpa using h0
  · split
    · simpa using h0
    · rw [tail, hr]
      simpa using h0

/-! ### Frames: the time info outside the sub-calls -/

@[simp] theorem dispatcher_timeInfo (fx : AEffect) (st : Plugin) (opcode : EffOpcode)
    (index value : Int) (ptr : Payload) (opt : Sample) :
    (dispatcher fx st opcode index value ptr opt).1.fTimeInfo = st.fTimeInfo ∧
    (dispatcher fx st opcode index value ptr opt).1.fIsProcessing = st.fIsProcessing := by
  unfold dispatcher
  split <;> exact ⟨rfl, rfl⟩

@[simp] theorem baseSetProgram_timeInfo (st : Plugin) (index : Int)
    (sendGui sendOsc sendCallback : Bool) :
    (baseSetProgram st index sendGui sendOsc sendCallback).fTimeInfo = st.fTimeInfo ∧
    (baseSetProgram st index sendGui sendOsc sendCallback).fIsProcessing = st.fIsProcessing := by
  unfold baseSetProgram
  exact ⟨rfl, rfl⟩

@[simp] theorem setProgram_timeInfo (fx : AEffect) (st : Plugin) (index : Int)
    (sendGui sendOsc sendCallback : Bool) :
    (setProgram fx st index sendGui sendOsc sendCallback).fTimeInfo = st.fTimeInfo ∧
    (setProgram fx st index sendGui sendOsc sendCallback).fIsProcessing = st.fIsProcessing := by
  unfold setProgram
  simp only
  repeat' split
  all_goals simp

@[simp] theorem baseSetParameterValue_timeInfo (st : Plugin) (parameterId : Nat) (value : Sample)
    (sendGui sendOsc sendCallback : Bool) :
    (baseSetParameterValue st parameterId value sendGui sendOsc sendCallback).fTimeInfo = st.fTimeInfo ∧
    (baseSetParameterValue st parameterId value sendGui sendOsc sendCallback).fIsProcessing = st.fIsProcessing := by
  unfold baseSetParameterValue
  exact ⟨rfl, rfl⟩

@[simp] theorem setParameterValue_timeInfo (st : Plugin) (parameterId : Nat) (value : Sample)
    (sendGui sendOsc sendCallback : Bool) :
    (setParameterValue st parameterId value sendGui sendOsc sendCallback).fTimeInfo = st.fTimeInfo ∧
    (setParameterValue st parameterId value sendGui sendOsc sendCallback).fIsProcessing = st.fIsProcessing := by
  unfold setParameterValue
  exact ⟨rfl, rfl⟩

@[simp] theorem postponeRtEvent_timeInfo (st : Plugin) (kind : PostRtKind) (v1 v2 : Int)
    (v3 : Sample) :
    (postponeRtEvent st kind v1 v2 v3).fTimeInfo = st.fTimeInfo ∧
    (postponeRtEvent st kind v1 v2 v3).fIsProcessing = st.fIsProcessing := by
  unfold postponeRtEvent
  exact ⟨rfl, rfl⟩

@[simp] theorem engineCallback_timeInfo (st : Plugin) (cb : EngineCallback) :
    (engineCallback st cb).fTimeInfo = st.fTimeInfo ∧
    (engineCallback st cb).fIsProcessing = st.fIsProcessing := by
  unfold engineCallback
  exact ⟨rfl, rfl⟩

@[simp] theorem appendMidiEvent_timeInfo (st : Plugin) (ev : VstMidiEvent) :
    (appendMidiEvent st ev).fTimeInfo = st.fTimeInfo ∧
    (appendMidiEvent st ev).fIsProcessing = st.fIsProcessing := by
  unfold appendMidiEvent
  exact ⟨rfl, rfl⟩

@[simp] theorem clearEventArray_timeInfo (eng : Engine) (st : Plugin) :
    (clearEventArray eng st).fTimeInfo = st.fTimeInfo ∧
    (clearEventArray eng st).fIsProcessing = st.fIsProcessing := by
  unfold clearEventArray
  exact ⟨rfl, rfl⟩

@[simp] theorem resetAllSoundOff_timeInfo (st : Plugin) :
    (resetAllSoundOff st).fTimeInfo = st.fTimeInfo ∧
    (resetAllSoundOff st).fIsProcessing = st.fIsProcessing := by
  unfold resetAllSoundOff
  exact ⟨rfl, rfl⟩

@[simp] theorem resetNotesOff_timeInfo (st : Plugin) :
    (resetNotesOff st).fTimeInfo = st.fTimeInfo ∧ (resetNotesOff st).fIsProcessing = st.fIsProcessing := by
  unfold resetNotesOff
  exact ⟨rfl, rfl⟩

@[simp] theorem resetLatencyBuffers_timeInfo (st : Plugin) :
    (resetLatencyBuffers st).fTimeInfo = st.fTimeInfo ∧
    (resetLatencyBuffers st).fIsProcessing = st.fIsProcessing := by
  unfold resetLatencyBuffers
  exact ⟨rfl, rfl⟩

@[simp] theorem drainExtNotes_timeInfo (cap : Nat) (notes : List ExternalMidiNote)
    (st : Plugin) :
    (drainExtNotes cap notes st).fTimeInfo = st.fTimeInfo ∧
    (drainExtNotes cap notes st).fIsProcessing = st.fIsProcessing := by
  induction notes generalizing st with
  | nil => exact ⟨rfl, rfl⟩
  | cons n ns ih =>
    rw [drainExtNotes]
    split
    · simp [ih]
    · exact ⟨rfl, rfl⟩

@[simp] theorem processExtNotes_timeInfo (eng : Engine) (blk : Block) (st : Plugin) :
    (processExtNotes eng blk st).fTimeInfo = st.fTimeInfo ∧
    (processExtNotes eng blk st).fIsProcessing = st.fIsProcessing := by
  unfold processExtNotes
  split <;> simp

@[simp] theorem setDryWet_timeInfo (st : Plugin) (value : Sample) :
    (setDryWet st value).fTimeInfo = st.fTimeInfo ∧ (setDryWet st value).fIsProcessing = st.fIsProcessing := by
  unfold setDryWet
  exact ⟨rfl, rfl⟩

@[simp] theorem setVolume_timeInfo (st : Plugin) (value : Sample) :
    (setVolume st value).fTimeInfo = st.fTimeInfo ∧ (setVolume st value).fIsProcessing = st.fIsProcessing := by
  unfold setVolume
  exact ⟨rfl, rfl⟩

@[simp] theorem setBalanceLeft_timeInfo (st : Plugin) (value : Sample) :
    (setBalanceLeft st value).fTimeInfo = st.fTimeInfo ∧
    (setBalanceLeft st value).fIsProcessing = st.fIsProcessing := by
  unfold setBalanceLeft
  exact ⟨rfl, rfl⟩

@[simp] theorem setBalanceRight_timeInfo (st : Plugin) (value : Sample) :
    (setBalanceRight st value).fTimeInfo = st.fTimeInfo ∧
    (setBalanceRight st value).fIsProcessing = st.fIsProcessing := by
  unfold setBalanceRight
  exact ⟨rfl, rfl⟩

@[simp] theorem backendDryWet_timeInfo (st : Plugin) (ctrlEvent : EngineControlEvent) :
    (backendDryWet st ctrlEvent).fTimeInfo = st.fTimeInfo ∧
    (backendDryWet st ctrlEvent).fIsProcessing = st.fIsProcessing := by
  unfold backendDryWet
  split <;> exact ⟨rfl, rfl⟩

@[simp] theorem backendVolume_timeInfo (st : Plugin) (ctrlEvent : EngineControlEvent) :
    (backendVolume st ctrlEvent).fTimeInfo = st.fTimeInfo ∧
    (backendVolume st ctrlEvent).fIsProcessing = st.fIsProcessing := by
  unfold backendVolume
  split <;> exact ⟨rfl, rfl⟩

@[simp] theorem backendBalance_timeInfo (st : Plugin) (ctrlEvent : EngineControlEvent) :
    (backendBalance st ctrlEvent).fTimeInfo = st.fTimeInfo ∧
    (backendBalance st ctrlEvent).fIsProcessing = st.fIsProcessing := by
  unfold backendBalance
  split
  · simp only [postponeRtEvent_timeInfo, setBalanceRight_timeInfo, setBalanceLeft_timeInfo, and_self]
  · exact ⟨rfl, rfl⟩

@[simp] theorem controlBackend_timeInfo (st : Plugin) (event : EngineEvent)
    (ctrlEvent : EngineControlEvent) :
    (controlBackend st event ctrlEvent).fTimeInfo = st.fTimeInfo ∧
    (controlBackend st event ctrlEvent).fIsProcessing = st.fIsProcessing := by
  unfold controlBackend
  split
  · simp only [backendBalance_timeInfo, backendVolume_timeInfo, backendDryWet_timeInfo, and_self]
  · exact ⟨rfl, rfl⟩

@[simp] theorem controlParameter_timeInfo (event : EngineEvent) (ctrlEvent : EngineControlEvent)
    (k : Nat) (st : Plugin) :
    (controlParameter event ctrlEvent k st).fTimeInfo = st.fTimeInfo ∧
    (controlParameter event ctrlEvent k st).fIsProcessing = st.fIsProcessing := by
  unfold controlParameter
  simp only
  repeat' split
  all_goals simp

theorem forRange_timeInfo (n : Nat) (body : Nat → Plugin → Plugin) (st : Plugin)
    (h : ∀ k s, (body k s).fTimeInfo = s.fTimeInfo ∧ (body k s).fIsProcessing = s.fIsProcessing) :
    (forRange n body st).fTimeInfo = st.fTimeInfo ∧
    (forRange n body st).fIsProcessing = st.fIsProcessing := by
  induction n with
  | zero => exact ⟨rfl, rfl⟩
  | succ n ih =>
    rw [forRange_succ]
    exact ⟨(h n _).1.trans ih.1, (h n _).2.trans ih.2⟩

@[simp] theorem queueControlChange_timeInfo (eng : Engine) (st : Plugin)
    (channel data1 data2 deltaFrames : Nat) :
    (queueControlChange eng st channel data1 data2 deltaFrames).fTimeInfo = st.fTimeInfo ∧
    (queueControlChange eng st channel data1 data2 deltaFrames).fIsProcessing = st.fIsProcessing := by
  unfold queueControlChange
  split <;> exact ⟨rfl, rfl⟩

@[simp] theorem handleControlEvent_timeInfo (fx : AEffect) (eng : Engine) (sampleAccurate : Bool)
    (startTime : Nat) (event : EngineEvent) (ctrlEvent : EngineControlEvent)
    (allNotesOffSent : Bool) (st : Plugin) :
    (handleControlEvent fx eng sampleAccurate startTime event ctrlEvent allNotesOffSent st).1.fTimeInfo = st.fTimeInfo ∧
    (handleControlEvent fx eng sampleAccurate startTime event ctrlEvent allNotesOffSent st).1.fIsProcessing = st.fIsProcessing := by
  have hfr : ∀ s : Plugin,
      (forRange s.param.count (controlParameter event ctrlEvent) s).fTimeInfo = s.fTimeInfo ∧
      (forRange s.param.count (controlParameter event ctrlEvent) s).fIsProcessing = s.fIsProcessing :=
    fun s => forRange_timeInfo _ _ s (fun k s' => controlParameter_timeInfo event ctrlEvent k s')
  unfold handleControlEvent
  split
  · exact ⟨rfl, rfl⟩
  · simp only []
    split
    · simp only [queueControlChange_timeInfo, hfr, controlBackend_timeInfo, and_self]
    · simp only [hfr, controlBackend_timeInfo, and_self]
  · exact ⟨rfl, rfl⟩
  · repeat' split
    all_goals first | exact ⟨rfl, rfl⟩ | simp
  · repeat' split
    all_goals first | exact ⟨rfl, rfl⟩ | simp
  · repeat' split
    all_goals first | exact ⟨rfl, rfl⟩ | simp

@[simp] theorem postponeNote_timeInfo (st : Plugin) (status channel data1 data2 : Nat) :
    (postponeNote st status channel data1 data2).fTimeInfo = st.fTimeInfo ∧
    (postponeNote st status channel data1 data2).fIsProcessing = st.fIsProcessing := by
  unfold postponeNote
  repeat' split
  all_goals simp

@[simp] theorem handleMidiEvent_timeInfo (eng : Engine) (sampleAccurate : Bool) (startTime : Nat)
    (event : EngineEvent) (midiEvent : EngineMidiEvent) (st : Plugin) :
    (handleMidiEvent eng sampleAccurate startTime event midiEvent st).fTimeInfo = st.fTimeInfo ∧
    (handleMidiEvent eng sampleAccurate startTime event midiEvent st).fIsProcessing = st.fIsProcessing := by
  unfold handleMidiEvent
  simp only
  repeat' split
  all_goals simp

@[simp] theorem withLockState_timeInfo (held : Bool) (st : Plugin) :
    (withLockState held st).fTimeInfo = st.fTimeInfo ∧
    (withLockState held st).fIsProcessing = st.fIsProcessing := by
  unfold withLockState
  exact ⟨rfl, rfl⟩

@[simp] theorem clearQueued_timeInfo (st : Plugin) :
    (clearQueued st).fTimeInfo = st.fTimeInfo ∧ (clearQueued st).fIsProcessing = st.fIsProcessing := by
  unfold clearQueued
  split <;> exact ⟨rfl, rfl⟩

@[simp] theorem processMidiOutput_timeInfo (eng : Engine) (st : Plugin) :
    (processMidiOutput eng st).fTimeInfo = st.fTimeInfo ∧
    (processMidiOutput eng st).fIsProcessing = st.fIsProcessing := by
  unfold processMidiOutput
  split <;> exact ⟨rfl, rfl⟩

@[simp] theorem prematureExit_timeInfo (st : Plugin) :
    (prematureExit st).fTimeInfo = st.fTimeInfo ∧ (prematureExit st).fIsProcessing = st.fIsProcessing := by
  unfold prematureExit
  exact ⟨rfl, rfl⟩

theorem handleEvent_timeInfo (fx : AEffect) (eng : Engine) (sampleAccurate : Bool)
    (event : EngineEvent) (s : EventLoop) :
    (handleEvent fx eng sampleAccurate event s).st.fTimeInfo = s.st.fTimeInfo ∧
    (handleEvent fx eng sampleAccurate event s).st.fIsProcessing = s.st.fIsProcessing := by
  unfold handleEvent
  split <;> simp

/-! ### The balance pair of a balance control change -/

theorem balancePair_range (c : Sample) (h0 : 0 ≤ c) (h1 : c ≤ 1) :
    -1 ≤ (balancePair c).1 ∧ (balancePair c).1 ≤ (balancePair c).2 ∧ (balancePair c).2 ≤ 1 ∧
    ((balancePair c).1 = -1 ∨ (balancePair c).2 = 1) := by
  unfold balancePair
  simp only
  split_ifs with ha hb
  · refine ⟨le_refl _, ?_, ?_, Or.inl rfl⟩ <;> simp only <;> linarith
  · refine ⟨?_, ?_, le_refl _, Or.inr rfl⟩ <;> simp only <;> linarith
  · exact ⟨le_refl _, by norm_num, le_refl _, Or.inl rfl⟩

theorem balancePair_points :
    balancePair (1 / 2) = (-1, 1) ∧ balancePair 0 = (-1, -1) ∧ balancePair 1 = (1, 1) := by
  refine ⟨?_, ?_, ?_⟩ <;> unfold balancePair <;> norm_num

/-- C30. A parameter control change on the control channel whose controller number is a
balance controller, on an adapter with the balance capability, makes the control-event handler
of `process` hand the pair `(left, right) = balancePair c` to `setBalanceLeft`,
`setBalanceRight` and the two postponed parameter-change records, and for every value `c` in
`[0, 1]` that pair satisfies `-1 ≤ left ≤ right ≤ 1` with `left = -1` or `right = 1`; `c = 1/2`
gives `(-1, 1)`, `c = 0` gives `(-1, -1)` and `c = 1` gives `(1, 1)`. -/
theorem process_balance_pair (st : Plugin) (event : EngineEvent) (ctrlEvent : EngineControlEvent)
    (hch : (event.channel : Int) = st.ctrlChannel)
    (hbal : MIDI_IS_CONTROL_BALANCE ctrlEvent.param = true)
    (hcan : st.fHints.canBalance = true)
    (h0 : 0 ≤ ctrlEvent.value) (h1 : ctrlEvent.value ≤ 1) :
    controlBackend st event ctrlEvent =
      postponeRtEvent
        (postponeRtEvent
          (setBalanceRight (setBalanceLeft st (balancePair ctrlEvent.value).1)
            (balancePair ctrlEvent.value).2)
          .parameterChange PARAMETER_BALANCE_LEFT 0 (balancePair ctrlEvent.value).1)
        .parameterChange PARAMETER_BALANCE_RIGHT 0 (balancePair ctrlEvent.value).2 ∧
    -1 ≤ (balancePair ctrlEvent.value).1 ∧
    (balancePair ctrlEvent.value).1 ≤ (balancePair ctrlEvent.value).2 ∧
    (balancePair ctrlEvent.value).2 ≤ 1 ∧
    ((balancePair ctrlEvent.value).1 = -1 ∨ (balancePair ctrlEvent.value).2 = 1) ∧
    (ctrlEvent.value = 1 / 2 → balancePair ctrlEvent.value = (-1, 1)) ∧
    (ctrlEvent.value = 0 → balancePair ctrlEvent.value = (-1, -1)) ∧
    (ctrlEvent.value = 1 → balancePair ctrlEvent.value = (1, 1)) := by
  obtain ⟨r1, r2, r3, r4⟩ := balancePair_range ctrlEvent.value h0 h1
  refine ⟨?_, r1, r2, r3, r4, ?_, ?_, ?_⟩
  · have hp : ctrlEvent.param = 0x08 ∨ ctrlEvent.param = 0x28 := by
      simpa [MIDI_IS_CONTROL_BALANCE] using hbal
    have hb : MIDI_IS_CONTROL_BREATH_CONTROLLER ctrlEvent.param = false := by
      rcases hp with h | h <;> simp [MIDI_IS_CONTROL_BREATH_CONTROLLER, h]
    have hv : MIDI_IS_CONTROL_CHANNEL_VOLUME ctrlEvent.param = false := by
      rcases hp with h | h <;> simp [MIDI_IS_CONTROL_CHANNEL_VOLUME, h]
    unfold controlBackend
    rw [if_pos hch]
    have e1 : backendDryWet st ctrlEvent = st := by
      unfold backendDryWet; simp [hb]
    have e2 : backendVolume st ctrlEvent = st := by
      unfold backendVolume; simp [hv]
    rw [e1, e2]
    unfold backendBalance
    rw [if_pos ⟨hbal, hcan⟩]
  · intro h; rw [h]; exact balancePair_points.1
  · intro h; rw [h]; exact balancePair_points.2.1
  · intro h; rw [h]; exact balancePair_points.2.2

/-- C30, witness of `process_balance_pair`: controller 8 with value 1/4 on channel 0 gives the
pair `(-1, 0)`. -/
theorem process_balance_pair_witness :
    (balancePair (1 / 4) = (-1, 0)) ∧
    (controlBackend balanceCtrlState { time := 0, channel := 0, body := .null }
        { type := .parameter, param := 8, value := 1 / 4 } =
      postponeRtEvent
        (postponeRtEvent
          (setBalanceRight (setBalanceLeft balanceCtrlState (balancePair (1 / 4)).1)
            (balancePair (1 / 4)).2)
          .parameterChange PARAMETER_BALANCE_LEFT 0 (balancePair (1 / 4)).1)
        .parameterChange PARAMETER_BALANCE_RIGHT 0 (balancePair (1 / 4)).2 ∧
    -1 ≤ (balancePair (1 / 4)).1 ∧
    (balancePair (1 / 4)).1 ≤ (balancePair (1 / 4)).2 ∧
    (balancePair (1 / 4)).2 ≤ 1 ∧
    ((balancePair (1 / 4)).1 = -1 ∨ (balancePair (1 / 4)).2 = 1) ∧
    ((1 / 4 : Sample) = 1 / 2 → balancePair (1 / 4) = (-1, 1)) ∧
    ((1 / 4 : Sample) = 0 → balancePair (1 / 4) = (-1, -1)) ∧
    ((1 / 4 : Sample) = 1 → balancePair (1 / 4) = (1, 1))) :=
  ⟨by unfold balancePair; norm_num,
    process_balance_pair balanceCtrlState { time := 0, channel := 0, body := .null }
      { type := .parameter, param := 8, value := 1 / 4 } rfl (by decide) rfl
      (by norm_num) (by norm_num)⟩

/-! ### Raw MIDI input events -/

/-- C25. A raw MIDI event of the input port with `time < frames` reaches the event switch
(after the split of the block, if one is due). There, with room in the event array: if the
message is a channel-aftertouch, control-change, polyphonic-aftertouch or pitch-bend message
whose send option is disabled, the adapter state (so the event array and its count) is
unchanged; otherwise the count grows by one, no other slot changes, and the new slot is a
MIDI-typed event with the second and third data bytes of the message and the first byte
`status + channel` (one byte), where a note-on with velocity 0 gets the note-off status. -/
theorem handleEvent_raw_midi (fx : AEffect) (eng : Engine) (blk : Block)
    (inBuffer : Option Buffers) (frames : Nat) (sa : Bool)
    (event : EngineEvent) (midiEvent : EngineMidiEvent) (s : EventLoop)
    (hbody : event.body = .midi midiEvent) (htime : event.time < frames) :
    eventStep fx eng blk inBuffer frames sa s event =
      handleEvent fx eng sa event
        (if event.time > s.timeOffset ∧ sa = true then splitBlock fx eng blk inBuffer event.time s
         else s) ∧
    ∀ s1 : EventLoop, s1.st.fMidiEventCount < eng.MAX_MIDI_EVENTS * 2 →
      (rawMidiFiltered s1.st.fOptions (MIDI_GET_STATUS_FROM_DATA midiEvent.data0) →
        handleEvent fx eng sa event s1 = s1) ∧
      (¬ rawMidiFiltered s1.st.fOptions (MIDI_GET_STATUS_FROM_DATA midiEvent.data0) →
        (handleEvent fx eng sa event s1).st.fMidiEventCount = s1.st.fMidiEventCount + 1 ∧
        (∀ j, j ≠ s1.st.fMidiEventCount →
          (handleEvent fx eng sa event s1).st.fMidiEvents j = s1.st.fMidiEvents j) ∧
        (handleEvent fx eng sa event s1).st.fMidiEvents s1.st.fMidiEventCount =
          { type := kVstMidiType, byteSize := sizeofVstMidiEvent,
            deltaFrames := deltaFramesOf sa s1.startTime event.time,
            midiData0 :=
              ((if MIDI_GET_STATUS_FROM_DATA midiEvent.data0 = MIDI_STATUS_NOTE_ON ∧
                    midiEvent.data2 = 0 then MIDI_STATUS_NOTE_OFF
                else MIDI_GET_STATUS_FROM_DATA midiEvent.data0) + event.channel) % 256,
            midiData1 := midiEvent.data1, midiData2 := midiEvent.data2 }) := by
  constructor
  · unfold eventStep
    rw [if_neg (by omega)]
  · intro s1 hroom
    have hnf : ¬ s1.st.fMidiEventCount ≥ eng.MAX_MIDI_EVENTS * 2 := by omega
    have hfix : ∀ st d2, fixBadNoteOff st d2 =
        if st = MIDI_STATUS_NOTE_ON ∧ d2 = 0 then MIDI_STATUS_NOTE_OFF else st := by
      intro st d2
      unfold fixBadNoteOff
      split
      · rename_i h; rw [h.1]; rfl
      · rfl
    have hpost : ∀ (t : Plugin) (a b c d : Nat),
        (postponeNote t a b c d).fMidiEventCount = t.fMidiEventCount ∧
        (postponeNote t a b c d).fMidiEvents = t.fMidiEvents := by
      intro t a b c d
      unfold postponeNote postponeRtEvent
      split
      · exact ⟨rfl, rfl⟩
      · split <;> exact ⟨rfl, rfl⟩
    constructor
    · intro hf
      have e : handleMidiEvent eng sa s1.startTime event midiEvent s1.st = s1.st := by
        unfold handleMidiEvent
        rw [if_neg hnf]
        simp only
        unfold rawMidiFiltered at hf
        rcases hf with h | h | h | h
        · rw [if_pos ⟨h.1, by simp [h.2]⟩]
        · split
          · rfl
          · rw [if_pos ⟨h.1, by simp [h.2]⟩]
        · split
          · rfl
          · split
            · rfl
            · rw [if_pos ⟨h.1, by simp [h.2]⟩]
        · split
          · rfl
          · split
            · rfl
            · split
              · rfl
              · rw [if_pos ⟨h.1, by simp [h.2]⟩]
      unfold handleEvent
      rw [hbody]
      simp only [e]
    · intro hf
      unfold rawMidiFiltered at hf
      simp only [not_or, not_and, Bool.not_eq_false] at hf
      obtain ⟨f1, f2, f3, f4⟩ := hf
      have e : handleMidiEvent eng sa s1.startTime event midiEvent s1.st =
          postponeNote (appendMidiEvent s1.st
            { type := kVstMidiType, byteSize := sizeofVstMidiEvent,
              deltaFrames := deltaFramesOf sa s1.startTime event.time,
              midiData0 := (fixBadNoteOff (MIDI_GET_STATUS_FROM_DATA midiEvent.data0)
                midiEvent.data2 + event.channel) % 256,
              midiData1 := midiEvent.data1, midiData2 := midiEvent.data2 })
            (fixBadNoteOff (MIDI_GET_STATUS_FROM_DATA midiEvent.data0) midiEvent.data2)
            event.channel midiEvent.data1 midiEvent.data2 := by
        unfold handleMidiEvent
        rw [if_neg hnf]
        simp only
        rw [if_neg (fun h => by simpa [f1 h.1] using h.2),
          if_neg (fun h => by simpa [f2 h.1] using h.2),
          if_neg (fun h => by simpa [f3 h.1] using h.2),
          if_neg (fun h => by simpa [f4 h.1] using h.2)]
      have hst : (handleEvent fx eng sa event s1).st =
          handleMidiEvent eng sa s1.startTime event midiEvent s1.st := by
        unfold handleEvent
        rw [hbody]
      rw [hst, e, (hpost _ _ _ _ _).1, (hpost _ _ _ _ _).2, hfix]
      refine ⟨rfl, ?_, ?_⟩
      · intro j hj
        unfold appendMidiEvent
        simp only [Function.update_noteq hj]
      · unfold appendMidiEvent
        simp only [Function.update_same]

/-- C25, witness of `handleEvent_raw_midi`: a note-on with velocity 0 on channel 3 is queued
into the empty array as a note-off on channel 3. -/
theorem handleEvent_raw_midi_witness :
    (zeroVelocityNoteOn.body = .midi { data0 := 0x90, data1 := 60, data2 := 0 } ∧
      zeroVelocityNoteOn.time < 64) ∧
    (handleEvent {} {} true zeroVelocityNoteOn
      { st := splitExampleState, out := none }).st.fMidiEvents 0 =
        { type := kVstMidiType, byteSize := sizeofVstMidiEvent, deltaFrames := 0,
          midiData0 := 0x83, midiData1 := 60, midiData2 := 0 } ∧
    (eventStep {} {} {} none 64 true { st := splitExampleState, out := none }
        zeroVelocityNoteOn =
      handleEvent {} {} true zeroVelocityNoteOn
        (if zeroVelocityNoteOn.time > ({ st := splitExampleState, out := none } :
            EventLoop).timeOffset ∧ true = true
          then splitBlock {} {} {} none zeroVelocityNoteOn.time
            { st := splitExampleState, out := none }
         else { st := splitExampleState, out := none })) :=
  ⟨⟨rfl, by decide⟩, by decide,
    (handleEvent_raw_midi {} {} {} none 64 true zeroVelocityNoteOn
      { data0 := 0x90, data1 := 60, data2 := 0 } { st := splitExampleState, out := none }
      rfl (by decide)).1⟩

/-! ### The reset burst -/

theorem resetAllSoundOff_slots (arr : Nat → VstMidiEvent) (n : Nat)
    (hn : n ≤ MAX_MIDI_CHANNELS) (j : Nat) :
    forRange n (fun k arr =>
      let arr := Function.update arr k
        { arr k with type := kVstMidiType, byteSize := sizeofVstMidiEvent,
                     midiData0 := MIDI_STATUS_CONTROL_CHANGE + k,
                     midiData1 := MIDI_CONTROL_ALL_NOTES_OFF }
      Function.update arr (k + MAX_MIDI_CHANNELS)
        { arr (k + MAX_MIDI_CHANNELS) with
            type := kVstMidiType, byteSize := sizeofVstMidiEvent,
            midiData0 := MIDI_STATUS_CONTROL_CHANGE + k,
            midiData1 := MIDI_CONTROL_ALL_SOUND_OFF }) arr j =
      if j < n then
        { arr j with type := kVstMidiType, byteSize := sizeofVstMidiEvent,
                     midiData0 := MIDI_STATUS_CONTROL_CHANGE + j,
                     midiData1 := MIDI_CONTROL_ALL_NOTES_OFF }
      else if MAX_MIDI_CHANNELS ≤ j ∧ j < MAX_MIDI_CHANNELS + n then
        { arr j with type := kVstMidiType, byteSize := sizeofVstMidiEvent,
                     midiData0 := MIDI_STATUS_CONTROL_CHANGE + (j - MAX_MIDI_CHANNELS),
                     midiData1 := MIDI_CONTROL_ALL_SOUND_OFF }
      else arr j := by
  have hM : MAX_MIDI_CHANNELS = 16 := rfl
  induction n generalizing j with
  | zero =>
    rw [forRange_zero, if_neg (by omega), if_neg (by omega)]
  | succ n ih =>
    rw [forRange_succ]
    have ih := fun j => ih (by omega) j
    simp only
    by_cases h1 : j = n + MAX_MIDI_CHANNELS
    · subst h1
      have a1 : ¬ n + MAX_MIDI_CHANNELS < n := by omega
      have a2 : ¬ (MAX_MIDI_CHANNELS ≤ n + MAX_MIDI_CHANNELS ∧
          n + MAX_MIDI_CHANNELS < MAX_MIDI_CHANNELS + n) := by omega
      have a3 : ¬ n + MAX_MIDI_CHANNELS < n + 1 := by omega
      have a4 : MAX_MIDI_CHANNELS ≤ n + MAX_MIDI_CHANNELS ∧
          n + MAX_MIDI_CHANNELS < MAX_MIDI_CHANNELS + (n + 1) := by omega
      rw [Function.update_same, Function.update_noteq (by omega), ih, if_neg a1, if_neg a2,
        if_neg a3, if_pos a4, Nat.add_sub_cancel]
    · rw [Function.update_noteq h1]
      by_cases h2 : j = n
      · subst h2
        have a1 : ¬ j < j := by omega
        have a2 : ¬ (MAX_MIDI_CHANNELS ≤ j ∧ j < MAX_MIDI_CHANNELS + j) := by omega
        have a3 : j < j + 1 := by omega
        rw [Function.update_same, ih, if_neg a1, if_neg a2, if_pos a3]
      · rw [Function.update_noteq h2, ih]
        by_cases h3 : j < n
        · have a3 : j < n + 1 := by omega
          rw [if_pos h3, if_pos a3]
        · have a3 : ¬ j < n + 1 := by omega
          rw [if_neg h3, if_neg a3]
          by_cases h4 : MAX_MIDI_CHANNELS ≤ j ∧ j < MAX_MIDI_CHANNELS + n
          · have a4 : MAX_MIDI_CHANNELS ≤ j ∧ j < MAX_MIDI_CHANNELS + (n + 1) := by omega
            rw [if_pos h4, if_pos a4]
          · have a4 : ¬ (MAX_MIDI_CHANNELS ≤ j ∧ j < MAX_MIDI_CHANNELS + (n + 1)) := by omega
            rw [if_neg h4, if_neg a4]

theorem resetNotesOff_slots (arr : Nat → VstMidiEvent) (c n : Nat) (j : Nat) :
    forRange n (fun k arr =>
      Function.update arr k
        { arr k with type := kVstMidiType, byteSize := sizeofVstMidiEvent,
                     midiData0 := MIDI_STATUS_NOTE_OFF + c,
                     midiData1 := k }) arr j =
      if j < n then
        { arr j with type := kVstMidiType, byteSize := sizeofVstMidiEvent,
                     midiData0 := MIDI_STATUS_NOTE_OFF + c, midiData1 := j }
      else arr j := by
  induction n generalizing j with
  | zero =>
    rw [forRange_zero, if_neg (by omega)]
  | succ n ih =>
    rw [forRange_succ]
    by_cases h2 : j = n
    · subst h2
      have a1 : ¬ j < j := by omega
      have a3 : j < j + 1 := by omega
      rw [Function.update_same, ih, if_neg a1, if_pos a3]
    · rw [Function.update_noteq h2, ih]
      by_cases h3 : j < n
      · have a3 : j < n + 1 := by omega
        rw [if_pos h3, if_pos a3]
      · have a3 : ¬ j < n + 1 := by omega
        rw [if_neg h3, if_neg a3]

theorem clearEventArray_slot (eng : Engine) (st : Plugin) (j : Nat)
    (hj : j < eng.MAX_MIDI_EVENTS * 2) :
    (clearEventArray eng st).fMidiEvents j = VstMidiEvent.zero := by
  unfold clearEventArray
  simp only [if_pos hj]

theorem setTimeInfo_queue (eng : Engine) (st : Plugin) :
    (setTimeInfo eng st).fMidiEvents = st.fMidiEvents ∧
    (setTimeInfo eng st).fMidiEventCount = st.fMidiEventCount ∧
    (setTimeInfo eng st).needsReset = st.needsReset := ⟨rfl, rfl, rfl⟩

theorem processReset_queue (st : Plugin) (hreset : st.needsReset = true) :
    (processReset st).fMidiEvents =
      (if st.fOptions.sendAllSoundOff then resetAllSoundOff st
       else if st.ctrlChannel ≥ 0 ∧ st.ctrlChannel < MAX_MIDI_CHANNELS then resetNotesOff st
       else st).fMidiEvents ∧
    (processReset st).fMidiEventCount =
      (if st.fOptions.sendAllSoundOff then resetAllSoundOff st
       else if st.ctrlChannel ≥ 0 ∧ st.ctrlChannel < MAX_MIDI_CHANNELS then resetNotesOff st
       else st).fMidiEventCount := by
  unfold processReset
  rw [if_pos hreset]
  simp only
  generalize (if st.fOptions.sendAllSoundOff = true then resetAllSoundOff st
       else if st.ctrlChannel ≥ 0 ∧ st.ctrlChannel < ↑MAX_MIDI_CHANNELS then resetNotesOff st
       else st) = s1
  unfold resetLatencyBuffers
  split <;> exact ⟨rfl, rfl⟩

/-- C23. When `process` runs on an active adapter with the reset flag set, the event section
of the block starts (`blockStart`) with this queue: with the send-all-sound-off option,
`2 * MAX_MIDI_CHANNELS` events, slot `k` a control change "all notes off" on channel `k` and
slot `MAX_MIDI_CHANNELS + k` a control change "all sound off" on channel `k`; otherwise, with
the control channel in `[0, MAX_MIDI_CHANNELS)`, `MAX_MIDI_NOTE = 128` events, slot `n` a
note-off for note `n` on the control channel; otherwise no event. All other fields of the
slots are zero. The reset flag is clear from there on, also in the state `process` returns.
The capacity `MAX_MIDI_EVENTS * 2` of the event array is at least 128. -/
theorem process_reset_burst (fx : AEffect) (eng : Engine) (blk : Block) (st : Plugin)
    (inBuffer outBuffer : Option Buffers) (frames : Nat)
    (hactive : st.active = true) (hreset : st.needsReset = true)
    (hcap : MAX_MIDI_NOTE ≤ eng.MAX_MIDI_EVENTS * 2) :
    (st.fOptions.sendAllSoundOff = true →
      (blockStart eng st).fMidiEventCount = 2 * MAX_MIDI_CHANNELS ∧
      ∀ k, k < MAX_MIDI_CHANNELS →
        (blockStart eng st).fMidiEvents k =
          { type := kVstMidiType, byteSize := sizeofVstMidiEvent, deltaFrames := 0,
            midiData0 := MIDI_STATUS_CONTROL_CHANGE + k,
            midiData1 := MIDI_CONTROL_ALL_NOTES_OFF, midiData2 := 0 } ∧
        (blockStart eng st).fMidiEvents (MAX_MIDI_CHANNELS + k) =
          { type := kVstMidiType, byteSize := sizeofVstMidiEvent, deltaFrames := 0,
            midiData0 := MIDI_STATUS_CONTROL_CHANGE + k,
            midiData1 := MIDI_CONTROL_ALL_SOUND_OFF, midiData2 := 0 }) ∧
    (st.fOptions.sendAllSoundOff = false →
      (0 ≤ st.ctrlChannel ∧ st.ctrlChannel < MAX_MIDI_CHANNELS) →
      (blockStart eng st).fMidiEventCount = MAX_MIDI_NOTE ∧
      ∀ n, n < MAX_MIDI_NOTE →
        (blockStart eng st).fMidiEvents n =
          { type := kVstMidiType, byteSize := sizeofVstMidiEvent, deltaFrames := 0,
            midiData0 := MIDI_STATUS_NOTE_OFF + st.ctrlChannel.toNat,
            midiData1 := n, midiData2 := 0 }) ∧
    (st.fOptions.sendAllSoundOff = false →
      ¬ (0 ≤ st.ctrlChannel ∧ st.ctrlChannel < MAX_MIDI_CHANNELS) →
      (blockStart eng st).fMidiEventCount = 0) ∧
    (blockStart eng st).needsReset = false ∧
    (process fx eng blk st inBuffer outBuffer frames).1.needsReset = false := by
  have hM : MAX_MIDI_CHANNELS = 16 := rfl
  have hN : MAX_MIDI_NOTE = 128 := rfl
  have hr : (clearEventArray eng st).needsReset = true := hreset
  obtain ⟨qa, qc⟩ := processReset_queue (clearEventArray eng st) hr
  have ea : (blockStart eng st).fMidiEvents = (processReset (clearEventArray eng st)).fMidiEvents :=
    rfl
  have ec : (blockStart eng st).fMidiEventCount =
      (processReset (clearEventArray eng st)).fMidiEventCount := rfl
  have eo : (clearEventArray eng st).fOptions = st.fOptions := rfl
  have ech : (clearEventArray eng st).ctrlChannel = st.ctrlChannel := rfl
  rw [ea, ec, qa, qc]
  refine ⟨?_, ?_, ?_, (processReset_midiOut _).2,
    process_needsReset fx eng blk st inBuffer outBuffer frames hactive⟩
  · intro hs
    have hsc : (clearEventArray eng st).fOptions.sendAllSoundOff = true := hs
    simp only [if_pos hsc]
    refine ⟨by rw [Nat.mul_comm]; rfl, fun k hk => ?_⟩
    have e : ∀ j, (resetAllSoundOff (clearEventArray eng st)).fMidiEvents j = _ :=
      fun j => resetAllSoundOff_slots (clearEventArray eng st).fMidiEvents MAX_MIDI_CHANNELS
        (le_refl _) j
    constructor
    · rw [e, if_pos hk, clearEventArray_slot eng st k (by omega)]
      rfl
    · rw [e, if_neg (by omega), if_pos ⟨by omega, by omega⟩,
        clearEventArray_slot eng st _ (by omega), Nat.add_sub_cancel_left]
      rfl
  · intro hs hc
    have hs' : ¬ st.fOptions.sendAllSoundOff = true := by simp [hs]
    have hsc : ¬ (clearEventArray eng st).fOptions.sendAllSoundOff = true := hs'
    have hcc : (clearEventArray eng st).ctrlChannel ≥ 0 ∧
        (clearEventArray eng st).ctrlChannel < MAX_MIDI_CHANNELS := hc
    simp only [if_neg hsc, if_pos hcc]
    refine ⟨rfl, fun n hn => ?_⟩
    have e : ∀ j, (resetNotesOff (clearEventArray eng st)).fMidiEvents j = _ :=
      fun j => resetNotesOff_slots (clearEventArray eng st).fMidiEvents
        (clearEventArray eng st).ctrlChannel.toNat MAX_MIDI_NOTE j
    rw [e, if_pos hn, clearEventArray_slot eng st n (by omega)]
    rfl
  · intro hs hc
    have hs' : ¬ st.fOptions.sendAllSoundOff = true := by simp [hs]
    have hsc : ¬ (clearEventArray eng st).fOptions.sendAllSoundOff = true := hs'
    have hcc : ¬ ((clearEventArray eng st).ctrlChannel ≥ 0 ∧
        (clearEventArray eng st).ctrlChannel < MAX_MIDI_CHANNELS) := hc
    simp only [if_neg hsc, if_neg hcc]
    rfl

/-- C23, witness of `process_reset_burst`: the reset example with the default capacity. -/
theorem process_reset_burst_witness :
    (resetExampleState.active = true ∧ resetExampleState.needsReset = true ∧
      MAX_MIDI_NOTE ≤ ({} : Engine).MAX_MIDI_EVENTS * 2) ∧
    ((blockStart {} resetExampleState).fMidiEvents 3 =
        { type := 1, byteSize := 32, deltaFrames := 0, midiData0 := 0xB3, midiData1 := 0x7B,
          midiData2 := 0 } ∧
      (blockStart {} resetExampleState).fMidiEvents 19 =
        { type := 1, byteSize := 32, deltaFrames := 0, midiData0 := 0xB3, midiData1 := 0x78,
          midiData2 := 0 }) ∧
    (process {} {} {} resetExampleState none none 16).1.needsReset = false :=
  ⟨⟨rfl, rfl, by decide⟩,
    ((process_reset_burst {} {} {} resetExampleState none none 16 rfl rfl (by decide)).1 rfl).2
      3 (by decide),
    (process_reset_burst {} {} {} resetExampleState none none 16 rfl rfl
      (by decide)).2.2.2.2⟩

/-! ### Port counts and capability hints -/

@[simp] theorem dispatcher_ports (fx : AEffect) (st : Plugin) (opcode : EffOpcode)
    (index value : Int) (ptr : Payload) (opt : Sample) :
    (dispatcher fx st opcode index value ptr opt).1.audioInCount = st.audioInCount ∧
    (dispatcher fx st opcode index value ptr opt).1.audioOutCount = st.audioOutCount := by
  unfold dispatcher
  split <;> exact ⟨rfl, rfl⟩

@[simp] theorem baseSetProgram_ports (st : Plugin) (index : Int)
    (sendGui sendOsc sendCallback : Bool) :
    (baseSetProgram st index sendGui sendOsc sendCallback).audioInCount = st.audioInCount ∧
    (baseSetProgram st index sendGui sendOsc sendCallback).audioOutCount = st.audioOutCount := by
  unfold baseSetProgram
  exact ⟨rfl, rfl⟩

@[simp] theorem setProgram_ports (fx : AEffect) (st : Plugin) (index : Int)
    (sendGui sendOsc sendCallback : Bool) :
    (setProgram fx st index sendGui sendOsc sendCallback).audioInCount = st.audioInCount ∧
    (setProgram fx st index sendGui sendOsc sendCallback).audioOutCount = st.audioOutCount := by
  unfold setProgram
  simp only
  repeat' split
  all_goals simp

@[simp] theorem activate_ports (fx : AEffect) (st : Plugin) :
    (activate fx st).audioInCount = st.audioInCount ∧ (activate fx st).audioOutCount = st.audioOutCount := by
  unfold activate
  simp

@[simp] theorem deactivate_ports (fx : AEffect) (st : Plugin) :
    (deactivate fx st).audioInCount = st.audioInCount ∧ (deactivate fx st).audioOutCount = st.audioOutCount := by
  unfold deactivate
  simp

@[simp] theorem bufferSizeChanged_ports (fx : AEffect) (eng : Engine) (st : Plugin)
    (newBufferSize : Nat) :
    (bufferSizeChanged fx eng st newBufferSize).audioInCount = st.audioInCount ∧
    (bufferSizeChanged fx eng st newBufferSize).audioOutCount = st.audioOutCount := by
  unfold bufferSizeChanged
  simp only
  repeat' split
  all_goals simp

@[simp] theorem updateProgramNames_ports (fx : AEffect) (is : List Nat) (st : Plugin) :
    (updateProgramNames fx is st).audioInCount = st.audioInCount ∧
    (updateProgramNames fx is st).audioOutCount = st.audioOutCount := by
  induction is generalizing st with
  | nil => exact ⟨rfl, rfl⟩
  | cons i is ih =>
    simp only [updateProgramNames]
    split <;> simp [ih]

@[simp] theorem queryPrograms_ports (fx : AEffect) (st : Plugin) :
    (queryPrograms fx st).audioInCount = st.audioInCount ∧
    (queryPrograms fx st).audioOutCount = st.audioOutCount := by
  unfold queryPrograms
  simp only
  split <;> simp

@[simp] theorem reloadPrograms_ports (fx : AEffect) (st : Plugin) (init : Bool) :
    (reloadPrograms fx st init).audioInCount = st.audioInCount ∧
    (reloadPrograms fx st init).audioOutCount = st.audioOutCount := by
  unfold reloadPrograms
  simp only
  repeat' split
  all_goals simp

@[simp] theorem recreateLatencyBuffers_ports (st : Plugin) :
    (recreateLatencyBuffers st).audioInCount = st.audioInCount ∧
    (recreateLatencyBuffers st).audioOutCount = st.audioOutCount := by
  unfold recreateLatencyBuffers
  exact ⟨rfl, rfl⟩

@[simp] theorem scanParameter_ports (fx : AEffect) (st : Plugin) (j : Nat) :
    (scanParameter fx st j).1.audioInCount = st.audioInCount ∧
    (scanParameter fx st j).1.audioOutCount = st.audioOutCount := by
  unfold scanParameter
  simp only
  repeat' split
  all_goals simp

@[simp] theorem reloadParameter_ports (fx : AEffect) (st : Plugin) (j : Nat) :
    (reloadParameter fx st j).audioInCount = st.audioInCount ∧
    (reloadParameter fx st j).audioOutCount = st.audioOutCount := by
  unfold reloadParameter
  simp only
  split <;> simp

@[simp] theorem reloadParameters_ports (fx : AEffect) (js : List Nat) (st : Plugin) :
    (reloadParameters fx js st).audioInCount = st.audioInCount ∧
    (reloadParameters fx js st).audioOutCount = st.audioOutCount := by
  induction js generalizing st with
  | nil => exact ⟨rfl, rfl⟩
  | cons j js ih =>
    rw [reloadParameters]
    simp [ih]

@[simp] theorem reloadHints_ports (fx : AEffect) (st : Plugin) (aIns aOuts : Nat) :
    (reloadHints fx st aIns aOuts).audioInCount = st.audioInCount ∧
    (reloadHints fx st aIns aOuts).audioOutCount = st.audioOutCount := by
  unfold reloadHints
  simp

@[simp] theorem createParams_ports (params : Nat) (st : Plugin) :
    (createParams params st).audioInCount = st.audioInCount ∧
    (createParams params st).audioOutCount = st.audioOutCount := by
  unfold createParams
  split <;> exact ⟨rfl, rfl⟩

@[simp] theorem createEventPorts_ports (needsCtrlIn needsCtrlOut : Bool) (st : Plugin) :
    (createEventPorts needsCtrlIn needsCtrlOut st).audioInCount = st.audioInCount ∧
    (createEventPorts needsCtrlIn needsCtrlOut st).audioOutCount = st.audioOutCount := by
  unfold createEventPorts
  repeat' split
  all_goals simp

@[simp] theorem reloadExtraHints_ports (mIns mOuts aIns aOuts : Nat) (st : Plugin) :
    (reloadExtraHints mIns mOuts aIns aOuts st).audioInCount = st.audioInCount ∧
    (reloadExtraHints mIns mOuts aIns aOuts st).audioOutCount = st.audioOutCount := by
  unfold reloadExtraHints
  exact ⟨rfl, rfl⟩

@[simp] theorem reloadLatency_ports (fx : AEffect) (st : Plugin) :
    (reloadLatency fx st).audioInCount = st.audioInCount ∧
    (reloadLatency fx st).audioOutCount = st.audioOutCount := by
  unfold reloadLatency
  split <;> exact ⟨rfl, rfl⟩

@[simp] theorem reloadSpecialFixes_ports (fx : AEffect) (st : Plugin) :
    (reloadSpecialFixes fx st).audioInCount = st.audioInCount ∧
    (reloadSpecialFixes fx st).audioOutCount = st.audioOutCount := by
  unfold reloadSpecialFixes
  split <;> simp

@[simp] theorem reloadEnd_ports (fx : AEffect) (st : Plugin) :
    (reloadEnd fx st).audioInCount = st.audioInCount ∧ (reloadEnd fx st).audioOutCount = st.audioOutCount := by
  unfold reloadEnd
  split <;> simp

theorem createAudioIn_ports (n : Nat) (st : Plugin) (h0 : st.audioInCount = 0) :
    (createAudioIn n st).audioInCount = n ∧
    (createAudioIn n st).audioOutCount = st.audioOutCount := by
  unfold createAudioIn
  split
  · exact ⟨rfl, rfl⟩
  · exact ⟨by omega, rfl⟩

theorem createAudioOut_ports (n : Nat) (st : Plugin) (h0 : st.audioOutCount = 0) :
    (createAudioOut n st).audioInCount = st.audioInCount ∧
    (createAudioOut n st).audioOutCount = n := by
  unfold createAudioOut
  split
  · exact ⟨rfl, rfl⟩
  · exact ⟨rfl, by omega⟩

theorem reloadBegin_ports (fx : AEffect) (st : Plugin) :
    (reloadBegin fx st).audioInCount = 0 ∧ (reloadBegin fx st).audioOutCount = 0 := by
  unfold reloadBegin clearBuffers
  exact ⟨rfl, rfl⟩

/-- The audio port counts at the end of `reload` are the counts the module reports. -/
theorem reload_ports (fx : AEffect) (eng : Engine) (st : Plugin) (h : st.hasEffect = true) :
    (reload fx eng st).audioInCount = wrapU32 fx.numInputs ∧
    (reload fx eng st).audioOutCount = wrapU32 fx.numOutputs := by
  have b := reloadBegin_ports fx st
  have a1 := createAudioIn_ports (wrapU32 fx.numInputs) (reloadBegin fx st) b.1
  have a2 := createAudioOut_ports (wrapU32 fx.numOutputs)
    (createAudioIn (wrapU32 fx.numInputs) (reloadBegin fx st)) (a1.2.trans b.2)
  unfold reload
  simp only [h, not_true_eq_false, if_false, reloadEnd_ports, reloadPrograms_ports,
    bufferSizeChanged_ports, reloadSpecialFixes_ports, reloadLatency_ports, deactivate_ports,
    activate_ports, reloadExtraHints_ports, reloadHints_ports, createEventPorts_ports,
    reloadParameters_ports, createParams_ports]
  exact ⟨a2.1.trans a1.1, a2.2⟩

/-- C28. `reload` derives the capability hints and the audio port counts from the same
reported counts, so in every adapter state with the fixed configuration that `reload` leaves
(the blocks processed afterwards keep it, and so does the state in which the post-processing
of a `processSingle` runs): if the dry/wet capability is set, the input channel read for
output channel `i` (channel 0 when there is exactly one audio input, channel `i` otherwise) is
below the audio input count for every `i` below the audio output count; and if the balance
capability is set, every even output channel `i` has its partner `i + 1` below the audio
output count. -/
theorem reload_post_indices (fx : AEffect) (eng : Engine) (st : Plugin)
    (hE : st.hasEffect = true) :
    (∀ s : Plugin, s.fixed = (reload fx eng st).fixed →
      (s.fHints.canDryWet = true →
        ∀ i, i < s.audioOutCount → dryWetInputChannel s i < s.audioInCount) ∧
      (s.fHints.canBalance = true →
        ∀ i, i < s.audioOutCount → i % 2 = 0 → i + 1 < s.audioOutCount)) ∧
    (∀ (s : Plugin) (inBuffer outBuffer : Buffers) (frames timeOffset : Nat),
      s.hasEffect = true →
      (postState fx eng s inBuffer outBuffer frames timeOffset).fixed = s.fixed) := by
  refine ⟨fun s hs => ?_, fun s inB outB frames off h =>
    (postState_spec fx eng s inB outB frames off h).1⟩
  obtain ⟨s0, hs0⟩ := reload_fHints fx eng st hE
  obtain ⟨pi, po⟩ := reload_ports fx eng st hE
  obtain ⟨cd, _, cb⟩ := reloadHints_caps fx s0 (wrapU32 fx.numInputs) (wrapU32 fx.numOutputs)
  rw [← hs0] at cd cb
  have e1 : s.fHints.canDryWet = (reload fx eng st).fHints.canDryWet :=
    congrArg Fixed.canDryWet hs
  have e2 : s.fHints.canBalance = (reload fx eng st).fHints.canBalance :=
    congrArg Fixed.canBalance hs
  have e3 : s.audioInCount = (reload fx eng st).audioInCount := congrArg Fixed.audioInCount hs
  have e4 : s.audioOutCount = (reload fx eng st).audioOutCount :=
    congrArg Fixed.audioOutCount hs
  constructor
  · intro hd i hi
    rw [e1] at hd
    obtain ⟨h1, h2⟩ := cd.1 hd
    unfold dryWetInputChannel
    rw [e3, pi]
    rw [e4, po] at hi
    split
    · omega
    · rcases h2 with h2 | h2
      · omega
      · rename_i hne; exact absurd h2 hne
  · intro hb i hi hev
    rw [e2] at hb
    obtain ⟨h1, h2⟩ := cb.1 hb
    rw [e4, po] at hi ⊢
    omega

/-- C28, witness of `reload_post_indices`: the mono-in, stereo-out module after `reload`. -/
theorem reload_post_indices_witness :
    ({} : Plugin).hasEffect = true ∧
    ((reload hintsExampleFx {} {}).fHints.canDryWet = true →
      ∀ i, i < (reload hintsExampleFx {} {}).audioOutCount →
        dryWetInputChannel (reload hintsExampleFx {} {}) i
          < (reload hintsExampleFx {} {}).audioInCount) ∧
    ((reload hintsExampleFx {} {}).fHints.canBalance = true →
      ∀ i, i < (reload hintsExampleFx {} {}).audioOutCount → i % 2 = 0 →
        i + 1 < (reload hintsExampleFx {} {}).audioOutCount) :=
  ⟨rfl, (reload_post_indices hintsExampleFx {} {} rfl).1 _ rfl⟩

/-! ### The block, whatever the lock does -/

theorem eventLoop_nil (fx : AEffect) (eng : Engine) (blk : Block) (inBuffer : Option Buffers)
    (frames : Nat) (sa : Bool) (s : EventLoop) :
    eventLoop fx eng blk inBuffer frames sa [] s = s := rfl

theorem eventLoop_cons (fx : AEffect) (eng : Engine) (blk : Block) (inBuffer : Option Buffers)
    (frames : Nat) (sa : Bool) (e : EngineEvent) (es : List EngineEvent) (s : EventLoop) :
    eventLoop fx eng blk inBuffer frames sa (e :: es) s =
      eventLoop fx eng blk inBuffer frames sa es
        (eventStep fx eng blk inBuffer frames sa s e) := rfl

theorem eventLoop_append (fx : AEffect) (eng : Engine) (blk : Block)
    (inBuffer : Option Buffers) (frames : Nat) (sa : Bool) (es1 es2 : List EngineEvent)
    (s : EventLoop) :
    eventLoop fx eng blk inBuffer frames sa (es1 ++ es2) s =
      eventLoop fx eng blk inBuffer frames sa es2
        (eventLoop fx eng blk inBuffer frames sa es1 s) := by
  unfold eventLoop
  rw [List.foldl_append]

/-- Induction over the event loop: a property of loop states kept by the split (taken only
for a time above the split offset and below `frames`) and by the event switch holds after
the loop. -/
theorem eventLoop_induction (fx : AEffect) (eng : Engine) (blk : Block)
    (inBuffer : Option Buffers) (frames : Nat) (sa : Bool) (P : EventLoop → Prop)
    (hsplit : ∀ s time, P s → time > s.timeOffset → time < frames →
      P (splitBlock fx eng blk inBuffer time s))
    (hhandle : ∀ s e, P s → P (handleEvent fx eng sa e s))
    (es : List EngineEvent) (s : EventLoop) (h : P s) :
    P (eventLoop fx eng blk inBuffer frames sa es s) := by
  induction es generalizing s with
  | nil => exact h
  | cons e es ih =>
    rw [eventLoop_cons]
    apply ih
    unfold eventStep
    by_cases h1 : e.time ≥ frames
    · rw [if_pos h1]; exact h
    · rw [if_neg h1]
      simp only
      by_cases h2 : e.time > s.timeOffset ∧ sa = true
      · rw [if_pos h2]
        exact hhandle _ _ (hsplit s e.time h h2.1 (by omega))
      · rw [if_neg h2]
        exact hhandle _ _ h

/-- What `processSingle` does to the adapter state: nothing when it returns false; when it
returns true it got past its guards, took the lock, handed over the queued events, ran the
module and released the lock. -/
theorem processSingle_state (fx : AEffect) (eng : Engine) (st : Plugin)
    (inBuffer outBuffer : Option Buffers) (frames off : Nat) :
    ((processSingle fx eng st inBuffer outBuffer frames off).2.2 = false ∧
      (processSingle fx eng st inBuffer outBuffer frames off).1 = st) ∨
    ((processSingle fx eng st inBuffer outBuffer frames off).2.2 = true ∧
      frames ≠ 0 ∧ CanProcess eng st inBuffer outBuffer ∧
      (processSingle fx eng st inBuffer outBuffer frames off).1 =
        unlockSingle (runPlugin fx eng (sendQueuedEvents fx (lockSingle st))
          (inBuffer.getD fun _ _ => 0) (outBuffer.getD fun _ _ => 0) frames off).1) := by
  unfold processSingle
  by_cases hf : frames = 0
  · rw [if_pos hf]; exact Or.inl ⟨rfl, rfl⟩
  · rw [if_neg hf]
    by_cases g1 : st.audioInCount > 0 ∧ inBuffer.isNone = true
    · rw [if_pos g1]; exact Or.inl ⟨rfl, rfl⟩
    · rw [if_neg g1]
      by_cases g2 : st.audioOutCount > 0 ∧ outBuffer.isNone = true
      · rw [if_pos g2]; exact Or.inl ⟨rfl, rfl⟩
      · rw [if_neg g2]
        by_cases g3 : ¬ eng.isOffline = true ∧ st.singleMutexLocked = true
        · rw [if_pos g3]; exact Or.inl ⟨rfl, rfl⟩
        · rw [if_neg g3]
          refine Or.inr ⟨rfl, hf, ⟨?_, ?_, ?_⟩, rfl⟩
          · intro h
            cases hb : inBuffer with
            | none => exact absurd ⟨h, by rw [hb]; rfl⟩ g1
            | some b => rfl
          · intro h
            cases hb : outBuffer with
            | none => exact absurd ⟨h, by rw [hb]; rfl⟩ g2
            | some b => rfl
          · by_cases ho : eng.isOffline = true
            · exact Or.inl ho
            · right
              by_contra hl
              exact g3 ⟨ho, by simpa using hl⟩

/-- The output buffers after `processSingle`: as they were when a guard fails, silenced over
the window when the lock is held, the post-processed plugin output when it succeeds. -/
theorem processSingle_buffers (fx : AEffect) (eng : Engine) (st : Plugin)
    (inBuffer outBuffer : Option Buffers) (frames off : Nat) :
    (processSingle fx eng st inBuffer outBuffer frames off).2.1.isSome = outBuffer.isSome := by
  unfold processSingle
  repeat' split
  all_goals first | rfl | (cases outBuffer <;> rfl)

theorem sendQueuedEvents_fixed (fx : AEffect) (st : Plugin) :
    (sendQueuedEvents fx st).fixed = st.fixed := by
  unfold sendQueuedEvents
  split
  · exact dispatcher_fixed ..
  · rfl

/-- No `processSingle` changes the fixed configuration. -/
theorem processSingle_fixed (fx : AEffect) (eng : Engine) (st : Plugin)
    (inBuffer outBuffer : Option Buffers) (frames off : Nat) :
    (processSingle fx eng st inBuffer outBuffer frames off).1.fixed = st.fixed := by
  rcases processSingle_state fx eng st inBuffer outBuffer frames off with h | h
  · rw [h.2]
  · rw [h.2.2.2]
    exact (runPlugin_spec fx eng (sendQueuedEvents fx (lockSingle st))
      (inBuffer.getD fun _ _ => 0) (outBuffer.getD fun _ _ => 0) frames off).1.trans
      (sendQueuedEvents_fixed fx (lockSingle st))

theorem splitBlock_fixed (fx : AEffect) (eng : Engine) (blk : Block)
    (inBuffer : Option Buffers) (time : Nat) (s : EventLoop) :
    (splitBlock fx eng blk inBuffer time s).st.fixed = s.st.fixed ∧
    (splitBlock fx eng blk inBuffer time s).out.isSome = s.out.isSome := by
  have h1 := processSingle_fixed fx eng (withLockState (blk.singleMutexHeld s.attempts) s.st)
    inBuffer s.out (time - s.timeOffset) s.timeOffset
  have h2 := processSingle_buffers fx eng (withLockState (blk.singleMutexHeld s.attempts) s.st)
    inBuffer s.out (time - s.timeOffset) s.timeOffset
  unfold splitBlock
  simp only
  split
  · exact ⟨(clearQueued_spec _).1.trans h1, h2⟩
  · exact ⟨h1, h2⟩

/-- The event loop keeps the fixed configuration and the presence of output buffers. -/
theorem eventLoop_fixed (fx : AEffect) (eng : Engine) (blk : Block)
    (inBuffer : Option Buffers) (frames : Nat) (sa : Bool) (es : List EngineEvent)
    (s : EventLoop) :
    (eventLoop fx eng blk inBuffer frames sa es s).st.fixed = s.st.fixed ∧
    (eventLoop fx eng blk inBuffer frames sa es s).out.isSome = s.out.isSome := by
  refine eventLoop_induction fx eng blk inBuffer frames sa
    (fun t => t.st.fixed = s.st.fixed ∧ t.out.isSome = s.out.isSome) ?_ ?_ es s ⟨rfl, rfl⟩
  · intro t time ht _ _
    obtain ⟨a, b⟩ := splitBlock_fixed fx eng blk inBuffer time t
    exact ⟨a.trans ht.1, b.trans ht.2⟩
  · intro t e ht
    obtain ⟨e1, _, _, _, hfr⟩ := handleEvent_spec fx eng sa e t
    exact ⟨hfr.1.trans ht.1, (congrArg Option.isSome e1).trans ht.2⟩

theorem processWithEvents_fixed (fx : AEffect) (eng : Engine) (blk : Block) (st : Plugin)
    (inBuffer outBuffer : Option Buffers) (frames : Nat) :
    (processWithEvents fx eng blk st inBuffer outBuffer frames).1.fixed = st.fixed := by
  have h := (eventLoop_fixed fx eng blk inBuffer frames
    (!(processExtNotes eng blk st).fOptions.fixedBuffer) blk.events
    { st := processExtNotes eng blk st, out := outBuffer }).1
  have h0 := (processExtNotes_spec eng blk st).1
  unfold processWithEvents
  simp only
  split
  · exact (processSingle_fixed ..).trans (h.trans h0)
  · exact h.trans h0

theorem blockBody_fixed (fx : AEffect) (eng : Engine) (blk : Block) (st : Plugin)
    (inBuffer outBuffer : Option Buffers) (frames : Nat) :
    (blockBody fx eng blk st inBuffer outBuffer frames).1.fixed = st.fixed := by
  unfold blockBody
  split
  · exact (processWithEvents_fixed ..).trans (blockStart_spec eng st).1
  · exact (processSingle_fixed ..).trans (blockStart_spec eng st).1

/-- An active, enabled block is its processing section followed by the MIDI output
section. -/
theorem process_eq_body (fx : AEffect) (eng : Engine) (blk : Block) (st : Plugin)
    (inBuffer outBuffer : Option Buffers) (frames : Nat)
    (hactive : st.active = true) (henabled : st.fEnabled = true) :
    process fx eng blk st inBuffer outBuffer frames =
      (processMidiOutput eng (blockBody fx eng blk st inBuffer outBuffer frames).1,
        (blockBody fx eng blk st inBuffer outBuffer frames).2) := by
  have h1 := processReset_spec (clearEventArray eng st)
  have e1 : (processReset (clearEventArray eng st)).fEnabled = true :=
    (congrArg Fixed.fEnabled h1.1).trans henabled
  have e2 : (setTimeInfo eng (processReset (clearEventArray eng st))).fEnabled = true := e1
  have e3 : (blockBody fx eng blk st inBuffer outBuffer frames).1.fEnabled = true :=
    (congrArg Fixed.fEnabled (blockBody_fixed fx eng blk st inBuffer outBuffer frames)).trans
      henabled
  unfold process
  simp only [hactive, not_true_eq_false, if_false]
  rw [if_neg (by rw [e1]; simp)]
  rw [if_neg (by rw [e2]; simp)]
  unfold blockBody blockStart at e3
  unfold blockBody blockStart
  rw [if_neg (by rw [e3]; simp)]

/-- No block changes the fixed configuration, whatever the lock does. -/
theorem process_fixed (fx : AEffect) (eng : Engine) (blk : Block) (st : Plugin)
    (inBuffer outBuffer : Option Buffers) (frames : Nat) :
    (process fx eng blk st inBuffer outBuffer frames).1.fixed = st.fixed := by
  have h1 := (processReset_spec (clearEventArray eng st)).1
  have h2 := (blockStart_spec eng st).1
  have hb := blockBody_fixed fx eng blk st inBuffer outBuffer frames
  have hm : ∀ s : Plugin, (processMidiOutput eng s).fixed = s.fixed := by
    intro s; unfold processMidiOutput; split <;> rfl
  have tail : ∀ r : Plugin × Option Buffers,
      (if ¬ r.1.fEnabled then (prematureExit r.1, r.2)
        else (processMidiOutput eng r.1, r.2)).1.fixed = r.1.fixed := by
    intro r
    split
    · rfl
    · exact hm _
  unfold process
  split
  · rfl
  · simp only
    split
    · exact h1
    · split
      · exact h2
      · unfold blockBody blockStart at hb
        exact (tail _).trans hb

/-! ### The event array during a block -/

theorem StoreFrame.srefl (cap : Nat) (a : Plugin) : StoreFrame cap a a := ⟨rfl, fun _ _ => rfl⟩

theorem StoreFrame.strans {cap : Nat} {a b c : Plugin} (h1 : StoreFrame cap a b)
    (h2 : StoreFrame cap b c) : StoreFrame cap a c :=
  ⟨h2.1.trans h1.1, fun j hj => (h2.2 j (by rw [h1.1]; exact hj)).trans (h1.2 j hj)⟩

theorem StoreFrame.of_same_store {cap : Nat} {a b : Plugin}
    (h : b.fMidiEvents = a.fMidiEvents ∧ b.fMidiEventCount = a.fMidiEventCount) :
    StoreFrame cap a b :=
  ⟨h.2, fun j _ => congrFun h.1 j⟩

theorem storeOutEvents_storeFrame (cap : Nat) (evs : List (Option VstMidiEvent))
    (st : Plugin) : StoreFrame cap st (storeOutEvents cap evs st) := by
  induction evs generalizing st with
  | nil => exact StoreFrame.srefl cap st
  | cons e rest ih =>
    cases e with
    | none => exact StoreFrame.srefl cap st
    | some ev =>
      rw [storeOutEvents]
      by_cases ht : ev.type ≠ kVstMidiType
      · rw [if_pos ht]; exact ih st
      · rw [if_neg ht]
        cases hscan : reverseFindFree st.fMidiEvents st.fMidiEventCount cap (lastSlot cap) with
        | found j =>
          simp only
          obtain ⟨hge, hlt, _, _⟩ := reverseFindFree_found _ _ _ _ _ hscan
          refine StoreFrame.strans ?_ (ih _)
          refine ⟨rfl, fun k hk => ?_⟩
          simp only
          rw [Function.update_noteq (by omega)]
        | notFound => exact ih st
        | outOfBounds => exact ⟨rfl, fun _ _ => rfl⟩

theorem masterProcessEvents_storeFrame (eng : Engine) (st : Plugin) (ptr : MasterPayload) :
    StoreFrame (eng.MAX_MIDI_EVENTS * 2) st (masterProcessEvents eng st ptr).1 := by
  unfold masterProcessEvents
  repeat' split
  all_goals first | exact StoreFrame.srefl _ _ | exact storeOutEvents_storeFrame ..

theorem handleAudioMasterCallback_storeFrame (fx : AEffect) (eng : Engine) (st : Plugin)
    (c : MasterCall) :
    StoreFrame (eng.MAX_MIDI_EVENTS * 2) st (handleAudioMasterCallback fx eng st c).1 := by
  unfold handleAudioMasterCallback
  split
  case h_1 => exact StoreFrame.of_same_store (masterAutomate_array ..)
  case h_2 =>
    simp only
    split
    · exact StoreFrame.of_same_store (dispatcher_array ..)
    · exact StoreFrame.srefl _ _
  case h_5 => exact masterProcessEvents_storeFrame ..
  case h_10 =>
    split
    · simp only
      split
      · exact ⟨rfl, fun _ _ => rfl⟩
      · exact StoreFrame.srefl _ _
    · exact StoreFrame.srefl _ _
  case h_18 => exact StoreFrame.of_same_store (masterUpdateDisplay_array ..)
  all_goals exact ⟨rfl, fun _ _ => rfl⟩

theorem runCallbacks_storeFrame (fx : AEffect) (eng : Engine) (cs : List MasterCall)
    (st : Plugin) : StoreFrame (eng.MAX_MIDI_EVENTS * 2) st (runCallbacks fx eng cs st) := by
  induction cs generalizing st with
  | nil => exact StoreFrame.srefl _ st
  | cons c cs ih =>
    exact (handleAudioMasterCallback_storeFrame fx eng st c).strans (ih _)

theorem runPlugin_storeFrame (fx : AEffect) (eng : Engine) (st : Plugin) (inB outB : Buffers)
    (frames off : Nat) :
    StoreFrame (eng.MAX_MIDI_EVENTS * 2) st (runPlugin fx eng st inB outB frames off).1 := by
  have h := runCallbacks_storeFrame fx eng (fx.processCallbacks (enterProcess st frames off).log)
    (enterProcess st frames off)
  exact ⟨h.1, h.2⟩

/-- No `processSingle` changes the count of queued events, a queued event, or a slot outside
the array. -/
theorem processSingle_storeFrame (fx : AEffect) (eng : Engine) (st : Plugin)
    (inBuffer outBuffer : Option Buffers) (frames off : Nat) :
    StoreFrame (eng.MAX_MIDI_EVENTS * 2) st
      (processSingle fx eng st inBuffer outBuffer frames off).1 := by
  rcases processSingle_state fx eng st inBuffer outBuffer frames off with h | h
  · rw [h.2]; exact StoreFrame.srefl _ _
  · rw [h.2.2.2]
    have h1 := runPlugin_storeFrame fx eng (sendQueuedEvents fx (lockSingle st))
      (inBuffer.getD fun _ _ => 0) (outBuffer.getD fun _ _ => 0) frames off
    have h2 : StoreFrame (eng.MAX_MIDI_EVENTS * 2) st (sendQueuedEvents fx (lockSingle st)) :=
      StoreFrame.of_same_store (sendQueuedEvents_array fx (lockSingle st))
    exact ⟨(h1.1.trans h2.1), fun j hj => (h1.2 j (by rw [h2.1]; exact hj)).trans (h2.2 j hj)⟩

theorem QueueBound.of_storeFrame {cap : Nat} {arr : Nat → VstMidiEvent} {a b : Plugin}
    (h : QueueBound cap arr a) (hf : StoreFrame cap a b) : QueueBound cap arr b :=
  ⟨by rw [hf.1]; exact h.1, fun j hj => (hf.2 j (Or.inr hj)).trans (h.2 j hj)⟩

theorem QueueBound.enqueue_bound {cap : Nat} {arr : Nat → VstMidiEvent} {a : Plugin}
    (h : QueueBound cap arr a) (v : Option VstMidiEvent) :
    QueueBound cap arr (enqueue cap a v) := by
  cases v with
  | none => exact h
  | some ev =>
    unfold Carla.enqueue
    simp only
    split
    · exact h
    · rename_i hfull
      refine ⟨?_, fun j hj => ?_⟩
      · show a.fMidiEventCount + 1 ≤ cap
        omega
      · show Function.update a.fMidiEvents a.fMidiEventCount ev j = arr j
        rw [Function.update_noteq (by omega)]
        exact h.2 j hj

theorem QueueBound.of_enqueueFrame {cap : Nat} {arr : Nat → VstMidiEvent} {a b : Plugin}
    {v : Option VstMidiEvent} (h : QueueBound cap arr a) (hf : EnqueueFrame cap v a b) :
    QueueBound cap arr b := by
  have he := h.enqueue_bound v
  exact ⟨by rw [hf.2.2.1]; exact he.1, fun j hj => by rw [hf.2.2.2]; exact he.2 j hj⟩

theorem QueueBound.clearQueued_bound {cap : Nat} {arr : Nat → VstMidiEvent} {a : Plugin}
    (h : QueueBound cap arr a) : QueueBound cap arr (clearQueued a) := by
  unfold Carla.clearQueued
  split
  · refine ⟨Nat.zero_le _, fun j hj => ?_⟩
    show (if j < a.fMidiEventCount then VstMidiEvent.zero else a.fMidiEvents j) = arr j
    rw [if_neg (by have := h.1; omega)]
    exact h.2 j hj
  · exact h

theorem QueueBound.splitBlock_bound {cap : Nat} (fx : AEffect) (eng : Engine) (blk : Block)
    (inBuffer : Option Buffers) (time : Nat) (s : EventLoop) {arr : Nat → VstMidiEvent}
    (hc : cap = eng.MAX_MIDI_EVENTS * 2) (h : QueueBound cap arr s.st) :
    QueueBound cap arr (splitBlock fx eng blk inBuffer time s).st := by
  subst hc
  have h0 : QueueBound (eng.MAX_MIDI_EVENTS * 2) arr
      (withLockState (blk.singleMutexHeld s.attempts) s.st) := h
  have h1 := h0.of_storeFrame (processSingle_storeFrame fx eng
    (withLockState (blk.singleMutexHeld s.attempts) s.st) inBuffer s.out
    (time - s.timeOffset) s.timeOffset)
  unfold Carla.splitBlock
  simp only
  split
  · exact h1.clearQueued_bound
  · exact h1

theorem QueueBound.eventLoop_bound (fx : AEffect) (eng : Engine) (blk : Block)
    (inBuffer : Option Buffers) (frames : Nat) (sa : Bool) (es : List EngineEvent)
    (s : EventLoop) {arr : Nat → VstMidiEvent}
    (h : QueueBound (eng.MAX_MIDI_EVENTS * 2) arr s.st) :
    QueueBound (eng.MAX_MIDI_EVENTS * 2) arr
      (eventLoop fx eng blk inBuffer frames sa es s).st := by
  refine eventLoop_induction fx eng blk inBuffer frames sa
    (fun t => QueueBound (eng.MAX_MIDI_EVENTS * 2) arr t.st) ?_ ?_ es s h
  · intro t time ht _ _
    exact QueueBound.splitBlock_bound fx eng blk inBuffer time t rfl ht
  · intro t e ht
    exact ht.of_enqueueFrame (handleEvent_spec fx eng sa e t).2.2.2.2

theorem QueueBound.drainExtNotes_bound {cap : Nat} {arr : Nat → VstMidiEvent}
    (notes : List ExternalMidiNote) (st : Plugin) (h : QueueBound cap arr st) :
    QueueBound cap arr (drainExtNotes cap notes st) := by
  induction notes generalizing st with
  | nil => exact h
  | cons n ns ih =>
    rw [Carla.drainExtNotes]
    split
    · apply ih
      rename_i hlt
      refine ⟨?_, fun j hj => ?_⟩
      · show st.fMidiEventCount + 1 ≤ cap
        omega
      · show Function.update st.fMidiEvents st.fMidiEventCount _ j = arr j
        rw [Function.update_noteq (by omega)]
        exact h.2 j hj
    · exact h

theorem QueueBound.blockStart_bound (eng : Engine) (st : Plugin)
    (hcap : MAX_MIDI_NOTE ≤ eng.MAX_MIDI_EVENTS * 2) :
    QueueBound (eng.MAX_MIDI_EVENTS * 2) st.fMidiEvents (blockStart eng st) := by
  have hM : MAX_MIDI_CHANNELS = 16 := rfl
  have hN : MAX_MIDI_NOTE = 128 := rfl
  have h0 : QueueBound (eng.MAX_MIDI_EVENTS * 2) st.fMidiEvents (clearEventArray eng st) := by
    refine ⟨Nat.zero_le _, fun j hj => ?_⟩
    show (if j < eng.MAX_MIDI_EVENTS * 2 then VstMidiEvent.zero else st.fMidiEvents j) = _
    rw [if_neg (by omega)]
  have hreset : QueueBound (eng.MAX_MIDI_EVENTS * 2) st.fMidiEvents
      (processReset (clearEventArray eng st)) := by
    by_cases hr : (clearEventArray eng st).needsReset = true
    · obtain ⟨qa, qc⟩ := processReset_queue (clearEventArray eng st) hr
      refine ⟨?_, fun j hj => ?_⟩
      · rw [qc]
        split
        · show MAX_MIDI_CHANNELS * 2 ≤ _
          omega
        · split
          · show MAX_MIDI_NOTE ≤ _
            omega
          · exact h0.1
      · rw [qa]
        split
        · show (resetAllSoundOff (clearEventArray eng st)).fMidiEvents j = _
          have := resetAllSoundOff_slots (clearEventArray eng st).fMidiEvents MAX_MIDI_CHANNELS
            (le_refl _) j
          unfold resetAllSoundOff
          simp only
          rw [this, if_neg (by omega), if_neg (by omega)]
          exact h0.2 j hj
        · split
          · have := resetNotesOff_slots (clearEventArray eng st).fMidiEvents
              (clearEventArray eng st).ctrlChannel.toNat MAX_MIDI_NOTE j
            unfold resetNotesOff
            simp only
            rw [this, if_neg (by omega)]
            exact h0.2 j hj
          · exact h0.2 j hj
    · have : processReset (clearEventArray eng st) = clearEventArray eng st := by
        unfold processReset
        rw [if_neg hr]
      rw [this]
      exact h0
  exact hreset

theorem QueueBound.loopStart_bound (eng : Engine) (blk : Block) (st : Plugin)
    (outBuffer : Option Buffers) (hcap : MAX_MIDI_NOTE ≤ eng.MAX_MIDI_EVENTS * 2) :
    QueueBound (eng.MAX_MIDI_EVENTS * 2) st.fMidiEvents
      (loopStart eng blk st outBuffer).st := by
  have h := QueueBound.blockStart_bound eng st hcap
  show QueueBound _ _ (processExtNotes eng blk (Carla.blockStart eng st))
  unfold processExtNotes
  split
  · exact QueueBound.drainExtNotes_bound _ _ h
  · exact h

/-! ### Capacity of the input queue -/

theorem QueueBound.processWithEvents (fx : AEffect) (eng : Engine) (blk : Block) (st : Plugin)
    (inBuffer outBuffer : Option Buffers) (frames : Nat) {arr : Nat → VstMidiEvent}
    (h : QueueBound (eng.MAX_MIDI_EVENTS * 2) arr (processExtNotes eng blk st)) :
    QueueBound (eng.MAX_MIDI_EVENTS * 2) arr
      (processWithEvents fx eng blk st inBuffer outBuffer frames).1 := by
  have hl := QueueBound.eventLoop_bound fx eng blk inBuffer frames
    (!(processExtNotes eng blk st).fOptions.fixedBuffer) blk.events
    { st := processExtNotes eng blk st, out := outBuffer } h
  unfold Carla.processWithEvents
  simp only
  split
  · have h0 : QueueBound (eng.MAX_MIDI_EVENTS * 2) arr
        (withLockState (blk.singleMutexHeld
          (Carla.eventLoop fx eng blk inBuffer frames
            (!(processExtNotes eng blk st).fOptions.fixedBuffer) blk.events
            { st := processExtNotes eng blk st, out := outBuffer }).attempts)
          (Carla.eventLoop fx eng blk inBuffer frames
            (!(processExtNotes eng blk st).fOptions.fixedBuffer) blk.events
            { st := processExtNotes eng blk st, out := outBuffer }).st) := hl
    exact h0.of_storeFrame (processSingle_storeFrame ..)
  · exact hl

theorem QueueBound.blockBody_bound (fx : AEffect) (eng : Engine) (blk : Block) (st : Plugin)
    (inBuffer outBuffer : Option Buffers) (frames : Nat)
    (hcap : MAX_MIDI_NOTE ≤ eng.MAX_MIDI_EVENTS * 2) :
    QueueBound (eng.MAX_MIDI_EVENTS * 2) st.fMidiEvents
      (blockBody fx eng blk st inBuffer outBuffer frames).1 := by
  unfold Carla.blockBody
  split
  · exact QueueBound.processWithEvents fx eng blk _ inBuffer outBuffer frames
      (QueueBound.loopStart_bound eng blk st outBuffer hcap)
  · have h0 : QueueBound (eng.MAX_MIDI_EVENTS * 2) st.fMidiEvents
        (withLockState (blk.singleMutexHeld 0) (Carla.blockStart eng st)) :=
      QueueBound.blockStart_bound eng st hcap
    exact h0.of_storeFrame (processSingle_storeFrame ..)

theorem QueueBound.process (fx : AEffect) (eng : Engine) (blk : Block) (st : Plugin)
    (inBuffer outBuffer : Option Buffers) (frames : Nat) (hactive : st.active = true)
    (hcap : MAX_MIDI_NOTE ≤ eng.MAX_MIDI_EVENTS * 2) :
    QueueBound (eng.MAX_MIDI_EVENTS * 2) st.fMidiEvents
      (process fx eng blk st inBuffer outBuffer frames).1 := by
  have h2 := QueueBound.blockStart_bound eng st hcap
  have h1 : QueueBound (eng.MAX_MIDI_EVENTS * 2) st.fMidiEvents
      (processReset (clearEventArray eng st)) := h2
  have hb := QueueBound.blockBody_bound fx eng blk st inBuffer outBuffer frames hcap
  have tail : ∀ r : Plugin × Option Buffers,
      QueueBound (eng.MAX_MIDI_EVENTS * 2) st.fMidiEvents r.1 →
      QueueBound (eng.MAX_MIDI_EVENTS * 2) st.fMidiEvents
        (if ¬ r.1.fEnabled then (prematureExit r.1, r.2)
          else (processMidiOutput eng r.1, r.2)).1 := by
    intro r hr
    split
    · exact hr
    · exact hr.of_storeFrame (StoreFrame.of_same_store (processMidiOutput_array eng r.1))
  unfold Carla.process
  rw [if_neg (by simp [hactive])]
  simp only
  split
  · exact h1
  · split
    · exact h2
    · unfold Carla.blockBody Carla.blockStart at hb
      exact tail _ hb

theorem sendQueuedEvents_timeInfo (fx : AEffect) (st : Plugin) :
    (sendQueuedEvents fx st).fTimeInfo = st.fTimeInfo := by
  unfold sendQueuedEvents
  split
  · exact (dispatcher_timeInfo ..).1
  · rfl

/-- A `processSingle` that returns true has advanced the sample position by `frames`; one
that returns false has changed nothing of the adapter state. -/
theorem processSingle_samplePos (fx : AEffect) (eng : Engine) (st : Plugin)
    (inBuffer outBuffer : Option Buffers) (frames off : Nat) :
    ((processSingle fx eng st inBuffer outBuffer frames off).2.2 = true →
      (processSingle fx eng st inBuffer outBuffer frames off).1.fTimeInfo.samplePos =
        st.fTimeInfo.samplePos + frames) ∧
    ((processSingle fx eng st inBuffer outBuffer frames off).2.2 = false →
      (processSingle fx eng st inBuffer outBuffer frames off).1 = st) := by
  rcases processSingle_state fx eng st inBuffer outBuffer frames off with h | h
  · exact ⟨fun ht => by rw [h.1] at ht; exact absurd ht (by simp), fun _ => h.2⟩
  · refine ⟨fun _ => ?_, fun hf => by rw [h.1] at hf; exact absurd hf (by simp)⟩
    rw [h.2.2.2]
    have h1 := (runPlugin_spec fx eng (sendQueuedEvents fx (lockSingle st))
      (inBuffer.getD fun _ _ => 0) (outBuffer.getD fun _ _ => 0) frames off).2.2.2.2.2.1
    have h2 := sendQueuedEvents_timeInfo fx (lockSingle st)
    show (runPlugin fx eng (sendQueuedEvents fx (lockSingle st))
      (inBuffer.getD fun _ _ => 0) (outBuffer.getD fun _ _ => 0) frames
      off).1.fTimeInfo.samplePos = _
    rw [h1, h2]
    rfl

/-- A `processSingle` over a non-empty range that finds its buffers and the lock returns
true. -/
theorem processSingle_true (fx : AEffect) (eng : Engine) (st : Plugin)
    (inBuffer outBuffer : Option Buffers) (frames off : Nat)
    (hf : frames ≠ 0) (hcan : CanProcess eng st inBuffer outBuffer) :
    (processSingle fx eng st inBuffer outBuffer frames off).2.2 = true := by
  obtain ⟨hin, hout, hlock⟩ := hcan
  have g1 : ¬ (st.audioInCount > 0 ∧ inBuffer.isNone = true) := by
    rintro ⟨h1, h2⟩
    have := hin h1
    cases inBuffer <;> simp_all
  have g2 : ¬ (st.audioOutCount > 0 ∧ outBuffer.isNone = true) := by
    rintro ⟨h1, h2⟩
    have := hout h1
    cases outBuffer <;> simp_all
  have g3 : ¬ (¬ eng.isOffline = true ∧ st.singleMutexLocked = true) := by
    rintro ⟨h1, h2⟩
    rcases hlock with h | h
    · exact h1 h
    · rw [h] at h2; exact Bool.false_ne_true h2
  unfold processSingle
  simp only [hf, g1, g2, g3, if_false]

theorem blockStart_samplePos (eng : Engine) (st : Plugin) :
    (blockStart eng st).fTimeInfo.samplePos = eng.timeInfo.frame := by
  unfold blockStart setTimeInfo
  simp only
  split <;> split <;> rfl

theorem TimeTracks.canProcess {base : Sample} {F : Fixed} {o : Bool} {frames : Nat}
    {s : EventLoop} (eng : Engine) (blk : Block) (inBuffer : Option Buffers)
    (h : TimeTracks base F o frames s)
    (hin : F.audioInCount > 0 → inBuffer.isSome = true)
    (hout : F.audioOutCount > 0 → o = true) (hlock : LockFree eng blk) :
    CanProcess eng (withLockState (blk.singleMutexHeld s.attempts) s.st) inBuffer s.out := by
  obtain ⟨_, hF, ho, _⟩ := h
  refine ⟨?_, ?_, ?_⟩
  · intro h1
    apply hin
    rw [← hF]
    exact h1
  · intro h1
    rw [ho]
    apply hout
    rw [← hF]
    exact h1
  · rcases hlock with h1 | h1
    · exact Or.inl h1
    · exact Or.inr (h1 _)

theorem TimeTracks.eventLoop_time {base : Sample} {F : Fixed} {o : Bool} {frames : Nat}
    (fx : AEffect) (eng : Engine) (blk : Block) (inBuffer : Option Buffers) (sa : Bool)
    (hin : F.audioInCount > 0 → inBuffer.isSome = true)
    (hout : F.audioOutCount > 0 → o = true) (hlock : LockFree eng blk)
    (es : List EngineEvent) (s : EventLoop) (h : TimeTracks base F o frames s) :
    TimeTracks base F o frames (Carla.eventLoop fx eng blk inBuffer frames sa es s) := by
  refine eventLoop_induction fx eng blk inBuffer frames sa (TimeTracks base F o frames)
    ?_ ?_ es s h
  · intro t time ht hgt hlt
    have hcan := ht.canProcess eng blk inBuffer hin hout hlock
    obtain ⟨hp, hF, ho, _⟩ := ht
    have htrue := processSingle_true fx eng (withLockState (blk.singleMutexHeld t.attempts) t.st)
      inBuffer t.out (time - t.timeOffset) t.timeOffset (by omega) hcan
    have hpos := (processSingle_samplePos fx eng
      (withLockState (blk.singleMutexHeld t.attempts) t.st)
      inBuffer t.out (time - t.timeOffset) t.timeOffset).1 htrue
    obtain ⟨sf, so⟩ := splitBlock_fixed fx eng blk inBuffer time t
    refine ⟨?_, sf.trans hF, so.trans ho, Or.inr ?_⟩
    · unfold splitBlock
      simp only [htrue, if_true]
      rw [(clearQueued_timeInfo _).1, hpos]
      show t.st.fTimeInfo.samplePos + _ = _
      rw [hp, Nat.cast_sub (by omega)]
      ring
    · unfold splitBlock
      simp only [htrue, if_true]
      exact hlt
  · intro t e ht
    obtain ⟨hp, hF, ho, hto⟩ := ht
    obtain ⟨e1, _, e3, _, hfr⟩ := handleEvent_spec fx eng sa e t
    refine ⟨?_, hfr.1.trans hF, (congrArg Option.isSome e1).trans ho, by rw [e3]; exact hto⟩
    rw [(handleEvent_timeInfo fx eng sa e t).1, e3]
    exact hp

/-- C24. A `processSingle` over `frames` frames that returns true has increased the sample
position of the time info by exactly `frames`; one that returns false has left the adapter
state, so the sample position, unchanged. Hence after an active block in which every
`processSingle` finds its buffers and takes the lock, the sample position is the transport
frame of the engine read at the start of the block plus the frame count of the block.
Positions are rationals: the rounding of the `double` of the source is not modelled. -/
theorem process_sample_position (fx : AEffect) (eng : Engine) (blk : Block) (st : Plugin)
    (inBuffer outBuffer : Option Buffers) (frames : Nat)
    (hactive : st.active = true) (henabled : st.fEnabled = true)
    (hin : st.audioInCount > 0 → inBuffer.isSome = true)
    (hout : st.audioOutCount > 0 → outBuffer.isSome = true)
    (hlock : LockFree eng blk) :
    (∀ (s : Plugin) (inB outB : Option Buffers) (n off : Nat),
      ((processSingle fx eng s inB outB n off).2.2 = true →
        (processSingle fx eng s inB outB n off).1.fTimeInfo.samplePos =
          s.fTimeInfo.samplePos + n) ∧
      ((processSingle fx eng s inB outB n off).2.2 = false →
        (processSingle fx eng s inB outB n off).1 = s)) ∧
    (process fx eng blk st inBuffer outBuffer frames).1.fTimeInfo.samplePos =
      (eng.timeInfo.frame : Sample) + frames := by
  refine ⟨fun s inB outB n off => processSingle_samplePos fx eng s inB outB n off, ?_⟩
  rw [process_eq_body fx eng blk st inBuffer outBuffer frames hactive henabled]
  show (processMidiOutput eng _).fTimeInfo.samplePos = _
  rw [(processMidiOutput_timeInfo eng _).1]
  obtain ⟨bf, _⟩ := blockStart_spec eng st
  have hin' : (blockStart eng st).fixed.audioInCount > 0 → inBuffer.isSome = true := by
    rw [bf]; exact hin
  have hout' : (blockStart eng st).fixed.audioOutCount > 0 → outBuffer.isSome = true := by
    rw [bf]; exact hout
  have hfinal : ∀ (s : EventLoop) (n : Nat),
      TimeTracks (eng.timeInfo.frame : Sample) (blockStart eng st).fixed outBuffer.isSome n s →
      s.timeOffset ≤ n →
      (processSingle fx eng (withLockState (blk.singleMutexHeld s.attempts) s.st) inBuffer
        s.out (n - s.timeOffset) s.timeOffset).1.fTimeInfo.samplePos =
        (eng.timeInfo.frame : Sample) + n := by
    intro s n hs hle
    have hcan := hs.canProcess eng blk inBuffer hin' hout' hlock
    obtain ⟨hp, _, _, _⟩ := hs
    by_cases hz : n - s.timeOffset = 0
    · have : (processSingle fx eng (withLockState (blk.singleMutexHeld s.attempts) s.st)
          inBuffer s.out (n - s.timeOffset) s.timeOffset).1 =
          withLockState (blk.singleMutexHeld s.attempts) s.st := by
        rw [hz]; unfold processSingle; simp
      rw [this]
      show s.st.fTimeInfo.samplePos = _
      rw [hp]
      have : s.timeOffset = n := by omega
      rw [this]
    · have htrue := processSingle_true fx eng
        (withLockState (blk.singleMutexHeld s.attempts) s.st) inBuffer s.out
        (n - s.timeOffset) s.timeOffset hz hcan
      rw [(processSingle_samplePos fx eng
        (withLockState (blk.singleMutexHeld s.attempts) s.st)
        inBuffer s.out (n - s.timeOffset) s.timeOffset).1 htrue]
      show s.st.fTimeInfo.samplePos + _ = _
      rw [hp, Nat.cast_sub hle]
      ring
  unfold blockBody
  split
  · have h0 : TimeTracks (eng.timeInfo.frame : Sample) (blockStart eng st).fixed
        outBuffer.isSome frames
        { st := processExtNotes eng blk (blockStart eng st), out := outBuffer } := by
      refine ⟨?_, (processExtNotes_spec eng blk _).1, rfl, Or.inl rfl⟩
      show (processExtNotes eng blk (blockStart eng st)).fTimeInfo.samplePos = _
      rw [(processExtNotes_timeInfo eng blk _).1, blockStart_samplePos]
      simp
    have hl := TimeTracks.eventLoop_time fx eng blk inBuffer
      (!(processExtNotes eng blk (blockStart eng st)).fOptions.fixedBuffer) hin' hout' hlock
      blk.events _ h0
    unfold processWithEvents
    simp only
    split
    · exact hfinal _ frames hl (by omega)
    · rename_i hle
      obtain ⟨hp, _, _, hto⟩ := hl
      rw [hp]
      have : (eventLoop fx eng blk inBuffer frames
          (!(processExtNotes eng blk (blockStart eng st)).fOptions.fixedBuffer) blk.events
          { st := processExtNotes eng blk (blockStart eng st), out := outBuffer }).timeOffset
          = frames := by omega
      rw [this]
  · have h0 : TimeTracks (eng.timeInfo.frame : Sample) (blockStart eng st).fixed
        outBuffer.isSome frames { st := blockStart eng st, out := outBuffer } := by
      refine ⟨?_, rfl, rfl, Or.inl rfl⟩
      show (blockStart eng st).fTimeInfo.samplePos = _
      rw [blockStart_samplePos]
      simp
    have := hfinal _ frames h0 (Nat.zero_le _)
    simpa using this

/-- C24, witness of `process_sample_position`: the splitting example (three sub-calls over a
block of 64 frames) with the transport at frame 1000 ends at sample position 1064. -/
theorem process_sample_position_witness :
    (splitExampleState.active = true ∧ splitExampleState.fEnabled = true ∧
      LockFree { timeInfo := { frame := 1000 } } splitExampleBlock) ∧
    (process {} { timeInfo := { frame := 1000 } } splitExampleBlock splitExampleState none none
        64).1.fTimeInfo.samplePos = ((1000 : Nat) : Sample) + (64 : Nat) :=
  ⟨⟨rfl, rfl, Or.inr (fun _ => rfl)⟩,
    (process_sample_position {} { timeInfo := { frame := 1000 } } splitExampleBlock
      splitExampleState none none 64 rfl rfl (by decide) (by decide)
      (Or.inr (fun _ => rfl))).2⟩

/-! ### Output events at the top of the event array -/

theorem OutTop.congr_top {cap : Nat} {outs : List VstMidiEvent} {a b : Plugin}
    (h : OutTop cap outs a)
    (he : b.fMidiEvents = a.fMidiEvents ∧ b.fMidiEventCount = a.fMidiEventCount) :
    OutTop cap outs b := by
  obtain ⟨h1, h2, h3⟩ := h
  refine ⟨h1, fun i hi => ?_, fun j hj hl => ?_⟩
  · rw [he.1]; exact h2 i hi
  · rw [he.1]; exact h3 j (by rw [← he.2]; exact hj) hl

theorem reverseFindFree_eq_found (arr : Nat → VstMidiEvent) (count cap j : Nat)
    (hj : count ≤ j) (hfree : (arr j).type = 0) (start : Nat) (hs : j ≤ start)
    (hcap : start < cap) (hocc : ∀ k, j < k → k ≤ start → (arr k).type ≠ 0) :
    reverseFindFree arr count cap start = .found j := by
  induction start with
  | zero =>
    have : j = 0 := by omega
    subst this
    unfold reverseFindFree
    rw [if_neg (by omega), if_neg (by omega), if_pos hfree]
  | succ s ih =>
    unfold reverseFindFree
    rw [if_neg (by omega), if_neg (by omega)]
    by_cases ht : (arr (s + 1)).type = 0
    · rw [if_pos ht]
      have : j = s + 1 := by
        by_contra hne
        exact hocc (s + 1) (by omega) (le_refl _) ht
      rw [this]
    · rw [if_neg ht]
      have hne : j ≠ s + 1 := by
        intro h; rw [h] at hfree; exact ht hfree
      exact ih (by omega) (by omega) (fun k h1 h2 => hocc k h1 (by omega))

theorem storeOutEvents_outTop (cap : Nat) (evs : List (Option VstMidiEvent))
    (outs : List VstMidiEvent) (st : Plugin) (h : OutTop cap outs st)
    (hlen : (outs ++ midiTyped evs).length + st.fMidiEventCount ≤ cap) :
    OutTop cap (outs ++ midiTyped evs) (storeOutEvents cap evs st) := by
  induction evs generalizing outs st with
  | nil => simpa [midiTyped, storeOutEvents] using h
  | cons e rest ih =>
    cases e with
    | none => simpa [midiTyped, storeOutEvents] using h
    | some ev =>
      rw [storeOutEvents]
      by_cases ht : ev.type ≠ kVstMidiType
      · rw [if_pos ht]
        have e1 : midiTyped (some ev :: rest) = midiTyped rest := by
          rw [midiTyped, if_pos ht]
        rw [e1] at hlen ⊢
        exact ih outs st h hlen
      · rw [if_neg ht]
        have ht' : ev.type = kVstMidiType := by simpa using ht
        have e1 : midiTyped (some ev :: rest) = ev :: midiTyped rest := by
          rw [midiTyped, if_neg ht]
        rw [e1] at hlen ⊢
        have hl : outs.length + 1 + (midiTyped rest).length + st.fMidiEventCount ≤ cap := by
          simp only [List.length_append, List.length_cons] at hlen
          omega
        obtain ⟨h1, h2, h3⟩ := h
        have hfound : reverseFindFree st.fMidiEvents st.fMidiEventCount cap (lastSlot cap) =
            .found (cap - 1 - outs.length) := by
          have hls : lastSlot cap = cap - 1 := by
            unfold lastSlot; rw [if_neg (by omega)]
          rw [hls]
          refine reverseFindFree_eq_found _ _ _ _ (by omega) (h3 _ (by omega) (by omega)) _
            (by omega) (by omega) ?_
          intro k hk1 hk2
          have hi : cap - 1 - k < outs.length := by omega
          have := h2 (cap - 1 - k) hi
          have hk : cap - 1 - (cap - 1 - k) = k := by omega
          rw [hk] at this
          have hm : st.fMidiEvents k ∈ outs := List.mem_iff_getElem?.mpr ⟨_, this⟩
          rw [h1 _ hm]
          decide
        rw [hfound]
        simp only
        have hnew : OutTop cap (outs ++ [ev])
            { st with fMidiEvents := Function.update st.fMidiEvents (cap - 1 - outs.length) ev } := by
          refine ⟨?_, ?_, ?_⟩
          · intro e he
            rcases List.mem_append.mp he with he | he
            · exact h1 e he
            · rw [List.mem_singleton.mp he]; exact ht'
          · intro i hi
            simp only [List.length_append, List.length_singleton] at hi
            by_cases hlt : i < outs.length
            · rw [List.getElem?_append_left hlt, h2 i hlt]
              simp only
              rw [Function.update_noteq (by omega)]
            · have hi' : i = outs.length := by omega
              subst hi'
              rw [List.getElem?_append_right (le_refl _)]
              simp
          · intro j hj hjl
            simp only [List.length_append, List.length_singleton] at hjl
            simp only
            rw [Function.update_noteq (by omega)]
            exact h3 j hj (by omega)
        have := ih (outs ++ [ev]) _ hnew (by
          simp only [List.length_append, List.length_singleton]
          show outs.length + 1 + (midiTyped rest).length + st.fMidiEventCount ≤ cap
          exact hl)
        rw [List.append_assoc] at this
        exact this

theorem midiOutScan_top (arr : Nat → VstMidiEvent) (count cap : Nat)
    (outs : List VstMidiEvent) (start : Nat) (hcap : start < cap) (hlen : outs.length ≤ start)
    (hcount : count ≤ start - outs.length) (htype : ∀ e ∈ outs, e.type ≠ 0)
    (hslots : ∀ i, i < outs.length → outs[i]? = some (arr (start - i)))
    (hfree : (arr (start - outs.length)).type = 0) :
    midiOutScan arr count cap start = (outs.map forwardedAs, false) := by
  induction outs generalizing start with
  | nil =>
    simp only [List.length_nil, Nat.sub_zero] at hcount hfree
    cases start with
    | zero =>
      unfold midiOutScan
      rw [if_neg (by omega), if_neg (by omega), if_pos hfree]
      rfl
    | succ s =>
      unfold midiOutScan
      rw [if_neg (by omega), if_neg (by omega), if_pos hfree]
      rfl
  | cons e outs ih =>
    simp only [List.length_cons] at hlen hcount hfree
    cases start with
    | zero => omega
    | succ s =>
      have h0 := hslots 0 (by simp)
      simp only [List.getElem?_cons_zero, Nat.sub_zero, Option.some.injEq] at h0
      have hne : (arr (s + 1)).type ≠ 0 := by
        rw [← h0]; exact htype e (List.mem_cons_self _ _)
      have hrec := ih s (by omega) (by omega) (by omega)
        (fun e' he' => htype e' (List.mem_cons_of_mem _ he'))
        (fun i hi => by
          have := hslots (i + 1) (by simp only [List.length_cons]; omega)
          rw [List.getElem?_cons_succ] at this
          rw [this]
          congr 2
          omega)
        (by
          have : s + 1 - (outs.length + 1) = s - outs.length := by omega
          rw [← this]; exact hfree)
      unfold midiOutScan
      rw [if_neg (by omega), if_neg (by omega), if_neg hne]
      simp only [hrec, List.map_cons]
      rw [← h0]
      rfl

theorem processMidiOutput_outTop (eng : Engine) (st : Plugin) (outs : List VstMidiEvent)
    (hport : st.hasEventOut = true) (h : OutTop (eng.MAX_MIDI_EVENTS * 2) outs st)
    (hlen : outs.length + st.fMidiEventCount < eng.MAX_MIDI_EVENTS * 2) :
    (processMidiOutput eng st).midiOut = st.midiOut ++ outs.map forwardedAs ∧
    (processMidiOutput eng st).outOfBounds = st.outOfBounds := by
  obtain ⟨h1, h2, h3⟩ := h
  have hls : lastSlot (eng.MAX_MIDI_EVENTS * 2) = eng.MAX_MIDI_EVENTS * 2 - 1 := by
    unfold lastSlot; rw [if_neg (by omega)]
  have hscan := midiOutScan_top st.fMidiEvents st.fMidiEventCount (eng.MAX_MIDI_EVENTS * 2)
    outs (eng.MAX_MIDI_EVENTS * 2 - 1) (by omega) (by omega) (by omega)
    (fun e he => by rw [h1 e he]; decide)
    h2 (h3 _ (by omega) (by omega))
  unfold processMidiOutput
  rw [if_pos hport, hls, hscan]
  simp

/-! ### Submissions of the module during a sub-call -/

theorem callbacksOf_append (fx : AEffect) (pre a b : List Call) :
    callbacksOf fx pre (a ++ b) = callbacksOf fx pre a ++ callbacksOf fx (pre ++ a) b := by
  induction a generalizing pre with
  | nil => simp [callbacksOf]
  | cons c a ih =>
    show _ ++ callbacksOf fx (pre ++ [c]) (a ++ b) = _
    rw [ih]
    simp [callbacksOf, List.append_assoc]

theorem callbacksOf_quiet (fx : AEffect) (pre a : List Call) (h : ∀ c ∈ a, c.quiet = true) :
    callbacksOf fx pre a = [] := by
  induction a generalizing pre with
  | nil => rfl
  | cons c a ih =>
    have hc := h c (List.mem_cons_self _ _)
    have hn : c.isProcessCall = false := by
      cases c <;> simp_all [Call.quiet, Call.isProcessCall]
    simp only [callbacksOf, hn, Bool.false_eq_true, if_false, List.nil_append]
    exact ih _ (fun c' hc' => h c' (List.mem_cons_of_mem _ hc'))

theorem submittedAll_append (cap : Nat) (a b : List MasterCall) :
    submittedAll cap (a ++ b) = submittedAll cap a ++ submittedAll cap b := by
  induction a with
  | nil => rfl
  | cons c a ih =>
    show _ ++ submittedAll cap (a ++ b) = _
    rw [ih]
    simp [submittedAll, List.append_assoc]

theorem handleAudioMasterCallback_other (fx : AEffect) (eng : Engine) (st : Plugin)
    (c : MasterCall) (hop : c.opcode ≠ .audioMasterProcessEvents) :
    (handleAudioMasterCallback fx eng st c).1.fMidiEvents = st.fMidiEvents ∧
    (handleAudioMasterCallback fx eng st c).1.fMidiEventCount = st.fMidiEventCount := by
  unfold handleAudioMasterCallback
  split
  case h_1 => exact masterAutomate_array ..
  case h_2 =>
    simp only
    split
    · exact dispatcher_array ..
    · exact ⟨rfl, rfl⟩
  case h_5 h => exact absurd h hop
  case h_10 =>
    split
    · simp only
      split <;> exact ⟨rfl, rfl⟩
    · exact ⟨rfl, rfl⟩
  case h_18 => exact masterUpdateDisplay_array ..
  all_goals exact ⟨rfl, rfl⟩

theorem handleAudioMasterCallback_outTop (fx : AEffect) (eng : Engine) (st : Plugin)
    (c : MasterCall) (outs : List VstMidiEvent)
    (hen : st.fEnabled = true) (hproc : st.fIsProcessing = true)
    (hport : st.hasEventOut = true) (h : OutTop (eng.MAX_MIDI_EVENTS * 2) outs st)
    (hlen : (outs ++ submittedBy (eng.MAX_MIDI_EVENTS * 2) c).length + st.fMidiEventCount
      ≤ eng.MAX_MIDI_EVENTS * 2) :
    OutTop (eng.MAX_MIDI_EVENTS * 2) (outs ++ submittedBy (eng.MAX_MIDI_EVENTS * 2) c)
      (handleAudioMasterCallback fx eng st c).1 := by
  by_cases hop : c.opcode = .audioMasterProcessEvents
  · have e : (handleAudioMasterCallback fx eng st c).1 = (masterProcessEvents eng st c.ptr).1 := by
      unfold handleAudioMasterCallback
      rw [hop]
    rw [e]
    unfold submittedBy at hlen ⊢
    rw [if_pos hop] at hlen ⊢
    unfold masterProcessEvents
    rw [if_neg (by simp [hen]), if_neg (by simp [hproc]), if_neg (by simp [hport])]
    cases hp : c.ptr with
    | null =>
      simp only [if_true, List.append_nil]
      exact h
    | text s =>
      simp only [List.append_nil]
      rw [if_neg (by simp)]
      split
      · exact h
      · simp only [List.take_nil, storeOutEvents]
        exact h
    | events evs =>
      rw [hp] at hlen
      simp only at hlen ⊢
      rw [if_neg (by simp)]
      by_cases hfull : st.fMidiEventCount ≥ eng.MAX_MIDI_EVENTS * 2
      · rw [if_pos hfull]
        have : midiTyped (evs.take (eng.MAX_MIDI_EVENTS * 2)) = [] := by
          apply List.eq_nil_of_length_eq_zero
          simp only [List.length_append] at hlen
          omega
        rw [this, List.append_nil]
        exact h
      · rw [if_neg hfull]
        exact storeOutEvents_outTop _ _ outs st h hlen
  · have e : submittedBy (eng.MAX_MIDI_EVENTS * 2) c = [] := by
      unfold submittedBy; rw [if_neg hop]
    rw [e, List.append_nil]
    exact h.congr_top (handleAudioMasterCallback_other fx eng st c hop)

theorem runCallbacks_outTop (fx : AEffect) (eng : Engine) (cs : List MasterCall) (st : Plugin)
    (outs : List VstMidiEvent)
    (hen : st.fEnabled = true) (hproc : st.fIsProcessing = true)
    (hport : st.hasEventOut = true) (h : OutTop (eng.MAX_MIDI_EVENTS * 2) outs st)
    (hlen : (outs ++ submittedAll (eng.MAX_MIDI_EVENTS * 2) cs).length + st.fMidiEventCount
      ≤ eng.MAX_MIDI_EVENTS * 2) :
    OutTop (eng.MAX_MIDI_EVENTS * 2) (outs ++ submittedAll (eng.MAX_MIDI_EVENTS * 2) cs)
      (runCallbacks fx eng cs st) := by
  induction cs generalizing st outs with
  | nil =>
    simp only [submittedAll, List.append_nil, runCallbacks]
    exact h
  | cons c cs ih =>
    rw [runCallbacks]
    simp only [submittedAll] at hlen ⊢
    rw [← List.append_assoc] at hlen ⊢
    obtain ⟨cf, _, _, cc, _, _, _, cp⟩ := handleAudioMasterCallback_callbackFrame fx eng st c
    have h1 := handleAudioMasterCallback_outTop fx eng st c outs hen hproc hport h (by
      simp only [List.length_append] at hlen ⊢
      omega)
    refine ih _ _ ?_ ?_ ?_ h1 ?_
    · exact (congrArg Fixed.fEnabled cf).trans hen
    · exact cp.trans hproc
    · exact (congrArg Fixed.hasEventOut cf).trans hport
    · rw [cc]; exact hlen

/-- A successful `processSingle` stores the events the module submits during it at the top
of the event array, below the ones already there. -/
theorem processSingle_outTop (fx : AEffect) (eng : Engine) (st : Plugin)
    (inBuffer outBuffer : Option Buffers) (frames off : Nat) (outs : List VstMidiEvent)
    (hE : st.hasEffect = true) (hen : st.fEnabled = true) (hport : st.hasEventOut = true)
    (htrue : (processSingle fx eng st inBuffer outBuffer frames off).2.2 = true)
    (h : OutTop (eng.MAX_MIDI_EVENTS * 2) outs st)
    (hlen : (outs ++ submittedAll (eng.MAX_MIDI_EVENTS * 2)
        (fx.processCallbacks (st.log ++ subCallEntries st frames off))).length
      + st.fMidiEventCount ≤ eng.MAX_MIDI_EVENTS * 2) :
    OutTop (eng.MAX_MIDI_EVENTS * 2)
      (outs ++ submittedAll (eng.MAX_MIDI_EVENTS * 2)
        (fx.processCallbacks (st.log ++ subCallEntries st frames off)))
      (processSingle fx eng st inBuffer outBuffer frames off).1 := by
  rcases processSingle_state fx eng st inBuffer outBuffer frames off with hs | hs
  · rw [hs.1] at htrue; exact absurd htrue (by simp)
  · obtain ⟨_, _, _, hst⟩ := hs
    rw [hst]
    obtain ⟨sf, _, sc, sa, _, _, sh, sl⟩ := sendQueuedEvents_spec fx (lockSingle st) hE
    have hlog : (enterProcess (sendQueuedEvents fx (lockSingle st)) frames off).log =
        st.log ++ subCallEntries st frames off := by
      show (sendQueuedEvents fx (lockSingle st)).log ++ _ = _
      rw [sl]
      unfold subCallEntries processCall queuedEvents
      simp only [sh, List.append_assoc]
      rfl
    have h0 : OutTop (eng.MAX_MIDI_EVENTS * 2) outs
        (enterProcess (sendQueuedEvents fx (lockSingle st)) frames off) :=
      h.congr_top ⟨sa, sc⟩
    rw [← hlog] at hlen ⊢
    have hr := runCallbacks_outTop fx eng
      (fx.processCallbacks (enterProcess (sendQueuedEvents fx (lockSingle st)) frames off).log)
      (enterProcess (sendQueuedEvents fx (lockSingle st)) frames off) outs
      ((congrArg Fixed.fEnabled sf).trans hen) rfl ((congrArg Fixed.hasEventOut sf).trans hport)
      h0 (by
        show _ + (sendQueuedEvents fx (lockSingle st)).fMidiEventCount ≤ _
        rw [sc]
        exact hlen)
    exact hr.congr_top ⟨rfl, rfl⟩

/-! ### MIDI output of a block -/

theorem OutInv.congr_inv {fx : AEffect} {cap n m : Nat} {L0 : List Call} {a b : Plugin}
    (h : OutInv fx cap n m L0 a) (hl : b.log = a.log)
    (he : b.fMidiEvents = a.fMidiEvents ∧ b.fMidiEventCount = a.fMidiEventCount) :
    OutInv fx cap n m L0 b := by
  obtain ⟨added, hlog, himp⟩ := h
  refine ⟨added, hl.trans hlog, fun h1 h2 h3 => ?_⟩
  exact (himp h1 (by rw [← he.2]; exact h2) h3).congr_top he

theorem OutTop.enqueue_top {cap : Nat} {outs : List VstMidiEvent} {st : Plugin}
    (h : OutTop cap outs st) (v : Option VstMidiEvent)
    (hlen : (enqueue cap st v).fMidiEventCount + outs.length ≤ cap) :
    OutTop cap outs (enqueue cap st v) := by
  cases v with
  | none => exact h
  | some ev =>
    unfold Carla.enqueue at hlen ⊢
    simp only at hlen ⊢
    split
    · exact h
    · rename_i hfull
      rw [if_neg hfull] at hlen
      have hl : st.fMidiEventCount + 1 + outs.length ≤ cap := hlen
      obtain ⟨h1, h2, h3⟩ := h
      refine ⟨h1, fun i hi => ?_, fun j hj hjl => ?_⟩
      · show outs[i]? = some (Function.update st.fMidiEvents st.fMidiEventCount ev (cap - 1 - i))
        rw [Function.update_noteq (by omega)]
        exact h2 i hi
      · have hj' : st.fMidiEventCount + 1 ≤ j := hj
        show (Function.update st.fMidiEvents st.fMidiEventCount ev j).type = 0
        rw [Function.update_noteq (by omega)]
        exact h3 j (by omega) hjl

theorem OutTop.clearQueued_top {cap : Nat} {outs : List VstMidiEvent} {st : Plugin}
    (h : OutTop cap outs st) (hlen : st.fMidiEventCount + outs.length ≤ cap) :
    OutTop cap outs (clearQueued st) := by
  unfold Carla.clearQueued
  split
  · obtain ⟨h1, h2, h3⟩ := h
    refine ⟨h1, fun i hi => ?_, fun j _ hjl => ?_⟩
    · show outs[i]? = some (if cap - 1 - i < st.fMidiEventCount then VstMidiEvent.zero
        else st.fMidiEvents (cap - 1 - i))
      rw [if_neg (by omega)]
      exact h2 i hi
    · show (if j < st.fMidiEventCount then VstMidiEvent.zero else st.fMidiEvents j).type = 0
      split
      · rfl
      · exact h3 j (by omega) hjl
  · exact h

theorem submittedIn_quiet (fx : AEffect) (cap : Nat) (L0 added q : List Call)
    (hq : ∀ c ∈ q, c.quiet = true) :
    submittedIn fx cap L0 (added ++ q) = submittedIn fx cap L0 added := by
  unfold submittedIn
  rw [callbacksOf_append, callbacksOf_quiet fx _ q hq, List.append_nil]

theorem callbacksOf_subCallEntries (fx : AEffect) (pre : List Call) (st : Plugin)
    (frames off : Nat) :
    callbacksOf fx pre (subCallEntries st frames off) =
      fx.processCallbacks (pre ++ subCallEntries st frames off) := by
  have hp : (processCall st frames off).isProcessCall = true := by
    unfold processCall; split <;> rfl
  have hd : ∀ evs, (Call.dispatch .effProcessEvents 0 0 (.events evs) 0).isProcessCall = false :=
    fun _ => rfl
  unfold subCallEntries
  split
  · simp only [List.singleton_append, callbacksOf, hd, hp, Bool.false_eq_true, if_false,
      if_true, List.nil_append, List.append_nil, List.append_assoc]
  · simp only [List.nil_append, callbacksOf, hp, if_true, List.append_nil]

theorem submittedIn_subCall (fx : AEffect) (cap : Nat) (L0 added q : List Call) (st : Plugin)
    (frames off : Nat) (hq : ∀ c ∈ q, c.quiet = true) :
    submittedIn fx cap L0 (added ++ (subCallEntries st frames off ++ q)) =
      submittedIn fx cap L0 added ++
        submittedAll cap (fx.processCallbacks (L0 ++ added ++ subCallEntries st frames off)) := by
  unfold submittedIn
  rw [callbacksOf_append, callbacksOf_append, callbacksOf_quiet fx _ q hq, List.append_nil,
    callbacksOf_subCallEntries, submittedAll_append]

theorem QueueWithin.left {n : Nat} {a b : List Call} (h : QueueWithin n (a ++ b)) :
    QueueWithin n a :=
  fun evs he => h evs (List.mem_append_left _ he)

theorem OutInv.enqueueFrame {fx : AEffect} {cap n m : Nat} {L0 : List Call} {a b : Plugin}
    {v : Option VstMidiEvent} (h : OutInv fx cap n m L0 a) (hf : EnqueueFrame cap v a b)
    (hnm : n + m < cap) : OutInv fx cap n m L0 b := by
  obtain ⟨added, hlog, himp⟩ := h
  obtain ⟨_, ⟨q, hq, hquiet⟩, hc, ha⟩ := hf
  refine ⟨added ++ q, by rw [hq, hlog, List.append_assoc], fun h1 h2 h3 => ?_⟩
  rw [submittedIn_quiet fx cap L0 added q hquiet] at h3 ⊢
  have hge : a.fMidiEventCount ≤ (enqueue cap a v).fMidiEventCount := by
    cases v with
    | none => exact le_refl _
    | some ev =>
      unfold enqueue appendMidiEvent
      simp only
      split
      · exact le_refl _
      · exact Nat.le_succ _
  rw [hc] at h2
  have h0 := himp h1.left (by omega) h3
  exact (h0.enqueue_top v (by omega)).congr_top ⟨ha, hc⟩

/-- After a successful `processSingle` in a state satisfying `OutInv`, the submitted events
sit at the top of the array whenever the recorded queue sizes and the submissions stay within
`n` and `m`. -/
theorem OutInv.processSingle {fx : AEffect} {n m : Nat} {L0 : List Call} (eng : Engine)
    (st : Plugin) (inBuffer outBuffer : Option Buffers) (frames off : Nat)
    (h : OutInv fx (eng.MAX_MIDI_EVENTS * 2) n m L0 st)
    (hE : st.hasEffect = true) (hen : st.fEnabled = true) (hport : st.hasEventOut = true)
    (hnm : n + m < eng.MAX_MIDI_EVENTS * 2)
    (htrue : (processSingle fx eng st inBuffer outBuffer frames off).2.2 = true) :
    ∃ added, (processSingle fx eng st inBuffer outBuffer frames off).1.log = L0 ++ added ∧
      (QueueWithin n added →
        (submittedIn fx (eng.MAX_MIDI_EVENTS * 2) L0 added).length ≤ m →
        OutTop (eng.MAX_MIDI_EVENTS * 2) (submittedIn fx (eng.MAX_MIDI_EVENTS * 2) L0 added)
          (processSingle fx eng st inBuffer outBuffer frames off).1 ∧
        (processSingle fx eng st inBuffer outBuffer frames off).1.fMidiEventCount ≤ n) := by
  obtain ⟨added, hlog, himp⟩ := h
  rcases processSingle_state fx eng st inBuffer outBuffer frames off with hs | hs
  · rw [hs.1] at htrue; exact absurd htrue (by simp)
  · obtain ⟨_, hf, hcan, _⟩ := hs
    obtain ⟨_, _, _, pc, _, _, _, _, q, hq, hquiet⟩ :=
      processSingle_success fx eng st inBuffer outBuffer frames off hf hE hcan
    refine ⟨added ++ (subCallEntries st frames off ++ q), ?_, fun h1 h3 => ?_⟩
    · rw [hq, hlog, List.append_assoc, List.append_assoc]
    · rw [submittedIn_subCall fx _ L0 added q st frames off hquiet, ← hlog] at h3 ⊢
      have hcount : st.fMidiEventCount ≤ n := by
        by_cases hz : st.fMidiEventCount > 0
        · have hmem : Call.dispatch .effProcessEvents 0 0 (.events (queuedEvents st)) 0 ∈
              added ++ (subCallEntries st frames off ++ q) := by
            apply List.mem_append_right
            apply List.mem_append_left
            unfold subCallEntries
            rw [if_pos hz]
            simp
          have := h1 _ hmem
          simpa [queuedEvents] using this
        · omega
      have h0 := himp h1.left hcount (by
        simp only [List.length_append] at h3
        omega)
      refine ⟨processSingle_outTop fx eng st inBuffer outBuffer frames off _ hE hen hport htrue
        h0 (by omega), ?_⟩
      rw [pc]
      exact hcount

theorem OutLoop.splitBlock_out {fx : AEffect} {n m : Nat} {L0 : List Call} {F : Fixed}
    (eng : Engine) (blk : Block) (inBuffer : Option Buffers) (time : Nat) (s : EventLoop)
    (h : OutLoop fx (eng.MAX_MIDI_EVENTS * 2) n m L0 F s)
    (hE : F.hasEffect = true) (hen : F.fEnabled = true) (hport : F.hasEventOut = true)
    (hnm : n + m < eng.MAX_MIDI_EVENTS * 2) :
    OutLoop fx (eng.MAX_MIDI_EVENTS * 2) n m L0 F (splitBlock fx eng blk inBuffer time s) := by
  obtain ⟨hF, hinv⟩ := h
  refine ⟨(splitBlock_fixed fx eng blk inBuffer time s).1.trans hF, ?_⟩
  have hinv0 : OutInv fx (eng.MAX_MIDI_EVENTS * 2) n m L0
      (withLockState (blk.singleMutexHeld s.attempts) s.st) := hinv.congr_inv rfl ⟨rfl, rfl⟩
  have hF0 : (withLockState (blk.singleMutexHeld s.attempts) s.st).fixed = F := hF
  unfold Carla.splitBlock
  simp only
  split
  · rename_i htrue
    obtain ⟨added, hlog, himp⟩ := OutInv.processSingle eng _ inBuffer s.out
      (time - s.timeOffset) s.timeOffset hinv0
      (by rw [← hF0] at hE; exact hE) (by rw [← hF0] at hen; exact hen)
      (by rw [← hF0] at hport; exact hport) hnm htrue
    refine ⟨added, (clearQueued_spec _).2.1.trans hlog, fun h1 _ h3 => ?_⟩
    obtain ⟨hta, htc⟩ := himp h1 h3
    exact hta.clearQueued_top (by omega)
  · rename_i hfalse
    have : (processSingle fx eng (withLockState (blk.singleMutexHeld s.attempts) s.st) inBuffer
        s.out (time - s.timeOffset) s.timeOffset).1 =
        withLockState (blk.singleMutexHeld s.attempts) s.st :=
      (processSingle_samplePos ..).2 (by simpa using hfalse)
    rw [this]
    exact hinv0

theorem OutLoop.final {fx : AEffect} {n m : Nat} {L0 : List Call} {F : Fixed}
    (eng : Engine) (st : Plugin) (inBuffer outBuffer : Option Buffers) (frames off : Nat)
    (hF : st.fixed = F) (hinv : OutInv fx (eng.MAX_MIDI_EVENTS * 2) n m L0 st)
    (hE : F.hasEffect = true) (hen : F.fEnabled = true) (hport : F.hasEventOut = true)
    (hnm : n + m < eng.MAX_MIDI_EVENTS * 2) :
    OutInv fx (eng.MAX_MIDI_EVENTS * 2) n m L0
      (processSingle fx eng st inBuffer outBuffer frames off).1 := by
  by_cases htrue : (processSingle fx eng st inBuffer outBuffer frames off).2.2 = true
  · obtain ⟨added, hlog, himp⟩ := OutInv.processSingle eng st inBuffer outBuffer frames off hinv
      (by rw [← hF] at hE; exact hE) (by rw [← hF] at hen; exact hen)
      (by rw [← hF] at hport; exact hport) hnm htrue
    exact ⟨added, hlog, fun h1 _ h3 => (himp h1 h3).1⟩
  · rw [(processSingle_samplePos ..).2 (by simpa using htrue)]
    exact hinv

theorem OutLoop.eventLoop_out {fx : AEffect} {n m : Nat} {L0 : List Call} {F : Fixed}
    (eng : Engine) (blk : Block) (inBuffer : Option Buffers) (frames : Nat) (sa : Bool)
    (hE : F.hasEffect = true) (hen : F.fEnabled = true) (hport : F.hasEventOut = true)
    (hnm : n + m < eng.MAX_MIDI_EVENTS * 2) (es : List EngineEvent) (s : EventLoop)
    (h : OutLoop fx (eng.MAX_MIDI_EVENTS * 2) n m L0 F s) :
    OutLoop fx (eng.MAX_MIDI_EVENTS * 2) n m L0 F
      (Carla.eventLoop fx eng blk inBuffer frames sa es s) := by
  refine eventLoop_induction fx eng blk inBuffer frames sa
    (OutLoop fx (eng.MAX_MIDI_EVENTS * 2) n m L0 F) ?_ ?_ es s h
  · intro t time ht _ _
    exact OutLoop.splitBlock_out eng blk inBuffer time t ht hE hen hport hnm
  · intro t e ht
    have hf := (handleEvent_spec fx eng sa e t).2.2.2.2
    exact ⟨hf.1.trans ht.1, ht.2.enqueueFrame hf hnm⟩

theorem OutTop.blockStart_top (eng : Engine) (st : Plugin) :
    OutTop (eng.MAX_MIDI_EVENTS * 2) [] (blockStart eng st) := by
  have hM : MAX_MIDI_CHANNELS = 16 := rfl
  have hN : MAX_MIDI_NOTE = 128 := rfl
  refine ⟨fun e he => absurd he (List.not_mem_nil e), fun i hi => absurd hi (by simp), ?_⟩
  intro j hj hjl
  simp only [List.length_nil, Nat.add_zero] at hjl
  have hz := clearEventArray_slot eng st j hjl
  show ((processReset (clearEventArray eng st)).fMidiEvents j).type = 0
  have hj' : (processReset (clearEventArray eng st)).fMidiEventCount ≤ j := hj
  by_cases hr : (clearEventArray eng st).needsReset = true
  · obtain ⟨qa, qc⟩ := processReset_queue (clearEventArray eng st) hr
    rw [qc] at hj'
    rw [qa]
    split
    · rename_i hs
      rw [if_pos hs] at hj'
      have hj2 : MAX_MIDI_CHANNELS * 2 ≤ j := hj'
      have := resetAllSoundOff_slots (clearEventArray eng st).fMidiEvents MAX_MIDI_CHANNELS
        (le_refl _) j
      unfold resetAllSoundOff
      simp only
      rw [this, if_neg (by omega), if_neg (by omega), hz]
      rfl
    · rename_i hs
      rw [if_neg hs] at hj'
      split
      · rename_i hc
        rw [if_pos hc] at hj'
        have hj2 : MAX_MIDI_NOTE ≤ j := hj'
        have := resetNotesOff_slots (clearEventArray eng st).fMidiEvents
          (clearEventArray eng st).ctrlChannel.toNat MAX_MIDI_NOTE j
        unfold resetNotesOff
        simp only
        rw [this, if_neg (by omega), hz]
        rfl
      · rw [hz]; rfl
  · have : processReset (clearEventArray eng st) = clearEventArray eng st := by
      unfold processReset
      rw [if_neg hr]
    rw [this, hz]
    rfl

theorem OutTop.drainExtNotes_top {cap : Nat} (notes : List ExternalMidiNote) (st : Plugin)
    (h : OutTop cap [] st) : OutTop cap [] (drainExtNotes cap notes st) := by
  induction notes generalizing st with
  | nil => exact h.congr_top ⟨rfl, rfl⟩
  | cons n ns ih =>
    rw [Carla.drainExtNotes]
    split
    · apply ih
      obtain ⟨h1, h2, h3⟩ := h
      refine ⟨h1, fun i hi => absurd hi (by simp), fun j hj hjl => ?_⟩
      have hj' : st.fMidiEventCount + 1 ≤ j := hj
      show (Function.update st.fMidiEvents st.fMidiEventCount _ j).type = 0
      rw [Function.update_noteq (by omega)]
      exact h3 j (by omega) hjl
    · exact h.congr_top ⟨rfl, rfl⟩

theorem OutInv.loopStart_inv (fx : AEffect) (eng : Engine) (blk : Block) (st : Plugin)
    (outBuffer : Option Buffers) (n m : Nat) :
    OutInv fx (eng.MAX_MIDI_EVENTS * 2) n m st.log (loopStart eng blk st outBuffer).st ∧
    OutInv fx (eng.MAX_MIDI_EVENTS * 2) n m st.log (blockStart eng st) := by
  have h0 := OutTop.blockStart_top eng st
  have hl : (blockStart eng st).log = st.log := (blockStart_spec eng st).2
  have h1 : OutTop (eng.MAX_MIDI_EVENTS * 2) [] (processExtNotes eng blk (blockStart eng st)) := by
    unfold processExtNotes
    split
    · exact OutTop.drainExtNotes_top _ _ h0
    · exact h0
  have hl1 : (processExtNotes eng blk (blockStart eng st)).log = st.log :=
    (processExtNotes_spec eng blk _).2.trans hl
  constructor
  · exact ⟨[], by rw [List.append_nil]; exact hl1, fun _ _ _ => h1⟩
  · exact ⟨[], by rw [List.append_nil]; exact hl, fun _ _ _ => h0⟩

theorem OutInv.blockBody_inv (fx : AEffect) (eng : Engine) (blk : Block) (st : Plugin)
    (inBuffer outBuffer : Option Buffers) (frames n m : Nat)
    (hE : st.hasEffect = true) (hen : st.fEnabled = true) (hport : st.hasEventOut = true)
    (hnm : n + m < eng.MAX_MIDI_EVENTS * 2) :
    OutInv fx (eng.MAX_MIDI_EVENTS * 2) n m st.log
      (blockBody fx eng blk st inBuffer outBuffer frames).1 := by
  obtain ⟨i1, i2⟩ := OutInv.loopStart_inv fx eng blk st outBuffer n m
  have bf : (blockStart eng st).fixed = st.fixed := (blockStart_spec eng st).1
  have hE' : st.fixed.hasEffect = true := hE
  have hen' : st.fixed.fEnabled = true := hen
  have hport' : st.fixed.hasEventOut = true := hport
  unfold Carla.blockBody
  split
  · have h0 : OutLoop fx (eng.MAX_MIDI_EVENTS * 2) n m st.log st.fixed
        { st := processExtNotes eng blk (blockStart eng st), out := outBuffer } :=
      ⟨(processExtNotes_spec eng blk _).1.trans bf, i1⟩
    have hl := OutLoop.eventLoop_out eng blk inBuffer frames
      (!(processExtNotes eng blk (blockStart eng st)).fOptions.fixedBuffer) hE' hen' hport' hnm
      blk.events _ h0
    unfold processWithEvents
    simp only
    split
    · exact OutLoop.final eng _ inBuffer _ _ _ hl.1 (hl.2.congr_inv rfl ⟨rfl, rfl⟩) hE' hen' hport'
        hnm
    · exact hl.2
  · exact OutLoop.final eng _ inBuffer _ _ _ bf (i2.congr_inv rfl ⟨rfl, rfl⟩) hE' hen' hport' hnm

theorem blockBody_midiOut (fx : AEffect) (eng : Engine) (blk : Block) (st : Plugin)
    (inBuffer outBuffer : Option Buffers) (frames : Nat) :
    (blockBody fx eng blk st inBuffer outBuffer frames).1.midiOut = st.midiOut := by
  have h0 : (blockStart eng st).midiOut = st.midiOut := by
    show (setTimeInfo eng (processReset (clearEventArray eng st))).midiOut = _
    rw [(setTimeInfo_outReset ..).1, (processReset_midiOut _).1, (clearEventArray_outReset ..).1]
  unfold blockBody
  split
  · exact (processWithEvents_outReset ..).1.trans h0
  · show (processSingle fx eng _ _ _ _ _).1.midiOut = _
    rw [(processSingle_outReset ..).1, (withLockState_outReset ..).1, h0]

/-- The output events of an active block in closed form. -/
theorem process_midiOut (fx : AEffect) (eng : Engine) (blk : Block) (st : Plugin)
    (inBuffer outBuffer : Option Buffers) (frames n m : Nat)
    (hactive : st.active = true) (hen : st.fEnabled = true) (hE : st.hasEffect = true)
    (hport : st.hasEventOut = true) (hnm : n + m < eng.MAX_MIDI_EVENTS * 2) :
    ∃ added : List Call,
      (process fx eng blk st inBuffer outBuffer frames).1.log = st.log ++ added ∧
      (QueueWithin n added →
        (process fx eng blk st inBuffer outBuffer frames).1.fMidiEventCount ≤ n →
        (submittedIn fx (eng.MAX_MIDI_EVENTS * 2) st.log added).length ≤ m →
        (process fx eng blk st inBuffer outBuffer frames).1.midiOut =
          st.midiOut ++ (submittedIn fx (eng.MAX_MIDI_EVENTS * 2) st.log added).map
            forwardedAs) := by
  obtain ⟨added, hlog, himp⟩ := OutInv.blockBody_inv fx eng blk st inBuffer outBuffer frames n m hE
    hen hport hnm
  rw [process_eq_body fx eng blk st inBuffer outBuffer frames hactive hen]
  refine ⟨added, (processMidiOutput_log _ _).trans hlog, fun h1 h2 h3 => ?_⟩
  have h2' : (blockBody fx eng blk st inBuffer outBuffer frames).1.fMidiEventCount ≤ n := by
    have := (processMidiOutput_array eng
      (blockBody fx eng blk st inBuffer outBuffer frames).1).2
    rw [← this]; exact h2
  have ht := himp h1 h2' h3
  have hp : (blockBody fx eng blk st inBuffer outBuffer frames).1.hasEventOut = true :=
    (congrArg Fixed.hasEventOut (blockBody_fixed fx eng blk st inBuffer outBuffer frames)).trans
      hport
  show (processMidiOutput eng _).midiOut = _
  rw [(processMidiOutput_outTop eng _ _ hp ht (by omega)).1, blockBody_midiOut]

theorem midiTyped_wellFormed (evs : List (Option VstMidiEvent))
    (h : ∀ e ∈ evs, e ≠ none) :
    midiTyped evs = (evs.filterMap id).filter (fun e => decide (e.type = kVstMidiType)) := by
  induction evs with
  | nil => rfl
  | cons e rest ih =>
    have ih := ih (fun e' he' => h e' (List.mem_cons_of_mem _ he'))
    cases e with
    | none => exact absurd rfl (h none (List.mem_cons_self _ _))
    | some ev =>
      rw [midiTyped]
      simp only [List.filterMap_cons, id]
      by_cases ht : ev.type ≠ kVstMidiType
      · rw [if_pos ht, ih, List.filter_cons_of_neg (by simpa using ht)]
      · rw [if_neg ht, ih, List.filter_cons_of_pos (by simpa using ht)]

set_option maxRecDepth 100000 in
/-- C26 fails on the code for a submission with more than `MAX_MIDI_EVENTS * 2` entries: the
module submits one list of 1024 events that are not MIDI-typed followed by one MIDI-typed
event (so `m = 1`), the queue holds no input event (`n = 0`, and `0 + 1 < 1024`), yet nothing
is written to the output event port, because `audioMasterProcessEvents` looks at the first
1024 entries of a submission only. -/
theorem process_midi_output_counterexample :
    overlongExampleFx.processCallbacks [Call.process 16 0] =
      [{ opcode := .audioMasterProcessEvents,
         ptr := .events (List.replicate 1024 (some sysexExampleEvent) ++
           [some outExampleEvent]) }] ∧
    ((List.replicate 1024 (some sysexExampleEvent) ++ [some outExampleEvent]).filterMap id).filter
      (fun e => decide (e.type = kVstMidiType)) = [outExampleEvent] ∧
    (process overlongExampleFx {} {} outPortExampleState none none 16).1.log =
      [Call.process 16 0] ∧
    (process overlongExampleFx {} {} outPortExampleState none none 16).1.fMidiEventCount = 0 ∧
    0 + 1 < ({} : Engine).MAX_MIDI_EVENTS * 2 ∧
    (process overlongExampleFx {} {} outPortExampleState none none 16).1.midiOut = [] := by
  refine ⟨rfl, by decide, by decide, by decide, by decide, by decide⟩

/-- C26, amended. In an active, enabled block of an adapter with a loaded module and an
output event port, let `added` be the log entries of the block. If every hand-over of queued
input events recorded in `added` has at most `n` events, the queue holds at most `n` input
events at the end of the block, and the events the module submitted (`submittedIn`: for each
`audioMasterProcessEvents` callback, the MIDI-typed entries among the first
`MAX_MIDI_EVENTS * 2` entries of its list, up to the first null entry) are `m` in number with
`n + m < MAX_MIDI_EVENTS * 2`, then the block appends to the output event port exactly those
events, in the order of submission, each as its time stamp, the channel
`MIDI_GET_CHANNEL_FROM_DATA` of its first data byte (the low nibble for a channel message) and
its three data bytes; nothing else is written, in particular no input event and no event that
is not MIDI-typed. For a submission of at most `MAX_MIDI_EVENTS * 2` entries without a null
entry the events looked at are all its MIDI-typed events. -/
theorem process_midi_output (fx : AEffect) (eng : Engine) (blk : Block) (st : Plugin)
    (inBuffer outBuffer : Option Buffers) (frames n m : Nat)
    (hactive : st.active = true) (hen : st.fEnabled = true) (hE : st.hasEffect = true)
    (hport : st.hasEventOut = true) (hnm : n + m < eng.MAX_MIDI_EVENTS * 2) :
    (∃ added : List Call,
      (process fx eng blk st inBuffer outBuffer frames).1.log = st.log ++ added ∧
      (QueueWithin n added →
        (process fx eng blk st inBuffer outBuffer frames).1.fMidiEventCount ≤ n →
        (submittedIn fx (eng.MAX_MIDI_EVENTS * 2) st.log added).length = m →
        (process fx eng blk st inBuffer outBuffer frames).1.midiOut =
          st.midiOut ++ (submittedIn fx (eng.MAX_MIDI_EVENTS * 2) st.log added).map
            forwardedAs)) ∧
    (∀ (c : MasterCall) (evs : List (Option VstMidiEvent)),
      c.opcode = .audioMasterProcessEvents → c.ptr = .events evs →
      evs.length ≤ eng.MAX_MIDI_EVENTS * 2 → (∀ e ∈ evs, e ≠ none) →
      submittedBy (eng.MAX_MIDI_EVENTS * 2) c =
        (evs.filterMap id).filter (fun e => decide (e.type = kVstMidiType))) ∧
    (∀ ev : VstMidiEvent,
      forwardedAs ev =
        ⟨ev.deltaFrames, MIDI_GET_CHANNEL_FROM_DATA ev.midiData0, ev.midiData0, ev.midiData1,
          ev.midiData2⟩ ∧
      (MIDI_IS_CHANNEL_MESSAGE ev.midiData0 = true →
        (forwardedAs ev).channel = ev.midiData0 &&& 0x0F)) := by
  refine ⟨?_, ?_, ?_⟩
  · obtain ⟨added, hlog, himp⟩ := process_midiOut fx eng blk st inBuffer outBuffer frames n m
      hactive hen hE hport hnm
    exact ⟨added, hlog, fun h1 h2 h3 => himp h1 h2 (le_of_eq h3)⟩
  · intro c evs hop hp hlen hnn
    unfold submittedBy
    rw [if_pos hop, hp]
    simp only
    rw [List.take_of_length_le hlen]
    exact midiTyped_wellFormed evs hnn
  · intro ev
    refine ⟨rfl, fun hc => ?_⟩
    show MIDI_GET_CHANNEL_FROM_DATA ev.midiData0 = _
    unfold MIDI_GET_CHANNEL_FROM_DATA
    rw [if_pos hc]

set_option maxRecDepth 100000 in
/-- C26, witness of `process_midi_output`: a module that submits a note-on, an event that is
not MIDI-typed and a note-off on channel 1 gets the two MIDI events forwarded, in that
order. -/
theorem process_midi_output_witness :
    (outPortExampleState.active = true ∧ outPortExampleState.fEnabled = true ∧
      outPortExampleState.hasEffect = true ∧ outPortExampleState.hasEventOut = true ∧
      0 + 2 < ({} : Engine).MAX_MIDI_EVENTS * 2) ∧
    (∃ added : List Call,
      (process submitExampleFx {} {} outPortExampleState none none 16).1.log =
        outPortExampleState.log ++ added ∧
      (QueueWithin 0 added →
        (process submitExampleFx {} {} outPortExampleState none none 16).1.fMidiEventCount ≤ 0 →
        (submittedIn submitExampleFx (({} : Engine).MAX_MIDI_EVENTS * 2)
          outPortExampleState.log added).length = 2 →
        (process submitExampleFx {} {} outPortExampleState none none 16).1.midiOut =
          outPortExampleState.midiOut ++
            (submittedIn submitExampleFx (({} : Engine).MAX_MIDI_EVENTS * 2)
              outPortExampleState.log added).map forwardedAs)) ∧
    (process submitExampleFx {} {} outPortExampleState none none 16).1.midiOut =
      [⟨0, 0, 0x90, 60, 100⟩, ⟨0, 1, 0x81, 60, 100⟩] :=
  ⟨⟨rfl, rfl, rfl, rfl, by decide⟩,
    (process_midi_output submitExampleFx {} {} outPortExampleState none none 16 0 2 rfl rfl rfl
      rfl (by decide)).1,
    by decide⟩

/-! ### The reverse scans on a full array -/

/-- With no queued input event and every slot of the array occupied, the reverse scan of
`audioMasterProcessEvents` leaves the array. -/
theorem reverseFindFree_full (arr : Nat → VstMidiEvent) (cap : Nat)
    (hfull : ∀ j, j < cap → (arr j).type ≠ 0) (start : Nat) :
    reverseFindFree arr 0 cap start = .outOfBounds := by
  induction start with
  | zero =>
    unfold reverseFindFree
    rw [if_neg (by omega)]
    split
    · rfl
    · rw [if_neg (hfull 0 (by omega))]
  | succ s ih =>
    unfold reverseFindFree
    rw [if_neg (by omega)]
    split
    · rfl
    · rw [if_neg (hfull _ (by omega))]
      exact ih

/-- With no queued input event and every slot of the array occupied, the reverse scan of the
MIDI output section leaves the array. -/
theorem midiOutScan_full (arr : Nat → VstMidiEvent) (cap : Nat)
    (hfull : ∀ j, j < cap → (arr j).type ≠ 0) (start : Nat) :
    (midiOutScan arr 0 cap start).2 = true := by
  induction start with
  | zero =>
    unfold midiOutScan
    rw [if_neg (by omega)]
    split
    · rfl
    · rw [if_neg (hfull 0 (by omega))]
  | succ s ih =>
    unfold midiOutScan
    rw [if_neg (by omega)]
    split
    · rfl
    · rw [if_neg (hfull _ (by omega))]
      exact ih

theorem OutTop.full_top {cap : Nat} {outs : List VstMidiEvent} {st : Plugin}
    (h : OutTop cap outs st) (hlen : outs.length = cap) :
    ∀ j, j < cap → (st.fMidiEvents j).type ≠ 0 := by
  intro j hj
  obtain ⟨h1, h2, _⟩ := h
  have := h2 (cap - 1 - j) (by omega)
  have hk : cap - 1 - (cap - 1 - j) = j := by omega
  rw [hk] at this
  rw [h1 _ (List.mem_iff_getElem?.mpr ⟨_, this⟩)]
  decide

theorem midiTyped_replicate (n : Nat) (ev : VstMidiEvent) (h : ev.type = kVstMidiType) :
    midiTyped (List.replicate n (some ev)) = List.replicate n ev := by
  induction n with
  | zero => rfl
  | succ n ih =>
    rw [List.replicate_succ, midiTyped, if_neg (by simp [h]), ih, List.replicate_succ]

/-- The processing section of a block of the flood examples: the single `processSingle`. -/
theorem floodExample_body (fx : AEffect) :
    (blockBody fx {} {} outPortExampleState none none 16).1 =
      (processSingle fx {} (withLockState false (blockStart {} outPortExampleState))
        none none 16 0).1 := by
  unfold blockBody
  rw [if_neg (by decide)]

theorem floodExample_start :
    OutTop 1024 [] (withLockState false (blockStart {} outPortExampleState)) ∧
    (withLockState false (blockStart {} outPortExampleState)).fMidiEventCount = 0 ∧
    CanProcess {} (withLockState false (blockStart {} outPortExampleState)) none none :=
  ⟨(OutTop.blockStart_top {} outPortExampleState).congr_top ⟨rfl, rfl⟩, rfl,
    fun h => absurd h (by decide), fun h => absurd h (by decide), Or.inr rfl⟩

/-- In the state a master callback leaves with no queued input event and the event array
full of output events, the MIDI output scan and the scan of a further submission both leave
the array. -/
theorem fullArray_scans (eng : Engine) (st : Plugin)
    (hcount : st.fMidiEventCount = 0)
    (hfull : ∀ j, j < eng.MAX_MIDI_EVENTS * 2 → (st.fMidiEvents j).type ≠ 0)
    (hport : st.hasEventOut = true) :
    (processMidiOutput eng st).outOfBounds = true ∧
    ∀ (ev : VstMidiEvent) (rest : List (Option VstMidiEvent)), ev.type = kVstMidiType →
      (storeOutEvents (eng.MAX_MIDI_EVENTS * 2) (some ev :: rest) st).outOfBounds = true := by
  constructor
  · unfold processMidiOutput
    rw [if_pos hport, hcount]
    simp only
    rw [midiOutScan_full _ _ hfull]
    simp
  · intro ev rest ht
    rw [storeOutEvents, if_neg (by simp [ht]), hcount, reverseFindFree_full _ _ hfull]

theorem floodSubmission_submitted :
    submittedBy (({} : Engine).MAX_MIDI_EVENTS * 2) floodSubmission =
      List.replicate 1024 outExampleEvent := by
  unfold submittedBy floodSubmission
  simp only [if_true]
  rw [List.take_of_length_le (le_of_eq (List.length_replicate _ _)), midiTyped_replicate _ _ rfl]

theorem floodExample_callbacks (l : List Call) :
    floodExampleFx.processCallbacks l = [floodSubmission] := rfl

theorem floodTwiceExample_callbacks (l : List Call) :
    floodTwiceExampleFx.processCallbacks l = [floodSubmission, extraSubmission] := rfl

/-- After the processing section of the flood example the event array is full of output
events and no input event is queued. -/
theorem floodExample_full :
    (blockBody floodExampleFx {} {} outPortExampleState none none 16).1.fMidiEventCount = 0 ∧
    (∀ j, j < ({} : Engine).MAX_MIDI_EVENTS * 2 →
      ((blockBody floodExampleFx {} {} outPortExampleState none none 16).1.fMidiEvents j).type
        ≠ 0) := by
  obtain ⟨h0, hc0, hcan⟩ := floodExample_start
  have htrue := processSingle_true floodExampleFx {}
    (withLockState false (blockStart {} outPortExampleState)) none none 16 0 (by decide) hcan
  have htop := processSingle_outTop floodExampleFx {}
    (withLockState false (blockStart {} outPortExampleState)) none none 16 0 [] rfl rfl rfl
    htrue h0 (by
      rw [floodExample_callbacks, hc0, List.nil_append]
      simp only [submittedAll, List.append_nil]
      rw [floodSubmission_submitted, List.length_replicate])
  rw [floodExample_callbacks, List.nil_append] at htop
  simp only [submittedAll, List.append_nil] at htop
  rw [floodSubmission_submitted] at htop
  have hsf := processSingle_storeFrame floodExampleFx {}
    (withLockState false (blockStart {} outPortExampleState)) none none 16 0
  rw [floodExample_body]
  exact ⟨hsf.1.trans hc0, OutTop.full_top htop (List.length_replicate _ _)⟩

theorem processSingle_success_flag (fx : AEffect) (eng : Engine) (s : Plugin)
    (inB outB : Buffers) (frames off : Nat) :
    (unlockSingle (runPlugin fx eng s inB outB frames off).1).outOfBounds =
      (runCallbacks fx eng (fx.processCallbacks (enterProcess s frames off).log)
        (enterProcess s frames off)).outOfBounds := rfl

/-- A submission that fills the empty event array, followed by a submission that starts with
a MIDI-typed event: the scan for the further event leaves the array. -/
theorem runCallbacks_overflow (fx : AEffect) (eng : Engine) (c1 c2 : MasterCall) (st : Plugin)
    (hen : st.fEnabled = true) (hproc : st.fIsProcessing = true)
    (hport : st.hasEventOut = true) (hcount : st.fMidiEventCount = 0)
    (h : OutTop (eng.MAX_MIDI_EVENTS * 2) [] st)
    (h1 : (submittedBy (eng.MAX_MIDI_EVENTS * 2) c1).length = eng.MAX_MIDI_EVENTS * 2)
    (hcap : 0 < eng.MAX_MIDI_EVENTS * 2)
    (hop : c2.opcode = .audioMasterProcessEvents) (ev : VstMidiEvent)
    (rest : List (Option VstMidiEvent)) (hp : c2.ptr = .events (some ev :: rest))
    (ht : ev.type = kVstMidiType) :
    (runCallbacks fx eng [c1, c2] st).outOfBounds = true := by
  rw [runCallbacks, runCallbacks, runCallbacks]
  have b := handleAudioMasterCallback_outTop fx eng st c1 [] hen hproc hport h (by
    rw [hcount, List.nil_append, h1]; exact le_refl _)
  rw [List.nil_append] at b
  obtain ⟨cf, _, _, cc, _, _, _, cp⟩ := handleAudioMasterCallback_callbackFrame fx eng st c1
  generalize (handleAudioMasterCallback fx eng st c1).1 = st2 at b cf cc cp
  have k1 : st2.fEnabled = true := (congrArg Fixed.fEnabled cf).trans hen
  have k2 : st2.fIsProcessing = true := cp.trans hproc
  have k3 : st2.hasEventOut = true := (congrArg Fixed.hasEventOut cf).trans hport
  have k4 : st2.fMidiEventCount = 0 := cc.trans hcount
  have k5 : ∀ j, j < eng.MAX_MIDI_EVENTS * 2 → (st2.fMidiEvents j).type ≠ 0 := OutTop.full_top b h1
  have e : (handleAudioMasterCallback fx eng st2 c2).1 = (masterProcessEvents eng st2 c2.ptr).1 := by
    unfold handleAudioMasterCallback
    rw [hop]
  rw [e, hp]
  unfold masterProcessEvents
  rw [if_neg (by simp [k1]), if_neg (by simp [k2]), if_neg (by simp [k3]), if_neg (by simp),
    if_neg (by omega)]
  simp only
  obtain ⟨n, hn⟩ : ∃ n, eng.MAX_MIDI_EVENTS * 2 = n + 1 := ⟨eng.MAX_MIDI_EVENTS * 2 - 1, by omega⟩
  have ht2 : (some ev :: rest).take (eng.MAX_MIDI_EVENTS * 2) = some ev :: rest.take n := by
    rw [hn, List.take_succ_cons]
  rw [ht2]
  exact (fullArray_scans eng st2 k4 k5 k3).2 ev _ ht

/-- In the flood example with a further submission, the scan of `audioMasterProcessEvents`
for the further event leaves the array. -/
theorem floodTwiceExample_store :
    (blockBody floodTwiceExampleFx {} {} outPortExampleState none none 16).1.outOfBounds
      = true := by
  obtain ⟨h0, hc0, hcan⟩ := floodExample_start
  rw [floodExample_body]
  rcases processSingle_state floodTwiceExampleFx {}
    (withLockState false (blockStart {} outPortExampleState)) none none 16 0 with hs | hs
  · have := processSingle_true floodTwiceExampleFx {}
      (withLockState false (blockStart {} outPortExampleState)) none none 16 0 (by decide) hcan
    rw [hs.1] at this
    exact absurd this (by simp)
  · rw [hs.2.2.2, processSingle_success_flag, floodTwiceExample_callbacks]
    refine runCallbacks_overflow floodTwiceExampleFx {} floodSubmission extraSubmission _
      rfl rfl rfl rfl (h0.congr_top ⟨rfl, rfl⟩) ?_ (by decide) rfl outExampleEvent [] rfl rfl
    rw [floodSubmission_submitted]
    exact List.length_replicate _ _

/-- A process call whose processing section leaves the event array full with no input event
queued: the MIDI output section keeps the array and its reverse scan leaves it. -/
theorem process_full_array (fx : AEffect) (eng : Engine) (blk : Block) (st : Plugin)
    (inBuffer outBuffer : Option Buffers) (frames : Nat)
    (hactive : st.active = true) (henabled : st.fEnabled = true)
    (hport : st.hasEventOut = true)
    (hcount : (blockBody fx eng blk st inBuffer outBuffer frames).1.fMidiEventCount = 0)
    (hfull : ∀ j, j < eng.MAX_MIDI_EVENTS * 2 →
      ((blockBody fx eng blk st inBuffer outBuffer frames).1.fMidiEvents j).type ≠ 0) :
    (process fx eng blk st inBuffer outBuffer frames).1.fMidiEventCount = 0 ∧
    (∀ j, j < eng.MAX_MIDI_EVENTS * 2 →
      ((process fx eng blk st inBuffer outBuffer frames).1.fMidiEvents j).type ≠ 0) ∧
    (process fx eng blk st inBuffer outBuffer frames).1.outOfBounds = true := by
  have hf := blockBody_fixed fx eng blk st inBuffer outBuffer frames
  rw [process_eq_body fx eng blk st inBuffer outBuffer frames hactive henabled]
  generalize (blockBody fx eng blk st inBuffer outBuffer frames).1 = b at hf hcount hfull
  have hp : b.hasEventOut = true := (congrArg Fixed.hasEventOut hf).trans hport
  have harr := processMidiOutput_array eng b
  refine ⟨harr.2.trans hcount, ?_, (fullArray_scans eng b hcount hfull hp).1⟩
  intro j hj
  show ((processMidiOutput eng b).fMidiEvents j).type ≠ 0
  rw [harr.1]
  exact hfull j hj

/-- C27 fails on the code. A module that submits 1024 MIDI-typed events in one
`audioMasterProcessEvents` call while no input event is queued fills the event array
(`MAX_MIDI_EVENTS * 2 = 1024` slots, the count of input events 0); the reverse scan of the
MIDI output section at the end of that block then steps below slot 0 (the unsigned index
wraps) and reads outside the array, and so does the reverse scan of `audioMasterProcessEvents`
when the module submits one more event in the same process call. -/
theorem reverse_scans_leave_array :
    (process floodExampleFx {} {} outPortExampleState none none 16).1.fMidiEventCount = 0 ∧
    (∀ j, j < ({} : Engine).MAX_MIDI_EVENTS * 2 →
      ((process floodExampleFx {} {} outPortExampleState none none 16).1.fMidiEvents j).type
        ≠ 0) ∧
    (process floodExampleFx {} {} outPortExampleState none none 16).1.outOfBounds = true ∧
    (blockBody floodTwiceExampleFx {} {} outPortExampleState none none 16).1.outOfBounds
      = true :=
  have g := process_full_array floodExampleFx {} {} outPortExampleState none none 16 rfl rfl rfl
    floodExample_full.1 floodExample_full.2
  ⟨g.1, g.2.1, g.2.2, floodTwiceExample_store⟩

/-! ### Lock patterns and frame coverage -/

theorem Splits.snoc {frames t0 t : Nat} {l : List Attempt} (h : Splits frames t0 l t)
    (a : Attempt) (h1 : a.timeOffset = t) (h2 : 0 < a.frames) (h3 : t + a.frames < frames) :
    Splits frames t0 (l ++ [a]) (if a.ok then t + a.frames else t) := by
  induction l generalizing t0 with
  | nil =>
    have : t0 = t := h
    subst this
    exact ⟨h1, h2, h3, rfl⟩
  | cons b rest ih =>
    obtain ⟨b1, b2, b3, b4⟩ := h
    exact ⟨b1, b2, b3, ih b4⟩

theorem Splits.mono {frames t t' : Nat} {l : List Attempt} (h : Splits frames t l t') :
    t ≤ t' ∧ ∀ a ∈ l, t ≤ a.timeOffset ∧ a.timeOffset + a.frames < frames ∧ 0 < a.frames ∧
      a.timeOffset ≤ t' := by
  induction l generalizing t with
  | nil =>
    have : t = t' := h
    exact ⟨by omega, fun a ha => absurd ha (List.not_mem_nil a)⟩
  | cons b rest ih =>
    obtain ⟨b1, b2, b3, b4⟩ := h
    obtain ⟨i1, i2⟩ := ih b4
    have hle : t ≤ t' := by
      split at i1 <;> omega
    refine ⟨hle, fun a ha => ?_⟩
    rcases List.mem_cons.mp ha with ha | ha
    · subst ha
      exact ⟨by omega, by omega, b2, by omega⟩
    · obtain ⟨c1, c2, c3, c4⟩ := i2 a ha
      refine ⟨?_, c2, c3, c4⟩
      split at c1 <;> omega

/-- In a chain of attempts followed by one more that starts at the offset reached, each
attempt is followed by one that starts at its end when it succeeded and at its own start when
it failed. -/
theorem Splits.adjacent {frames t t' : Nat} {l : List Attempt} (h : Splits frames t l t')
    (f : Attempt) (hf : f.timeOffset = t') (i : Nat) (a b : Attempt)
    (ha : (l ++ [f])[i]? = some a) (hb : (l ++ [f])[i + 1]? = some b) :
    b.timeOffset = if a.ok then a.timeOffset + a.frames else a.timeOffset := by
  induction l generalizing t i with
  | nil =>
    simp at hb
  | cons c rest ih =>
    obtain ⟨c1, c2, c3, c4⟩ := h
    cases i with
    | zero =>
      simp only [List.cons_append, List.getElem?_cons_zero, Option.some.injEq] at ha
      subst ha
      simp only [List.cons_append, zero_add, List.getElem?_cons_succ] at hb
      cases rest with
      | nil =>
        simp only [List.nil_append, List.getElem?_cons_zero, Option.some.injEq] at hb
        subst hb
        have : (if c.ok = true then t + c.frames else t) = t' := c4
        rw [hf, ← this, c1]
      | cons d rest' =>
        simp only [List.cons_append, List.getElem?_cons_zero, Option.some.injEq] at hb
        subst hb
        rw [c4.1, c1]
    | succ j =>
      simp only [List.cons_append, List.getElem?_cons_succ] at ha hb
      exact ih c4 j ha hb

/-- A `processSingle` on non-null buffers over a non-empty range that cannot take the lock
returns false, leaves the state and silences the window. -/
theorem processSingle_held (fx : AEffect) (eng : Engine) (st : Plugin)
    (inBuffer outBuffer : Buffers) (frames off : Nat) (hf : frames ≠ 0)
    (hoff : eng.isOffline = false) (hlock : st.singleMutexLocked = true) :
    processSingle fx eng st (some inBuffer) (some outBuffer) frames off =
      (st, some (silenceRange st.audioOutCount frames off outBuffer), false) := by
  simp [processSingle, hf, hoff, hlock]

theorem pluginOutput_outside (fx : AEffect) (st : Plugin) (inB outB : Buffers)
    (frames off i k : Nat) (h : ¬ (i < st.audioOutCount ∧ off ≤ k ∧ k < off + frames)) :
    pluginOutput fx st inB outB frames off i k = outB i k := by
  unfold pluginOutput
  split
  · unfold writeWindow
    rw [if_neg h]
  · unfold writeWindow
    show (if i < st.audioOutCount ∧ off ≤ k ∧ k < off + frames then _ else
      silenceRange st.audioOutCount frames off outB i k) = _
    rw [if_neg h, silenceRange_apply, if_neg h]

/-- A successful `processSingle` changes no sample outside the window of the output
channels. -/
theorem processSingle_outside (fx : AEffect) (eng : Engine) (st : Plugin)
    (inBuffer outBuffer : Buffers) (frames off : Nat) (hf : frames ≠ 0)
    (hlock : eng.isOffline = true ∨ st.singleMutexLocked = false) :
    (processSingle fx eng st (some inBuffer) (some outBuffer) frames off).2.2 = true ∧
    ∃ o' : Buffers,
      (processSingle fx eng st (some inBuffer) (some outBuffer) frames off).2.1 = some o' ∧
      ∀ i k, ¬ (i < st.audioOutCount ∧ off ≤ k ∧ k < off + frames) → o' i k = outBuffer i k := by
  rw [processSingle_output fx eng st inBuffer outBuffer frames off hf hlock]
  refine ⟨rfl, _, rfl, fun i k h => ?_⟩
  have hfix : (postState fx eng st inBuffer outBuffer frames off).fixed = st.fixed := by
    unfold postState
    exact (runPlugin_spec fx eng _ inBuffer outBuffer frames off).1.trans
      (sendQueuedEvents_fixed fx (lockSingle st))
  have hc : (postState fx eng st inBuffer outBuffer frames off).audioOutCount =
      st.audioOutCount := congrArg Fixed.audioOutCount hfix
  rw [postProcess_apply]
  unfold postValue
  rw [if_neg (by rw [hc]; exact h)]
  unfold rawOutput runPlugin
  simp only
  have hc2 : (sendQueuedEvents fx (lockSingle st)).audioOutCount = st.audioOutCount :=
    congrArg Fixed.audioOutCount (sendQueuedEvents_fixed fx (lockSingle st))
  exact pluginOutput_outside fx _ inBuffer outBuffer frames off i k (by rw [hc2]; exact h)

theorem CoverInv.handleEvent_cover {eng : Engine} {blk : Block} {F : Fixed} {frames : Nat}
    {l : List Attempt} {s : EventLoop} (fx : AEffect) (sa : Bool) (e : EngineEvent)
    (h : CoverInv eng blk F frames l s) :
    CoverInv eng blk F frames l (handleEvent fx eng sa e s) := by
  obtain ⟨h1, h2, h3, h4, h5, h6, o, ho, h7⟩ := h
  obtain ⟨e1, _, e3, e4, hfr⟩ := handleEvent_spec fx eng sa e s
  refine ⟨hfr.1.trans h1, e4.trans h2, by rw [e3]; exact h3, by rw [e3]; exact h4, h5, h6, o,
    e1.trans ho, ?_⟩
  rw [e3]
  exact h7

/-- The step of the invariant over one `processSingle` of the block, for the frames up to
`time`; `final` tells whether it is the last call of the block (after the loop). -/
theorem CoverInv.attempt {eng : Engine} {blk : Block} {F : Fixed} {frames : Nat}
    {l : List Attempt} {s : EventLoop} (fx : AEffect) (inBuffer : Buffers) (time : Nat)
    (h : CoverInv eng blk F frames l s) (hgt : time > s.timeOffset) :
    (attemptAt fx eng blk (some inBuffer) time s).timeOffset = s.timeOffset ∧
    (attemptAt fx eng blk (some inBuffer) time s).frames = time - s.timeOffset ∧
    (attemptAt fx eng blk (some inBuffer) time s).index = l.length ∧
    ((attemptAt fx eng blk (some inBuffer) time s).ok = true ↔
      (eng.isOffline = true ∨ blk.singleMutexHeld l.length = false)) ∧
    ∃ o' : Buffers, (attemptAt fx eng blk (some inBuffer) time s).out = some o' ∧
      (∀ i k, i < F.audioOutCount →
        k < (if (attemptAt fx eng blk (some inBuffer) time s).ok then time else s.timeOffset) →
        ∃ a ∈ l ++ [attemptAt fx eng blk (some inBuffer) time s],
          a.ok = true ∧ a.covers k ∧ ∃ oa : Buffers, a.out = some oa ∧ o' i k = oa i k) ∧
      ((attemptAt fx eng blk (some inBuffer) time s).ok = false →
        ∀ i k, i < F.audioOutCount → s.timeOffset ≤ k → k < time → o' i k = 0) := by
  obtain ⟨h1, h2, h3, h4, h5, h6, o, ho, h7⟩ := h
  have hc : (withLockState (blk.singleMutexHeld s.attempts) s.st).audioOutCount =
      F.audioOutCount := by rw [← h1]; rfl
  have hf : time - s.timeOffset ≠ 0 := by omega
  refine ⟨rfl, rfl, h2, ?_⟩
  unfold attemptAt
  simp only
  rw [ho, h2]
  by_cases hlock : eng.isOffline = true ∨ blk.singleMutexHeld l.length = false
  · obtain ⟨ptrue, o', po, pout⟩ := processSingle_outside fx eng
      (withLockState (blk.singleMutexHeld l.length) s.st) inBuffer o (time - s.timeOffset)
      s.timeOffset hf hlock
    rw [h2] at hc
    rw [hc] at pout
    refine ⟨⟨fun _ => hlock, fun _ => ptrue⟩, o', po, ?_, ?_⟩
    · intro i k hi hk
      rw [ptrue] at hk
      simp only [if_true] at hk
      by_cases hb : k < s.timeOffset
      · obtain ⟨a, ha, a1, a2, oa, a3, a4⟩ := h7 i k hi hb
        refine ⟨a, List.mem_append_left _ ha, a1, a2, oa, a3, ?_⟩
        rw [pout i k (by omega)]
        exact a4
      · refine ⟨_, List.mem_append_right _ (List.mem_singleton_self _), ptrue, ?_, o', po, rfl⟩
        show s.timeOffset ≤ k ∧ k < s.timeOffset + (time - s.timeOffset)
        exact ⟨by omega, by omega⟩
    · intro hfalse
      rw [ptrue] at hfalse
      exact absurd hfalse (by simp)
  · have hoff : eng.isOffline = false := by
      cases hx : eng.isOffline with
      | true => exact absurd (Or.inl hx) hlock
      | false => rfl
    have hheld : (withLockState (blk.singleMutexHeld l.length) s.st).singleMutexLocked = true := by
      cases hx : blk.singleMutexHeld l.length with
      | true => rfl
      | false => exact absurd (Or.inr hx) hlock
    have heq := processSingle_held fx eng (withLockState (blk.singleMutexHeld l.length) s.st)
      inBuffer o (time - s.timeOffset) s.timeOffset hf hoff hheld
    rw [h2] at hc
    rw [heq, hc]
    simp only
    refine ⟨⟨fun hx => absurd hx (by simp), fun hx => absurd hx hlock⟩, _, rfl, ?_, ?_⟩
    · intro i k hi hk
      simp only [Bool.false_eq_true, if_false] at hk
      obtain ⟨a, ha, a1, a2, oa, a3, a4⟩ := h7 i k hi hk
      refine ⟨a, List.mem_append_left _ ha, a1, a2, oa, a3, ?_⟩
      rw [silenceRange_apply, if_neg (by omega)]
      exact a4
    · intro _ i k hi hk1 hk2
      rw [silenceRange_apply, if_pos ⟨hi, hk1, by omega⟩]

theorem splitBlock_eq (fx : AEffect) (eng : Engine) (blk : Block) (inBuffer : Option Buffers)
    (time : Nat) (s : EventLoop) :
    (splitBlock fx eng blk inBuffer time s).out = (attemptAt fx eng blk inBuffer time s).out ∧
    (splitBlock fx eng blk inBuffer time s).attempts = s.attempts + 1 ∧
    (splitBlock fx eng blk inBuffer time s).timeOffset =
      (if (attemptAt fx eng blk inBuffer time s).ok then time else s.timeOffset) := by
  unfold splitBlock attemptAt
  simp only
  split <;> exact ⟨rfl, rfl, rfl⟩

theorem range_snoc_map (l : List Attempt) (a : Attempt)
    (h : l.map Attempt.index = List.range l.length) (ha : a.index = l.length) :
    (l ++ [a]).map Attempt.index = List.range (l ++ [a]).length := by
  rw [List.map_append, h, List.length_append, List.length_singleton, List.range_succ]
  simp [ha]

theorem CoverInv.splitBlock_cover {eng : Engine} {blk : Block} {F : Fixed} {frames : Nat}
    {l : List Attempt} {s : EventLoop} (fx : AEffect) (inBuffer : Buffers) (time : Nat)
    (h : CoverInv eng blk F frames l s) (hgt : time > s.timeOffset) (hlt : time < frames) :
    CoverInv eng blk F frames (l ++ [attemptAt fx eng blk (some inBuffer) time s])
      (splitBlock fx eng blk (some inBuffer) time s) := by
  obtain ⟨a1, a2, a3, a4, o', a5, a6, _⟩ := CoverInv.attempt fx inBuffer time h hgt
  obtain ⟨h1, h2, h3, h4, h5, h6, o, ho, h7⟩ := h
  obtain ⟨e1, e2, e3⟩ := splitBlock_eq fx eng blk (some inBuffer) time s
  have hsn := Splits.snoc h3 (attemptAt fx eng blk (some inBuffer) time s) a1
    (by rw [a2]; omega) (by rw [a2]; omega)
  have hoff : (if (attemptAt fx eng blk (some inBuffer) time s).ok = true then
      s.timeOffset + (attemptAt fx eng blk (some inBuffer) time s).frames else s.timeOffset) =
      (if (attemptAt fx eng blk (some inBuffer) time s).ok = true then time
        else s.timeOffset) := by
    rw [a2]
    split
    · omega
    · rfl
  rw [hoff] at hsn
  refine ⟨(splitBlock_fixed fx eng blk (some inBuffer) time s).1.trans h1, ?_, ?_, ?_,
    range_snoc_map l _ h5 a3, ?_, o', e1.trans a5, ?_⟩
  · rw [e2, h2, List.length_append, List.length_singleton]
  · rw [e3]; exact hsn
  · rw [e3]
    split
    · exact Or.inr hlt
    · exact h4
  · intro a ha
    rcases List.mem_append.mp ha with ha | ha
    · exact h6 a ha
    · rw [List.mem_singleton.mp ha, a3]
      exact a4
  · rw [e3]
    exact a6

theorem loopAttempts_cons (fx : AEffect) (eng : Engine) (blk : Block)
    (inBuffer : Option Buffers) (frames : Nat) (sa : Bool) (e : EngineEvent)
    (es : List EngineEvent) (s : EventLoop) :
    loopAttempts fx eng blk inBuffer frames sa (e :: es) s =
      (if e.time < frames ∧ e.time > s.timeOffset ∧ sa = true then
          [attemptAt fx eng blk inBuffer e.time s]
        else [])
        ++ loopAttempts fx eng blk inBuffer frames sa es
          (eventStep fx eng blk inBuffer frames sa s e) := rfl

/-- The invariant holds along the event loop, for the attempts the loop makes. -/
theorem CoverInv.eventLoop_cover {eng : Engine} {blk : Block} {F : Fixed} {frames : Nat}
    (fx : AEffect) (inBuffer : Buffers) (sa : Bool) (es : List EngineEvent)
    (l : List Attempt) (s : EventLoop) (h : CoverInv eng blk F frames l s) :
    CoverInv eng blk F frames (l ++ loopAttempts fx eng blk (some inBuffer) frames sa es s)
      (Carla.eventLoop fx eng blk (some inBuffer) frames sa es s) := by
  induction es generalizing l s with
  | nil =>
    rw [eventLoop_nil]
    simp only [loopAttempts, List.append_nil]
    exact h
  | cons e es ih =>
    rw [eventLoop_cons, loopAttempts_cons]
    by_cases h1 : e.time ≥ frames
    · have hs : eventStep fx eng blk (some inBuffer) frames sa s e = s := by
        unfold eventStep; rw [if_pos h1]
      rw [hs, if_neg (by omega), List.nil_append]
      exact ih l s h
    · by_cases h2 : e.time > s.timeOffset ∧ sa = true
      · have hs : eventStep fx eng blk (some inBuffer) frames sa s e =
            Carla.handleEvent fx eng sa e (Carla.splitBlock fx eng blk (some inBuffer) e.time s) := by
          unfold eventStep; rw [if_neg h1]; simp only; rw [if_pos h2]
        rw [hs, if_pos ⟨by omega, h2⟩, ← List.append_assoc]
        exact ih _ _ ((CoverInv.splitBlock_cover fx inBuffer e.time h h2.1 (by omega)).handleEvent_cover
          fx sa e)
      · have hs : eventStep fx eng blk (some inBuffer) frames sa s e =
            Carla.handleEvent fx eng sa e s := by
          unfold eventStep; rw [if_neg h1]; simp only; rw [if_neg h2]
        rw [hs, if_neg (fun hh => h2 hh.2), List.nil_append]
        exact ih l _ (h.handleEvent_cover fx sa e)

theorem CoverInv.start_cover (eng : Engine) (blk : Block) (st : Plugin)
    (outBuffer : Buffers) (frames : Nat) :
    CoverInv eng blk st.fixed frames [] (loopStart eng blk st (some outBuffer)) := by
  refine ⟨(processExtNotes_spec eng blk _).1.trans (blockStart_spec eng st).1, rfl, rfl,
    Or.inl rfl, rfl, fun a ha => absurd ha (List.not_mem_nil a), outBuffer, rfl, ?_⟩
  intro i k _ hk
  exact absurd hk (Nat.not_lt_zero k)

theorem Splits.covered {frames t t' : Nat} {l : List Attempt} (h : Splits frames t l t')
    (k : Nat) (h1 : t ≤ k) (h2 : k < t') : ∃ a ∈ l, a.ok = true ∧ a.covers k := by
  induction l generalizing t with
  | nil =>
    have : t = t' := h
    omega
  | cons b rest ih =>
    obtain ⟨b1, b2, b3, b4⟩ := h
    by_cases hok : b.ok = true
    · rw [if_pos hok] at b4
      by_cases hk : k < t + b.frames
      · exact ⟨b, List.mem_cons_self _ _, hok, by
          show b.timeOffset ≤ k ∧ k < b.timeOffset + b.frames
          rw [b1]; exact ⟨h1, hk⟩⟩
      · obtain ⟨a, ha, r⟩ := ih b4 (by omega)
        exact ⟨a, List.mem_cons_of_mem _ ha, r⟩
    · rw [if_neg hok] at b4
      obtain ⟨a, ha, r⟩ := ih b4 h1
      exact ⟨a, List.mem_cons_of_mem _ ha, r⟩

/-- The attempts of a block with an event input port, non-null buffers and `frames > 0`, and
the output buffers `process` returns. -/
theorem blockAttempts_spec (fx : AEffect) (eng : Engine) (blk : Block) (st : Plugin)
    (inBuffer outBuffer : Buffers) (frames : Nat)
    (hactive : st.active = true) (hen : st.fEnabled = true) (hev : st.hasEventIn = true)
    (hframes : 0 < frames) :
    ∃ (l : List Attempt) (f : Attempt) (out' : Buffers),
      blockAttempts fx eng blk st (some inBuffer) (some outBuffer) frames = l ++ [f] ∧
      Splits frames 0 l f.timeOffset ∧ 0 < f.frames ∧ f.timeOffset + f.frames = frames ∧
      (l ++ [f]).map Attempt.index = List.range (l ++ [f]).length ∧
      (∀ a ∈ l ++ [f],
        a.ok = true ↔ (eng.isOffline = true ∨ blk.singleMutexHeld a.index = false)) ∧
      (process fx eng blk st (some inBuffer) (some outBuffer) frames).2 = some out' ∧
      (∀ i k, i < st.audioOutCount → k < frames →
        (∃ a ∈ l ++ [f], a.ok = true ∧ a.covers k ∧
          ∃ oa : Buffers, a.out = some oa ∧ out' i k = oa i k) ∨ out' i k = 0) := by
  have h0 := CoverInv.start_cover eng blk st outBuffer frames
  have hl := CoverInv.eventLoop_cover fx inBuffer
    (!(loopStart eng blk st (some outBuffer)).st.fOptions.fixedBuffer) blk.events [] _ h0
  rw [List.nil_append] at hl
  have hafter : loopAfter fx eng blk st (some inBuffer) (some outBuffer) frames
      blk.events.length =
      eventLoop fx eng blk (some inBuffer) frames
        (!(loopStart eng blk st (some outBuffer)).st.fOptions.fixedBuffer) blk.events
        (loopStart eng blk st (some outBuffer)) := by
    unfold loopAfter
    rw [List.take_length]
    rfl
  generalize hsdef : eventLoop fx eng blk (some inBuffer) frames
    (!(loopStart eng blk st (some outBuffer)).st.fOptions.fixedBuffer) blk.events
    (loopStart eng blk st (some outBuffer)) = s at hl hafter
  generalize hldef : loopAttempts fx eng blk (some inBuffer) frames
    (!(loopStart eng blk st (some outBuffer)).st.fOptions.fixedBuffer) blk.events
    (loopStart eng blk st (some outBuffer)) = l at hl
  have hgt : frames > s.timeOffset := by
    rcases hl.2.2.2.1 with h | h <;> omega
  obtain ⟨a1, a2, a3, a4, o', a5, a6, a7⟩ := CoverInv.attempt fx inBuffer frames hl hgt
  obtain ⟨h1, h2, h3, h4, h5, h6, o, ho, h7⟩ := hl
  have hA : blockAttempts fx eng blk st (some inBuffer) (some outBuffer) frames =
      l ++ [attemptAt fx eng blk (some inBuffer) frames s] := by
    unfold blockAttempts
    rw [hafter, hldef, if_pos hgt]
  have hout : (process fx eng blk st (some inBuffer) (some outBuffer) frames).2 =
      (attemptAt fx eng blk (some inBuffer) frames s).out := by
    rw [process_eq_body fx eng blk st (some inBuffer) (some outBuffer) frames hactive hen]
    show (blockBody fx eng blk st (some inBuffer) (some outBuffer) frames).2 = _
    have hev' : (blockStart eng st).hasEventIn = true :=
      (congrArg Fixed.hasEventIn (blockStart_spec eng st).1).trans hev
    unfold blockBody
    rw [if_pos hev']
    unfold processWithEvents
    simp only
    have hs' : eventLoop fx eng blk (some inBuffer) frames
        (!(processExtNotes eng blk (blockStart eng st)).fOptions.fixedBuffer) blk.events
        { st := processExtNotes eng blk (blockStart eng st), out := some outBuffer } = s := hsdef
    rw [hs', if_pos hgt]
    rfl
  refine ⟨l, attemptAt fx eng blk (some inBuffer) frames s, o', hA, ?_, ?_, ?_, ?_, ?_,
    hout.trans a5, ?_⟩
  · rw [a1]; exact h3
  · rw [a2]; omega
  · rw [a1, a2]; omega
  · exact range_snoc_map l _ h5 a3
  · intro a ha
    rcases List.mem_append.mp ha with ha | ha
    · exact h6 a ha
    · rw [List.mem_singleton.mp ha, a3]
      exact a4
  · intro i k hi hk
    by_cases hok : (attemptAt fx eng blk (some inBuffer) frames s).ok = true
    · left
      refine a6 i k hi ?_
      rw [if_pos hok]; exact hk
    · by_cases hb : k < s.timeOffset
      · left
        refine a6 i k hi ?_
        rw [if_neg hok]; exact hb
      · right
        exact a7 (by simpa using hok) i k hi (by omega) hk

/-- C21. For every active, enabled block with an event input port, non-null buffers and
`frames > 0`, whatever the lock does at each `processSingle` call of the block (the calls are
numbered in order, and a call succeeds exactly when the engine is offline or the lock is free
at that call): the first call starts at frame offset 0; a call that fails is followed by a call
that starts at the same frame offset, a call that succeeds by one that starts at its end; every
call has a non-empty frame range inside `[0, frames)` and the union of the frame ranges of all
calls is exactly `[0, frames)`. Every output frame of every output channel is either the
frame a successful call covering it has written, or zero; and when every call of the block
fails, the whole output `[0, frames)` of every output channel is zero. -/
theorem process_lock_patterns (fx : AEffect) (eng : Engine) (blk : Block) (st : Plugin)
    (inBuffer outBuffer : Buffers) (frames : Nat)
    (hactive : st.active = true) (hen : st.fEnabled = true) (hev : st.hasEventIn = true)
    (hframes : 0 < frames) :
    ∃ (calls : List Attempt) (out' : Buffers),
      blockAttempts fx eng blk st (some inBuffer) (some outBuffer) frames = calls ∧
      calls ≠ [] ∧
      calls.map Attempt.index = List.range calls.length ∧
      (∀ a ∈ calls,
        a.ok = true ↔ (eng.isOffline = true ∨ blk.singleMutexHeld a.index = false)) ∧
      (∀ a, calls[0]? = some a → a.timeOffset = 0) ∧
      (∀ i a b, calls[i]? = some a → calls[i + 1]? = some b →
        b.timeOffset = if a.ok then a.timeOffset + a.frames else a.timeOffset) ∧
      (∀ a ∈ calls, 0 < a.frames ∧ a.timeOffset + a.frames ≤ frames) ∧
      (∀ k, k < frames ↔ ∃ a ∈ calls, a.covers k) ∧
      (process fx eng blk st (some inBuffer) (some outBuffer) frames).2 = some out' ∧
      (∀ i k, i < st.audioOutCount → k < frames →
        (∃ a ∈ calls, a.ok = true ∧ a.covers k ∧
          ∃ oa : Buffers, a.out = some oa ∧ out' i k = oa i k) ∨ out' i k = 0) ∧
      ((∀ a ∈ calls, a.ok = false) →
        ∀ i k, i < st.audioOutCount → k < frames → out' i k = 0) := by
  obtain ⟨l, f, out', hA, hS, hf1, hf2, hidx, hok, hout, hcov⟩ :=
    blockAttempts_spec fx eng blk st inBuffer outBuffer frames hactive hen hev hframes
  have hmono := Splits.mono hS
  have hin : ∀ a ∈ l ++ [f], 0 < a.frames ∧ a.timeOffset + a.frames ≤ frames := by
    intro a ha
    rcases List.mem_append.mp ha with ha | ha
    · obtain ⟨_, c2, c3, _⟩ := hmono.2 a ha
      exact ⟨c3, by omega⟩
    · rw [List.mem_singleton.mp ha]
      exact ⟨hf1, by omega⟩
  refine ⟨l ++ [f], out', hA, by simp, hidx, hok, ?_, ?_, hin, ?_, hout, hcov, ?_⟩
  · intro a ha
    cases l with
    | nil =>
      simp only [List.nil_append, List.getElem?_cons_zero, Option.some.injEq] at ha
      subst ha
      exact hS.symm
    | cons c rest =>
      simp only [List.cons_append, List.getElem?_cons_zero, Option.some.injEq] at ha
      subst ha
      exact hS.1
  · intro i a b ha hb
    exact Splits.adjacent hS f rfl i a b ha hb
  · intro k
    constructor
    · intro hk
      by_cases hk' : k < f.timeOffset
      · obtain ⟨a, ha, _, hc⟩ := Splits.covered hS k (Nat.zero_le k) hk'
        exact ⟨a, List.mem_append_left _ ha, hc⟩
      · exact ⟨f, List.mem_append_right _ (List.mem_singleton_self f), by
          show f.timeOffset ≤ k ∧ k < f.timeOffset + f.frames
          omega⟩
    · rintro ⟨a, ha, hc⟩
      have := (hin a ha).2
      have hc' : a.timeOffset ≤ k ∧ k < a.timeOffset + a.frames := hc
      omega
  · intro hall i k hi hk
    rcases hcov i k hi hk with ⟨a, ha, hok', _⟩ | h0
    · rw [hall a ha] at hok'
      exact absurd hok' (by simp)
    · exact h0

/-- C21, witness of `process_lock_patterns`: a block of 64 frames with events at frames 10 and
37 in which the lock is held at every call; the two output channels, handed over full of ones,
come back zero on `[0, 64)`. -/
theorem process_lock_patterns_witness :
    (lockPatternState.active = true ∧ lockPatternState.fEnabled = true ∧
      lockPatternState.hasEventIn = true ∧ 0 < 64) ∧
    ∃ out' : Buffers,
      (process {} {} lockHeldBlock lockPatternState (some fun _ _ => 1) (some fun _ _ => 1)
        64).2 = some out' ∧
      ∀ i k, i < 2 → k < 64 → out' i k = 0 := by
  refine ⟨⟨rfl, rfl, rfl, by decide⟩, ?_⟩
  obtain ⟨calls, out', _, _, _, hok, _, _, _, _, hout, _, hzero⟩ :=
    process_lock_patterns {} {} lockHeldBlock lockPatternState (fun _ _ => 1) (fun _ _ => 1) 64
      rfl rfl rfl (by decide)
  refine ⟨out', hout, hzero (fun a ha => ?_)⟩
  cases h : a.ok with
  | false => rfl
  | true =>
    rcases (hok a ha).mp h with h' | h'
    · exact absurd h' (by decide)
    · exact absurd (show true = false from h') (by decide)

/-! ### Rounding to binary32 -/

theorem pow2_eq (e : Int) : pow2 e = (2 : ℚ) ^ e := by
  unfold pow2
  split
  · rename_i h
    obtain ⟨n, rfl⟩ := Int.eq_ofNat_of_zero_le h
    simp
  · rename_i h
    obtain ⟨n, hn⟩ := Int.eq_ofNat_of_zero_le (show 0 ≤ -e by omega)
    have he : e = -(n : Int) := by omega
    subst he
    simp

theorem pow2_pos (e : Int) : 0 < (2 : ℚ) ^ e := zpow_pos (by norm_num) e

theorem zpow2_add (m n : Int) : (2 : ℚ) ^ m * (2 : ℚ) ^ n = (2 : ℚ) ^ (m + n) :=
  (zpow_add₀ (by norm_num) m n).symm

theorem zpow2_le {m n : Int} (h : m ≤ n) : (2 : ℚ) ^ m ≤ (2 : ℚ) ^ n :=
  zpow_le_zpow_right₀ (by norm_num) h

theorem zpow2_lt_iff {m n : Int} : (2 : ℚ) ^ m < (2 : ℚ) ^ n ↔ m < n :=
  zpow_lt_zpow_iff_right₀ (by norm_num)

theorem log2Fuel_spec (fuel n : Nat) (hf : n ≤ fuel) (hn : n ≠ 0) :
    2 ^ log2Fuel fuel n ≤ n ∧ n < 2 ^ (log2Fuel fuel n + 1) := by
  induction fuel generalizing n with
  | zero => omega
  | succ fuel ih =>
    unfold log2Fuel
    split
    · constructor
      · simp only [pow_zero]; omega
      · simp only [zero_add, pow_one]; omega
    · obtain ⟨h1, h2⟩ := ih (n / 2) (by omega) (by omega)
      generalize log2Fuel fuel (n / 2) = k at h1 h2
      rw [pow_succ] at h2 ⊢
      rw [pow_succ, pow_succ]
      constructor <;> omega

theorem floorLog2_le {n : Nat} (hn : n ≠ 0) : 2 ^ floorLog2 n ≤ n :=
  (log2Fuel_spec n n (le_refl n) hn).1

theorem lt_floorLog2 {n : Nat} (hn : n ≠ 0) : n < 2 ^ (floorLog2 n + 1) :=
  (log2Fuel_spec n n (le_refl n) hn).2

theorem binade_spec {a : ℚ} (ha : 0 < a) :
    (2 : ℚ) ^ binade a ≤ a ∧ a < (2 : ℚ) ^ (binade a + 1) := by
  have hnum : 0 < a.num := Rat.num_pos.mpr ha
  have hn0 : a.num.natAbs ≠ 0 := by omega
  have hd0 : a.den ≠ 0 := a.den_nz
  have h1 : (a.num.natAbs : Int) = a.num := Int.natAbs_of_nonneg hnum.le
  have hcast : (a.num : ℚ) = (a.num.natAbs : ℚ) := by
    conv_lhs => rw [← h1]
    exact Int.cast_natCast _
  have hdiv : a = (a.num.natAbs : ℚ) / (a.den : ℚ) := by
    rw [← hcast]; exact (Rat.num_div_den a).symm
  have hdpos : (0 : ℚ) < a.den := by exact_mod_cast Nat.pos_of_ne_zero hd0
  have p1 : ((2 : ℚ) ^ (floorLog2 a.num.natAbs : Int)) ≤ (a.num.natAbs : ℚ) := by
    rw [zpow_natCast]; exact_mod_cast floorLog2_le hn0
  have p2 : (a.num.natAbs : ℚ) < (2 : ℚ) ^ ((floorLog2 a.num.natAbs : Int) + 1) := by
    have : a.num.natAbs < 2 ^ (floorLog2 a.num.natAbs + 1) := lt_floorLog2 hn0
    have h2 : ((floorLog2 a.num.natAbs : Int) + 1)
        = ((floorLog2 a.num.natAbs + 1 : Nat) : Int) := by
      push_cast; rfl
    rw [h2, zpow_natCast]; exact_mod_cast this
  have r1 : ((2 : ℚ) ^ (floorLog2 a.den : Int)) ≤ (a.den : ℚ) := by
    rw [zpow_natCast]; exact_mod_cast floorLog2_le hd0
  have r2 : (a.den : ℚ) < (2 : ℚ) ^ ((floorLog2 a.den : Int) + 1) := by
    have : a.den < 2 ^ (floorLog2 a.den + 1) := lt_floorLog2 hd0
    have h2 : ((floorLog2 a.den : Int) + 1) = ((floorLog2 a.den + 1 : Nat) : Int) := by
      push_cast; rfl
    rw [h2, zpow_natCast]; exact_mod_cast this
  unfold binade
  simp only [pow2_eq]
  generalize (floorLog2 a.num.natAbs : Int) = p at p1 p2 ⊢
  generalize (floorLog2 a.den : Int) = r at r1 r2 ⊢
  generalize (a.num.natAbs : ℚ) = N at hdiv p1 p2
  generalize (a.den : ℚ) = D at hdiv hdpos r1 r2
  have e1 : (2 : ℚ) ^ (p - r + 1) * (2 : ℚ) ^ r = (2 : ℚ) ^ (p + 1) := by
    rw [zpow2_add]; congr 1; ring
  have e2 : (2 : ℚ) ^ (p - r - 1) * (2 : ℚ) ^ (r + 1) = (2 : ℚ) ^ p := by
    rw [zpow2_add]; congr 1; ring
  split
  · rename_i h
    refine ⟨h, ?_⟩
    rw [hdiv, div_lt_iff₀ hdpos]
    calc N < (2 : ℚ) ^ (p + 1) := p2
      _ = (2 : ℚ) ^ (p - r + 1) * (2 : ℚ) ^ r := e1.symm
      _ ≤ (2 : ℚ) ^ (p - r + 1) * D := mul_le_mul_of_nonneg_left r1 (pow2_pos _).le
  · rename_i h
    constructor
    · rw [hdiv, le_div_iff₀ hdpos]
      calc (2 : ℚ) ^ (p - r - 1) * D ≤ (2 : ℚ) ^ (p - r - 1) * (2 : ℚ) ^ (r + 1) :=
            mul_le_mul_of_nonneg_left r2.le (pow2_pos _).le
        _ = (2 : ℚ) ^ p := e2
        _ ≤ N := p1
    · have : p - r - 1 + 1 = p - r := by ring
      rw [this]
      exact lt_of_not_le h

theorem binade_unique {a : ℚ} {e : Int} (h1 : (2 : ℚ) ^ e ≤ a)
    (h2 : a < (2 : ℚ) ^ (e + 1)) : binade a = e := by
  have ha : 0 < a := lt_of_lt_of_le (pow2_pos e) h1
  obtain ⟨b1, b2⟩ := binade_spec ha
  have c1 : e < binade a + 1 := zpow2_lt_iff.mp (lt_of_le_of_lt h1 b2)
  have c2 : binade a < e + 1 := zpow2_lt_iff.mp (lt_of_le_of_lt b1 h2)
  omega

theorem nearestEven_intCast (n : Int) : nearestEven (n : ℚ) = n := by
  have hf0 : ⌊(n : ℚ)⌋ = n := Int.floor_intCast n
  have hf : Rat.floor (n : ℚ) = n := hf0
  unfold nearestEven
  simp only [hf, sub_self]
  norm_num

theorem nearestEven_mono {x y : ℚ} (h : x ≤ y) : nearestEven x ≤ nearestEven y := by
  have hfx : Rat.floor x = ⌊x⌋ := rfl
  have hfy : Rat.floor y = ⌊y⌋ := rfl
  have hf : ⌊x⌋ ≤ ⌊y⌋ := Int.floor_le_floor h
  have x1 : (⌊x⌋ : ℚ) ≤ x := Int.floor_le x
  have y1 : (⌊y⌋ : ℚ) ≤ y := Int.floor_le y
  unfold nearestEven
  simp only [hfx, hfy]
  rcases hf.lt_or_eq with hlt | heq
  · split_ifs <;> omega
  · rw [← heq]
    have hd : x - (⌊x⌋ : ℚ) ≤ y - (⌊x⌋ : ℚ) := by linarith
    split_ifs <;> first | omega | (exfalso; linarith)

theorem nearestEven_nonneg {x : ℚ} (h : 0 ≤ x) : 0 ≤ nearestEven x := by
  have := nearestEven_mono h
  rwa [show ((0 : ℚ)) = ((0 : Int) : ℚ) by norm_num, nearestEven_intCast] at this

theorem roundMag_eq (a : ℚ) : roundMag a =
    (nearestEven (a / (2 : ℚ) ^ (max (binade a) (-126) - 23)) : ℚ)
      * (2 : ℚ) ^ (max (binade a) (-126) - 23) := by
  unfold roundMag
  simp only [pow2_eq]

theorem roundMag_zero : roundMag 0 = 0 := by decide!

theorem roundMag_nonneg {a : ℚ} (ha : 0 ≤ a) : 0 ≤ roundMag a := by
  rw [roundMag_eq]
  have : (0 : ℚ) ≤ (nearestEven (a / (2 : ℚ) ^ (max (binade a) (-126) - 23)) : ℚ) := by
    exact_mod_cast nearestEven_nonneg (div_nonneg ha (pow2_pos _).le)
  exact mul_nonneg this (pow2_pos _).le

/-- The significand of the rounding has at most 24 bits (the value `2 ^ 24` stands for a carry
into the next binade). -/
theorem roundMag_count_le {a : ℚ} (ha : 0 < a) :
    nearestEven (a / (2 : ℚ) ^ (max (binade a) (-126) - 23)) ≤ 16777216 := by
  have hlt : a < (2 : ℚ) ^ (max (binade a) (-126) + 1) :=
    lt_of_lt_of_le (binade_spec ha).2 (zpow2_le (by omega))
  have e : (16777216 : ℚ) * (2 : ℚ) ^ (max (binade a) (-126) - 23)
      = (2 : ℚ) ^ (max (binade a) (-126) + 1) := by
    have : (16777216 : ℚ) = (2 : ℚ) ^ (24 : Int) := by norm_num
    rw [this, zpow2_add]; congr 1; ring
  have h1 : a / (2 : ℚ) ^ (max (binade a) (-126) - 23) ≤ ((16777216 : Int) : ℚ) := by
    rw [div_le_iff₀ (pow2_pos _)]
    rw [show ((16777216 : Int) : ℚ) = 16777216 by norm_num, e]
    exact hlt.le
  have := nearestEven_mono h1
  rwa [nearestEven_intCast] at this

/-- The significand of the rounding of a normal number has at least 24 bits. -/
theorem roundMag_count_ge {a : ℚ} (ha : 0 < a) (E : Int) (hE : E ≤ binade a) :
    8388608 ≤ nearestEven (a / (2 : ℚ) ^ (E - 23)) := by
  have hge : (2 : ℚ) ^ E ≤ a := (zpow2_le hE).trans (binade_spec ha).1
  have e : (8388608 : ℚ) * (2 : ℚ) ^ (E - 23) = (2 : ℚ) ^ E := by
    have : (8388608 : ℚ) = (2 : ℚ) ^ (23 : Int) := by norm_num
    rw [this, zpow2_add]; congr 1; ring
  have h1 : ((8388608 : Int) : ℚ) ≤ a / (2 : ℚ) ^ (E - 23) := by
    rw [le_div_iff₀ (pow2_pos _)]
    rw [show ((8388608 : Int) : ℚ) = 8388608 by norm_num, e]
    exact hge
  have := nearestEven_mono h1
  rwa [nearestEven_intCast] at this

/-- The significand of the rounding of a subnormal number has at most 23 bits. -/
theorem roundMag_count_sub {a : ℚ} (ha : 0 < a) (h : binade a < -126) :
    nearestEven (a / (2 : ℚ) ^ ((-126 : Int) - 23)) ≤ 8388608 := by
  have hlt : a < (2 : ℚ) ^ (-126 : Int) :=
    lt_of_lt_of_le (binade_spec ha).2 (zpow2_le (by omega))
  have e : (8388608 : ℚ) * (2 : ℚ) ^ ((-126 : Int) - 23) = (2 : ℚ) ^ (-126 : Int) := by
    have : (8388608 : ℚ) = (2 : ℚ) ^ (23 : Int) := by norm_num
    rw [this, zpow2_add]; congr 1
  have h1 : a / (2 : ℚ) ^ ((-126 : Int) - 23) ≤ ((8388608 : Int) : ℚ) := by
    rw [div_le_iff₀ (pow2_pos _)]
    rw [show ((8388608 : Int) : ℚ) = 8388608 by norm_num, e]
    exact hlt.le
  have := nearestEven_mono h1
  rwa [nearestEven_intCast] at this

/-- A multiple of the unit in the last place of its own binade is left as it is. -/
theorem roundMag_grid (n E : Int)
    (hE : max (binade ((n : ℚ) * (2 : ℚ) ^ (E - 23))) (-126) = E) :
    roundMag ((n : ℚ) * (2 : ℚ) ^ (E - 23)) = (n : ℚ) * (2 : ℚ) ^ (E - 23) := by
  rw [roundMag_eq, hE, mul_div_assoc, div_self (ne_of_gt (pow2_pos _)), mul_one,
    nearestEven_intCast]

theorem binade_grid (n E : Int) (h1 : 8388608 ≤ n) (h2 : n < 16777216) :
    binade ((n : ℚ) * (2 : ℚ) ^ (E - 23)) = E := by
  have e1 : (8388608 : ℚ) * (2 : ℚ) ^ (E - 23) = (2 : ℚ) ^ E := by
    have : (8388608 : ℚ) = (2 : ℚ) ^ (23 : Int) := by norm_num
    rw [this, zpow2_add]; congr 1; ring
  have e2 : (16777216 : ℚ) * (2 : ℚ) ^ (E - 23) = (2 : ℚ) ^ (E + 1) := by
    have : (16777216 : ℚ) = (2 : ℚ) ^ (24 : Int) := by norm_num
    rw [this, zpow2_add]; congr 1; ring
  have c1 : (8388608 : ℚ) ≤ (n : ℚ) := by exact_mod_cast h1
  have c2 : (n : ℚ) < (16777216 : ℚ) := by exact_mod_cast h2
  apply binade_unique
  · rw [← e1]
    exact mul_le_mul_of_nonneg_right c1 (pow2_pos _).le
  · rw [← e2]
    exact mul_lt_mul_of_pos_right c2 (pow2_pos _)

/-- Rounding is idempotent: a rounded magnitude is left as it is. -/
theorem roundMag_idem {a : ℚ} (ha : 0 ≤ a) : roundMag (roundMag a) = roundMag a := by
  rcases ha.lt_or_eq with hpos | h0
  swap
  · rw [← h0, roundMag_zero, roundMag_zero]
  have hle := roundMag_count_le hpos
  have hnn := nearestEven_nonneg (div_nonneg hpos.le
    (pow2_pos (max (binade a) (-126) - 23)).le)
  rw [roundMag_eq a]
  generalize hn : nearestEven (a / (2 : ℚ) ^ (max (binade a) (-126) - 23)) = n at hle hnn
  rcases hnn.lt_or_eq with hnpos | hn0
  swap
  · rw [← hn0]
    simp only [Int.cast_zero, zero_mul]
    exact roundMag_zero
  by_cases hb : -126 ≤ binade a
  · have hE : max (binade a) (-126) = binade a := max_eq_left hb
    rw [hE] at hn ⊢
    have hge := roundMag_count_ge hpos (binade a) (le_refl _)
    rw [hn] at hge
    rcases hle.lt_or_eq with hlt | heq
    · exact roundMag_grid n _ (by rw [binade_grid n _ hge hlt]; exact max_eq_left hb)
    · have e : ((n : Int) : ℚ) * (2 : ℚ) ^ (binade a - 23)
          = ((8388608 : Int) : ℚ) * (2 : ℚ) ^ (binade a + 1 - 23) := by
        rw [heq]
        have : (2 : ℚ) ^ (binade a + 1 - 23) = (2 : ℚ) ^ (binade a - 23) * 2 := by
          rw [show binade a + 1 - 23 = (binade a - 23) + 1 by ring,
            zpow_add_one₀ (by norm_num)]
        rw [this]
        push_cast
        ring
      rw [e]
      exact roundMag_grid 8388608 _ (by
        rw [binade_grid 8388608 _ (le_refl _) (by norm_num)]
        exact max_eq_left (by omega))
  · have hb' : binade a < -126 := by omega
    have hE : max (binade a) (-126) = -126 := max_eq_right hb'.le
    rw [hE] at hn ⊢
    have hsub := roundMag_count_sub hpos hb'
    rw [hn] at hsub
    refine roundMag_grid n (-126) ?_
    have hr : (0 : ℚ) < (n : ℚ) * (2 : ℚ) ^ ((-126 : Int) - 23) :=
      mul_pos (by exact_mod_cast hnpos) (pow2_pos _)
    have hup : (n : ℚ) * (2 : ℚ) ^ ((-126 : Int) - 23) ≤ (2 : ℚ) ^ (-126 : Int) := by
      have e : (8388608 : ℚ) * (2 : ℚ) ^ ((-126 : Int) - 23) = (2 : ℚ) ^ (-126 : Int) := by
        have : (8388608 : ℚ) = (2 : ℚ) ^ (23 : Int) := by norm_num
        rw [this, zpow2_add]; congr 1
      rw [← e]
      exact mul_le_mul_of_nonneg_right (by exact_mod_cast hsub) (pow2_pos _).le
    have hlt : (2 : ℚ) ^ binade ((n : ℚ) * (2 : ℚ) ^ ((-126 : Int) - 23))
        < (2 : ℚ) ^ ((-126 : Int) + 1) :=
      lt_of_le_of_lt ((binade_spec hr).1.trans hup) (zpow2_lt_iff.mpr (by norm_num))
    have := zpow2_lt_iff.mp hlt
    exact max_eq_right (by omega)

theorem round32_zero : round32 0 = .fin 0 := by decide!

theorem round32_one : round32 1 = .fin 1 := by decide!

theorem CFloat.neg_neg (x : CFloat) : x.neg.neg = x := by
  cases x with
  | nan => rfl
  | inf s => simp [CFloat.neg]
  | fin q => simp [CFloat.neg]

theorem roundPos_fixed {r : ℚ} (h1 : roundMag r = r) (h2 : ¬ pow2 128 ≤ r) :
    roundPos r = .fin r := by
  unfold roundPos
  rw [h1, if_neg h2]

theorem round32_neg (q : ℚ) : round32 (-q) = (round32 q).neg := by
  rcases lt_trichotomy q 0 with h | h | h
  · unfold round32
    rw [if_neg (by linarith), if_pos h, CFloat.neg_neg]
  · subst h
    rw [neg_zero, round32_zero]
    simp [CFloat.neg]
  · unfold round32
    rw [if_pos (by linarith), if_neg (by linarith), neg_neg]

theorem roundPos_isBinary32 {a : ℚ} (ha : 0 ≤ a) : (roundPos a).isBinary32 := by
  unfold roundPos
  split
  · exact True.intro
  · rename_i h
    show round32 (roundMag a) = .fin (roundMag a)
    unfold round32
    rw [if_neg (not_lt.mpr (roundMag_nonneg ha))]
    exact roundPos_fixed (roundMag_idem ha) h

theorem CFloat.neg_isBinary32 {x : CFloat} (h : x.isBinary32) : x.neg.isBinary32 := by
  cases x with
  | nan => exact True.intro
  | inf s => exact True.intro
  | fin q =>
    show round32 (-q) = .fin (-q)
    rw [round32_neg, show round32 q = .fin q from h]
    rfl

/-- Every result of the rounding is a value of the `float` format. -/
theorem round32_isBinary32 (q : ℚ) : (round32 q).isBinary32 := by
  unfold round32
  split
  · exact CFloat.neg_isBinary32 (roundPos_isBinary32 (by linarith))
  · exact roundPos_isBinary32 (by linarith)

theorem setSampleF_apply (buf : BuffersF) (i k : Nat) (v : CFloat) (i' k' : Nat) :
    setSampleF buf i k v i' k' = if i' = i ∧ k' = k then v else buf i' k' := by
  unfold setSampleF
  by_cases hi : i' = i
  · subst hi
    by_cases hk : k' = k
    · subst hk; simp
    · simp [Function.update_noteq hk, hk]
  · simp [Function.update_noteq hi, hi]

/-- A loop that writes sample `k + off` of channel `i` at step `k`, with a value that does not
depend on the samples the loop has already written, is a pointwise map on the window. -/
theorem forRange_setSampleF (i off : Nat) (val : Nat → BuffersF → CFloat) (b0 : BuffersF) (n : Nat)
    (hval : ∀ k b, k < n →
      (∀ i' k', ¬ (i' = i ∧ off ≤ k' ∧ k' < off + k) → b i' k' = b0 i' k') →
      val k b = val k b0) :
    forRange n (fun k b => setSampleF b i (k + off) (val k b)) b0 =
      fun i' k' => if i' = i ∧ off ≤ k' ∧ k' < off + n then val (k' - off) b0 else b0 i' k' := by
  induction n with
  | zero =>
    funext i' k'
    have : ¬ (i' = i ∧ off ≤ k' ∧ k' < off + 0) := by omega
    simp only [forRange_zero, this, if_false]
  | succ n ih =>
    have ih' := ih (fun k b hk hb => hval k b (by omega) hb)
    rw [forRange_succ, ih']
    have hv := hval n (fun i' k' =>
        if i' = i ∧ off ≤ k' ∧ k' < off + n then val (k' - off) b0 else b0 i' k')
      (by omega) (by intro i' k' h; simp [h])
    funext i' k'
    rw [setSampleF_apply]
    simp only [hv]
    by_cases hi : i' = i
    · by_cases hk : k' = n + off
      · subst hk
        have h1 : n + off < off + (n + 1) := by omega
        simp [hi, h1]
      · by_cases hlt : off ≤ k' ∧ k' < off + n
        · have : off ≤ k' ∧ k' < off + (n + 1) := ⟨hlt.1, by omega⟩
          simp [hi, hk, hlt, this]
        · have : ¬ (off ≤ k' ∧ k' < off + (n + 1)) := by
            intro h
            apply hlt
            exact ⟨h.1, by omega⟩
          simp [hi, hk, hlt, this]
    · simp [hi]

theorem setSampleF_setSample (b : BuffersF) (i k : Nat) (a c : CFloat) :
    setSampleF (setSampleF b i k a) i k c = setSampleF b i k c := by
  funext i' k'
  simp only [setSampleF_apply]
  split <;> rfl

theorem postDryWetF_apply (st : Plugin) (pp : PostProcF) (inB : BuffersF) (frames off i : Nat)
    (out : BuffersF) :
    postDryWetF st pp inB frames off i out = fun i' k' =>
      if i' = i ∧ off ≤ k' ∧ k' < off + frames then
        out i k' * pp.dryWet
          + inB (if st.audioInCount = 1 then 0 else i) k' * (1 - pp.dryWet)
      else out i' k' := by
  have h := forRange_setSampleF i off (fun k b =>
      b i (k + off) * pp.dryWet
        + inB (if st.audioInCount = 1 then 0 else i) (k + off) * (1 - pp.dryWet))
    out frames (by
      intro k b _ hb
      simp only
      rw [hb i (k + off) (by omega)])
  unfold postDryWetF
  refine h.trans ?_
  funext i' k'
  by_cases hw : i' = i ∧ off ≤ k' ∧ k' < off + frames
  · have : k' - off + off = k' := by omega
    simp only [if_pos hw, this]
  · simp only [if_neg hw]

theorem postVolumeF_apply (pp : PostProcF) (frames off i : Nat) (out : BuffersF) :
    postVolumeF pp frames off i out = fun i' k' =>
      if i' = i ∧ off ≤ k' ∧ k' < off + frames then out i k' * pp.volume
      else out i' k' := by
  have h := forRange_setSampleF i off (fun k b => b i (k + off) * pp.volume)
    out frames (by
      intro k b _ hb
      simp only
      rw [hb i (k + off) (by omega)])
  unfold postVolumeF
  refine h.trans ?_
  funext i' k'
  by_cases hw : i' = i ∧ off ≤ k' ∧ k' < off + frames
  · have : k' - off + off = k' := by omega
    simp only [if_pos hw, this]
  · simp only [if_neg hw]

theorem postBalanceF_oldBufLeft (pp : PostProcF) (frames off i : Nat) (s : PostStateF) :
    (postBalanceF pp frames off i s).oldBufLeft =
      if i % 2 = 0 then fun k => if k < frames then s.out i (k + off) else s.oldBufLeft k
      else s.oldBufLeft := rfl

theorem postBalanceF_out (pp : PostProcF) (frames off i : Nat) (s : PostStateF) :
    (postBalanceF pp frames off i s).out = fun i' k' =>
      if i' = i ∧ off ≤ k' ∧ k' < off + frames then
        if i % 2 = 0 then
          s.out i k' * (1 - (pp.balanceLeft + 1) / 2)
            + s.out (i + 1) k' * (1 - (pp.balanceRight + 1) / 2)
        else
          s.out i k' * ((pp.balanceRight + 1) / 2)
            + s.oldBufLeft (k' - off) * ((pp.balanceLeft + 1) / 2)
      else s.out i' k' := by
  by_cases hp : i % 2 = 0
  · have h := forRange_setSampleF i off (fun k b =>
        (if k < frames then s.out i (k + off) else s.oldBufLeft k)
            * (1 - (pp.balanceLeft + 1) / 2)
          + b (i + 1) (k + off) * (1 - (pp.balanceRight + 1) / 2))
      s.out frames (by
        intro k b _ hb
        simp only
        rw [hb (i + 1) (k + off) (by omega)])
    have hb : (postBalanceF pp frames off i s).out =
        forRange frames (fun k b => setSampleF b i (k + off)
          ((if k < frames then s.out i (k + off) else s.oldBufLeft k)
              * (1 - (pp.balanceLeft + 1) / 2)
            + b (i + 1) (k + off) * (1 - (pp.balanceRight + 1) / 2))) s.out := by
      unfold postBalanceF
      simp only [hp, if_true]
      congr 1
      funext k b
      rw [setSampleF_setSample]
      simp [setSampleF_apply]
    rw [hb, h]
    funext i' k'
    by_cases hw : i' = i ∧ off ≤ k' ∧ k' < off + frames
    · have h1 : k' - off + off = k' := by omega
      have h2 : k' - off < frames := by omega
      simp only [if_pos hw, if_pos hp, h1, if_pos h2]
    · simp only [if_neg hw]
  · have h := forRange_setSampleF i off (fun k b =>
        b i (k + off) * ((pp.balanceRight + 1) / 2)
          + s.oldBufLeft k * ((pp.balanceLeft + 1) / 2))
      s.out frames (by
        intro k b _ hb
        simp only
        rw [hb i (k + off) (by omega)])
    have hb : (postBalanceF pp frames off i s).out =
        forRange frames (fun k b => setSampleF b i (k + off)
          (b i (k + off) * ((pp.balanceRight + 1) / 2)
            + s.oldBufLeft k * ((pp.balanceLeft + 1) / 2))) s.out := by
      unfold postBalanceF
      simp only [hp, if_false]
      congr 1
      funext k b
      rw [setSampleF_setSample]
      simp [setSampleF_apply]
    rw [hb, h]
    funext i' k'
    by_cases hw : i' = i ∧ off ≤ k' ∧ k' < off + frames
    · have h1 : k' - off + off = k' := by omega
      simp only [if_pos hw, if_neg hp, h1]
    · simp only [if_neg hw]

/-- One round of the channel loop of the post-processing keeps the closed form: channels
already handled hold their final value, the others the plugin output, and after an even
channel `oldBufLeft` holds its dry/wet value. -/
theorem postProcChannelF_step (st : Plugin) (pp : PostProcF) (inB P : BuffersF) (frames off : Nat)
    (dV dD dB : Bool) (n : Nat) (s : PostStateF) (hn : n < st.audioOutCount)
    (hout : ∀ i k, s.out i k =
      if i < n then postValueF st pp inB P frames off dV dD dB i k else P i k)
    (hold : dB = true → n % 2 = 1 → ∀ k, k < frames →
      s.oldBufLeft k = dryWetMixF st pp inB P dD (n - 1) (k + off)) :
    (∀ i k, (postProcChannelF st pp inB frames off dV dD dB n s).out i k =
      if i < n + 1 then postValueF st pp inB P frames off dV dD dB i k else P i k) ∧
    (dB = true → (n + 1) % 2 = 1 → ∀ k, k < frames →
      (postProcChannelF st pp inB frames off dV dD dB n s).oldBufLeft k =
        dryWetMixF st pp inB P dD n (k + off)) := by
  have hPn : ∀ k, s.out n k = P n k := fun k => by rw [hout, if_neg (Nat.lt_irrefl n)]
  have hPn1 : ∀ k, s.out (n + 1) k = P (n + 1) k := fun k => by
    rw [hout, if_neg (by omega)]
  -- dry/wet
  obtain ⟨s1, hs1⟩ : ∃ s1 : PostStateF, s1 =
      if dD then { s with out := postDryWetF st pp inB frames off n s.out } else s := ⟨_, rfl⟩
  have h1out : ∀ i k, s1.out i k =
      if i = n ∧ off ≤ k ∧ k < off + frames then dryWetMixF st pp inB P dD n k else s.out i k := by
    intro i k
    rw [hs1]
    cases dD with
    | false =>
      simp only [Bool.false_eq_true, if_false, dryWetMixF]
      split
      · rename_i h; rw [h.1, hPn]
      · rfl
    | true =>
      simp only [if_true, dryWetMixF, postDryWetF_apply, hPn]
  have h1old : s1.oldBufLeft = s.oldBufLeft := by
    rw [hs1]; cases dD <;> rfl
  -- balance
  obtain ⟨s2, hs2⟩ : ∃ s2 : PostStateF, s2 =
      if dB then postBalanceF pp frames off n s1 else s1 := ⟨_, rfl⟩
  have h2out : ∀ i k, s2.out i k =
      if i = n ∧ off ≤ k ∧ k < off + frames then balanceMixF st pp inB P dD dB n k
      else s.out i k := by
    intro i k
    rw [hs2]
    cases dB with
    | false =>
      simp only [Bool.false_eq_true, if_false, balanceMixF]
      exact h1out i k
    | true =>
      simp only [if_true, balanceMixF, postBalanceF_out]
      by_cases hw : i = n ∧ off ≤ k ∧ k < off + frames
      · have hw' : n = n ∧ off ≤ k ∧ k < off + frames := ⟨rfl, hw.2⟩
        have hw1 : ¬ (n + 1 = n ∧ off ≤ k ∧ k < off + frames) := by omega
        rw [if_pos hw, if_pos hw, h1out n k, if_pos hw', h1out (n + 1) k, if_neg hw1, hPn1]
        by_cases hp : n % 2 = 0
        · rw [if_pos hp, if_pos hp]
        · rw [if_neg hp, if_neg hp, h1old, hold rfl (by omega) (k - off) (by omega)]
          have : k - off + off = k := by omega
          rw [this]
      · rw [if_neg hw, if_neg hw, h1out i k, if_neg hw]
  have h2old : dB = true → n % 2 = 0 → ∀ k, k < frames →
      s2.oldBufLeft k = dryWetMixF st pp inB P dD n (k + off) := by
    intro hb hp k hk
    rw [hs2, hb, if_pos rfl, postBalanceF_oldBufLeft, if_pos hp]
    simp only [if_pos hk]
    rw [h1out n (k + off), if_pos ⟨rfl, by omega, by omega⟩]
  -- volume
  have e : postProcChannelF st pp inB frames off dV dD dB n s =
      if dV then { s2 with out := postVolumeF pp frames off n s2.out } else s2 := by
    rw [hs2, hs1]
    rfl
  rw [e]
  constructor
  · intro i k
    have h3 : (if dV then { s2 with out := postVolumeF pp frames off n s2.out } else s2).out i k =
        if i = n ∧ off ≤ k ∧ k < off + frames then
          (if dV then balanceMixF st pp inB P dD dB n k * pp.volume
            else balanceMixF st pp inB P dD dB n k)
        else s.out i k := by
      cases dV with
      | false =>
        simp only [Bool.false_eq_true, if_false]
        exact h2out i k
      | true =>
        simp only [if_true, postVolumeF_apply]
        by_cases hw : i = n ∧ off ≤ k ∧ k < off + frames
        · have hw' : n = n ∧ off ≤ k ∧ k < off + frames := ⟨rfl, hw.2⟩
          rw [if_pos hw, if_pos hw, h2out n k, if_pos hw']
        · rw [if_neg hw, if_neg hw, h2out i k, if_neg hw]
    rw [h3]
    by_cases hi : i = n
    · subst hi
      rw [if_pos (Nat.lt_succ_self i)]
      unfold postValueF
      by_cases hw : off ≤ k ∧ k < off + frames
      · have a1 : i = i ∧ off ≤ k ∧ k < off + frames := ⟨rfl, hw⟩
        have a2 : i < st.audioOutCount ∧ off ≤ k ∧ k < off + frames := ⟨hn, hw⟩
        rw [if_pos a1, if_pos a2]
      · have a1 : ¬ (i = i ∧ off ≤ k ∧ k < off + frames) := fun h => hw h.2
        have a2 : ¬ (i < st.audioOutCount ∧ off ≤ k ∧ k < off + frames) := fun h => hw h.2
        rw [if_neg a1, if_neg a2, hPn]
    · rw [if_neg (fun h => hi h.1), hout]
      by_cases hlt : i < n
      · rw [if_pos hlt, if_pos (by omega)]
      · rw [if_neg hlt, if_neg (by omega)]
  · intro hb hp k hk
    have : (if dV then { s2 with out := postVolumeF pp frames off n s2.out } else s2).oldBufLeft
        = s2.oldBufLeft := by cases dV <;> rfl
    rw [this]
    exact h2old hb (by omega) k hk

/-- The post-processing block in closed form. -/
theorem forRange_postProcChannelF (st : Plugin) (pp : PostProcF) (inB P : BuffersF)
    (frames off : Nat)
    (dV dD dB : Bool) (n : Nat) (hn : n ≤ st.audioOutCount) :
    (∀ i k, (forRange n (postProcChannelF st pp inB frames off dV dD dB)
        { out := P, oldBufLeft := fun _ => 0 }).out i k =
      if i < n then postValueF st pp inB P frames off dV dD dB i k else P i k) ∧
    (dB = true → n % 2 = 1 → ∀ k, k < frames →
      (forRange n (postProcChannelF st pp inB frames off dV dD dB)
        { out := P, oldBufLeft := fun _ => 0 }).oldBufLeft k =
        dryWetMixF st pp inB P dD (n - 1) (k + off)) := by
  induction n with
  | zero =>
    refine ⟨fun i k => ?_, fun _ h => by omega⟩
    rw [forRange_zero, if_neg (Nat.not_lt_zero i)]
  | succ n ih =>
    obtain ⟨i1, i2⟩ := ih (by omega)
    rw [forRange_succ]
    exact postProcChannelF_step st pp inB P frames off dV dD dB n _ (by omega) i1 i2

/-- The post-processing block of `processSingle` in closed form: every sample of the window of
an output channel gets `postValueF`, every other sample is left as it was. -/
theorem postProcessF_apply (st : Plugin) (pp : PostProcF) (inB P : BuffersF)
    (frames off : Nat) (i k : Nat) :
    postProcessF st pp inB P frames off i k =
      postValueF st pp inB P frames off
        (st.fHints.canVolume && pp.volume.ne 1)
        (st.fHints.canDryWet && pp.dryWet.ne 1)
        (st.fHints.canBalance &&
          (pp.balanceLeft.ne (-1) || pp.balanceRight.ne 1)) i k := by
  unfold postProcessF
  rw [(forRange_postProcChannelF st pp inB P frames off _ _ _ st.audioOutCount (le_refl _)).1 i k]
  split
  · rfl
  · rename_i h
    unfold postValueF
    rw [if_neg (fun hh => h hh.1)]

/-! ### Exact cases of the `float` operations -/

theorem CFloat.mul_one_exact {x : CFloat} (h : x.isBinary32) : x * 1 = x := by
  cases x with
  | nan => rfl
  | inf s =>
    show (if ((1 : Nat) : ℚ) = 0 then CFloat.nan
      else CFloat.inf (s != decide (((1 : Nat) : ℚ) < 0))) = CFloat.inf s
    cases s <;> simp
  | fin q =>
    show round32 (q * ((1 : Nat) : ℚ)) = CFloat.fin q
    rw [Nat.cast_one, mul_one]
    exact h

theorem CFloat.mul_zero_finite {x : CFloat} (h : x.isFinite = true) : x * 0 = 0 := by
  cases x with
  | nan => exact absurd h (by simp [CFloat.isFinite])
  | inf s => exact absurd h (by simp [CFloat.isFinite])
  | fin q =>
    show round32 (q * ((0 : Nat) : ℚ)) = CFloat.fin ((0 : Nat) : ℚ)
    rw [Nat.cast_zero, mul_zero]
    exact round32_zero

theorem CFloat.mul_zero_nonfinite {x : CFloat} (h : x.isFinite = false) : x * 0 = CFloat.nan := by
  cases x with
  | nan => rfl
  | inf s =>
    show (if ((0 : Nat) : ℚ) = 0 then CFloat.nan
      else CFloat.inf (s != decide (((0 : Nat) : ℚ) < 0))) = CFloat.nan
    simp
  | fin q => exact absurd h (by simp [CFloat.isFinite])

theorem CFloat.add_zero_exact {x : CFloat} (h : x.isBinary32) : x + 0 = x := by
  cases x with
  | nan => rfl
  | inf s => rfl
  | fin q =>
    show round32 (q + ((0 : Nat) : ℚ)) = CFloat.fin q
    rw [Nat.cast_zero, add_zero]
    exact h

theorem CFloat.zero_add_exact {x : CFloat} (h : x.isBinary32) : 0 + x = x := by
  cases x with
  | nan => rfl
  | inf s => rfl
  | fin q =>
    show round32 (((0 : Nat) : ℚ) + q) = CFloat.fin q
    rw [Nat.cast_zero, zero_add]
    exact h

theorem CFloat.nan_add (x : CFloat) : CFloat.nan + x = CFloat.nan := by
  cases x <;> rfl

theorem CFloat.add_nan (x : CFloat) : x + CFloat.nan = CFloat.nan := by
  cases x <;> rfl

theorem CFloat.one_sub_zero : (1 : CFloat) - 0 = 1 := by decide!

theorem CFloat.one_sub_one : (1 : CFloat) - 1 = 0 := by decide!

theorem CFloat.range_left : ((-1 : CFloat) + 1) / 2 = 0 := by decide!

theorem CFloat.range_right : ((1 : CFloat) + 1) / 2 = 1 := by decide!

theorem CFloat.ne_self_one : (1 : CFloat).ne 1 = false := by decide!

theorem CFloat.ne_self_neg_one : (-1 : CFloat).ne (-1) = false := by decide!

theorem CFloat.ne_zero_one : (0 : CFloat).ne 1 = true := by decide!

theorem CFloat.isBinary32_add (x y : CFloat) (hx : x.isBinary32) (hy : y.isBinary32) :
    (x + y).isBinary32 := by
  cases x with
  | nan => rw [CFloat.nan_add]; exact True.intro
  | inf a =>
    cases y with
    | nan => exact True.intro
    | inf b =>
      show (if a = b then CFloat.inf a else CFloat.nan).isBinary32
      split <;> exact True.intro
    | fin q => exact True.intro
  | fin p =>
    cases y with
    | nan => exact True.intro
    | inf b => exact True.intro
    | fin q => exact round32_isBinary32 _

/-! ### A sub-call on `float` buffers -/

/-- The plugin output: inside the window of the output channels what the module wrote, outside
it the buffers as they were. -/
theorem rawOutputF_apply (st : Plugin) (outBuffer window : BuffersF) (frames off i k : Nat) :
    rawOutputF st outBuffer window frames off i k =
      if i < st.audioOutCount ∧ off ≤ k ∧ k < off + frames then window i (k - off)
      else outBuffer i k := rfl

/-- A successful `processSingleF` on non-null buffers returns the post-processed plugin
output. -/
theorem processSingleF_output (fx : AEffect) (eng : Engine) (st : Plugin) (pp : PostProcF)
    (inBuffer outBuffer window : BuffersF) (frames off : Nat) (hf : frames ≠ 0)
    (hlock : eng.isOffline = true ∨ st.singleMutexLocked = false) :
    processSingleF fx eng st pp (some inBuffer) (some outBuffer) window frames off =
      (unlockSingle (postStateF fx eng st frames off),
        some (postProcessF (postStateF fx eng st frames off) pp inBuffer
          (rawOutputF (sendQueuedEvents fx (lockSingle st)) outBuffer window frames off)
          frames off), true) := by
  have g1 : ¬ (st.audioInCount > 0 ∧ (some inBuffer).isNone = true) := by simp
  have g2 : ¬ (st.audioOutCount > 0 ∧ (some outBuffer).isNone = true) := by simp
  have g3 : ¬ (¬ eng.isOffline = true ∧ st.singleMutexLocked = true) := by
    rintro ⟨h1, h2⟩
    rcases hlock with h | h
    · exact h1 h
    · rw [h] at h2; exact Bool.false_ne_true h2
  unfold processSingleF
  simp only [hf, g1, g2, g3, if_false]
  rfl

theorem postStateF_spec (fx : AEffect) (eng : Engine) (st : Plugin) (frames off : Nat)
    (hE : st.hasEffect = true) :
    (postStateF fx eng st frames off).fixed = st.fixed ∧
    (sendQueuedEvents fx (lockSingle st)).fixed = st.fixed := by
  obtain ⟨sf, _⟩ := sendQueuedEvents_spec fx (lockSingle st) hE
  obtain ⟨rf, _⟩ := runPlugin_spec fx eng (sendQueuedEvents fx (lockSingle st))
    (fun _ _ => 0) (fun _ _ => 0) frames off
  exact ⟨rf.trans sf, sf⟩

/-- A successful `processSingleF` on non-null buffers: the flag, and the output as the
post-processing block applied, with the counts and hints of the adapter, to the plugin
output. -/
theorem processSingleF_success (fx : AEffect) (eng : Engine) (st : Plugin) (pp : PostProcF)
    (inBuffer outBuffer window : BuffersF) (frames off : Nat) (hf : frames ≠ 0)
    (hE : st.hasEffect = true)
    (hlock : eng.isOffline = true ∨ st.singleMutexLocked = false) :
    ∃ s : Plugin, s.fixed = st.fixed ∧
      processSingleF fx eng st pp (some inBuffer) (some outBuffer) window frames off =
        (unlockSingle s,
          some (postProcessF s pp inBuffer (rawOutputF st outBuffer window frames off)
            frames off), true) := by
  obtain ⟨h1, h2⟩ := postStateF_spec fx eng st frames off hE
  refine ⟨postStateF fx eng st frames off, h1, ?_⟩
  rw [processSingleF_output fx eng st pp inBuffer outBuffer window frames off hf hlock]
  have hc : (sendQueuedEvents fx (lockSingle st)).audioOutCount = st.audioOutCount :=
    congrArg Fixed.audioOutCount h2
  unfold rawOutputF
  rw [hc]

/-! ### The dry/wet mix in `float` arithmetic -/

/-- With the dry/wet capability set, a dry/wet value `d` that compares unequal
to 1, and balance and volume at their identity values, the post-processing block of
`processSingle` leaves in every sample `k` of the window of every output channel `i` the
`float` value `out * d + in[c] * (1 - d)`, where `out` is the plugin output and `c` is 0 when
the adapter has exactly one audio input and `i` otherwise. With `d = 0` this is the input
sample where the plugin output sample is finite, and NaN where it is infinite or NaN. -/
theorem postProcessF_dryWet_block (st : Plugin) (pp : PostProcF) (inBuffer out : BuffersF)
    (frames timeOffset : Nat)
    (hdw : st.fHints.canDryWet = true) (hd : pp.dryWet.ne 1 = true)
    (hbl : pp.balanceLeft = -1) (hbr : pp.balanceRight = 1) (hvol : pp.volume = 1)
    (i k : Nat) (hi : i < st.audioOutCount)
    (hk : timeOffset ≤ k ∧ k < timeOffset + frames) :
    postProcessF st pp inBuffer out frames timeOffset i k =
      out i k * pp.dryWet
        + inBuffer (if st.audioInCount = 1 then 0 else i) k * (1 - pp.dryWet) ∧
    (pp.dryWet = 0 → (out i k).isFinite = true →
      (inBuffer (if st.audioInCount = 1 then 0 else i) k).isBinary32 →
      postProcessF st pp inBuffer out frames timeOffset i k =
        inBuffer (if st.audioInCount = 1 then 0 else i) k) ∧
    (pp.dryWet = 0 → (out i k).isFinite = false →
      postProcessF st pp inBuffer out frames timeOffset i k = CFloat.nan) := by
  have hv : postProcessF st pp inBuffer out frames timeOffset i k =
      out i k * pp.dryWet
        + inBuffer (if st.audioInCount = 1 then 0 else i) k * (1 - pp.dryWet) := by
    rw [postProcessF_apply]
    unfold postValueF balanceMixF dryWetMixF
    rw [if_pos ⟨hi, hk⟩, hvol, hbl, hbr, hdw, hd, CFloat.ne_self_one, CFloat.ne_self_neg_one]
    simp only [Bool.and_false, Bool.or_self, Bool.false_eq_true, if_false, Bool.and_self,
      if_true]
  refine ⟨hv, fun h0 hf hb => ?_, fun h0 hf => ?_⟩
  · rw [hv, h0, CFloat.mul_zero_finite hf, CFloat.one_sub_zero, CFloat.mul_one_exact hb,
      CFloat.zero_add_exact hb]
  · rw [hv, h0, CFloat.mul_zero_nonfinite hf, CFloat.nan_add]

/-- C13 fails on the code when the plugin output is not finite. The dry/wet example (one input,
one output, dry/wet capability, balance and volume at identity) with dry/wet value 0, an input
signal of 7 and a foreign module that writes `+inf`: the sub-call succeeds, and the dry/wet
line computes `inf * 0 + 7 * (1 - 0)`, which is NaN, not the input sample 7. -/
theorem processSingleF_dryWet_counterexample :
    dryWetExampleState.fHints.canDryWet = true ∧
    ({ dryWet := 0 } : PostProcF).dryWet.ne 1 = true ∧
    (processSingleF {} {} dryWetExampleState { dryWet := 0 } (some fun _ _ => 7)
      (some fun _ _ => 0) (fun _ _ => CFloat.inf false) 4 0).2.2 = true ∧
    (∃ out' : BuffersF,
      (processSingleF {} {} dryWetExampleState { dryWet := 0 } (some fun _ _ => 7)
        (some fun _ _ => 0) (fun _ _ => CFloat.inf false) 4 0).2.1 = some out' ∧
      out' 0 1 = CFloat.nan) ∧
    CFloat.eq CFloat.nan 7 = false := by
  obtain ⟨s, hs, he⟩ := processSingleF_success {} {} dryWetExampleState { dryWet := 0 }
    (fun _ _ => 7) (fun _ _ => 0) (fun _ _ => CFloat.inf false) 4 0 (by decide) rfl
    (Or.inr rfl)
  have hcnt : s.audioOutCount = dryWetExampleState.audioOutCount :=
    congrArg Fixed.audioOutCount hs
  rw [he]
  refine ⟨rfl, by decide!, rfl, ⟨_, rfl, ?_⟩, rfl⟩
  exact (postProcessF_dryWet_block s { dryWet := 0 } (fun _ _ => 7) _ 4 0
    ((congrArg Fixed.canDryWet hs).trans rfl) (by decide!) rfl rfl rfl 0 1
    (by rw [hcnt]; decide) (by decide)).2.2 rfl rfl

/-- C13, amended. In a successful `processSingleF` (non-null buffers, `frames > 0`, lock taken)
with the dry/wet capability set, a dry/wet value `d` that compares unequal to 1, and balance
and volume at their identity values, every sample `k` of the window of every output channel
`i` is the `float` value `out * d + in[c] * (1 - d)`, where `out` is the plugin output and `c`
is 0 when the adapter has exactly one audio input and `i` otherwise. With `d = 0` this is the
input sample where the plugin output sample is finite, and NaN where it is infinite or
NaN. -/
theorem processSingleF_dryWet (fx : AEffect) (eng : Engine) (st : Plugin) (pp : PostProcF)
    (inBuffer outBuffer window : BuffersF) (frames timeOffset : Nat)
    (hframes : frames > 0) (hE : st.hasEffect = true)
    (hlock : eng.isOffline = true ∨ st.singleMutexLocked = false)
    (hdw : st.fHints.canDryWet = true) (hd : pp.dryWet.ne 1 = true)
    (hbl : pp.balanceLeft = -1) (hbr : pp.balanceRight = 1) (hvol : pp.volume = 1)
    (i k : Nat) (hi : i < st.audioOutCount)
    (hk : timeOffset ≤ k ∧ k < timeOffset + frames) :
    (processSingleF fx eng st pp (some inBuffer) (some outBuffer) window frames
      timeOffset).2.2 = true ∧
    ∃ out' : BuffersF,
      (processSingleF fx eng st pp (some inBuffer) (some outBuffer) window frames
        timeOffset).2.1 = some out' ∧
      out' i k =
        rawOutputF st outBuffer window frames timeOffset i k * pp.dryWet
          + inBuffer (if st.audioInCount = 1 then 0 else i) k * (1 - pp.dryWet) ∧
      (pp.dryWet = 0 →
        (rawOutputF st outBuffer window frames timeOffset i k).isFinite = true →
        (inBuffer (if st.audioInCount = 1 then 0 else i) k).isBinary32 →
        out' i k = inBuffer (if st.audioInCount = 1 then 0 else i) k) ∧
      (pp.dryWet = 0 →
        (rawOutputF st outBuffer window frames timeOffset i k).isFinite = false →
        out' i k = CFloat.nan) := by
  obtain ⟨s, hs, he⟩ := processSingleF_success fx eng st pp inBuffer outBuffer window frames
    timeOffset (by omega) hE hlock
  have hin : s.audioInCount = st.audioInCount := congrArg Fixed.audioInCount hs
  have hcnt : s.audioOutCount = st.audioOutCount := congrArg Fixed.audioOutCount hs
  have hb := postProcessF_dryWet_block s pp inBuffer
    (rawOutputF st outBuffer window frames timeOffset) frames timeOffset
    ((congrArg Fixed.canDryWet hs).trans hdw) hd hbl hbr hvol i k
    (by rw [hcnt]; exact hi) hk
  rw [hin] at hb
  rw [he]
  exact ⟨rfl, _, rfl, hb⟩

/-- C13, witness of `processSingleF_dryWet`: a module writing 3, an input of 7 and dry/wet 0:
the output is the input, 7. -/
theorem processSingleF_dryWet_witness :
    ((4 : Nat) > 0 ∧ dryWetExampleState.hasEffect = true ∧
      dryWetExampleState.fHints.canDryWet = true ∧
      ({ dryWet := 0 } : PostProcF).dryWet.ne 1 = true ∧
      0 < dryWetExampleState.audioOutCount) ∧
    ∃ out' : BuffersF,
      (processSingleF {} {} dryWetExampleState { dryWet := 0 } (some fun _ _ => 7)
        (some fun _ _ => 0) (fun _ _ => 3) 4 0).2.1 = some out' ∧
      out' 0 1 = 7 := by
  obtain ⟨_, out', h1, _, h2, _⟩ := processSingleF_dryWet {} {} dryWetExampleState
    { dryWet := 0 } (fun _ _ => 7) (fun _ _ => 0) (fun _ _ => 3) 4 0 (by decide) rfl
    (Or.inr rfl) rfl (by decide!) rfl rfl rfl 0 1 (by decide) (by decide)
  exact ⟨⟨by decide, rfl, rfl, by decide!, by decide⟩, out', h1,
    h2 rfl rfl (show round32 ((7 : Nat) : ℚ) = CFloat.fin ((7 : Nat) : ℚ) by decide!)⟩

/-! ### The balance in `float` arithmetic -/

theorem CFloat.ne_neg_one_one : (-1 : CFloat).ne 1 = true := by decide!

theorem CFloat.zero_add_zero : (0 : CFloat) + 0 = 0 := by decide!

/-- With the balance capability set and dry/wet and volume at their identity values, for
every stereo pair `(i, i + 1)` of output channels (`i` even) and every sample `k` of the
window, with `L` and `R` the plugin outputs of the pair and, in `float` arithmetic,
`l = (balanceLeft + 1) / 2` and `r = (balanceRight + 1) / 2`: unless the balance pair compares
equal to `(-1, +1)`, the post-processing block of `processSingle` leaves
`L * (1 - l) + R * (1 - r)` in the left and `R * r + L * l` in the right channel; at the
centred pair `(-1, +1)` the stage is skipped and `(L, R)` is unchanged; at the full-left pair
`(-1, -1)` the left output is the `float` sum `L + R`, and the right output is 0 when `L` and
`R` are finite and NaN when one of them is infinite or NaN. -/
theorem postProcessF_balance_block (st : Plugin) (pp : PostProcF) (inBuffer out : BuffersF)
    (frames timeOffset : Nat)
    (hbal : st.fHints.canBalance = true) (hdw : pp.dryWet = 1) (hvol : pp.volume = 1)
    (i k : Nat) (hi : i % 2 = 0) (hi1 : i + 1 < st.audioOutCount)
    (hk : timeOffset ≤ k ∧ k < timeOffset + frames) :
    ((pp.balanceLeft.ne (-1) || pp.balanceRight.ne 1) = true →
      postProcessF st pp inBuffer out frames timeOffset i k =
        out i k * (1 - (pp.balanceLeft + 1) / 2)
          + out (i + 1) k * (1 - (pp.balanceRight + 1) / 2) ∧
      postProcessF st pp inBuffer out frames timeOffset (i + 1) k =
        out (i + 1) k * ((pp.balanceRight + 1) / 2)
          + out i k * ((pp.balanceLeft + 1) / 2)) ∧
    (pp.balanceLeft = -1 → pp.balanceRight = 1 →
      postProcessF st pp inBuffer out frames timeOffset i k = out i k ∧
      postProcessF st pp inBuffer out frames timeOffset (i + 1) k = out (i + 1) k) ∧
    (pp.balanceLeft = -1 → pp.balanceRight = -1 →
      ((out i k).isBinary32 → (out (i + 1) k).isBinary32 →
        postProcessF st pp inBuffer out frames timeOffset i k = out i k + out (i + 1) k) ∧
      ((out i k).isFinite = true → (out (i + 1) k).isFinite = true →
        postProcessF st pp inBuffer out frames timeOffset (i + 1) k = 0) ∧
      ((out i k).isFinite = false ∨ (out (i + 1) k).isFinite = false →
        postProcessF st pp inBuffer out frames timeOffset (i + 1) k = CFloat.nan)) := by
  have hodd : ¬ (i + 1) % 2 = 0 := by omega
  have e0 : postProcessF st pp inBuffer out frames timeOffset i k =
      if (pp.balanceLeft.ne (-1) || pp.balanceRight.ne 1) = true then
        out i k * (1 - (pp.balanceLeft + 1) / 2)
          + out (i + 1) k * (1 - (pp.balanceRight + 1) / 2)
      else out i k := by
    rw [postProcessF_apply]
    unfold postValueF balanceMixF dryWetMixF
    rw [if_pos ⟨by omega, hk⟩, hvol, hdw, hbal, CFloat.ne_self_one]
    simp only [Bool.and_false, Bool.false_eq_true, if_false, Bool.true_and, if_pos hi]
  have e1 : postProcessF st pp inBuffer out frames timeOffset (i + 1) k =
      if (pp.balanceLeft.ne (-1) || pp.balanceRight.ne 1) = true then
        out (i + 1) k * ((pp.balanceRight + 1) / 2) + out i k * ((pp.balanceLeft + 1) / 2)
      else out (i + 1) k := by
    rw [postProcessF_apply]
    unfold postValueF balanceMixF dryWetMixF
    rw [if_pos ⟨hi1, hk⟩, hvol, hdw, hbal, CFloat.ne_self_one]
    simp only [Bool.and_false, Bool.false_eq_true, if_false, Bool.true_and, if_neg hodd,
      Nat.add_sub_cancel]
  refine ⟨fun h => ?_, fun hl hr => ?_, fun hl hr => ⟨fun bL bR => ?_, fun fL fR => ?_,
    fun hnf => ?_⟩⟩
  · rw [e0, e1, if_pos h, if_pos h]
    exact ⟨rfl, rfl⟩
  · have hno : ¬ (pp.balanceLeft.ne (-1) || pp.balanceRight.ne 1) = true := by
      rw [hl, hr, CFloat.ne_self_neg_one, CFloat.ne_self_one]
      simp
    rw [e0, e1, if_neg hno, if_neg hno]
    exact ⟨rfl, rfl⟩
  · have hyes : (pp.balanceLeft.ne (-1) || pp.balanceRight.ne 1) = true := by
      rw [hl, hr, CFloat.ne_self_neg_one, CFloat.ne_neg_one_one]
      rfl
    rw [e0, if_pos hyes, hl, hr, CFloat.range_left, CFloat.one_sub_zero,
      CFloat.mul_one_exact bL, CFloat.mul_one_exact bR]
  · have hyes : (pp.balanceLeft.ne (-1) || pp.balanceRight.ne 1) = true := by
      rw [hl, hr, CFloat.ne_self_neg_one, CFloat.ne_neg_one_one]
      rfl
    rw [e1, if_pos hyes, hl, hr, CFloat.range_left, CFloat.mul_zero_finite fL,
      CFloat.mul_zero_finite fR, CFloat.zero_add_zero]
  · have hyes : (pp.balanceLeft.ne (-1) || pp.balanceRight.ne 1) = true := by
      rw [hl, hr, CFloat.ne_self_neg_one, CFloat.ne_neg_one_one]
      rfl
    rw [e1, if_pos hyes, hl, hr, CFloat.range_left]
    rcases hnf with h | h
    · rw [CFloat.mul_zero_nonfinite h, CFloat.add_nan]
    · rw [CFloat.mul_zero_nonfinite h, CFloat.nan_add]

/-- C7 fails on the code when the plugin output is not finite. The balance example (two
outputs, balance capability, dry/wet and volume at identity) at the full-left pair `(-1, -1)`
with a foreign module that writes `L = 1` and `R = +inf`: the sub-call succeeds, and the right
output is `inf * 0 + 1 * 0`, which is NaN, not 0. -/
theorem processSingleF_balance_counterexample :
    balanceExampleState.fHints.canBalance = true ∧
    (processSingleF {} {} balanceExampleState { balanceLeft := -1, balanceRight := -1 }
      (some fun _ _ => 0) (some fun _ _ => 0)
      (fun i _ => if i = 0 then 1 else CFloat.inf false) 4 0).2.2 = true ∧
    (∃ out' : BuffersF,
      (processSingleF {} {} balanceExampleState { balanceLeft := -1, balanceRight := -1 }
        (some fun _ _ => 0) (some fun _ _ => 0)
        (fun i _ => if i = 0 then 1 else CFloat.inf false) 4 0).2.1 = some out' ∧
      out' 1 1 = CFloat.nan) ∧
    CFloat.eq CFloat.nan 0 = false := by
  obtain ⟨s, hs, he⟩ := processSingleF_success {} {} balanceExampleState
    { balanceLeft := -1, balanceRight := -1 } (fun _ _ => 0) (fun _ _ => 0)
    (fun i _ => if i = 0 then 1 else CFloat.inf false) 4 0 (by decide) rfl (Or.inr rfl)
  have hcnt : s.audioOutCount = balanceExampleState.audioOutCount :=
    congrArg Fixed.audioOutCount hs
  rw [he]
  refine ⟨rfl, rfl, ⟨_, rfl, ?_⟩, rfl⟩
  exact ((postProcessF_balance_block s { balanceLeft := -1, balanceRight := -1 }
    (fun _ _ => 0) _ 4 0 ((congrArg Fixed.canBalance hs).trans rfl) rfl rfl 0 1 rfl
    (by rw [hcnt]; decide) (by decide)).2.2 rfl rfl).2.2 (Or.inr rfl)

/-- C7, amended. In a successful `processSingleF` (non-null buffers, `frames > 0`, lock taken)
with the balance capability set and dry/wet and volume at their identity values, for every
stereo pair `(i, i + 1)` of output channels (`i` even) and every sample `k` of the window,
with `L` and `R` the plugin outputs of the pair and, in `float` arithmetic,
`l = (balanceLeft + 1) / 2` and `r = (balanceRight + 1) / 2`: unless the balance pair compares
equal to `(-1, +1)`, the left output is `L * (1 - l) + R * (1 - r)` and the right output is
`R * r + L * l`; at the centred pair `(-1, +1)` the stage is skipped and `(L, R)` is
unchanged; at the full-left pair `(-1, -1)` the left output is the `float` sum `L + R`, and
the right output is 0 when `L` and `R` are finite and NaN when one of them is infinite or
NaN. -/
theorem processSingleF_balance (fx : AEffect) (eng : Engine) (st : Plugin) (pp : PostProcF)
    (inBuffer outBuffer window : BuffersF) (frames timeOffset : Nat)
    (hframes : frames > 0) (hE : st.hasEffect = true)
    (hlock : eng.isOffline = true ∨ st.singleMutexLocked = false)
    (hbal : st.fHints.canBalance = true) (hdw : pp.dryWet = 1) (hvol : pp.volume = 1)
    (i k : Nat) (hi : i % 2 = 0) (hi1 : i + 1 < st.audioOutCount)
    (hk : timeOffset ≤ k ∧ k < timeOffset + frames) :
    (processSingleF fx eng st pp (some inBuffer) (some outBuffer) window frames
      timeOffset).2.2 = true ∧
    ∃ out' : BuffersF,
      (processSingleF fx eng st pp (some inBuffer) (some outBuffer) window frames
        timeOffset).2.1 = some out' ∧
      ((pp.balanceLeft.ne (-1) || pp.balanceRight.ne 1) = true →
        out' i k =
          rawOutputF st outBuffer window frames timeOffset i k
              * (1 - (pp.balanceLeft + 1) / 2)
            + rawOutputF st outBuffer window frames timeOffset (i + 1) k
              * (1 - (pp.balanceRight + 1) / 2) ∧
        out' (i + 1) k =
          rawOutputF st outBuffer window frames timeOffset (i + 1) k
              * ((pp.balanceRight + 1) / 2)
            + rawOutputF st outBuffer window frames timeOffset i k
              * ((pp.balanceLeft + 1) / 2)) ∧
      (pp.balanceLeft = -1 → pp.balanceRight = 1 →
        out' i k = rawOutputF st outBuffer window frames timeOffset i k ∧
        out' (i + 1) k = rawOutputF st outBuffer window frames timeOffset (i + 1) k) ∧
      (pp.balanceLeft = -1 → pp.balanceRight = -1 →
        ((rawOutputF st outBuffer window frames timeOffset i k).isBinary32 →
          (rawOutputF st outBuffer window frames timeOffset (i + 1) k).isBinary32 →
          out' i k = rawOutputF st outBuffer window frames timeOffset i k
            + rawOutputF st outBuffer window frames timeOffset (i + 1) k) ∧
        ((rawOutputF st outBuffer window frames timeOffset i k).isFinite = true →
          (rawOutputF st outBuffer window frames timeOffset (i + 1) k).isFinite = true →
          out' (i + 1) k = 0) ∧
        ((rawOutputF st outBuffer window frames timeOffset i k).isFinite = false ∨
            (rawOutputF st outBuffer window frames timeOffset (i + 1) k).isFinite = false →
          out' (i + 1) k = CFloat.nan)) := by
  obtain ⟨s, hs, he⟩ := processSingleF_success fx eng st pp inBuffer outBuffer window frames
    timeOffset (by omega) hE hlock
  have hcnt : s.audioOutCount = st.audioOutCount := congrArg Fixed.audioOutCount hs
  have hb := postProcessF_balance_block s pp inBuffer
    (rawOutputF st outBuffer window frames timeOffset) frames timeOffset
    ((congrArg Fixed.canBalance hs).trans hbal) hdw hvol i k hi (by rw [hcnt]; exact hi1) hk
  rw [he]
  exact ⟨rfl, _, rfl, hb⟩

/-- C7, witness of `processSingleF_balance`: the balance example at the full-left pair with a
module writing `L = 3` and `R = 5`: the left output is the `float` sum of 3 and 5, the right
output 0. -/
theorem processSingleF_balance_witness :
    ((4 : Nat) > 0 ∧ balanceExampleState.hasEffect = true ∧
      balanceExampleState.fHints.canBalance = true ∧
      0 + 1 < balanceExampleState.audioOutCount) ∧
    ∃ out' : BuffersF,
      (processSingleF {} {} balanceExampleState { balanceLeft := -1, balanceRight := -1 }
        (some fun _ _ => 0) (some fun _ _ => 0) (fun i _ => if i = 0 then 3 else 5) 4 0).2.1
        = some out' ∧
      out' 0 1 = (3 : CFloat) + 5 ∧ (3 : CFloat) + 5 = 8 ∧ out' 1 1 = 0 := by
  obtain ⟨_, out', h1, _, _, h2⟩ := processSingleF_balance {} {} balanceExampleState
    { balanceLeft := -1, balanceRight := -1 } (fun _ _ => 0) (fun _ _ => 0)
    (fun i _ => if i = 0 then 3 else 5) 4 0 (by decide) rfl (Or.inr rfl) rfl rfl rfl 0 1 rfl
    (by decide) (by decide)
  obtain ⟨a1, a2, _⟩ := h2 rfl rfl
  exact ⟨⟨by decide, rfl, rfl, by decide⟩, out', h1,
    a1 (show round32 ((3 : Nat) : ℚ) = CFloat.fin ((3 : Nat) : ℚ) by decide!)
      (show round32 ((5 : Nat) : ℚ) = CFloat.fin ((5 : Nat) : ℚ) by decide!),
    by decide!, a2 rfl rfl⟩

/-! ### The identity values in `float` arithmetic -/

theorem postProcessWithF_apply (st : Plugin) (pp : PostProcF) (inB P : BuffersF)
    (frames off : Nat) (dV dD dB : Bool) (i k : Nat) :
    postProcessWithF st pp inB P frames off dV dD dB i k =
      postValueF st pp inB P frames off dV dD dB i k := by
  unfold postProcessWithF
  rw [(forRange_postProcChannelF st pp inB P frames off dV dD dB st.audioOutCount
    (le_refl _)).1 i k]
  split
  · rfl
  · rename_i h
    unfold postValueF
    rw [if_neg (fun hh => h hh.1)]

/-- At the identity values the post-processing block skips every stage. -/
theorem postProcessF_identity (st : Plugin) (pp : PostProcF) (inB P : BuffersF)
    (frames off : Nat) (hd : pp.dryWet = 1) (hl : pp.balanceLeft = -1)
    (hr : pp.balanceRight = 1) (hv : pp.volume = 1) :
    postProcessF st pp inB P frames off = P := by
  funext i k
  rw [postProcessF_apply, hd, hl, hr, hv, CFloat.ne_self_one, CFloat.ne_self_neg_one]
  unfold postValueF balanceMixF dryWetMixF
  simp

theorem dryWetMixF_identity (st : Plugin) (pp : PostProcF) (inB P : BuffersF) (dD : Bool)
    (hd : pp.dryWet = 1) (i k : Nat) (hP : (P i k).isBinary32)
    (hin : (inB (if st.audioInCount = 1 then 0 else i) k).isFinite = true) :
    dryWetMixF st pp inB P dD i k = P i k := by
  unfold dryWetMixF
  split
  · rw [hd, CFloat.one_sub_one, CFloat.mul_one_exact hP, CFloat.mul_zero_finite hin,
      CFloat.add_zero_exact hP]
  · rfl

theorem balanceMixF_identity (st : Plugin) (pp : PostProcF) (inB P : BuffersF) (dD dB : Bool)
    (hd : pp.dryWet = 1) (hl : pp.balanceLeft = -1) (hr : pp.balanceRight = 1)
    (hP : ∀ i k, (P i k).isFinite = true ∧ (P i k).isBinary32)
    (hin : ∀ c k, (inB c k).isFinite = true) (i k : Nat) :
    balanceMixF st pp inB P dD dB i k = P i k := by
  have hdw : ∀ j, dryWetMixF st pp inB P dD j k = P j k := fun j =>
    dryWetMixF_identity st pp inB P dD hd j k (hP j k).2 (hin _ k)
  unfold balanceMixF
  rw [hdw, hdw, hl, hr, CFloat.range_left, CFloat.range_right, CFloat.one_sub_zero,
    CFloat.one_sub_one]
  split
  · split
    · rw [CFloat.mul_one_exact (hP i k).2, CFloat.mul_zero_finite (hP (i + 1) k).1,
        CFloat.add_zero_exact (hP i k).2]
    · rw [CFloat.mul_one_exact (hP i k).2, CFloat.mul_zero_finite (hP (i - 1) k).1,
        CFloat.add_zero_exact (hP i k).2]
  · rfl

theorem postValueF_identity (st : Plugin) (pp : PostProcF) (inB P : BuffersF)
    (frames off : Nat) (dV dD dB : Bool)
    (hd : pp.dryWet = 1) (hl : pp.balanceLeft = -1) (hr : pp.balanceRight = 1)
    (hv : pp.volume = 1)
    (hP : ∀ i k, (P i k).isFinite = true ∧ (P i k).isBinary32)
    (hin : ∀ c k, (inB c k).isFinite = true) (i k : Nat) :
    postValueF st pp inB P frames off dV dD dB i k = P i k := by
  unfold postValueF
  rw [balanceMixF_identity st pp inB P dD dB hd hl hr hP hin, hv,
    CFloat.mul_one_exact (hP i k).2]
  simp

/-- C29 fails on the code when a signal is not finite. The identity example (two inputs, two
outputs, every capability, dry/wet 1, balance `(-1, +1)`, volume 1) with an input signal of
`+inf` and a foreign module that writes 3: the sub-call skips every stage and returns the
plugin output 3, while the three formulas applied unconditionally to the plugin output give
NaN, the dry/wet line computing `3 * 1 + inf * (1 - 1)`. -/
theorem processSingleF_identity_counterexample :
    (∃ out' : BuffersF,
      (processSingleF {} {} identityExampleState {} (some fun _ _ => CFloat.inf false)
        (some fun _ _ => 0) (fun _ _ => 3) 4 0).2.1 = some out' ∧
      out' 0 1 = 3) ∧
    postProcessWithF identityExampleState {} (fun _ _ => CFloat.inf false)
      (rawOutputF identityExampleState (fun _ _ => 0) (fun _ _ => 3) 4 0) 4 0
      true true true 0 1 = CFloat.nan ∧
    postProcessWithF identityExampleState {} (fun _ _ => CFloat.inf false)
      (rawOutputF identityExampleState (fun _ _ => 0) (fun _ _ => 3) 4 0) 4 0
      false true false 0 1 = CFloat.nan ∧
    CFloat.eq CFloat.nan 3 = false := by
  obtain ⟨s, hs, he⟩ := processSingleF_success {} {} identityExampleState {}
    (fun _ _ => CFloat.inf false) (fun _ _ => 0) (fun _ _ => 3) 4 0 (by decide) rfl
    (Or.inr rfl)
  rw [he]
  refine ⟨⟨_, rfl, ?_⟩, ?_, ?_, rfl⟩
  · rw [postProcessF_identity _ _ _ _ _ _ rfl rfl rfl rfl]
    rfl
  · rw [postProcessWithF_apply]
    decide!
  · rw [postProcessWithF_apply]
    decide!

/-- C29, amended. With the dry/wet value at 1, the balance pair at `(-1, +1)` and the volume
at 1 a successful `processSingleF` skips the three stages of the post-processing and returns
the plugin output, whatever the signals. Applied unconditionally to the plugin output in
`float` arithmetic (`postProcessWithF`, the stages chosen by flags), the volume formula alone
returns it unchanged, and the three formulas in every combination return it unchanged when
every sample of the plugin output and of the input is finite; so for finite signals the
sub-call returns what applying all three formulas unconditionally gives. -/
theorem processSingleF_identity_skip (fx : AEffect) (eng : Engine) (st : Plugin)
    (pp : PostProcF) (inBuffer outBuffer window : BuffersF) (frames timeOffset : Nat)
    (hframes : frames > 0) (hE : st.hasEffect = true)
    (hlock : eng.isOffline = true ∨ st.singleMutexLocked = false)
    (hd : pp.dryWet = 1) (hl : pp.balanceLeft = -1) (hr : pp.balanceRight = 1)
    (hv : pp.volume = 1)
    (hraw : ∀ i k, (rawOutputF st outBuffer window frames timeOffset i k).isBinary32) :
    (processSingleF fx eng st pp (some inBuffer) (some outBuffer) window frames
      timeOffset).2.1 = some (rawOutputF st outBuffer window frames timeOffset) ∧
    postProcessWithF st pp inBuffer (rawOutputF st outBuffer window frames timeOffset) frames
      timeOffset true false false = rawOutputF st outBuffer window frames timeOffset ∧
    ((∀ i k, (rawOutputF st outBuffer window frames timeOffset i k).isFinite = true) →
      (∀ c k, (inBuffer c k).isFinite = true) →
      (∀ dV dD dB : Bool,
        postProcessWithF st pp inBuffer (rawOutputF st outBuffer window frames timeOffset)
          frames timeOffset dV dD dB = rawOutputF st outBuffer window frames timeOffset) ∧
      (processSingleF fx eng st pp (some inBuffer) (some outBuffer) window frames
        timeOffset).2.1 =
        some (postProcessWithF st pp inBuffer
          (rawOutputF st outBuffer window frames timeOffset) frames timeOffset
          true true true)) := by
  obtain ⟨s, _, he⟩ := processSingleF_success fx eng st pp inBuffer outBuffer window frames
    timeOffset (by omega) hE hlock
  have h1 : (processSingleF fx eng st pp (some inBuffer) (some outBuffer) window frames
      timeOffset).2.1 = some (rawOutputF st outBuffer window frames timeOffset) := by
    rw [he]
    show some (postProcessF s pp inBuffer _ frames timeOffset) = _
    rw [postProcessF_identity s pp inBuffer _ frames timeOffset hd hl hr hv]
  refine ⟨h1, ?_, fun hf hin => ?_⟩
  · funext i k
    rw [postProcessWithF_apply]
    unfold postValueF balanceMixF dryWetMixF
    simp only [Bool.false_eq_true, if_false, if_true, hv, CFloat.mul_one_exact (hraw i k)]
    split <;> rfl
  · have hall : ∀ dV dD dB : Bool,
        postProcessWithF st pp inBuffer (rawOutputF st outBuffer window frames timeOffset)
          frames timeOffset dV dD dB = rawOutputF st outBuffer window frames timeOffset := by
      intro dV dD dB
      funext i k
      rw [postProcessWithF_apply]
      exact postValueF_identity st pp inBuffer _ frames timeOffset dV dD dB hd hl hr hv
        (fun i k => ⟨hf i k, hraw i k⟩) hin i k
    exact ⟨hall, by rw [h1, hall true true true]⟩

/-- C29, witness of `processSingleF_identity_skip`: the identity example with an input signal
of 7 and a module writing 3 over 4 frames. -/
theorem processSingleF_identity_skip_witness :
    ((4 : Nat) > 0 ∧ identityExampleState.hasEffect = true ∧
      ({} : PostProcF).dryWet = 1 ∧ ({} : PostProcF).balanceLeft = -1 ∧
      ({} : PostProcF).balanceRight = 1 ∧ ({} : PostProcF).volume = 1) ∧
    (processSingleF {} {} identityExampleState {} (some fun _ _ => 7) (some fun _ _ => 3)
      (fun _ _ => 3) 4 0).2.1 =
      some (postProcessWithF identityExampleState {} (fun _ _ => 7)
        (rawOutputF identityExampleState (fun _ _ => 3) (fun _ _ => 3) 4 0) 4 0
        true true true) := by
  have hr : ∀ i k, rawOutputF identityExampleState (fun _ _ => 3) (fun _ _ => 3) 4 0 i k
      = 3 := by
    intro i k
    unfold rawOutputF writeWindowF
    split <;> rfl
  exact ⟨⟨by decide, rfl, rfl, rfl, rfl, rfl⟩,
    ((processSingleF_identity_skip {} {} identityExampleState {} (fun _ _ => 7)
      (fun _ _ => 3) (fun _ _ => 3) 4 0 (by decide) rfl (Or.inr rfl) rfl rfl rfl rfl
      (fun i k => by
        rw [hr]
        show round32 ((3 : Nat) : ℚ) = CFloat.fin ((3 : Nat) : ℚ)
        decide!)).2.2
      (fun i k => by rw [hr]; rfl) (fun _ _ => rfl)).2⟩

/-! ### Parameter ranges in `float` arithmetic -/

end Carla
